import Mathlib

/-!
# Hades: relationship walker and schema synchronizer

A shallow embedding of `walk_type.go`, `automigrate.go`, `save_rows.go`,
`preload.go` and `search.go`.

* `reflect.Type` values are represented by `GoType`; `reflect.Kind` by `Kind`.
* The model metadata (`ModelStruct`, `StructField`, `Relationship`) and the
  registry (`ScopeMap`) are declared outside the embedded files; they are
  represented by plain structures carrying the members the embedded code reads.
* A `*ModelStruct` pointer is identified with the model type it describes (the
  registry holds one `ModelStruct` per model type), so `VisitMap` is keyed by
  model types.
* Go maps are association lists with at most one entry per key.
* A function that writes through a pointer or to a captured variable takes the
  old state and returns the new one.
-/

namespace Hades

/-! ## Reflection data -/

/-- The members of `reflect.Kind`. -/
inductive Kind
  | Invalid | Bool | Int | Int8 | Int16 | Int32 | Int64
  | Uint | Uint8 | Uint16 | Uint32 | Uint64 | Uintptr
  | Float32 | Float64 | Complex64 | Complex128
  | Array | Chan | Func | Interface | Map | Ptr | Slice | String | Struct
  | UnsafePointer
  deriving DecidableEq, Repr

/-- A `reflect.Type`: a named (or predeclared) type of some kind, a pointer
type or a slice type. `pkg` is the name of the package a named type is declared
in, empty for a predeclared type. -/
inductive GoType
  | named (pkg : String) (name : String) (kind : Kind)
  | ptr (elem : GoType)
  | slice (elem : GoType)
  deriving DecidableEq, Repr

/-- The method `reflect.Type.Kind`. -/
def GoType.Kind : GoType → Hades.Kind
  | .named _ _ k => k
  | .ptr _ => Hades.Kind.Ptr
  | .slice _ => Hades.Kind.Slice

/-- The method `reflect.Type.Elem` (on the types that have an element type). -/
def GoType.Elem : GoType → GoType
  | .named p n k => .named p n k
  | .ptr t => t
  | .slice t => t

/-- The method `reflect.Type.Name`: the empty string for unnamed composite types. -/
def GoType.Name : GoType → String
  | .named _ n _ => n
  | .ptr _ => ""
  | .slice _ => ""

/-- The type `time.Time`, as returned by `reflect.TypeOf(time.Time{})`. -/
def timeType : GoType := .named "time" "Time" Hades.Kind.Struct

/-! ## Model metadata -/

/-- Modelled from the spec: one foreign-key pair of a join table, as returned by
`SourceForeignKeys` and `DestinationForeignKeys`. -/
structure JoinTableForeignKey where
  DBName : String
  AssociationDBName : String
  deriving DecidableEq, Repr

/-- Modelled from the spec: the value stored in `Relationship.JoinTableHandler`,
with the join-table name and the two foreign-key pairs of a many-to-many
relationship. `isDefault` records whether its dynamic type is
`*JoinTableHandler`. -/
structure JoinTableHandler where
  isDefault : Bool
  TableName : String
  SourceForeignKeys : List JoinTableForeignKey
  DestinationForeignKeys : List JoinTableForeignKey
  deriving DecidableEq, Repr

/-- Modelled from the spec: the relationship descriptor of a field, with its
kind and its local and remote foreign-key field names. -/
structure Relationship where
  Kind : String
  ForeignFieldNames : List String
  ForeignDBNames : List String
  AssociationForeignFieldNames : List String
  AssociationForeignDBNames : List String
  JoinTableHandler : Option JoinTableHandler
  deriving DecidableEq, Repr

/-- Modelled from the spec: a field descriptor, with the members the embedded
code reads. `Typ` is `sf.Struct.Type`. -/
inductive StructField
  | mk (Name : String) (DBName : String) (IsPrimaryKey : Bool) (IsNormal : Bool)
      (IsSquashed : Bool) (Typ : GoType) (Relationship : Option Relationship)
      (SquashedFields : List StructField)

namespace StructField

def Name : StructField → String
  | mk n _ _ _ _ _ _ _ => n

def DBName : StructField → String
  | mk _ d _ _ _ _ _ _ => d

def IsPrimaryKey : StructField → Bool
  | mk _ _ p _ _ _ _ _ => p

def IsNormal : StructField → Bool
  | mk _ _ _ n _ _ _ _ => n

def IsSquashed : StructField → Bool
  | mk _ _ _ _ s _ _ _ => s

def Typ : StructField → GoType
  | mk _ _ _ _ _ t _ _ => t

def Relationship : StructField → Option Hades.Relationship
  | mk _ _ _ _ _ _ r _ => r

def SquashedFields : StructField → List StructField
  | mk _ _ _ _ _ _ _ fs => fs

end StructField

/-- Modelled from the spec: the metadata of one model, with its type, its table
name and its ordered field descriptors. -/
structure ModelStruct where
  ModelType : GoType
  TableName : String
  StructFields : List StructField

/-- Modelled from the spec: the registry of models. Each entry pairs the pointer
type `*Model` under which a model is registered with its metadata. -/
structure ScopeMap where
  scopes : List (GoType × ModelStruct)

/-- Modelled from the spec: the lookup `ScopeMap.ByType`, `none` being the nil
scope of a type that is not registered. -/
def ScopeMap.ByType (sm : ScopeMap) (t : GoType) : Option ModelStruct :=
  (sm.scopes.find? (fun p => decide (p.1 = t))).map Prod.snd

/-- Modelled from the spec: the lookup `ScopeMap.ByDBName`, `none` being the nil
scope of a table name no model is registered under. -/
def ScopeMap.ByDBName (sm : ScopeMap) (table : String) : Option ModelStruct :=
  (sm.scopes.find? (fun p => decide (p.2.TableName = table))).map Prod.snd

/-- Modelled from the spec: the models held by the map `ScopeMap.byDBName`, in
the order a `range` over it happens to yield them. -/
def ScopeMap.byDBName (sm : ScopeMap) : List ModelStruct :=
  sm.scopes.map Prod.snd

/-- The part of `Context` read by the embedded code, together with the two
package-level helpers `FromDBName` and `EscapeIdentifier`, which are declared
outside the embedded files and are therefore parameters. -/
structure Context where
  ScopeMap : ScopeMap
  FromDBName : String → String
  EscapeIdentifier : String → String

/-! ## `walk_type.go` -/

/-- A value held in an `interface{}` key, a record field or a table cell. An
association field of a record in memory holds a pointer to a record (`ptr`, nil
being `none`) or a slice of such pointers (`ptrs`), records being named by
their address. -/
inductive Value
  | null
  | int (n : Int)
  | text (s : String)
  | bool (b : Bool)
  | ptr (addr : Option Nat)
  | ptrs (addrs : List Nat)
  deriving DecidableEq, Repr

/-- A record, as a list of field names with their values. -/
abbrev Record := List (String × Value)

/-- The type `JoinRec`; a zero `Record` is `none`. -/
structure JoinRec where
  DestinKey : Value
  Record : Option Record

/-- The type `ManyToMany`. `Scope` is the scope of the join table's model, held
as that model's metadata. -/
structure ManyToMany where
  Scope : ModelStruct
  JoinTable : String
  SourceName : String
  SourceAssocName : String
  SourceDBName : String
  SourceAssocDBName : String
  DestinName : String
  DestinAssocName : String
  DestinDBName : String
  DestinAssocDBName : String
  Values : List (Value × List JoinRec)

/-- The errors built by the embedded files, one constructor per message, and the
errors handed back by the storage engine. -/
inductive Error
  /-- Message "Could not find model struct for %s: list it explicitly in Models". -/
  | noModelStruct (JoinTable : String)
  /-- Message "For join table %s, expected 1 source foreign keys but got %d". -/
  | sourceForeignKeys (JoinTable : String) (got : Nat)
  /-- Message "For join table %s, expected 1 destination foreign keys but got %d". -/
  | destinationForeignKeys (JoinTable : String) (got : Nat)
  /-- Message "WalkType expects a *Model type, got %v". -/
  | expectsModelType (atyp : GoType)
  /-- Message "WalkType expects a *Model but %v is not a registered model type". -/
  | notRegistered (atyp : GoType)
  /-- Message "%s.%s does not describe a relationship". -/
  | notRelationship (model : String) (field : String)
  /-- Message "visitField expects a Slice of Ptr, or a Ptr, but got %v". -/
  | expectsSliceOrPtr (typ : GoType)
  /-- Message "%s.%s is not an explicitly listed model (%v)". -/
  | notListedModel (model : String) (field : String) (fieldTyp : GoType)
  /-- Message "Expected sf.Relationship.JoinTableHandler to be the default JoinTableHandler type, but it's %v". -/
  | joinTableHandlerType
  /-- Message "No field '%s' in %s". -/
  | noField (fieldName : String) (atyp : GoType)
  /-- Message "Unsupported model field type: %v (in model %v)". -/
  | unsupportedFieldType (typ : GoType) (model : GoType)
  /-- Message "Model %v has no primary keys". -/
  | noPrimaryKeys (model : GoType)
  /-- An error returned by the storage engine. -/
  | storage (msg : String)
  /-- Message "diff needs a slice". -/
  | diffNeedsSlice
  /-- Message "Have %d primary keys for %s, don't know what to do". -/
  | primaryKeyCount (count : Nat) (modelName : String)
  /-- Message "Internal error: could not find bestDestinPrimaryField". -/
  | noDestinPrimaryField
  /-- Message "Could not find assoc for %s.%s". -/
  | noAssoc (modelName : String) (fieldName : String)
  /-- Message "Could not find scope for assoc for %s.%s". -/
  | noAssocScope (modelName : String) (fieldName : String)
  /-- Message "Expected Source model %s to have 1 primary field, but it has %d". -/
  | sourcePrimaryFields (model : GoType) (count : Nat)
  /-- Message "Expected Destin model %s to have 1 primary field, but it has %d". -/
  | destinPrimaryFields (model : GoType) (count : Nat)
  /-- Message "Preload expects a non-empty list in Fields". -/
  | preloadNoFields
  /-- Message "Preload expects a []*Model or *Model, but it was passed a %v instead". -/
  | preloadExpects (typ : GoType)
  /-- Message "Relation not found: %s.%s". -/
  | relationNotFound (parent : String) (name : String)
  /-- Message "walk expects a []*Model or *Model, but it was passed a %v instead". -/
  | walkExpects (typ : GoType)
  /-- Message "Preload doesn't know how to handle %s relationships". -/
  | unknownRelationship (kind : String)
  /-- The result of `errors.Wrap(err, msg)`. -/
  | wrap (inner : Error) (msg : String)
  deriving DecidableEq, Repr

/-- The function `NewManyToMany`. -/
def NewManyToMany (c : Context) (JoinTable : String)
    (SourceForeignKeys DestinationForeignKeys : List JoinTableForeignKey) :
    Except Error ManyToMany :=
  match c.ScopeMap.ByDBName JoinTable with
  | none => .error (.noModelStruct JoinTable)
  | some scope =>
    match SourceForeignKeys with
    | [sfk] =>
      match DestinationForeignKeys with
      | [dfk] =>
        .ok {
          JoinTable := JoinTable
          Scope := scope
          SourceName := c.FromDBName sfk.DBName
          SourceAssocName := c.FromDBName sfk.AssociationDBName
          SourceDBName := sfk.DBName
          SourceAssocDBName := sfk.AssociationDBName
          DestinName := c.FromDBName dfk.DBName
          DestinAssocName := c.FromDBName dfk.AssociationDBName
          DestinDBName := dfk.DBName
          DestinAssocDBName := dfk.AssociationDBName
          Values := [] }
      | _ => .error (.destinationForeignKeys JoinTable DestinationForeignKeys.length)
    | _ => .error (.sourceForeignKeys JoinTable SourceForeignKeys.length)

/-- A node of the relationship tree. `Typ` is the member `Type`. -/
inductive RecordInfo
  | mk (Name : String) (Typ : GoType) (Children : List RecordInfo)
      (Relationship : Option Relationship) (ManyToMany : Option ManyToMany)
      (ModelStruct : ModelStruct)

namespace RecordInfo

def Name : RecordInfo → String
  | mk n _ _ _ _ _ => n

def Typ : RecordInfo → GoType
  | mk _ t _ _ _ _ => t

def Children : RecordInfo → List RecordInfo
  | mk _ _ cs _ _ _ => cs

def Relationship : RecordInfo → Option Hades.Relationship
  | mk _ _ _ r _ _ => r

def ManyToMany : RecordInfo → Option Hades.ManyToMany
  | mk _ _ _ _ m _ => m

def ModelStruct : RecordInfo → Hades.ModelStruct
  | mk _ _ _ _ _ ms => ms

/-- The assignment `ri.Relationship = r`. -/
def setRelationship : RecordInfo → Hades.Relationship → RecordInfo
  | mk n t cs _ m ms, r => mk n t cs (some r) m ms

/-- The assignment `ri.ManyToMany = mtm`. -/
def setManyToMany : RecordInfo → Hades.ManyToMany → RecordInfo
  | mk n t cs r _ ms, mtm => mk n t cs r (some mtm) ms

/-- The assignment `ri.Children = append(ri.Children, child)`. -/
def appendChild : RecordInfo → RecordInfo → RecordInfo
  | mk n t cs r m ms, child => mk n t (cs ++ [child]) r m ms

end RecordInfo

/-- The type `map[*ModelStruct]bool`, keyed by the model type of the pointee. -/
abbrev VisitMap := List (GoType × Bool)

/-- The index expression `vm[ms]`: `false` for an absent key. -/
def VisitMap.get (vm : VisitMap) (ms : ModelStruct) : Bool :=
  match vm.find? (fun p => decide (p.1 = ms.ModelType)) with
  | some p => p.2
  | none => false

/-- The method `VisitMap.CopyAndMark`: a fresh map with the entries of `vm` and
`ms` marked. -/
def VisitMap.CopyAndMark (vm : VisitMap) (ms : ModelStruct) : VisitMap :=
  (ms.ModelType, true) :: vm.filter (fun p => !decide (p.1 = ms.ModelType))

/-- The assignment `vv[k] = v` on a `VisitMap`. -/
def VisitMap.set (vm : VisitMap) (key : GoType) (value : Bool) : VisitMap :=
  (key, value) :: vm.filter (fun p => !decide (p.1 = key))

/-- The variables of `VisitMap.CopyAndMark`: the receiver `vm` and the local
`vv`. -/
structure CopyAndMarkVars where
  vm : VisitMap
  vv : VisitMap

/-- The body of `VisitMap.CopyAndMark`, statement by statement on its variables:
`vv := make(VisitMap)`, the loop `for k, v := range vm { vv[k] = v }`, and
`vv[ms] = true`. `range` is the order in which the loop meets the entries of
the receiver. The method returns the member `vv` of the result; the member `vm`
is the receiver as the call leaves it. -/
def VisitMap.CopyAndMarkBody (range : VisitMap → VisitMap) (vm : VisitMap) (ms : ModelStruct) :
    CopyAndMarkVars :=
  let s : CopyAndMarkVars := ⟨vm, []⟩
  let s := (range s.vm).foldl (fun s p => { s with vv := s.vv.set p.1 p.2 }) s
  { s with vv := s.vv.set ms.ModelType true }

/-- The type `map[reflect.Type]*RecordInfo`. -/
abbrev RecordInfoMap := List (GoType × RecordInfo)

/-- The assignment `riMap[t] = ri`. -/
def RecordInfoMap.set (m : RecordInfoMap) (t : GoType) (ri : RecordInfo) : RecordInfoMap :=
  (t, ri) :: m.filter (fun p => !decide (p.1 = t))

/-- The index expression `riMap[t]`. -/
def RecordInfoMap.get (m : RecordInfoMap) (t : GoType) : Option RecordInfo :=
  (m.find? (fun p => decide (p.1 = t))).map Prod.snd

/-- What a call of `WalkType` leaves behind: the cache and the returned pair,
`ret = .ok none` being the pair `(nil, nil)`. -/
structure WalkResult where
  riMap : RecordInfoMap
  ret : Except Error (Option RecordInfo)

/-- The variables `visitField` closes over and writes: the cache and the node
under construction. -/
structure VisitState where
  riMap : RecordInfoMap
  ri : RecordInfo

/-- The closure `visitField` of `WalkType`. `walk` is the recursive call of
`WalkType` on the context and cache; `none` means it did not return. -/
def visitField (c : Context)
    (walk : RecordInfoMap → String → GoType → VisitMap → List String → Option WalkResult)
    (ms : ModelStruct) (visited : VisitMap) (st : VisitState) (sf : StructField)
    (explicit : Bool) : Option (VisitState × Option Error) :=
  match sf.Relationship with
  | none =>
    if explicit then
      some (st, some (.notRelationship ms.ModelType.Name sf.Name))
    else
      some (st, none)
  | some rel =>
    let fieldTyp := if sf.Typ.Kind = Kind.Slice then sf.Typ.Elem else sf.Typ
    if fieldTyp.Kind ≠ Kind.Ptr then
      some (st, some (.expectsSliceOrPtr sf.Typ))
    else if (c.ScopeMap.ByType fieldTyp).isSome then
      if explicit then
        some (st, some (.notListedModel ms.ModelType.Name sf.Name fieldTyp))
      else
        some (st, none)
    else
      match walk st.riMap sf.Name fieldTyp visited [] with
      | none => none
      | some r =>
        match r.ret with
        | .error err => some (⟨r.riMap, st.ri⟩, some (.wrap err "walking type of child"))
        | .ok none => some (⟨r.riMap, st.ri⟩, none)
        | .ok (some child) =>
          let child := child.setRelationship rel
          let riMap := r.riMap.set fieldTyp child
          if rel.Kind = "many_to_many" then
            match rel.JoinTableHandler with
            | none => some (⟨riMap, st.ri⟩, some .joinTableHandlerType)
            | some jth =>
              if !jth.isDefault then
                some (⟨riMap, st.ri⟩, some .joinTableHandlerType)
              else
                match NewManyToMany c jth.TableName jth.SourceForeignKeys
                    jth.DestinationForeignKeys with
                | .error err =>
                  some (⟨riMap, st.ri⟩, some (.wrap err "creating ManyToMany relation"))
                | .ok mtm =>
                  let child := child.setManyToMany mtm
                  some (⟨riMap.set fieldTyp child, st.ri.appendChild child⟩, none)
          else
            some (⟨riMap, st.ri.appendChild child⟩, none)

/-- The loop `for _, sf := range ms.StructFields` of `WalkType`. -/
def visitAllFields (visit : VisitState → StructField → Bool → Option (VisitState × Option Error)) :
    List StructField → VisitState → Option (VisitState × Option Error)
  | [], st => some (st, none)
  | sf :: rest, st =>
    match visit st sf false with
    | none => none
    | some (st, some err) => some (st, some (.wrap err ("visiting field " ++ sf.Name)))
    | some (st, none) => visitAllFields visit rest st

/-- The map `sfByName` of `WalkType`: a later field replaces an earlier one of
the same name. -/
def sfByName (fields : List StructField) (fieldName : String) : Option StructField :=
  fields.reverse.find? (fun sf => decide (sf.Name = fieldName))

/-- The loop `for _, fieldName := range assocs` of `WalkType`. -/
def visitSpecifiedFields (visit : VisitState → StructField → Bool → Option (VisitState × Option Error))
    (fields : List StructField) (atyp : GoType) :
    List String → VisitState → Option (VisitState × Option Error)
  | [], st => some (st, none)
  | fieldName :: rest, st =>
    match sfByName fields fieldName with
    | none => some (st, some (.noField fieldName atyp))
    | some sf =>
      match visit st sf true with
      | none => none
      | some (st, some err) => some (st, some (.wrap err ("visiting field " ++ fieldName)))
      | some (st, none) => visitSpecifiedFields visit fields atyp rest st

/-- The function `WalkType` with a bound on the depth of its recursion; `none`
is returned only when the bound is reached. -/
def WalkTypeAux (c : Context) :
    Nat → RecordInfoMap → String → GoType → VisitMap → List String → Option WalkResult
  | 0, _, _, _, _, _ => none
  | fuel + 1, riMap, name, atyp, visited, assocs =>
    if atyp.Kind ≠ Kind.Ptr then
      some ⟨riMap, .error (.expectsModelType atyp)⟩
    else if atyp.Elem.Kind ≠ Kind.Struct then
      some ⟨riMap, .error (.expectsModelType atyp)⟩
    else
      match c.ScopeMap.ByType atyp with
      | none => some ⟨riMap, .error (.notRegistered atyp)⟩
      | some ms =>
        if visited.get ms then
          some ⟨riMap, .ok none⟩
        else
          let visited := visited.CopyAndMark ms
          let ri := RecordInfo.mk name atyp [] none none ms
          let visit := visitField c (WalkTypeAux c fuel) ms visited
          let looped :=
            if assocs.length > 0 then
              visitSpecifiedFields visit ms.StructFields atyp assocs ⟨riMap, ri⟩
            else
              visitAllFields visit ms.StructFields ⟨riMap, ri⟩
          match looped with
          | none => none
          | some (st, some err) => some ⟨st.riMap, .error err⟩
          | some (st, none) => some ⟨st.riMap.set atyp st.ri, .ok (some st.ri)⟩

/-- The function `WalkType`. The recursion of `WalkTypeAux` marks one more
registered model on every descent, so one level per registered model and one
more for the last call are enough. -/
def WalkType (c : Context) (riMap : RecordInfoMap) (name : String) (atyp : GoType)
    (visited : VisitMap) (assocs : List String) : Option WalkResult :=
  WalkTypeAux c (c.ScopeMap.scopes.length + 2) riMap name atyp visited assocs

/-! ## `automigrate.go` -/

/-- The type `AutoMigrateStats`. -/
structure AutoMigrateStats where
  NumCreated : Int
  NumMigrated : Int
  NumCurrent : Int
  deriving DecidableEq, Repr

/-- One row of the result of `PragmaTableInfo`; `Typ` is the member `Type`. -/
structure PragmaTableInfoRow where
  Name : String
  Typ : String
  NotNull : Bool
  PrimaryKey : Bool
  deriving DecidableEq, Repr

/-- A column string built by `createTable`, `<name> <type><modifier>`: the DB
name, the column type and whether the modifier is " NOT NULL". -/
structure ColumnDef where
  DBName : String
  sqliteType : String
  notNull : Bool
  deriving DecidableEq, Repr

/-- The queries passed to `ExecRaw` by `automigrate.go`, by shape. `Stmt.sql`
gives the query text. -/
inductive Stmt
  | pragmaForeignKeys (enable : Bool)
  | createTableAs (tempName : String) (tableName : String)
  | dropTable (tableName : String)
  | createTable (tableName : String) (columns : List ColumnDef) (pks : List String)
  | insertSelect (tableName : String) (columns : List String) (tempName : String)
  deriving DecidableEq, Repr

/-- The column string of `createTable`: the format `%s %s%s` applied to the
escaped DB name, the column type and the modifier. -/
def ColumnDef.sql (esc : String → String) (col : ColumnDef) : String :=
  esc col.DBName ++ " " ++ col.sqliteType ++ (if col.notNull then " NOT NULL" else "")

/-- The query text of a statement, as built by the `fmt.Sprintf` calls of
`syncTable`, `createTable` and `dropTable`; `esc` is `EscapeIdentifier`. -/
def Stmt.sql (esc : String → String) : Stmt → String
  | .pragmaForeignKeys false => "PRAGMA foreign_keys = 0"
  | .pragmaForeignKeys true => "PRAGMA foreign_keys = 1"
  | .createTableAs tempName tableName =>
    "CREATE TABLE " ++ tempName ++ " AS SELECT * FROM " ++ tableName
  | .dropTable tableName => "DROP TABLE " ++ esc tableName
  | .createTable tableName columns pks =>
    "CREATE TABLE " ++ esc tableName ++ " (" ++
      ", ".intercalate (columns.map (ColumnDef.sql esc) ++
        ["PRIMARY KEY (" ++ ", ".intercalate pks ++ ")"]) ++ ")"
  | .insertSelect tableName columns tempName =>
    "INSERT INTO " ++ tableName ++ " (" ++ ",".intercalate (columns.map esc) ++
      ") SELECT " ++ ",".intercalate (columns.map esc) ++ " FROM " ++ tempName

/-- The storage side of a `Querier` over states `σ`: what `ExecRaw` and
`PragmaTableInfo` (both declared outside the embedded files) do to it. -/
structure Querier (σ : Type) where
  ExecRaw : Stmt → σ → Except Error σ
  PragmaTableInfo : String → σ → Except Error (List PragmaTableInfoRow)

/-- The state threaded through the schema synchronizer: the storage state, the
statistics behind the `stats` pointer, and the queries handed to `ExecRaw` so
far, each with whether it succeeded. -/
structure Session (σ : Type) where
  db : σ
  stats : AutoMigrateStats
  log : List (Stmt × Bool)

/-- The call `c.ExecRaw(q, query, nil)`: a failed query leaves the storage
state as it was. -/
def Session.exec {σ : Type} (q : Querier σ) (s : Session σ) (stmt : Stmt) :
    Session σ × Option Error :=
  match q.ExecRaw stmt s.db with
  | .ok db => ({ s with db := db, log := s.log ++ [(stmt, true)] }, none)
  | .error err => ({ s with log := s.log ++ [(stmt, false)] }, some err)

/-- The column type chosen by the `switch` of `createTable`, `none` when the
default branch is taken. -/
def sqliteType (t : GoType) : Option String :=
  let typ := if t.Kind = Kind.Ptr then t.Elem else t
  match typ.Kind with
  | .Int64 | .Int32 | .Int16 | .Int8 | .Int
  | .Uint64 | .Uint32 | .Uint16 | .Uint8 | .Uint => some "INTEGER"
  | .Bool => some "BOOLEAN"
  | .Float64 | .Float32 => some "REAL"
  | .String => some "TEXT"
  | .Struct => if typ = timeType then some "DATETIME" else none
  | _ => none

/-- The variables the `processField` closure of `createTable` appends to. -/
structure CreateState where
  columns : List ColumnDef
  pks : List String

mutual
/-- The closure `processField` of `createTable`. -/
def createTable.processField (ms : ModelStruct) : StructField → CreateState → Except Error CreateState
  | .mk _ DBName IsPrimaryKey IsNormal IsSquashed Typ _ SquashedFields, st =>
    match (if IsSquashed then createTable.processFields ms SquashedFields st else .ok st) with
    | .error err => .error err
    | .ok st =>
      if !IsNormal then
        .ok st
      else
        match sqliteType Typ with
        | none => .error (.unsupportedFieldType Typ ms.ModelType)
        | some sqliteType =>
          let pks := if IsPrimaryKey then st.pks ++ [DBName] else st.pks
          .ok ⟨st.columns ++ [⟨DBName, sqliteType, IsPrimaryKey⟩], pks⟩
/-- A loop calling `processField` on each field, returning at the first error. -/
def createTable.processFields (ms : ModelStruct) : List StructField → CreateState → Except Error CreateState
  | [], st => .ok st
  | sf :: rest, st =>
    match createTable.processField ms sf st with
    | .error err => .error err
    | .ok st => createTable.processFields ms rest st
end

/-- The query built by `createTable`, or the error it returns before running
anything. -/
def createTable.query (ms : ModelStruct) : Except Error Stmt :=
  match createTable.processFields ms ms.StructFields ⟨[], []⟩ with
  | .error err => .error err
  | .ok st =>
    if st.pks.length > 0 then
      .ok (.createTable ms.TableName st.columns st.pks)
    else
      .error (.noPrimaryKeys ms.ModelType)

/-- The function `createTable`: the query is built first and handed to `ExecRaw`
only when building it raised no error. -/
def createTable {σ : Type} (q : Querier σ) (s : Session σ) (ms : ModelStruct) :
    Session σ × Option Error :=
  match createTable.query ms with
  | .error err => (s, some err)
  | .ok query => s.exec q query

/-- The function `dropTable`. -/
def dropTable {σ : Type} (q : Querier σ) (s : Session σ) (tableName : String) :
    Session σ × Option Error :=
  s.exec q (.dropTable tableName)

/-- The type `map[string]PragmaTableInfoRow`. -/
abbrev ColumnMap := List (String × PragmaTableInfoRow)

/-- The assignment `oldColumns[name] = ptir`. -/
def ColumnMap.set (m : ColumnMap) (name : String) (ptir : PragmaTableInfoRow) : ColumnMap :=
  m.filter (fun p => !decide (p.1 = name)) ++ [(name, ptir)]

/-- The `ok` of the index expression `oldColumns[name]`. -/
def ColumnMap.has (m : ColumnMap) (name : String) : Bool :=
  m.any (fun p => decide (p.1 = name))

/-- The loop of `syncTable` filling `oldColumns` from the table info. -/
def syncTable.oldColumns (pti : List PragmaTableInfoRow) : ColumnMap :=
  pti.foldl (fun m ptir => m.set ptir.Name ptir) []

/-- The variables the first `processField` closure of `syncTable` writes. -/
structure CountState where
  numNewCols : Nat
  isMissingCols : Bool
  deriving DecidableEq, Repr

mutual
/-- The first closure `processField` of `syncTable`, which counts the model's
columns and looks each one up in `oldColumns`. -/
def syncTable.countField (oldColumns : ColumnMap) : StructField → CountState → CountState
  | .mk _ DBName _ IsNormal IsSquashed _ _ SquashedFields, st =>
    let st := if IsSquashed then syncTable.countFields oldColumns SquashedFields st else st
    if !IsNormal then
      st
    else
      let st : CountState := { st with numNewCols := st.numNewCols + 1 }
      if !oldColumns.has DBName then
        { st with isMissingCols := true }
      else
        st
/-- A loop calling the first `processField` on each field. -/
def syncTable.countFields (oldColumns : ColumnMap) : List StructField → CountState → CountState
  | [], st => st
  | sf :: rest, st => syncTable.countFields oldColumns rest (syncTable.countField oldColumns sf st)
end

mutual
/-- The second closure `processField` of `syncTable`, which collects into
`columns` the model's columns found in `oldColumns`. The names are collected
unescaped; `Stmt.sql` applies `EscapeIdentifier` to each. -/
def syncTable.columnsField (oldColumns : ColumnMap) : StructField → List String → List String
  | .mk _ DBName _ IsNormal IsSquashed _ _ SquashedFields, columns =>
    let columns :=
      if IsSquashed then syncTable.columnsFields oldColumns SquashedFields columns else columns
    if !IsNormal then
      columns
    else if oldColumns.has DBName then
      columns ++ [DBName]
    else
      columns
/-- A loop calling the second `processField` on each field. -/
def syncTable.columnsFields (oldColumns : ColumnMap) : List StructField → List String → List String
  | [], columns => columns
  | sf :: rest, columns =>
    syncTable.columnsFields oldColumns rest (syncTable.columnsField oldColumns sf columns)
end

/-- The temp table name `__hades_migrate__<table>__`. -/
def syncTable.tempName (tableName : String) : String :=
  "__hades_migrate__" ++ tableName ++ "__"

/-- The part of `syncTable` that runs under the savepoint, from
`PRAGMA foreign_keys = 0` to the last `return`. -/
def syncTable.body {σ : Type} (q : Querier σ) (s : Session σ) (ms : ModelStruct)
    (pti : List PragmaTableInfoRow) : Session σ × Option Error :=
  let tableName := ms.TableName
  match s.exec q (.pragmaForeignKeys false) with
  | (s, some _) => (s, none)
  | (s, none) =>
    let oldColumns := syncTable.oldColumns pti
    let numOldCols := oldColumns.length
    let counted := syncTable.countFields oldColumns ms.StructFields ⟨0, false⟩
    if !counted.isMissingCols && numOldCols == counted.numNewCols then
      ({ s with stats := { s.stats with NumCurrent := s.stats.NumCurrent + 1 } }, none)
    else
      let s : Session σ := { s with stats := { s.stats with NumMigrated := s.stats.NumMigrated + 1 } }
      let tempName := syncTable.tempName tableName
      match s.exec q (.createTableAs tempName tableName) with
      | (s, some _) => (s, none)
      | (s, none) =>
        match dropTable q s tableName with
        | (s, some _) => (s, none)
        | (s, none) =>
          match createTable q s ms with
          | (s, some err) => (s, some err)
          | (s, none) =>
            let columns := syncTable.columnsFields oldColumns ms.StructFields []
            match s.exec q (.insertSelect tableName columns tempName) with
            | (s, some _) => (s, none)
            | (s, none) =>
              match dropTable q s tempName with
              | (s, some _) => (s, none)
              | (s, none) =>
                match s.exec q (.pragmaForeignKeys true) with
                | (s, some _) => (s, none)
                | (s, none) => (s, none)

/-- Modelled from the spec: the savepoint helper `sqliteutil2.Save`, deferred by
`syncTable` on its named result `err`. The sequence run under the savepoint is
all-or-nothing: when it returns a non-nil error the storage state is put back
to what it was when the savepoint was taken, otherwise the savepoint is
released and the new state is kept. -/
def Save {σ : Type} (saved : σ) (r : Session σ × Option Error) : Session σ × Option Error :=
  match r.2 with
  | some err => ({ r.1 with db := saved }, some err)
  | none => r

/-- The function `syncTable`. -/
def syncTable {σ : Type} (q : Querier σ) (s : Session σ) (ms : ModelStruct) :
    Session σ × Option Error :=
  let tableName := ms.TableName
  match q.PragmaTableInfo tableName s.db with
  | .error err => (s, some err)
  | .ok pti =>
    if pti.length = 0 then
      createTable q { s with stats := { s.stats with NumCreated := s.stats.NumCreated + 1 } } ms
    else
      Save s.db (syncTable.body q s ms pti)

/-- The loop of `AutoMigrateEx` over the registered models. -/
def AutoMigrateEx.loop {σ : Type} (q : Querier σ) :
    List ModelStruct → Session σ → Session σ × Option Error
  | [], s => (s, none)
  | m :: rest, s =>
    match syncTable q s m with
    | (s, some err) => (s, some err)
    | (s, none) => AutoMigrateEx.loop q rest s

/-- The function `AutoMigrateEx`. -/
def AutoMigrateEx {σ : Type} (c : Context) (q : Querier σ) (s : Session σ) :
    Session σ × Option Error :=
  AutoMigrateEx.loop q c.ScopeMap.byDBName s

/-! ## A reference storage engine

The storage engine behind a `Querier` is external to the repository. This one
holds tables of rows, each row giving a value to every column name (null
outside the table's columns). It rejects a query the way SQLite does when a
table to create exists already, a table to read or drop is missing, or a column
list is empty, repeats a name or names a missing column. -/

/-- A row: the value of each column, by column name. -/
abbrev Row := String → Value

/-- A table: its columns as the table info reports them, and its rows. -/
structure Table where
  columns : List PragmaTableInfoRow
  rows : List Row

/-- A database: the table of each name, `none` where no table exists. -/
abbrev DB := String → Option Table

/-- The column names of a table. -/
def Table.columnNames (t : Table) : List String :=
  t.columns.map PragmaTableInfoRow.Name

/-- The row inserted by `INSERT INTO t (columns) SELECT columns FROM tmp` for
the row `r` of `tmp`. -/
def Row.project (columns : List String) (r : Row) : Row :=
  fun name => if name ∈ columns then r name else Value.null

/-- What each query does to a database, or the error it is rejected with. -/
def DB.ExecRaw : Stmt → DB → Except Error DB
  | .pragmaForeignKeys _, db => .ok db
  | .createTableAs tempName tableName, db =>
    match db tempName, db tableName with
    | some _, _ => .error (.storage "table already exists")
    | none, none => .error (.storage "no such table")
    | none, some t =>
      .ok (Function.update db tempName
        (some ⟨t.columns.map (fun col => ⟨col.Name, col.Typ, false, false⟩), t.rows⟩))
  | .dropTable tableName, db =>
    match db tableName with
    | none => .error (.storage "no such table")
    | some _ => .ok (Function.update db tableName none)
  | .createTable tableName columns pks, db =>
    match db tableName with
    | some _ => .error (.storage "table already exists")
    | none =>
      if columns.isEmpty || !(columns.map ColumnDef.DBName).Nodup then
        .error (.storage "bad column list")
      else
        .ok (Function.update db tableName
          (some ⟨columns.map (fun col =>
            ⟨col.DBName, col.sqliteType, col.notNull, decide (col.DBName ∈ pks)⟩), []⟩))
  | .insertSelect tableName columns tempName, db =>
    match db tableName, db tempName with
    | some t, some tmp =>
      if columns.isEmpty || !columns.Nodup
          || !columns.all (fun name => decide (name ∈ t.columnNames))
          || !columns.all (fun name => decide (name ∈ tmp.columnNames)) then
        .error (.storage "bad column list")
      else
        .ok (Function.update db tableName
          (some { t with rows := t.rows ++ tmp.rows.map (Row.project columns) }))
    | _, _ => .error (.storage "no such table")

/-- The table info of a table: no rows for a table that does not exist. -/
def DB.PragmaTableInfo (tableName : String) (db : DB) : Except Error (List PragmaTableInfoRow) :=
  match db tableName with
  | none => .ok []
  | some t => .ok t.columns

/-- The reference storage engine as a `Querier`. -/
def DB.querier : Querier DB := ⟨DB.ExecRaw, DB.PragmaTableInfo⟩

/-! ## `save_rows.go` -/

/-- The field `Stats` of `Context`. -/
structure Stats where
  Inserts : Int
  Updates : Int
  Current : Int
  deriving DecidableEq, Repr

/-- The type `ChangedFields`: a map from field name to new value. -/
abbrev ChangedFields := List (String × Value)

/-- The statement `builder.Update(eq).Into(table).Where(builder.Eq{column: key})`
handed to `Exec`. -/
structure UpdateStmt where
  table : String
  eq : List (String × Value)
  whereColumn : String
  whereKey : Value
  deriving DecidableEq, Repr

/-- Modelled from the spec: the members of `SaveParams` other than the record,
the explicit association list and the join relations saved in partial mode. -/
structure SaveParams where
  Assocs : List String
  PartialJoins : List String
  deriving DecidableEq, Repr

/-- A call made by `saveRows` on the connection: fetching the existing rows,
inserting a record, running an update, or handing a join aggregate to
`saveJoins`. -/
inductive SaveEvent
  | fetch (column : String) (keys : List Value)
  | insert (rec : Record)
  | update (stmt : UpdateStmt)
  | saveJoins (mtm : ManyToMany)

/-- The assignment `m[key] = value` on a map held as an association list. -/
def mapSet {κ ν : Type} [DecidableEq κ] (m : List (κ × ν)) (key : κ) (value : ν) : List (κ × ν) :=
  if m.any (fun p => decide (p.1 = key)) then
    m.map (fun p => if p.1 = key then (p.1, value) else p)
  else
    m ++ [(key, value)]

/-- The index expression `m[key]` with its `ok`. -/
def mapGet {κ ν : Type} [DecidableEq κ] (m : List (κ × ν)) (key : κ) : Option ν :=
  (m.find? (fun p => decide (p.1 = key))).map Prod.snd

/-- The assignment `m[key] = append(m[key], value)` on a map of slices. -/
def mapAppend {κ ν : Type} [DecidableEq κ] (m : List (κ × List ν)) (key : κ) (value : ν) :
    List (κ × List ν) :=
  mapSet m key ((mapGet m key).getD [] ++ [value])

/-- The expression `rec.Elem().FieldByName(name).Interface()` on a record
pointer: the value of the field, nil for a name the record has no field of. -/
def Record.get (rec : Record) (name : String) : Value :=
  (mapGet rec name).getD Value.null

/-- The method `ManyToMany.AddKeys`. -/
def ManyToMany.AddKeys (mtm : ManyToMany) (sourceKey destinKey : Value) (record : Record) :
    ManyToMany :=
  { mtm with Values := mapAppend mtm.Values sourceKey ⟨destinKey, some record⟩ }

/-- The method `ManyToMany.Add`. -/
def ManyToMany.Add (mtm : ManyToMany) (Source Destin : Record) : ManyToMany :=
  { mtm with
    Values := mapAppend mtm.Values (Source.get mtm.SourceAssocName)
      ⟨Destin.get mtm.DestinAssocName, none⟩ }

/-- Modelled from the spec: the method `Scope.PrimaryFields`, the fields of the
model marked as primary keys, in field order. -/
def Scope.PrimaryFields (ms : ModelStruct) : List StructField :=
  ms.StructFields.filter StructField.IsPrimaryKey

/-- Modelled from the spec: the method `Scope.FieldByName`, the field of the
model of that name with its `ok`. -/
def Scope.FieldByName (ms : ModelStruct) (name : String) : Option StructField :=
  ms.StructFields.find? (fun sf => decide (sf.Name = name))

/-- The call `strings.TrimSuffix(name, "ID")`. -/
def trimSuffixID (name : String) : String :=
  match name.data.reverse with
  | 'D' :: 'I' :: rest => String.mk rest.reverse
  | _ => name

/-- The type `map[interface{}][]reflect.Value` of records grouped by key. -/
abbrev RecordsByKey := List (Value × List Record)

/-- A `*Field` of `primaryFields`: its position there tells pointers apart. -/
structure FieldRef where
  index : Nat
  field : StructField

/-- The inner loop of `saveRows` grouping the batch by the value of one field. -/
def saveRows.recordsByKey (fresh : List Record) (fieldName : String) : RecordsByKey :=
  fresh.foldl (fun m rec => mapAppend m (rec.get fieldName) rec) []

/-- The loop of `saveRows` filling `recordsGroupedByPrimaryField`, one entry per
primary-key field, keyed by the pointer to the field. -/
def saveRows.groupByPrimaryFields (fresh : List Record) (primaryFields : List StructField) :
    List (FieldRef × RecordsByKey) :=
  primaryFields.enum.map (fun p => (⟨p.1, p.2⟩, saveRows.recordsByKey fresh p.2.Name))

/-- The variables written by the loop of `saveRows` that picks the source. -/
structure BestSource where
  bestSourcePrimaryField : Option FieldRef
  bestNumGroups : Int
  valueMap : RecordsByKey

/-- The constant `math.MaxInt64`. -/
def MaxInt64 : Int := 9223372036854775807

/-- The loop of `saveRows` over `recordsGroupedByPrimaryField` that picks the
source: the entries come in the order the `range` yields them. -/
def saveRows.pickSource (entries : List (FieldRef × RecordsByKey)) : BestSource :=
  entries.foldl
    (fun best entry =>
      let numGroups := entry.2.length
      if (numGroups : Int) < best.bestNumGroups then
        ⟨some entry.1, numGroups, entry.2⟩
      else best)
    ⟨none, MaxInt64, []⟩

/-- The loop of `saveRows` that picks the destination: the first key that is
not the source pointer. -/
def saveRows.pickDestin (entries : List (FieldRef × RecordsByKey)) (source : FieldRef) :
    Option FieldRef :=
  (entries.find? (fun entry => !decide (entry.1.index = source.index))).map Prod.fst

/-- The loops of `saveRows` registering every record of `valueMap`. -/
def saveRows.addAll (destinName : String) (valueMap : RecordsByKey) (mtm : ManyToMany) :
    ManyToMany :=
  valueMap.foldl
    (fun mtm entry =>
      entry.2.foldl (fun mtm rec => mtm.AddKeys entry.1 (rec.get destinName) rec) mtm)
    mtm

/-- The connection calls and helpers of `saveRows` that are declared outside the
embedded files, over connection states `σ`, and the order in which each `range`
over a map yields its entries. -/
structure SaveEnv (σ : Type) where
  ToDBName : String → String
  DiffRecord : Record → Record → ModelStruct → Except Error (Option ChangedFields)
  pagedByKeys : String → List Value → GoType → σ → Except Error (List Record)
  Insert : Record → σ → Except Error σ
  Exec : UpdateStmt → σ → Except Error σ
  saveJoins : SaveParams → ManyToMany → σ → σ × Option Error
  rangeGrouped : List (FieldRef × RecordsByKey) → List (FieldRef × RecordsByKey)
  rangeGroupedAgain : List (FieldRef × RecordsByKey) → List (FieldRef × RecordsByKey)
  rangeValueMap : RecordsByKey → RecordsByKey
  rangeUpdates : List (Value × ChangedFields) → List (Value × ChangedFields)
  rangeChanged : ChangedFields → ChangedFields

/-- The state threaded through `saveRows`: the connection state, `c.Stats`, and
the calls made on the connection so far. -/
structure SaveSession (σ : Type) where
  db : σ
  stats : Stats
  log : List SaveEvent

/-- The argument `inputIface` of `saveRows`: not a slice, or a slice of pointers
to records of one model, whose metadata `NewScope` derives from the first. -/
inductive SaveInput
  | notSlice
  | slice (ms : ModelStruct) (records : List Record)

/-- The branch of `saveRows` for a model with two primary-key fields. -/
def saveRows.joinRows {σ : Type} (c : Context) (env : SaveEnv σ) (s : SaveSession σ)
    (params : SaveParams) (ms : ModelStruct) (fresh : List Record)
    (primaryFields : List StructField) : SaveSession σ × Option Error :=
  let modelName := ms.ModelType.Name
  let recordsGroupedByPrimaryField := saveRows.groupByPrimaryFields fresh primaryFields
  let best := saveRows.pickSource (env.rangeGrouped recordsGroupedByPrimaryField)
  match best.bestSourcePrimaryField with
  | none => (s, some (.primaryKeyCount primaryFields.length modelName))
  | some bestSourcePrimaryField =>
    match saveRows.pickDestin (env.rangeGroupedAgain recordsGroupedByPrimaryField)
        bestSourcePrimaryField with
    | none => (s, some .noDestinPrimaryField)
    | some bestDestinPrimaryField =>
      match Scope.FieldByName ms (trimSuffixID bestSourcePrimaryField.field.Name) with
      | none => (s, some (.noAssoc modelName bestSourcePrimaryField.field.Name))
      | some sourceRelField =>
        match Scope.FieldByName ms (trimSuffixID bestDestinPrimaryField.field.Name) with
        | none => (s, some (.noAssoc modelName bestDestinPrimaryField.field.Name))
        | some destinRelField =>
          match c.ScopeMap.ByType sourceRelField.Typ with
          | none => (s, some (.noAssocScope modelName bestSourcePrimaryField.field.Name))
          | some sourceScope =>
            match c.ScopeMap.ByType destinRelField.Typ with
            | none => (s, some (.noAssocScope modelName bestSourcePrimaryField.field.Name))
            | some destinScope =>
              match Scope.PrimaryFields sourceScope with
              | [sourcePrimaryField] =>
                match Scope.PrimaryFields destinScope with
                | [destinPrimaryField] =>
                  let sourceJTFK : JoinTableForeignKey :=
                    { DBName := env.ToDBName bestSourcePrimaryField.field.Name
                      AssociationDBName := sourcePrimaryField.DBName }
                  let destinJTFK : JoinTableForeignKey :=
                    { DBName := env.ToDBName bestDestinPrimaryField.field.Name
                      AssociationDBName := destinPrimaryField.DBName }
                  match NewManyToMany c ms.TableName [sourceJTFK] [destinJTFK] with
                  | .error err => (s, some (.wrap err "creating ManyToMany relationship"))
                  | .ok mtm =>
                    let mtm := saveRows.addAll bestDestinPrimaryField.field.Name
                      (env.rangeValueMap best.valueMap) mtm
                    match env.saveJoins params mtm s.db with
                    | (db, some err) =>
                      ({ s with db := db, log := s.log ++ [.saveJoins mtm] },
                        some (.wrap err "saving joins"))
                    | (db, none) =>
                      ({ s with db := db, log := s.log ++ [.saveJoins mtm] }, none)
                | fields =>
                  (s, some (.destinPrimaryFields destinScope.ModelType fields.length))
              | fields => (s, some (.sourcePrimaryFields sourceScope.ModelType fields.length))

/-- The variables written by the loop of `saveRows` comparing the batch with
the cached rows. -/
structure CompareState where
  inserts : List Record
  updates : List (Value × ChangedFields)
  doneKeys : List (Value × Bool)

/-- The loop of `saveRows` comparing the records of the batch with the cached
rows, returning at the first error of `DiffRecord`. -/
def saveRows.compare
    (DiffRecord : Record → Record → ModelStruct → Except Error (Option ChangedFields))
    (ms : ModelStruct) (keyName : String) (cacheByPK : List (Value × Record)) :
    List Record → CompareState → Except Error CompareState
  | [], st => .ok st
  | frec :: rest, st =>
    let key := frec.get keyName
    match mapGet st.doneKeys key with
    | some _ => saveRows.compare DiffRecord ms keyName cacheByPK rest st
    | none =>
      let st : CompareState := { st with doneKeys := mapSet st.doneKeys key true }
      match mapGet cacheByPK key with
      | some crec =>
        match DiffRecord frec crec ms with
        | .error err => .error (.wrap err "diffing db records")
        | .ok (some cf) =>
          saveRows.compare DiffRecord ms keyName cacheByPK rest
            { st with updates := mapSet st.updates key cf }
        | .ok none => saveRows.compare DiffRecord ms keyName cacheByPK rest st
      | none =>
        saveRows.compare DiffRecord ms keyName cacheByPK rest
          { st with inserts := st.inserts ++ [frec] }

/-- The loop of `saveRows` inserting the queued records. -/
def saveRows.insertAll {σ : Type} (env : SaveEnv σ) :
    List Record → SaveSession σ → SaveSession σ × Option Error
  | [], s => (s, none)
  | rec :: rest, s =>
    match env.Insert rec s.db with
    | .error err => ({ s with log := s.log ++ [.insert rec] },
        some (.wrap err "inserting new DB records"))
    | .ok db => saveRows.insertAll env rest { s with db := db, log := s.log ++ [.insert rec] }

/-- The statement built for one entry of `updates`. -/
def saveRows.updateStmt {σ : Type} (env : SaveEnv σ) (ms : ModelStruct)
    (primaryField : StructField) (key : Value) (rec : ChangedFields) : UpdateStmt :=
  { table := ms.TableName
    eq := (env.rangeChanged rec).foldl (fun eq kv => mapSet eq (env.ToDBName kv.1) kv.2) []
    whereColumn := primaryField.DBName
    whereKey := key }

/-- The loop of `saveRows` running one update per entry of `updates`. -/
def saveRows.updateAll {σ : Type} (env : SaveEnv σ) (ms : ModelStruct)
    (primaryField : StructField) :
    List (Value × ChangedFields) → SaveSession σ → SaveSession σ × Option Error
  | [], s => (s, none)
  | entry :: rest, s =>
    let stmt := saveRows.updateStmt env ms primaryField entry.1 entry.2
    match env.Exec stmt s.db with
    | .error err => ({ s with log := s.log ++ [.update stmt] },
        some (.wrap err "updating DB records"))
    | .ok db =>
      saveRows.updateAll env ms primaryField rest
        { s with db := db, log := s.log ++ [.update stmt] }

/-- The loop of `saveRows` filling the map `cacheByPK` from the fetched rows. -/
def saveRows.cacheByPK (keyName : String) (cache : List Record) : List (Value × Record) :=
  cache.foldl (fun m record => mapSet m (record.get keyName) record) []

/-- The branch of `saveRows` for a model with one primary-key field. -/
def saveRows.rows {σ : Type} (env : SaveEnv σ) (s : SaveSession σ) (ms : ModelStruct)
    (fresh : List Record) (primaryField : StructField) : SaveSession σ × Option Error :=
  let keys := fresh.map (fun record => record.get primaryField.Name)
  let s : SaveSession σ := { s with log := s.log ++ [.fetch primaryField.DBName keys] }
  match env.pagedByKeys primaryField.DBName keys (.slice (.ptr ms.ModelType)) s.db with
  | .error err => (s, some (.wrap err "getting existing rows"))
  | .ok cache =>
    let cacheByPK := saveRows.cacheByPK primaryField.Name cache
    match saveRows.compare env.DiffRecord ms primaryField.Name cacheByPK fresh ⟨[], [], []⟩ with
    | .error err => (s, some err)
    | .ok st =>
      let stats : Stats :=
        { Inserts := s.stats.Inserts + st.inserts.length
          Updates := s.stats.Updates + st.updates.length
          Current := s.stats.Current +
            ((fresh.length : Int) - st.updates.length - st.inserts.length) }
      match saveRows.insertAll env st.inserts { s with stats := stats } with
      | (s, some err) => (s, some err)
      | (s, none) => saveRows.updateAll env ms primaryField (env.rangeUpdates st.updates) s

/-- The function `saveRows`. -/
def saveRows {σ : Type} (c : Context) (env : SaveEnv σ) (s : SaveSession σ)
    (params : SaveParams) : SaveInput → SaveSession σ × Option Error
  | .notSlice => (s, some .diffNeedsSlice)
  | .slice ms fresh =>
    if fresh.length = 0 then
      (s, none)
    else
      match Scope.PrimaryFields ms with
      | [primaryField] => saveRows.rows env s ms fresh primaryField
      | [first, second] => saveRows.joinRows c env s params ms fresh [first, second]
      | primaryFields => (s, some (.primaryKeyCount primaryFields.length ms.ModelType.Name))

/-! ## `preload.go` -/

/-- The output of `fmt.Sprintf("%v", typ)` for a `reflect.Type`, which is that
of `reflect.Type.String`: a named type is qualified by its package, a
predeclared type is not. -/
def GoType.String : GoType → String
  | .named pkg name _ => if pkg = "" then name else pkg ++ "." ++ name
  | .ptr elem => "*" ++ elem.String
  | .slice elem => "[]" ++ elem.String

structure PreloadField where
  Name : String
  OrderBy : String
  deriving DecidableEq, Repr

/-- The type `Node`; `Children` is the map from segment to child. -/
inductive Node
  | mk (Name : String) (Field : PreloadField) (Children : List (String × Node))

namespace Node

def Name : Node → String
  | mk name _ _ => name

def Field : Node → PreloadField
  | mk _ field _ => field

def Children : Node → List (String × Node)
  | mk _ _ children => children

/-- The assignment `n.Field = pf`. -/
def setField : Node → PreloadField → Node
  | mk name _ children, pf => mk name pf children

/-- The assignment `n.Children[name] = c`. -/
def setChild : Node → String → Node → Node
  | mk nodeName field children, name, c => mk nodeName field (mapSet children name c)

end Node

/-- The query a fetch is built on, `*gorm.DB`, as far as `cb` touches it: the
orderings added by `Order`. -/
structure GormDB where
  orders : List String
  deriving DecidableEq, Repr

/-- The method `gorm.DB.Order`. -/
def GormDB.Order (db : GormDB) (value : String) : GormDB :=
  { db with orders := db.orders ++ [value] }

/-- The method `Node.cb`. -/
def Node.cb (n : Node) (db : GormDB) : GormDB :=
  let f := n.Field
  if f.OrderBy ≠ "" then db.Order f.OrderBy else db

/-- The function `NewNode`. -/
def NewNode (name : String) : Node :=
  Node.mk name ⟨"", ""⟩ []

/-- The call `strings.Split(s, ".")` on the characters of `s`. -/
def splitOnDot : List Char → List (List Char)
  | [] => [[]]
  | ch :: rest =>
    if ch = '.' then
      [] :: splitOnDot rest
    else
      match splitOnDot rest with
      | [] => [[ch]]
      | token :: tokens => (ch :: token) :: tokens

/-- The call `strings.Join(tokens, ".")` on the characters of the tokens. -/
def joinWithDot : List (List Char) → List Char
  | [] => []
  | [token] => token
  | token :: rest => token ++ '.' :: joinWithDot rest

/-- The method `Node.Add` with a bound on the depth of its recursion, which
goes down one level per call; the node is returned as it is when the bound is
reached. -/
def Node.AddAux : Nat → Node → PreloadField → Node
  | 0, n, _ => n
  | fuel + 1, n, pf =>
    match splitOnDot pf.Name.data with
    | [] => n
    | token :: rest =>
      let name := String.mk token
      let c := (mapGet n.Children name).getD (NewNode name)
      if rest.length + 1 > 1 then
        n.setChild name (Node.AddAux fuel c { pf with Name := String.mk (joinWithDot rest) })
      else
        n.setChild name (c.setField pf)

/-- The method `Node.Add`. Every call strips the first segment of the name, so
one level per character of the name, and one more, are enough. -/
def Node.Add (n : Node) (pf : PreloadField) : Node :=
  Node.AddAux (pf.Name.length + 1) n pf

mutual
/-- The tree with the children of every node in the order a `range` over the
map `Children` yields them. -/
def Node.ranged (range : List (String × Node) → List (String × Node)) : Node → Node
  | .mk name field children => .mk name field (range (Node.rangedChildren range children))
/-- The entries of a map `Children`, each child with its own maps ranged. -/
def Node.rangedChildren (range : List (String × Node) → List (String × Node)) :
    List (String × Node) → List (String × Node)
  | [] => []
  | entry :: rest => (entry.1, entry.2.ranged range) :: Node.rangedChildren range rest
end

/-- The records in memory, by address. -/
abbrev Heap := List Record

/-- The record a pointer points to. -/
def Heap.get (heap : Heap) (addr : Nat) : Record :=
  heap.getD addr []

/-- The call `Set` on the field `name` of the record at `addr`. -/
def Heap.setField (heap : Heap) (addr : Nat) (name : String) (value : Value) : Heap :=
  heap.modify (fun rec => mapSet rec name value) addr

/-- The zero value of the type of a field, `reflect.New(field.Type()).Elem()`,
read off the value the field holds. -/
def Value.zero : Value → Value
  | .null => .null
  | .int _ => .int 0
  | .text _ => .text ""
  | .bool _ => .bool false
  | .ptr _ => .ptr none
  | .ptrs _ => .ptrs []

/-- The pointers held by a slice field; none for a nil slice. -/
def Value.addrs : Value → List Nat
  | .ptrs addrs => addrs
  | _ => []

/-- The value `reflect.ValueOf(rec)` of the record argument: a pointer to a
record, a slice of pointers to records, or any other value, of which only the
type and, for a slice, the length matter. -/
inductive RValue
  | ptr (elem : GoType) (addr : Nat)
  | slice (elem : GoType) (addrs : List Nat)
  | other (typ : GoType) (len : Nat)
  deriving DecidableEq, Repr

/-- The method `reflect.Value.Type`. -/
def RValue.Type : RValue → GoType
  | .ptr elem _ => .ptr elem
  | .slice elem _ => .slice (.ptr elem)
  | .other typ _ => typ

/-- The method `reflect.Value.Len` of a slice. -/
def RValue.Len : RValue → Nat
  | .ptr _ _ => 0
  | .slice _ addrs => addrs.length
  | .other _ len => len

/-- The slice `ps` of `walk`: the records of a slice of pointers, or the one
record of a pointer; `none` for a value whose records cannot be reached. -/
def RValue.records : RValue → Option (List Nat)
  | .ptr _ addr => some [addr]
  | .slice _ addrs => some addrs
  | .other _ _ => none

structure PreloadParams where
  Record : RValue
  Fields : List PreloadField

/-- What `Preload` does besides writing to records: building the type tree of a
type, and fetching records by keys. -/
inductive PreloadEvent
  | walkType (typ : GoType)
  | fetch (column : String) (keys : List Value) (typ : GoType) (query : GormDB)
  deriving DecidableEq, Repr

/-- The state threaded through `Preload`: the records in memory and what was
done so far. -/
structure PreloadSession where
  heap : Heap
  log : List PreloadEvent
  deriving DecidableEq, Repr

/-- The helper `pagedByKeys`, declared outside the embedded files, as the
records it fetches or the error it returns, and the order in which a `range`
over a map `Children` yields its entries. -/
structure PreloadEnv where
  pagedByKeys : String → List Value → GoType → GormDB → Except Error (List Record)
  rangeChildren : List (String × Node) → List (String × Node)

/-- The call of `pagedByKeys` in `walk`: the fetched records are new records in
memory, and `fresh` is the slice of their addresses. -/
def Preload.fetch (env : PreloadEnv) (s : PreloadSession) (column : String) (keys : List Value)
    (typ : GoType) (cvt : Node) : PreloadSession × Except Error (List Nat) :=
  let query := cvt.cb ⟨[]⟩
  let s : PreloadSession := { s with log := s.log ++ [.fetch column keys typ query] }
  match env.pagedByKeys column keys typ query with
  | .error err => (s, .error err)
  | .ok records =>
    ({ s with heap := s.heap ++ records },
      .ok ((List.range records.length).map (fun i => s.heap.length + i)))

/-- The `has_many` case of `walk` after the fetch: every parent's slice is
reset, then every fetched record is appended to the slice of the parent that
`pByFK` holds for its foreign key. -/
def Preload.assignMany (name : String) (ps fresh : List Nat)
    (assocName foreignName : String) (heap : Heap) : Heap :=
  let step₁ := ps.foldl
    (fun (acc : List (Value × Nat) × Heap) rec =>
      (mapSet acc.1 ((acc.2.get rec).get assocName) rec,
        acc.2.setField rec name ((acc.2.get rec).get name).zero))
    ([], heap)
  let pByFK := step₁.1
  fresh.foldl
    (fun heap child =>
      match mapGet pByFK ((heap.get child).get foreignName) with
      | some p => heap.setField p name (.ptrs (((heap.get p).get name).addrs ++ [child]))
      | none => heap)
    step₁.2

/-- The `has_one` and `belongs_to` cases of `walk` after the fetch: the fetched
records are indexed by `childKey`, and every parent whose `parentKey` is
indexed gets the record indexed under it. -/
def Preload.assignOne (name : String) (ps fresh : List Nat) (parentKey childKey : String)
    (heap : Heap) : Heap :=
  let freshByFK := fresh.foldl
    (fun (m : List (Value × Nat)) rec => mapSet m ((heap.get rec).get childKey) rec) []
  ps.foldl
    (fun heap prec =>
      match mapGet freshByFK ((heap.get prec).get parentKey) with
      | some crec => heap.setField prec name (.ptr (some crec))
      | none => heap)
    heap

/-- The `switch` of `walk` on the kind of the relationship of `cri`: the session
after the fetch and the assignments of the case, with the fetched slice
`fresh`, or with the error the case returns; `none` when the call does not
return normally (an index out of range, which stands for any descriptor
lacking one of the names its case reads). -/
def Preload.switchKind (env : PreloadEnv) (cri : RecordInfo) (rel : Relationship) (p : RValue)
    (cvt : Node) (s : PreloadSession) :
    Option (PreloadSession × Option (List Nat) × Option Error) :=
  if rel.Kind = "has_many" then
    match p.records, rel.AssociationForeignFieldNames.head?,
      rel.ForeignDBNames.head?, rel.ForeignFieldNames.head? with
    | some ps, some assocName, some foreignDB, some foreignName =>
      let keys := ps.map (fun rec => (s.heap.get rec).get assocName)
      match Preload.fetch env s foreignDB keys (.slice cri.Typ) cvt with
      | (s, .error err) =>
        some (s, none, some (.wrap err "fetching has_many records (paginated)"))
      | (s, .ok fresh) =>
        let heap := Preload.assignMany cvt.Name ps fresh assocName foreignName s.heap
        some (⟨heap, s.log⟩, some fresh, none)
    | _, _, _, _ => none
  else if rel.Kind = "has_one" then
    match p.records, rel.AssociationForeignFieldNames.head?,
      rel.ForeignDBNames.head?, rel.ForeignFieldNames.head? with
    | some ps, some assocName, some foreignDB, some foreignName =>
      let keys := ps.map (fun rec => (s.heap.get rec).get assocName)
      match Preload.fetch env s foreignDB keys (.slice cri.Typ) cvt with
      | (s, .error err) =>
        some (s, none, some (.wrap err "fetching has_one records (paginated)"))
      | (s, .ok fresh) =>
        let heap := Preload.assignOne cvt.Name ps fresh assocName foreignName s.heap
        some (⟨heap, s.log⟩, some fresh, none)
    | _, _, _, _ => none
  else if rel.Kind = "belongs_to" then
    match p.records, rel.ForeignFieldNames.head?,
      rel.AssociationForeignDBNames.head?, rel.AssociationForeignFieldNames.head? with
    | some ps, some foreignName, some assocDB, some assocName =>
      let keys := ps.map (fun rec => (s.heap.get rec).get foreignName)
      match Preload.fetch env s assocDB keys (.slice cri.Typ) cvt with
      | (s, .error err) =>
        some (s, none, some (.wrap err "fetching belongs_to records (paginated)"))
      | (s, .ok fresh) =>
        let heap := Preload.assignOne cvt.Name ps fresh foreignName assocName s.heap
        some (⟨heap, s.log⟩, some fresh, none)
    | _, _, _, _ => none
  else
    some (s, none, some (.unknownRelationship rel.Kind))

mutual
/-- The closure `walk` of `Preload` on the parent value `p`, the node `pri` of
the type tree and the node `pvt` of the requested tree; `none` when the call
does not return normally (a nil dereference, or an index out of range). -/
def Preload.walk (env : PreloadEnv) (pri : RecordInfo) (p : RValue) :
    Node → PreloadSession → Option (PreloadSession × Option Error)
  | .mk _ _ children, s => Preload.walkChildren env pri p children s
/-- The loop of `walk` over the children of `pvt`. -/
def Preload.walkChildren (env : PreloadEnv) (pri : RecordInfo) (p : RValue) :
    List (String × Node) → PreloadSession → Option (PreloadSession × Option Error)
  | [], s => some (s, none)
  | (_, cvt) :: rest, s =>
    match pri.Children.find? (fun c => decide (c.Name = cvt.Name)) with
    | none => some (s, some (.relationNotFound pri.Name cvt.Name))
    | some cri =>
      let ptyp := if p.Type.Kind = Kind.Slice then p.Type.Elem else p.Type
      if ptyp.Kind ≠ Kind.Ptr then
        some (s, some (.walkExpects p.Type))
      else
        match cri.Relationship with
        | none => none
        | some rel =>
          match Preload.switchKind env cri rel p cvt s with
          | none => none
          | some (s, none, err) => some (s, err)
          | some (s, some fresh, _) =>
            match Preload.walk env cri (.slice cri.Typ.Elem fresh) cvt s with
            | none => none
            | some (s, some err) => some (s, some err)
            | some (s, none) => Preload.walkChildren env pri p rest s
end

/-- The function `Preload`; `none` when the call does not return normally. -/
def Preload (c : Context) (env : PreloadEnv) (s : PreloadSession) (params : PreloadParams) :
    Option (PreloadSession × Option Error) :=
  if params.Fields.length = 0 then
    some (s, some .preloadNoFields)
  else
    let val := params.Record
    if val.Type.Kind = Kind.Slice ∧ val.Len = 0 then
      some (s, none)
    else
      let valtyp := if val.Type.Kind = Kind.Slice then val.Type.Elem else val.Type
      if valtyp.Kind ≠ Kind.Ptr then
        some (s, some (.preloadExpects val.Type))
      else
        let rootName := valtyp.String
        let s : PreloadSession := { s with log := s.log ++ [.walkType valtyp] }
        match WalkType c [] rootName valtyp [] [] with
        | none => none
        | some walked =>
          match walked.ret with
          | .error err => some (s, some (.wrap err "waking type tree"))
          | .ok none => none
          | .ok (some typeTree) =>
            let valTree := params.Fields.foldl Node.Add (NewNode rootName)
            Preload.walk env typeTree val (valTree.ranged env.rangeChildren) s

/-! ## `search.go` -/

/-- The type `SearchParams`; a nil `offset` or `limit` is `none`. -/
structure SearchParams where
  orders : List String
  offset : Option Int
  limit : Option Int
  deriving DecidableEq, Repr

/-- The function `Search`. -/
def Search : SearchParams := ⟨[], none, none⟩

/-- The method `SearchParams.OrderBy`. -/
def SearchParams.OrderBy (s : SearchParams) (order : String) : SearchParams :=
  { s with orders := s.orders ++ [order] }

/-- The method `SearchParams.Limit`. -/
def SearchParams.Limit (s : SearchParams) (limit : Int) : SearchParams :=
  { s with limit := some limit }

/-- The method `SearchParams.Offset`. -/
def SearchParams.Offset (s : SearchParams) (offset : Int) : SearchParams :=
  { s with offset := some offset }

/-- The verb `%d` of `fmt.Sprintf` on an `int64`. -/
def formatInt (n : Int) : String := toString n

/-- The call `strings.Join(elems, sep)`. -/
def stringsJoin (elems : List String) (sep : String) : String :=
  sep.intercalate elems

/-- The method `SearchParams.Apply`; the nil receiver is `none`. -/
def SearchParams.Apply (s : Option SearchParams) (sql : String) : String :=
  match s with
  | none => sql
  | some s =>
    let sql :=
      if s.orders.length > 0 then sql ++ " ORDER BY " ++ stringsJoin s.orders ", " else sql
    let sql :=
      match s.offset with
      | some offset => sql ++ " OFFSET " ++ formatInt offset
      | none => sql
    let sql :=
      match s.limit with
      | some limit => sql ++ " LIMIT " ++ formatInt limit
      | none => sql
    sql

/-! ## Notions used to state the properties -/

mutual
/-- The persisted fields contributed by one field, in the order every
`processField` closure meets them: the fields of a squashed struct first, then
the field itself when it is a normal (persisted) one. -/
def StructField.persisted : StructField → List StructField
  | .mk Name DBName IsPrimaryKey IsNormal IsSquashed Typ Relationship SquashedFields =>
    (if IsSquashed then persistedFields SquashedFields else []) ++
      (if IsNormal then
        [.mk Name DBName IsPrimaryKey IsNormal IsSquashed Typ Relationship SquashedFields]
      else [])
/-- The persisted fields of a field list, squashed structs flattened in place. -/
def persistedFields : List StructField → List StructField
  | [] => []
  | sf :: rest => sf.persisted ++ persistedFields rest
end

/-- The column definition of a persisted field of a supported type. -/
def columnDef (sf : StructField) : ColumnDef :=
  ⟨sf.DBName, (sqliteType sf.Typ).getD "", sf.IsPrimaryKey⟩

/-- One column definition per persisted field, in model field order. -/
def modelColumns (ms : ModelStruct) : List ColumnDef :=
  (persistedFields ms.StructFields).map columnDef

/-- The DB names of the persisted primary-key fields, in model field order. -/
def primaryKeys (ms : ModelStruct) : List String :=
  ((persistedFields ms.StructFields).filter StructField.IsPrimaryKey).map StructField.DBName

/-- The DB names of the persisted fields, in model field order. -/
def modelColumnNames (ms : ModelStruct) : List String :=
  (persistedFields ms.StructFields).map StructField.DBName

/-- The DB names of the persisted fields that are live columns, in model field
order. -/
def commonColumns (live : List String) (ms : ModelStruct) : List String :=
  ((persistedFields ms.StructFields).filter (fun sf => decide (sf.DBName ∈ live))).map
    StructField.DBName

/-- The names of the columns the table info reports. -/
def liveColumns (pti : List PragmaTableInfoRow) : List String :=
  pti.map PragmaTableInfoRow.Name

/-- The live table matches the model: as many (distinct) live columns as
persisted fields, and every persisted field's DB name is a live column. -/
def Matches (pti : List PragmaTableInfoRow) (ms : ModelStruct) : Prop :=
  (liveColumns pti).dedup.length = (persistedFields ms.StructFields).length ∧
    ∀ sf ∈ persistedFields ms.StructFields, sf.DBName ∈ liveColumns pti

instance (pti : List PragmaTableInfoRow) (ms : ModelStruct) : Decidable (Matches pti ms) :=
  inferInstanceAs (Decidable (_ ∧ _))

/-- The `processField` closure of `createTable` run over an already flattened
list of persisted fields. -/
def createFold (ms : ModelStruct) : List StructField → CreateState → Except Error CreateState
  | [], st => .ok st
  | sf :: rest, st =>
    match sqliteType sf.Typ with
    | none => .error (.unsupportedFieldType sf.Typ ms.ModelType)
    | some typ =>
      createFold ms rest
        ⟨st.columns ++ [⟨sf.DBName, typ, sf.IsPrimaryKey⟩],
          if sf.IsPrimaryKey then st.pks ++ [sf.DBName] else st.pks⟩

/-- One step of the first `processField` closure of `syncTable` on a persisted
field. -/
def countStep (oldColumns : ColumnMap) (st : CountState) (sf : StructField) : CountState :=
  ⟨st.numNewCols + 1, st.isMissingCols || !oldColumns.has sf.DBName⟩

/-- The seven queries of a migration, in the order `syncTable` issues them;
`query` is the query of `createTable`. -/
def migrationStatements (pti : List PragmaTableInfoRow) (ms : ModelStruct) (query : Stmt) :
    List Stmt :=
  [.pragmaForeignKeys false,
   .createTableAs (syncTable.tempName ms.TableName) ms.TableName,
   .dropTable ms.TableName,
   query,
   .insertSelect ms.TableName (commonColumns (liveColumns pti) ms)
     (syncTable.tempName ms.TableName),
   .dropTable (syncTable.tempName ms.TableName),
   .pragmaForeignKeys true]

/-- The storage state after a list of queries that all succeed, `none` as soon
as one fails. -/
def Querier.runAll {σ : Type} (q : Querier σ) : List Stmt → σ → Option σ
  | [], db => some db
  | stmt :: rest, db =>
    match q.ExecRaw stmt db with
    | .ok db => q.runAll rest db
    | .error _ => none

/-- The table of the model exists in the reference database, has columns and
matches the model. -/
def UpToDate (db : DB) (ms : ModelStruct) : Prop :=
  ∃ t, db ms.TableName = some t ∧ t.columns ≠ [] ∧ Matches t.columns ms

/-- The table a query creates, drops or writes to. -/
def Stmt.target : Stmt → Option String
  | .pragmaForeignKeys _ => none
  | .createTableAs tempName _ => some tempName
  | .dropTable tableName => some tableName
  | .createTable tableName _ _ => some tableName
  | .insertSelect tableName _ _ => some tableName

/-- The query leaves alone every table but the model's and its temp table. -/
def Stmt.within (ms : ModelStruct) (stmt : Stmt) : Prop :=
  stmt.target = none ∨ stmt.target = some ms.TableName ∨
    stmt.target = some (syncTable.tempName ms.TableName)

/-- The number of distinct values the field `fieldName` takes in the batch. -/
def distinctValues (fresh : List Record) (fieldName : String) : Nat :=
  (fresh.map (fun rec => rec.get fieldName)).dedup.length

/-- Modelled from the spec: the function `DiffRecord`, the field-by-field diff of
a record `x` against the existing row `y` over the persisted fields of the
model. It maps the name of every persisted field whose two values differ to
the value in `x`, and is nil (`none`) when no persisted field differs. -/
def DiffRecord (x y : Record) (ms : ModelStruct) : Except Error (Option ChangedFields) :=
  let cf : ChangedFields := (persistedFields ms.StructFields).filterMap (fun sf =>
    if x.get sf.Name = y.get sf.Name then none else some (sf.Name, x.get sf.Name))
  .ok (if cf = [] then none else some cf)

/-- The records of a batch that are the first to carry their key, the keys in
`seen` counting as carried already. -/
def firstByKey (keyName : String) : List Record → List Value → List Record
  | [], _ => []
  | rec :: rest, seen =>
    if rec.get keyName ∈ seen then
      firstByKey keyName rest seen
    else
      rec :: firstByKey keyName rest (rec.get keyName :: seen)

/-- The entry a record of the batch stands for in `updates`: its key with the
changed fields, when an existing row has its key and the diff of the two is not
nil. -/
def updateEntry
    (DiffRecord : Record → Record → ModelStruct → Except Error (Option ChangedFields))
    (ms : ModelStruct) (keyName : String) (cacheByPK : List (Value × Record)) (rec : Record) :
    Option (Value × ChangedFields) :=
  match mapGet cacheByPK (rec.get keyName) with
  | none => none
  | some crec =>
    match DiffRecord rec crec ms with
    | .ok (some cf) => some (rec.get keyName, cf)
    | _ => none

/-- Whether a record of the batch is found unchanged: an existing row has its
key and the diff of the two is nil. -/
def foundUnchanged
    (DiffRecord : Record → Record → ModelStruct → Except Error (Option ChangedFields))
    (ms : ModelStruct) (keyName : String) (cacheByPK : List (Value × Record)) (rec : Record) :
    Bool :=
  match mapGet cacheByPK (rec.get keyName) with
  | none => false
  | some crec =>
    match DiffRecord rec crec ms with
    | .ok none => true
    | _ => false

/-- The segments `s1`, ..., `sk` of a dotted name `s1.s2...sk`. -/
def segments (name : String) : List String :=
  (splitOnDot name.data).map String.mk

/-- The chain of a dotted name under a node, as the spec words it: the child
keyed by the first segment is reused, or created when there is none, and the
rest of the chain goes under it; the node of the last segment receives the
field, named by that segment, with the ordering. Every other child, and the
name and the field of every node on the way, stay. -/
def Node.addChain : List String → String → Node → Node
  | [], _, n => n
  | [last], orderBy, n =>
    n.setChild last (((mapGet n.Children last).getD (NewNode last)).setField ⟨last, orderBy⟩)
  | seg :: rest, orderBy, n =>
    n.setChild seg (Node.addChain rest orderBy ((mapGet n.Children seg).getD (NewNode seg)))

/-- Whether `walk` can handle a relationship descriptor: its kind is one of
`has_many`, `has_one` and `belongs_to`, and it names a foreign field and an
association field, each with its DB name. -/
def Relationship.preloadable (rel : Relationship) : Bool :=
  (rel.Kind = "has_many" ∨ rel.Kind = "has_one" ∨ rel.Kind = "belongs_to") ∧
  rel.ForeignFieldNames ≠ [] ∧ rel.ForeignDBNames ≠ [] ∧
  rel.AssociationForeignFieldNames ≠ [] ∧ rel.AssociationForeignDBNames ≠ []

mutual
/-- Whether every node below the root of a type tree carries a relationship
descriptor that `walk` can handle. -/
def RecordInfo.preloadable : RecordInfo → Bool
  | .mk _ _ children _ _ _ => RecordInfo.preloadableAll children
/-- Whether the nodes of a list, and every node below them, carry a relationship
descriptor that `walk` can handle. -/
def RecordInfo.preloadableAll : List RecordInfo → Bool
  | [] => true
  | cri :: rest =>
    (match cri.Relationship with
      | some rel => rel.preloadable
      | none => false) &&
    cri.preloadable && RecordInfo.preloadableAll rest
end

/-- A requested path segment, at any depth, that does not match the name of any
child of the corresponding node of the type tree: `Missing pri pvt parent name`
says that below the requested node `pvt`, set against the type-tree node `pri`,
there is a requested node called `name` set against a type-tree node called
`parent` that has no child of that name. -/
inductive Node.Missing : RecordInfo → Node → String → String → Prop
  | here (pri : RecordInfo) (pvt : Node) (key : String) (cvt : Node) :
      (key, cvt) ∈ pvt.Children →
      pri.Children.find? (fun c => decide (c.Name = cvt.Name)) = none →
      Node.Missing pri pvt pri.Name cvt.Name
  | under (pri cri : RecordInfo) (pvt : Node) (key : String) (cvt : Node)
      (parent name : String) :
      (key, cvt) ∈ pvt.Children →
      pri.Children.find? (fun c => decide (c.Name = cvt.Name)) = some cri →
      Node.Missing cri cvt parent name →
      Node.Missing pri pvt parent name

mutual
/-- The first missing segment below a requested node, in the order the children
are listed, as the names of the type-tree node and of the segment. -/
def Node.firstMissing (pri : RecordInfo) : Node → Option (String × String)
  | .mk _ _ children => Node.firstMissingAmong pri children
/-- The first missing segment among, or below, the requested nodes of a list. -/
def Node.firstMissingAmong (pri : RecordInfo) :
    List (String × Node) → Option (String × String)
  | [] => none
  | (_, cvt) :: rest =>
    match pri.Children.find? (fun c => decide (c.Name = cvt.Name)) with
    | none => some (pri.Name, cvt.Name)
    | some cri =>
      match cvt.firstMissing cri with
      | some pair => some pair
      | none => Node.firstMissingAmong pri rest
end

/-- The parent that the map `pByFK` of the `has_many` case holds for a key: the
last parent of the slice whose association field has that value. -/
def holderOf (heap : Heap) (assocName : String) (ps : List Nat) (key : Value) : Option Nat :=
  ps.reverse.find? (fun p => decide ((heap.get p).get assocName = key))

/-- The record that the map `freshByFK` of the `has_one` and `belongs_to` cases
holds for a key: the last fetched record whose key field has that value. -/
def childOf (heap : Heap) (childKey : String) (fresh : List Nat) (key : Value) : Option Nat :=
  fresh.reverse.find? (fun c => decide ((heap.get c).get childKey = key))

/-- The records a slice field of a record points to, in order. -/
def collection (heap : Heap) (addr : Nat) (name : String) : List Record :=
  ((heap.get addr).get name).addrs.map heap.get

/-- The slice `fresh` of a fetch: the addresses the fetched records are given,
after the records already in memory. -/
def freshAddrs (heap : Heap) (recs : List Record) : List Nat :=
  (List.range recs.length).map (fun i => heap.length + i)

/-- The node a path of segments leads to from a node, through the maps
`Children`; `none` when a segment on the way has no child. -/
def Node.descend : Node → List String → Option Node
  | n, [] => some n
  | n, seg :: rest =>
    match mapGet n.Children seg with
    | none => none
    | some child => child.descend rest

/-- What a tree holds at a path: the name and the field of the node the path
leads to, the empty path being the root. -/
def Node.view (n : Node) (path : List String) : Option (String × PreloadField) :=
  (n.descend path).map (fun node => (node.Name, node.Field))

/-- Two trees are the same: a path leads to a node in one exactly when it does
in the other, and the two nodes have the same name and the same field. The
order in which a map `Children` lists its entries plays no part. -/
def Node.sameTree (n m : Node) : Prop :=
  ∀ path, n.view path = m.view path

/-- What a tree holds at a path once the field of segments `segs` is added,
from what it held there before: the node of the whole chain receives the field,
a node on the way is kept or created with the zero field, and every other path
holds what it held. -/
def viewAdd (segs : List String) (orderBy : String) (held : Option (String × PreloadField))
    (path : List String) : Option (String × PreloadField) :=
  if path = [] then held
  else if path = segs then
    some ((held.map Prod.fst).getD (path.getLast?.getD ""), ⟨path.getLast?.getD "", orderBy⟩)
  else if path.isPrefixOf segs then
    some (held.getD (path.getLast?.getD "", ⟨"", ""⟩))
  else held

/-! ## Example models and databases -/

/-- The type `int64`. -/
def int64Type : GoType := .named "" "int64" Kind.Int64

/-- The type `string`. -/
def stringType : GoType := .named "" "string" Kind.String

/-- A belongs_to descriptor on the given foreign-key field. -/
def belongsTo (foreignField : String) (foreignDB : String) : Relationship :=
  { Kind := "belongs_to"
    ForeignFieldNames := [foreignField]
    ForeignDBNames := [foreignDB]
    AssociationForeignFieldNames := ["ID"]
    AssociationForeignDBNames := ["id"]
    JoinTableHandler := none }

/-- The model `Fate{ID int64; Desc string}` of `Test_BelongsTo`. -/
def fateModel : ModelStruct :=
  ⟨.named "hades_test" "Fate" Kind.Struct, "fates",
    [.mk "ID" "id" true true false int64Type none [],
     .mk "Desc" "desc" false true false stringType none []]⟩

/-- The model `Human{ID int64; FateID int64; Fate *Fate}` of `Test_BelongsTo`. -/
def humanModel : ModelStruct :=
  ⟨.named "hades_test" "Human" Kind.Struct, "humans",
    [.mk "ID" "id" true true false int64Type none [],
     .mk "FateID" "fate_id" false true false int64Type none [],
     .mk "Fate" "fate" false false false (.ptr (.named "hades_test" "Fate" Kind.Struct))
       (some (belongsTo "FateID" "fate_id")) []]⟩

/-- A model that refers to itself: `Person{ID int64; ParentID int64; Parent *Person}`. -/
def personModel : ModelStruct :=
  ⟨.named "hades_test" "Person" Kind.Struct, "people",
    [.mk "ID" "id" true true false int64Type none [],
     .mk "ParentID" "parent_id" false true false int64Type none [],
     .mk "Parent" "parent" false false false (.ptr (.named "hades_test" "Person" Kind.Struct))
       (some (belongsTo "ParentID" "parent_id")) []]⟩

/-- The context of `Test_BelongsTo`, with `Person` registered as well. -/
def exampleContext : Context :=
  { ScopeMap := ⟨[(.ptr (.named "hades_test" "Human" Kind.Struct), humanModel),
                  (.ptr (.named "hades_test" "Fate" Kind.Struct), fateModel),
                  (.ptr (.named "hades_test" "Person" Kind.Struct), personModel)]⟩
    FromDBName := id
    EscapeIdentifier := id }

/-- The model `User{ID int64; FirstName string}` of `Test_AutoMigrate`. -/
def userModel : ModelStruct :=
  ⟨.named "hades_test" "User" Kind.Struct, "users",
    [.mk "ID" "id" true true false int64Type none [],
     .mk "FirstName" "first_name" false true false stringType none []]⟩

/-- The model `User{ID int64; FirstName string; LastName string}` of
`Test_AutoMigrate`. -/
def userModelLastName : ModelStruct :=
  ⟨.named "hades_test" "User" Kind.Struct, "users",
    [.mk "ID" "id" true true false int64Type none [],
     .mk "FirstName" "first_name" false true false stringType none [],
     .mk "LastName" "last_name" false true false stringType none []]⟩

/-- The context of `Test_AutoMigrate`: `User` is the only model. -/
def userContext : Context :=
  { ScopeMap := ⟨[(.ptr (.named "hades_test" "User" Kind.Struct), userModel)]⟩
    FromDBName := id
    EscapeIdentifier := id }

/-- The statistics `&AutoMigrateStats{}` of `AutoMigrate`. -/
def zeroStats : AutoMigrateStats := ⟨0, 0, 0⟩

/-- The database with no table. -/
def emptyDB : DB := fun _ => none

/-- The row `{id: 1, first_name: "Ann"}`. -/
def annRow : Row := fun name =>
  if name = "id" then .int 1 else if name = "first_name" then .text "Ann" else .null

/-- The database holding the table `users (id, first_name)` with the row of Ann. -/
def usersDB : DB := fun name =>
  if name = "users" then
    some ⟨[⟨"id", "INTEGER", true, true⟩, ⟨"first_name", "TEXT", false, false⟩], [annRow]⟩
  else none

/-- A database whose table `users` has the single column `name`, which is not a
column of `userModel`, and one row. -/
def legacyDB : DB := fun name =>
  if name = "users" then
    some ⟨[⟨"name", "TEXT", false, false⟩], [fun col => if col = "name" then .text "Ann" else .null]⟩
  else none

/-- The model `Humanoid{Name string}` of `Test_AutoMigrateNoPK`. -/
def humanoidModel : ModelStruct :=
  ⟨.named "hades_test" "Humanoid" Kind.Struct, "humanoids",
    [.mk "Name" "name" false true false stringType none []]⟩

/-- The context of `Test_AutoMigrateNoPK`. -/
def humanoidContext : Context :=
  { ScopeMap := ⟨[(.ptr (.named "hades_test" "Humanoid" Kind.Struct), humanoidModel)]⟩
    FromDBName := id
    EscapeIdentifier := id }

/-- The names `ToDBName` gives the fields of the example models. -/
def exampleToDBName (name : String) : String :=
  if name = "ID" then "id"
  else if name = "Label" then "label"
  else if name = "ProgrammerID" then "programmer_id"
  else if name = "ProfileID" then "profile_id"
  else if name = "GameID" then "game_id"
  else name

/-- A connection over the rows of one table held in memory: a fetch returns the
rows whose `ID` is among the keys, and every write succeeds. -/
def exampleSaveEnv : SaveEnv (List Record) :=
  { ToDBName := exampleToDBName
    DiffRecord := DiffRecord
    pagedByKeys := fun _ keys _ rows => .ok (rows.filter (fun r => decide (r.get "ID" ∈ keys)))
    Insert := fun rec rows => .ok (rows ++ [rec])
    Exec := fun _ rows => .ok rows
    saveJoins := fun _ _ rows => (rows, none)
    rangeGrouped := id
    rangeGroupedAgain := id
    rangeValueMap := id
    rangeUpdates := id
    rangeChanged := id }

/-- The statistics of a fresh context. -/
def zeroSaveStats : Stats := ⟨0, 0, 0⟩

/-- A database from which every fetch returns no record. -/
def examplePreloadEnv : PreloadEnv :=
  { pagedByKeys := fun _ _ _ _ => .ok []
    rangeChildren := id }

/-- The model `Profile{ID int64; ProfileGames []*ProfileGame}` of
`Test_ManyToManyRevenge`. -/
def profileModel : ModelStruct :=
  ⟨.named "hades_test" "Profile" Kind.Struct, "profiles",
    [.mk "ID" "id" true true false int64Type none [],
     .mk "ProfileGames" "profile_games" false false false
       (.slice (.ptr (.named "hades_test" "ProfileGame" Kind.Struct)))
       (some ⟨"has_many", ["ProfileID"], ["profile_id"], ["ID"], ["id"], none⟩) []]⟩

/-- The model `Game{ID int64; Title string}` of `Test_ManyToManyRevenge`. -/
def gameModel : ModelStruct :=
  ⟨.named "hades_test" "Game" Kind.Struct, "games",
    [.mk "ID" "id" true true false int64Type none [],
     .mk "Title" "title" false true false stringType none []]⟩

/-- The join model `ProfileGame` of `Test_ManyToManyRevenge`, whose primary key
is the pair `ProfileID`, `GameID`. -/
def profileGameModel : ModelStruct :=
  ⟨.named "hades_test" "ProfileGame" Kind.Struct, "profile_games",
    [.mk "ProfileID" "profile_id" true true false int64Type none [],
     .mk "Profile" "profile" false false false (.ptr (.named "hades_test" "Profile" Kind.Struct))
       (some (belongsTo "ProfileID" "profile_id")) [],
     .mk "GameID" "game_id" true true false int64Type none [],
     .mk "Game" "game" false false false (.ptr (.named "hades_test" "Game" Kind.Struct))
       (some (belongsTo "GameID" "game_id")) [],
     .mk "Order" "order" false true false int64Type none []]⟩

/-- The context of `Test_ManyToManyRevenge`. -/
def profileContext : Context :=
  { ScopeMap := ⟨[(.ptr (.named "hades_test" "Profile" Kind.Struct), profileModel),
                  (.ptr (.named "hades_test" "ProfileGame" Kind.Struct), profileGameModel),
                  (.ptr (.named "hades_test" "Game" Kind.Struct), gameModel)]⟩
    FromDBName := id
    EscapeIdentifier := id }

/-- The context of `Test_ManyToManyRevenge` with `Game` left out of the models. -/
def profileContextWithoutGame : Context :=
  { ScopeMap := ⟨[(.ptr (.named "hades_test" "Profile" Kind.Struct), profileModel),
                  (.ptr (.named "hades_test" "ProfileGame" Kind.Struct), profileGameModel)]⟩
    FromDBName := id
    EscapeIdentifier := id }

/-- The primary-key field `ProfileID` of `ProfileGame`. -/
def profileIDField : StructField :=
  .mk "ProfileID" "profile_id" true true false int64Type none []

/-- The primary-key field `GameID` of `ProfileGame`. -/
def gameIDField : StructField :=
  .mk "GameID" "game_id" true true false int64Type none []

/-- The model `Quality{ID int64; ProgrammerID int64; Label string}` of
`Test_HasMany`. -/
def qualityModel : ModelStruct :=
  ⟨.named "hades_test" "Quality" Kind.Struct, "qualities",
    [.mk "ID" "id" true true false int64Type none [],
     .mk "ProgrammerID" "programmer_id" false true false int64Type none [],
     .mk "Label" "label" false true false stringType none []]⟩

/-- The primary-key field `ID` of `Quality`. -/
def qualityIDField : StructField := .mk "ID" "id" true true false int64Type none []

/-- The field `ProgrammerID` of `Quality`. -/
def qualityProgrammerIDField : StructField :=
  .mk "ProgrammerID" "programmer_id" false true false int64Type none []

/-- The field `Label` of `Quality`. -/
def qualityLabelField : StructField := .mk "Label" "label" false true false stringType none []

/-- The context of `Test_HasMany`, with `Quality` alone. -/
def qualityContext : Context :=
  { ScopeMap := ⟨[(.ptr (.named "hades_test" "Quality" Kind.Struct), qualityModel)]⟩
    FromDBName := id
    EscapeIdentifier := id }

/-- A record `&Quality{ID, ProgrammerID: 3, Label}`. -/
def quality (id : Int) (label : String) : Record :=
  [("ID", .int id), ("ProgrammerID", .int 3), ("Label", .text label)]

/-- The qualities of programmer 3 in `Test_HasMany`, as first saved. -/
def qualities : List Record :=
  [quality 9 "Inspiration", quality 10 "Creativity",
   quality 11 "Ability to not repeat oneself"]

/-- The qualities of programmer 3 after the label of the third is changed. -/
def qualitiesAgain : List Record :=
  [quality 9 "Inspiration", quality 10 "Creativity", quality 11 "Inspiration again"]

/-- A batch over the table of `qualities`: key 9 with a new label and once
more, key 12 twice, and key 10 as it is in the table. -/
def qualitiesMixed : List Record :=
  [quality 9 "Insight", quality 9 "Ignored", quality 12 "Peace", quality 12 "Serenity",
   quality 10 "Creativity"]

/-- A session on the table holding `qualities`, with fresh statistics. -/
def qualitiesSession : SaveSession (List Record) := ⟨qualities, zeroSaveStats, []⟩

/-- The session `saveRows` returns for `qualitiesMixed` saved on
`qualitiesSession`. -/
def qualitiesMixedSaved : SaveSession (List Record) :=
  ⟨qualities ++ [quality 12 "Peace"], ⟨1, 1, 3⟩,
    [.fetch "id" [.int 9, .int 9, .int 12, .int 12, .int 10],
     .insert (quality 12 "Peace"),
     .update ⟨"qualities", [("label", .text "Insight")], "id", .int 9⟩]⟩

/-- A join record `&ProfileGame{ProfileID, GameID, Order}`. -/
def profileGame (profileID gameID order : Int) : Record :=
  [("ProfileID", .int profileID), ("Profile", .ptr none), ("GameID", .int gameID),
   ("Game", .ptr none), ("Order", .int order)]

/-- The games of profile 389 in `Test_ManyToManyRevenge`, as join records. -/
def profileGames : List Record :=
  [profileGame 389 58372 0, profileGame 389 235971 1, profileGame 389 10598 2]

/-- A session on an empty table with fresh statistics and no call made yet. -/
def freshSaveSession : SaveSession (List Record) := ⟨[], zeroSaveStats, []⟩

/-- The model `Programmer{ID int64; Qualities []*Quality}` of `Test_HasMany`. -/
def programmerModel : ModelStruct :=
  ⟨.named "hades_test" "Programmer" Kind.Struct, "programmers",
    [.mk "ID" "id" true true false int64Type none [],
     .mk "Qualities" "qualities" false false false
       (.slice (.ptr (.named "hades_test" "Quality" Kind.Struct)))
       (some ⟨"has_many", ["ProgrammerID"], ["programmer_id"], ["ID"], ["id"], none⟩) []]⟩

/-- The relationship descriptor of `Programmer.Qualities`. -/
def qualitiesRelationship : Relationship :=
  ⟨"has_many", ["ProgrammerID"], ["programmer_id"], ["ID"], ["id"], none⟩

/-- The type tree of `*Programmer` that `Test_HasMany` preloads through: its one
child is the has-many relationship `Qualities`. -/
def programmerTree : RecordInfo :=
  .mk "*hades_test.Programmer" (.ptr (.named "hades_test" "Programmer" Kind.Struct))
    [.mk "Qualities" (.ptr (.named "hades_test" "Quality" Kind.Struct)) [] (some qualitiesRelationship) none
      qualityModel]
    none none programmerModel

/-- A record `&Programmer{ID, Qualities}`, the slice holding pointers. -/
def programmer (id : Int) (qualities : List Nat) : Record :=
  [("ID", .int id), ("Qualities", .ptrs qualities)]

/-- A record `&Quality{ID, ProgrammerID, Label}`. -/
def qualityOf (id programmerID : Int) (label : String) : Record :=
  [("ID", .int id), ("ProgrammerID", .int programmerID), ("Label", .text label)]

/-- The table of qualities after the saves of `Test_HasMany`: three of
programmer 3 and two of programmer 8. -/
def qualitiesTable : List Record :=
  [qualityOf 9 3 "Inspiration", qualityOf 10 3 "Creativity",
   qualityOf 11 3 "Inspiration again", qualityOf 40 8 "Peace", qualityOf 41 8 "Serenity"]

/-- A database that does not change: a fetch returns the rows of
`qualitiesTable` whose `ProgrammerID` is among the keys, in table order. -/
def qualitiesPreloadEnv : PreloadEnv :=
  { pagedByKeys := fun _ keys _ _ =>
      .ok (qualitiesTable.filter (fun r => decide (r.get "ProgrammerID" ∈ keys)))
    rangeChildren := id }

/-- The programmers 3 and 8 in memory, at the addresses 0 and 1, with nothing
preloaded. -/
def programmersSession : PreloadSession :=
  ⟨[programmer 3 [], programmer 8 []], []⟩

/-- The requested tree of the fields `Qualities` and `Qualities.Tags`. -/
def qualitiesTagsRequest : Node :=
  .mk "*hades_test.Programmer" ⟨"", ""⟩
    [("Qualities", .mk "Qualities" ⟨"Qualities", ""⟩ [("Tags", .mk "Tags" ⟨"Tags", ""⟩ [])])]

/-- The requested tree of the field `Qualities` alone. -/
def qualitiesRequest : Node :=
  .mk "*hades_test.Programmer" ⟨"", ""⟩ [("Qualities", .mk "Qualities" ⟨"Qualities", ""⟩ [])]

/-- Two records of programmer 3 in memory, at the addresses 0 and 1, with nothing
preloaded. -/
def twinProgrammersSession : PreloadSession :=
  ⟨[programmer 3 [], programmer 3 []], []⟩

/-- The slice `[]*Programmer` of the records at the addresses 0 and 1. -/
def programmersValue : RValue := .slice (.named "hades_test" "Programmer" Kind.Struct) [0, 1]

/-- The node of the type tree `programmerTree` for `Qualities`. -/
def qualitiesInfo : RecordInfo :=
  .mk "Qualities" (.ptr (.named "hades_test" "Quality" Kind.Struct)) [] (some qualitiesRelationship) none
    qualityModel

/-- The model `Bar{ID int64}` of `Test_PreloadEdgeCases`. -/
def barModel : ModelStruct :=
  ⟨.named "hades_test" "Bar" Kind.Struct, "bars", [.mk "ID" "id" true true false int64Type none []]⟩

/-- The model `Foo{ID int64; BarID int64; Bar *Bar}` of `Test_PreloadEdgeCases`. -/
def fooModel : ModelStruct :=
  ⟨.named "hades_test" "Foo" Kind.Struct, "foos",
    [.mk "ID" "id" true true false int64Type none [],
     .mk "BarID" "bar_id" false true false int64Type none [],
     .mk "Bar" "bar" false false false (.ptr (.named "hades_test" "Bar" Kind.Struct))
       (some (belongsTo "BarID" "bar_id")) []]⟩

/-- The context of `Test_PreloadEdgeCases`. -/
def fooContext : Context :=
  { ScopeMap := ⟨[(.ptr (.named "hades_test" "Foo" Kind.Struct), fooModel),
                  (.ptr (.named "hades_test" "Bar" Kind.Struct), barModel)]⟩
    FromDBName := id
    EscapeIdentifier := id }

/-- The record `&Foo{ID: 1, BarID: 999}` of `Test_PreloadEdgeCases` in memory, at
the address 0. -/
def fooSession : PreloadSession :=
  ⟨[[("ID", .int 1), ("BarID", .int 999), ("Bar", .ptr none)]], []⟩

/-- A type tree of `*Foo` whose one child is the belongs-to relationship `Bar`. -/
def fooTree : RecordInfo :=
  .mk "*hades_test.Foo" (.ptr (.named "hades_test" "Foo" Kind.Struct))
    [.mk "Bar" (.ptr (.named "hades_test" "Bar" Kind.Struct)) [] (some (belongsTo "BarID" "bar_id")) none
      barModel]
    none none fooModel

/-- The model `Language{ID int64; Words []*Word}` of `Test_ManyToMany`. -/
def languageModel : ModelStruct :=
  ⟨.named "hades_test" "Language" Kind.Struct, "languages",
    [.mk "ID" "id" true true false int64Type none [],
     .mk "Words" "words" false false false (.slice (.ptr (.named "hades_test" "Word" Kind.Struct)))
       (some ⟨"many_to_many", ["ID"], ["language_id"], ["ID"], ["word_id"],
         some ⟨true, "language_words", [⟨"language_id", "id"⟩], [⟨"word_id", "id"⟩]⟩⟩) []]⟩

/-- The model `Word{ID string; Comment string}` of `Test_ManyToMany`, without
its field `Languages`. -/
def wordModel : ModelStruct :=
  ⟨.named "hades_test" "Word" Kind.Struct, "words",
    [.mk "ID" "id" true true false stringType none [],
     .mk "Comment" "comment" false true false stringType none []]⟩

/-- The join model `LanguageWord` of `Test_ManyToMany`. -/
def languageWordModel : ModelStruct :=
  ⟨.named "hades_test" "LanguageWord" Kind.Struct, "language_words",
    [.mk "LanguageID" "language_id" true true false int64Type none [],
     .mk "WordID" "word_id" true true false stringType none []]⟩

/-- The context of `Test_ManyToMany`. -/
def languageContext : Context :=
  { ScopeMap := ⟨[(.ptr (.named "hades_test" "Language" Kind.Struct), languageModel),
                  (.ptr (.named "hades_test" "Word" Kind.Struct), wordModel),
                  (.ptr (.named "hades_test" "LanguageWord" Kind.Struct), languageWordModel)]⟩
    FromDBName := id
    EscapeIdentifier := id }

/-- The relationship descriptor of `Language.Words`. -/
def wordsRelationship : Relationship :=
  ⟨"many_to_many", ["ID"], ["language_id"], ["ID"], ["word_id"],
    some ⟨true, "language_words", [⟨"language_id", "id"⟩], [⟨"word_id", "id"⟩]⟩⟩

/-- A type tree of `*Language` whose one child is the many-to-many relationship
`Words`. -/
def languageTree : RecordInfo :=
  .mk "*hades_test.Language" (.ptr (.named "hades_test" "Language" Kind.Struct))
    [.mk "Words" (.ptr (.named "hades_test" "Word" Kind.Struct)) [] (some wordsRelationship) none wordModel]
    none none languageModel

/-- The languages 123 and 456 in memory, at the addresses 0 and 1. -/
def languagesSession : PreloadSession :=
  ⟨[[("ID", .int 123), ("Words", .ptrs [])], [("ID", .int 456), ("Words", .ptrs [])]], []⟩

/-- A has_one descriptor: the foreign-key field is on the associated model and
refers to the field `ID` of the owner. -/
def hasOne (foreignField : String) (foreignDB : String) : Relationship :=
  { Kind := "has_one"
    ForeignFieldNames := [foreignField]
    ForeignDBNames := [foreignDB]
    AssociationForeignFieldNames := ["ID"]
    AssociationForeignDBNames := ["id"]
    JoinTableHandler := none }

/-- The model `Drawback{ID int64; Comment string; SpecialtyID string}` of
`Test_HasOne`. -/
def drawbackModel : ModelStruct :=
  ⟨.named "hades_test" "Drawback" Kind.Struct, "drawbacks",
    [.mk "ID" "id" true true false int64Type none [],
     .mk "Comment" "comment" false true false stringType none [],
     .mk "SpecialtyID" "specialty_id" false true false stringType none []]⟩

/-- The model `Specialty{ID string; CountryID int64; Drawback *Drawback}` of
`Test_HasOne`. -/
def specialtyModel : ModelStruct :=
  ⟨.named "hades_test" "Specialty" Kind.Struct, "specialties",
    [.mk "ID" "id" true true false stringType none [],
     .mk "CountryID" "country_id" false true false int64Type none [],
     .mk "Drawback" "drawback" false false false (.ptr (.named "hades_test" "Drawback" Kind.Struct))
       (some (hasOne "SpecialtyID" "specialty_id")) []]⟩

/-- The model `Country{ID int64; Desc string; Specialty *Specialty}` of
`Test_HasOne`. -/
def countryModel : ModelStruct :=
  ⟨.named "hades_test" "Country" Kind.Struct, "countries",
    [.mk "ID" "id" true true false int64Type none [],
     .mk "Desc" "desc" false true false stringType none [],
     .mk "Specialty" "specialty" false false false (.ptr (.named "hades_test" "Specialty" Kind.Struct))
       (some (hasOne "CountryID" "country_id")) []]⟩

/-- The context of `Test_HasOne`. -/
def countryContext : Context :=
  { ScopeMap := ⟨[(.ptr (.named "hades_test" "Country" Kind.Struct), countryModel),
                  (.ptr (.named "hades_test" "Specialty" Kind.Struct), specialtyModel),
                  (.ptr (.named "hades_test" "Drawback" Kind.Struct), drawbackModel)]⟩
    FromDBName := id
    EscapeIdentifier := id }

/-- A visited set that marks the model `Human`. -/
def humanVisited : VisitMap := [(.named "hades_test" "Human" Kind.Struct, true)]

/-- The context of `Test_HasMany`. -/
def programmerContext : Context :=
  { ScopeMap := ⟨[(.ptr (.named "hades_test" "Quality" Kind.Struct), qualityModel),
                  (.ptr (.named "hades_test" "Programmer" Kind.Struct), programmerModel)]⟩
    FromDBName := id
    EscapeIdentifier := id }

/-- The context of `Test_ManyToMany` without the join model `LanguageWord`. -/
def languageContextWithoutJoinModel : Context :=
  { ScopeMap := ⟨[(.ptr (.named "hades_test" "Language" Kind.Struct), languageModel),
                  (.ptr (.named "hades_test" "Word" Kind.Struct), wordModel)]⟩
    FromDBName := id
    EscapeIdentifier := id }

/-! ## The relationship walker on the example registry -/

/-- C1 (evaluated on the code): walking `*Human` of the registry {Human, Fate,
Person} with no association list and no visited model returns a node without
children, although the field `Fate` carries a relationship descriptor and its
target `*Fate` is a registered model that is not on the descent path. -/
theorem WalkType_drops_registered_relationship :
    ∃ r ri, WalkType exampleContext [] "Human" (.ptr (.named "hades_test" "Human" Kind.Struct)) [] []
        = some r ∧ r.ret = .ok (some ri) ∧ ri.Children = [] ∧
      (humanModel.StructFields.filter (fun sf => sf.Relationship.isSome)).map StructField.Name
        = ["Fate"] :=
  ⟨_, _, rfl, rfl, rfl, by decide⟩

/-- C2 (evaluated on the code): walking `*Human` with the association list
`["Fate"]` fails with the error "Human.Fate is not an explicitly listed model",
although `Fate` is a field of `Human`, has a relationship descriptor, and its
target `*Fate` is registered. -/
theorem WalkType_rejects_listed_relationship :
    ∃ r, WalkType exampleContext [] "Human" (.ptr (.named "hades_test" "Human" Kind.Struct)) [] ["Fate"]
        = some r ∧
      r.ret = .error (.wrap
        (.notListedModel "Human" "Fate" (.ptr (.named "hades_test" "Fate" Kind.Struct)))
        "visiting field Fate") :=
  ⟨_, rfl, rfl⟩

/-- C3 (evaluated on the code): walking the self-referential model `*Person`
with the association list `["Parent"]` returns an error for the field `Parent`,
whose target model is the root itself and hence on the descent path. -/
theorem WalkType_cycle_field_is_an_error :
    ∃ r, WalkType exampleContext [] "Person" (.ptr (.named "hades_test" "Person" Kind.Struct)) [] ["Parent"]
        = some r ∧
      r.ret = .error (.wrap
        (.notListedModel "Person" "Parent" (.ptr (.named "hades_test" "Person" Kind.Struct)))
        "visiting field Parent") :=
  ⟨_, rfl, rfl⟩

/-! ## `createTable` -/

theorem createFold_append (ms : ModelStruct) (l₁ l₂ : List StructField) (st : CreateState) :
    createFold ms (l₁ ++ l₂) st =
      match createFold ms l₁ st with
      | .error err => .error err
      | .ok st => createFold ms l₂ st := by
  induction l₁ generalizing st with
  | nil => simp [createFold]
  | cons sf rest ih =>
    simp only [List.cons_append, createFold]
    cases sqliteType sf.Typ with
    | none => simp
    | some typ => simp [ih]

mutual
theorem createTable_processField_eq (ms : ModelStruct) :
    ∀ (sf : StructField) (st : CreateState),
      createTable.processField ms sf st = createFold ms sf.persisted st
  | .mk _ DBName IsPrimaryKey IsNormal IsSquashed Typ _ SquashedFields, st => by
    have ih := createTable_processFields_eq ms SquashedFields
    rw [createTable.processField, StructField.persisted, createFold_append]
    cases IsSquashed <;> cases IsNormal <;>
      simp [ih, createFold, StructField.DBName, StructField.Typ, StructField.IsPrimaryKey]
theorem createTable_processFields_eq (ms : ModelStruct) :
    ∀ (fields : List StructField) (st : CreateState),
      createTable.processFields ms fields st = createFold ms (persistedFields fields) st
  | [], st => by simp [createTable.processFields, persistedFields, createFold]
  | sf :: rest, st => by
    rw [createTable.processFields, persistedFields, createFold_append,
      createTable_processField_eq ms sf st]
    cases createFold ms sf.persisted st with
    | error err => rfl
    | ok st => exact createTable_processFields_eq ms rest st
end

theorem createFold_ok (ms : ModelStruct) (l : List StructField) (st : CreateState)
    (h : ∀ sf ∈ l, sqliteType sf.Typ ≠ none) :
    createFold ms l st =
      .ok ⟨st.columns ++ l.map columnDef,
        st.pks ++ (l.filter StructField.IsPrimaryKey).map StructField.DBName⟩ := by
  induction l generalizing st with
  | nil => simp [createFold]
  | cons sf rest ih =>
    have hsf := h sf (List.mem_cons_self _ _)
    have hrest : ∀ sf' ∈ rest, sqliteType sf'.Typ ≠ none :=
      fun sf' hm => h sf' (List.mem_cons_of_mem _ hm)
    rw [createFold]
    cases hty : sqliteType sf.Typ with
    | none => exact absurd hty hsf
    | some typ =>
      simp only [ih _ hrest]
      cases hpk : sf.IsPrimaryKey <;> simp [columnDef, hty, hpk, List.filter_cons]

theorem createFold_unsupported (ms : ModelStruct) (l : List StructField) (st : CreateState)
    (h : ∃ sf ∈ l, sqliteType sf.Typ = none) :
    ∃ sf ∈ l, sqliteType sf.Typ = none ∧
      createFold ms l st = .error (.unsupportedFieldType sf.Typ ms.ModelType) := by
  induction l generalizing st with
  | nil => simp at h
  | cons sf rest ih =>
    cases hty : sqliteType sf.Typ with
    | none => exact ⟨sf, List.mem_cons_self _ _, hty, by simp [createFold, hty]⟩
    | some typ =>
      obtain ⟨sf', hmem, hnone⟩ := h
      rcases List.mem_cons.mp hmem with rfl | hmem
      · simp [hty] at hnone
      · obtain ⟨sf'', hm, hn, heq⟩ :=
          ih ⟨st.columns ++ [⟨sf.DBName, typ, sf.IsPrimaryKey⟩],
            if sf.IsPrimaryKey then st.pks ++ [sf.DBName] else st.pks⟩ ⟨sf', hmem, hnone⟩
        exact ⟨sf'', List.mem_cons_of_mem _ hm, hn, by simp [createFold, hty, heq]⟩

theorem createTable_query_ok (ms : ModelStruct)
    (htypes : ∀ sf ∈ persistedFields ms.StructFields, sqliteType sf.Typ ≠ none)
    (hpk : ∃ sf ∈ persistedFields ms.StructFields, sf.IsPrimaryKey = true) :
    createTable.query ms = .ok (.createTable ms.TableName (modelColumns ms) (primaryKeys ms)) := by
  obtain ⟨sf, hmem, hsf⟩ := hpk
  have hpos : 0 < (primaryKeys ms).length := by
    apply List.length_pos_of_mem (a := sf.DBName)
    exact List.mem_map.mpr ⟨sf, List.mem_filter.mpr ⟨hmem, hsf⟩, rfl⟩
  simp only [createTable.query, createTable_processFields_eq, createFold_ok ms _ _ htypes,
    List.nil_append]
  simp only [primaryKeys] at hpos
  split
  · rfl
  · rename_i hlen
    exact absurd hpos hlen

theorem createTable_query_unsupported (ms : ModelStruct)
    (h : ∃ sf ∈ persistedFields ms.StructFields, sqliteType sf.Typ = none) :
    ∃ sf ∈ persistedFields ms.StructFields, sqliteType sf.Typ = none ∧
      createTable.query ms = .error (.unsupportedFieldType sf.Typ ms.ModelType) := by
  obtain ⟨sf, hm, hn, heq⟩ := createFold_unsupported ms _ ⟨[], []⟩ h
  exact ⟨sf, hm, hn, by simp [createTable.query, createTable_processFields_eq, heq]⟩

/-- A query that `createTable` manages to build is the `CREATE TABLE` of the
model's columns and primary keys, and every persisted field has a supported
type. -/
theorem createTable_query_inv (ms : ModelStruct) (query : Stmt)
    (h : createTable.query ms = .ok query) :
    query = .createTable ms.TableName (modelColumns ms) (primaryKeys ms) ∧
      (∀ sf ∈ persistedFields ms.StructFields, sqliteType sf.Typ ≠ none) ∧
      primaryKeys ms ≠ [] := by
  have htypes : ∀ sf ∈ persistedFields ms.StructFields, sqliteType sf.Typ ≠ none := by
    intro sf hm hn
    obtain ⟨sf', _, _, heq⟩ := createTable_query_unsupported ms ⟨sf, hm, hn⟩
    rw [heq] at h
    cases h
  have hq := h
  simp only [createTable.query, createTable_processFields_eq, createFold_ok ms _ _ htypes,
    List.nil_append] at hq
  split at hq
  · rename_i hlen
    refine ⟨?_, htypes, ?_⟩
    · cases hq
      rfl
    · intro hnil
      simp only [primaryKeys] at hnil
      simp [hnil] at hlen
  · cases hq

/-- C9: for a model whose persisted fields all have a supported type and one of
which is a primary key, `createTable` hands exactly one query to `ExecRaw`: the
`CREATE TABLE` of the model's table with one column definition per persisted
field in model field order (squashed structs flattened, fields that are not
normal omitted), NOT NULL on exactly the primary-key fields, and one trailing
PRIMARY KEY clause listing the primary-key DB names in field order; its text is
`CREATE TABLE <t> (<col> <TYPE>[ NOT NULL], ..., PRIMARY KEY (<pk1>, ...))`, and
for `User{ID, FirstName}` (identifiers escaped to themselves) it is
`CREATE TABLE users (id INTEGER NOT NULL, first_name TEXT, PRIMARY KEY (id))`. -/
theorem createTable_issues_one_create_statement {σ : Type} (q : Querier σ) (s : Session σ)
    (ms : ModelStruct)
    (htypes : ∀ sf ∈ persistedFields ms.StructFields, sqliteType sf.Typ ≠ none)
    (hpk : ∃ sf ∈ persistedFields ms.StructFields, sf.IsPrimaryKey = true) :
    (∃ succeeded : Bool, (createTable q s ms).1.log = s.log ++
      [(Stmt.createTable ms.TableName
          ((persistedFields ms.StructFields).map
            (fun sf => ⟨sf.DBName, (sqliteType sf.Typ).getD "", sf.IsPrimaryKey⟩))
          (((persistedFields ms.StructFields).filter StructField.IsPrimaryKey).map
            StructField.DBName), succeeded)]) ∧
    (∀ (esc : String → String) (columns : List ColumnDef) (pks : List String),
      (Stmt.createTable ms.TableName columns pks).sql esc =
        "CREATE TABLE " ++ esc ms.TableName ++ " (" ++
          ", ".intercalate
            (columns.map (fun col =>
                esc col.DBName ++ " " ++ col.sqliteType ++
                  (if col.notNull then " NOT NULL" else "")) ++
              ["PRIMARY KEY (" ++ ", ".intercalate pks ++ ")"]) ++ ")") ∧
    (createTable.query userModel).toOption.map (Stmt.sql id) =
      some "CREATE TABLE users (id INTEGER NOT NULL, first_name TEXT, PRIMARY KEY (id))" := by
  refine ⟨?_, ?_, by decide⟩
  · have hq := createTable_query_ok ms htypes hpk
    simp only [createTable, hq, Session.exec]
    cases q.ExecRaw (Stmt.createTable ms.TableName (modelColumns ms) (primaryKeys ms)) s.db with
    | error err => exact ⟨false, rfl⟩
    | ok db => exact ⟨true, rfl⟩
  · intro esc columns pks
    rfl

/-- The hypotheses of C9 hold for `User{ID, FirstName}` run against the empty
reference database, where the single query succeeds. -/
theorem createTable_issues_one_create_statement_witness :
    (∃ succeeded : Bool,
      (createTable DB.querier ⟨emptyDB, zeroStats, []⟩ userModel).1.log =
        [] ++ [(Stmt.createTable userModel.TableName
          ((persistedFields userModel.StructFields).map
            (fun sf => ⟨sf.DBName, (sqliteType sf.Typ).getD "", sf.IsPrimaryKey⟩))
          (((persistedFields userModel.StructFields).filter StructField.IsPrimaryKey).map
            StructField.DBName), succeeded)]) ∧
    (createTable DB.querier ⟨emptyDB, zeroStats, []⟩ userModel).1.log.map
        (fun e => (e.1.sql id, e.2)) =
      [("CREATE TABLE users (id INTEGER NOT NULL, first_name TEXT, PRIMARY KEY (id))", true)] :=
  ⟨(createTable_issues_one_create_statement DB.querier ⟨emptyDB, zeroStats, []⟩ userModel
      (by decide) (by decide)).1, by decide⟩

theorem ColumnMap_set_keys (m : ColumnMap) (name : String) (ptir : PragmaTableInfoRow) :
    (m.set name ptir).map Prod.fst =
      (m.map Prod.fst).filter (fun k => !decide (k = name)) ++ [name] := by
  simp [ColumnMap.set, List.filter_map, Function.comp_def]

theorem oldColumns_foldl (pti : List PragmaTableInfoRow) (m : ColumnMap)
    (hm : (m.map Prod.fst).Nodup) :
    ((pti.foldl (fun m ptir => m.set ptir.Name ptir) m).map Prod.fst).Nodup ∧
      ∀ k, k ∈ (pti.foldl (fun m ptir => m.set ptir.Name ptir) m).map Prod.fst ↔
        k ∈ m.map Prod.fst ∨ k ∈ liveColumns pti := by
  induction pti generalizing m with
  | nil => simp [liveColumns, hm]
  | cons ptir rest ih =>
    have hnodup : ((m.set ptir.Name ptir).map Prod.fst).Nodup := by
      rw [ColumnMap_set_keys]
      refine List.Nodup.append (hm.filter _) (List.nodup_singleton _) ?_
      intro k hk hk'
      simp only [List.mem_filter, List.mem_singleton] at hk hk'
      simp [hk'] at hk
    obtain ⟨h1, h2⟩ := ih (m.set ptir.Name ptir) hnodup
    refine ⟨h1, fun k => ?_⟩
    rw [List.foldl_cons, h2 k, ColumnMap_set_keys]
    simp only [liveColumns, List.mem_append, List.mem_filter, List.mem_singleton, List.map_cons,
      List.mem_cons, Bool.not_eq_true', decide_eq_false_iff_not]
    by_cases hk : k = ptir.Name <;> simp [hk]

theorem oldColumns_has (pti : List PragmaTableInfoRow) (name : String) :
    (syncTable.oldColumns pti).has name = true ↔ name ∈ liveColumns pti := by
  have h := (oldColumns_foldl pti [] (by simp)).2 name
  simp only [List.map_nil, List.not_mem_nil, false_or] at h
  rw [← h]
  simp [ColumnMap.has, syncTable.oldColumns]

theorem oldColumns_length (pti : List PragmaTableInfoRow) :
    (syncTable.oldColumns pti).length = (liveColumns pti).dedup.length := by
  have h := oldColumns_foldl pti [] (by simp)
  have hset : ((syncTable.oldColumns pti).map Prod.fst).toFinset = (liveColumns pti).toFinset := by
    ext k
    simp only [List.mem_toFinset]
    have := h.2 k
    simp only [List.map_nil, List.not_mem_nil, false_or] at this
    exact this
  have hcard := List.toFinset_card_of_nodup h.1
  rw [List.length_map] at hcard
  rw [← List.card_toFinset, ← hset]
  exact hcard.symm

theorem foldl_countStep (oldColumns : ColumnMap) (l : List StructField) (st : CountState) :
    l.foldl (countStep oldColumns) st =
      ⟨st.numNewCols + l.length,
        st.isMissingCols || l.any (fun sf => !oldColumns.has sf.DBName)⟩ := by
  induction l generalizing st with
  | nil => simp
  | cons sf rest ih =>
    simp only [List.foldl_cons, ih, countStep, List.length_cons, List.any_cons, Bool.or_assoc]
    congr 1
    omega

mutual
theorem syncTable_countField_eq (oldColumns : ColumnMap) :
    ∀ (sf : StructField) (st : CountState),
      syncTable.countField oldColumns sf st = (sf.persisted).foldl (countStep oldColumns) st
  | .mk _ DBName _ IsNormal IsSquashed _ _ SquashedFields, st => by
    have ih := syncTable_countFields_eq oldColumns SquashedFields
    cases IsSquashed <;> cases IsNormal <;> cases h : oldColumns.has DBName <;>
      simp [syncTable.countField, StructField.persisted, ih, countStep, StructField.DBName, h]
theorem syncTable_countFields_eq (oldColumns : ColumnMap) :
    ∀ (fields : List StructField) (st : CountState),
      syncTable.countFields oldColumns fields st =
        (persistedFields fields).foldl (countStep oldColumns) st
  | [], st => by simp [syncTable.countFields, persistedFields]
  | sf :: rest, st => by
    simp [syncTable.countFields, persistedFields, syncTable_countField_eq oldColumns sf,
      syncTable_countFields_eq oldColumns rest]
end

mutual
theorem syncTable_columnsField_eq (oldColumns : ColumnMap) :
    ∀ (sf : StructField) (columns : List String),
      syncTable.columnsField oldColumns sf columns =
        columns ++ ((sf.persisted).filter (fun sf => oldColumns.has sf.DBName)).map
          StructField.DBName
  | .mk _ DBName _ IsNormal IsSquashed _ _ SquashedFields, columns => by
    have ih := syncTable_columnsFields_eq oldColumns SquashedFields
    cases IsSquashed <;> cases IsNormal <;> cases h : oldColumns.has DBName <;>
      simp [syncTable.columnsField, StructField.persisted, ih, StructField.DBName, h,
        List.filter_cons]
theorem syncTable_columnsFields_eq (oldColumns : ColumnMap) :
    ∀ (fields : List StructField) (columns : List String),
      syncTable.columnsFields oldColumns fields columns =
        columns ++ ((persistedFields fields).filter (fun sf => oldColumns.has sf.DBName)).map
          StructField.DBName
  | [], columns => by simp [syncTable.columnsFields, persistedFields]
  | sf :: rest, columns => by
    simp [syncTable.columnsFields, persistedFields, syncTable_columnsField_eq oldColumns sf,
      syncTable_columnsFields_eq oldColumns rest]
end

/-- The test `!isMissingCols && numOldCols == numNewCols` of `syncTable` holds
exactly when the live table matches the model. -/
theorem syncTable_current_iff (pti : List PragmaTableInfoRow) (ms : ModelStruct) :
    (!(syncTable.countFields (syncTable.oldColumns pti) ms.StructFields ⟨0, false⟩).isMissingCols
      && (syncTable.oldColumns pti).length ==
        (syncTable.countFields (syncTable.oldColumns pti) ms.StructFields
          ⟨0, false⟩).numNewCols) = true ↔ Matches pti ms := by
  rw [syncTable_countFields_eq, foldl_countStep, oldColumns_length]
  simp only [Matches, Bool.false_or, Bool.and_eq_true, Bool.not_eq_true', beq_iff_eq, zero_add]
  rw [and_comm]
  refine and_congr Iff.rfl ?_
  rw [← Bool.not_eq_true, List.any_eq_true]
  constructor
  · intro h sf hsf
    rw [← oldColumns_has]
    by_contra hc
    exact h ⟨sf, hsf, by simpa using hc⟩
  · rintro h ⟨sf, hsf, hno⟩
    have := (oldColumns_has pti sf.DBName).mpr (h sf hsf)
    simp [this] at hno

/-- The column list of the copy-back query: the persisted fields whose DB name
is a live column, in model field order. -/
theorem syncTable_columns_eq (pti : List PragmaTableInfoRow) (ms : ModelStruct) :
    syncTable.columnsFields (syncTable.oldColumns pti) ms.StructFields [] =
      commonColumns (liveColumns pti) ms := by
  rw [syncTable_columnsFields_eq, List.nil_append, commonColumns]
  congr 1
  apply List.filter_congr
  intro sf _
  rw [Bool.eq_iff_iff, oldColumns_has]
  simp

/-! ## `syncTable`: the three paths -/

theorem Save_log {σ : Type} (saved : σ) (r : Session σ × Option Error) :
    (Save saved r).1.log = r.1.log ∧ (Save saved r).1.stats = r.1.stats ∧ (Save saved r).2 = r.2 := by
  unfold Save
  rcases r with ⟨s, _ | err⟩ <;> simp

theorem Save_ok {σ : Type} (saved : σ) (s : Session σ) : Save saved (s, none) = (s, none) :=
  rfl

/-- The path taken when the table info is empty. -/
theorem syncTable_absent {σ : Type} (q : Querier σ) (s : Session σ) (ms : ModelStruct)
    (hpti : q.PragmaTableInfo ms.TableName s.db = .ok []) :
    syncTable q s ms =
      createTable q { s with stats := { s.stats with NumCreated := s.stats.NumCreated + 1 } } ms := by
  simp [syncTable, hpti]

/-- The path taken when the live table matches the model. -/
theorem syncTable_current {σ : Type} (q : Querier σ) (s : Session σ) (ms : ModelStruct)
    (pti : List PragmaTableInfoRow) (hpti : q.PragmaTableInfo ms.TableName s.db = .ok pti)
    (hne : pti ≠ []) (hmatch : Matches pti ms) :
    syncTable q s ms =
      match q.ExecRaw (.pragmaForeignKeys false) s.db with
      | .ok db =>
        (⟨db, { s.stats with NumCurrent := s.stats.NumCurrent + 1 },
          s.log ++ [(.pragmaForeignKeys false, true)]⟩, none)
      | .error _ => (⟨s.db, s.stats, s.log ++ [(.pragmaForeignKeys false, false)]⟩, none) := by
  have hcond := (syncTable_current_iff pti ms).mpr hmatch
  have hlen : pti.length ≠ 0 := by simpa using hne
  simp only [syncTable, hpti, hlen, if_false, syncTable.body, Session.exec]
  cases h : q.ExecRaw (.pragmaForeignKeys false) s.db with
  | error err => simp [Save]
  | ok db => simp [hcond, Save]

/-- The path taken when the live table diverges from the model, the query of
`createTable` can be built and no query fails: the seven queries of the
migration are run in order, the result is the state they leave, and
`NumMigrated` goes up by one. -/
theorem syncTable_migrate {σ : Type} (q : Querier σ) (s : Session σ) (ms : ModelStruct)
    (pti : List PragmaTableInfoRow) (query : Stmt)
    (hpti : q.PragmaTableInfo ms.TableName s.db = .ok pti) (hne : pti ≠ [])
    (hdiv : ¬ Matches pti ms) (hq : createTable.query ms = .ok query)
    (hok : ∀ e ∈ (syncTable q s ms).1.log, e.2 = true) :
    ∃ db, q.runAll (migrationStatements pti ms query) s.db = some db ∧
      syncTable q s ms =
        (⟨db, { s.stats with NumMigrated := s.stats.NumMigrated + 1 },
          s.log ++ (migrationStatements pti ms query).map (fun stmt => (stmt, true))⟩, none) := by
  have hcond : (!(syncTable.countFields (syncTable.oldColumns pti) ms.StructFields
      ⟨0, false⟩).isMissingCols && (syncTable.oldColumns pti).length ==
        (syncTable.countFields (syncTable.oldColumns pti) ms.StructFields
          ⟨0, false⟩).numNewCols) = false := by
    rw [Bool.eq_false_iff]
    exact fun h => hdiv ((syncTable_current_iff pti ms).mp h)
  have hlen : pti.length ≠ 0 := by simpa using hne
  have hcols := syncTable_columns_eq pti ms
  have heq : syncTable q s ms = Save s.db (syncTable.body q s ms pti) := by
    simp [syncTable, hpti, hlen]
  rw [heq] at hok ⊢
  rw [(Save_log _ _).1] at hok
  simp only [syncTable.body, Session.exec, dropTable, createTable, hq, hcond, hcols] at hok ⊢
  cases h1 : q.ExecRaw (.pragmaForeignKeys false) s.db with
  | error err =>
    simp only [h1] at hok
    exact absurd (hok (.pragmaForeignKeys false, false) (by simp)) (by simp)
  | ok db1 =>
    simp only [h1, Bool.false_eq_true, if_false] at hok ⊢
    cases h2 : q.ExecRaw (.createTableAs (syncTable.tempName ms.TableName) ms.TableName) db1 with
    | error err =>
      simp only [h2] at hok
      exact absurd (hok (.createTableAs (syncTable.tempName ms.TableName) ms.TableName, false)
        (by simp)) (by simp)
    | ok db2 =>
      simp only [h2] at hok ⊢
      cases h3 : q.ExecRaw (.dropTable ms.TableName) db2 with
      | error err =>
        simp only [h3] at hok
        exact absurd (hok (.dropTable ms.TableName, false) (by simp)) (by simp)
      | ok db3 =>
        simp only [h3] at hok ⊢
        cases h4 : q.ExecRaw query db3 with
        | error err =>
          simp only [h4] at hok
          exact absurd (hok (query, false) (by simp)) (by simp)
        | ok db4 =>
          simp only [h4] at hok ⊢
          cases h5 : q.ExecRaw (.insertSelect ms.TableName (commonColumns (liveColumns pti) ms)
              (syncTable.tempName ms.TableName)) db4 with
          | error err =>
            simp only [h5] at hok
            exact absurd (hok (.insertSelect ms.TableName (commonColumns (liveColumns pti) ms)
              (syncTable.tempName ms.TableName), false) (by simp)) (by simp)
          | ok db5 =>
            simp only [h5] at hok ⊢
            cases h6 : q.ExecRaw (.dropTable (syncTable.tempName ms.TableName)) db5 with
            | error err =>
              simp only [h6] at hok
              exact absurd (hok (.dropTable (syncTable.tempName ms.TableName), false)
                (by simp)) (by simp)
            | ok db6 =>
              simp only [h6] at hok ⊢
              cases h7 : q.ExecRaw (.pragmaForeignKeys true) db6 with
              | error err =>
                simp only [h7] at hok
                exact absurd (hok (.pragmaForeignKeys true, false) (by simp)) (by simp)
              | ok db7 =>
                refine ⟨db7, ?_, ?_⟩
                · simp [migrationStatements, Querier.runAll, h1, h2, h3, h4, h5, h6, h7]
                · simp [migrationStatements, Save]

/-! ## The reference storage engine -/

theorem tempName_ne (tableName : String) : syncTable.tempName tableName ≠ tableName := by
  intro h
  have hlen := congrArg String.length h
  simp only [syncTable.tempName, String.length_append] at hlen
  have h1 : "__hades_migrate__".length = 17 := by decide
  have h2 : "__".length = 2 := by decide
  omega

theorem runAll_cons {σ : Type} (q : Querier σ) (stmt : Stmt) (rest : List Stmt) (db db' : σ)
    (h : q.runAll (stmt :: rest) db = some db') :
    ∃ db1, q.ExecRaw stmt db = .ok db1 ∧ q.runAll rest db1 = some db' := by
  rw [Querier.runAll] at h
  cases hexec : q.ExecRaw stmt db with
  | error err => simp [hexec] at h
  | ok db1 => exact ⟨db1, rfl, by simpa [hexec] using h⟩

theorem DB_exec_pragma (enable : Bool) (db db1 : DB)
    (h : DB.ExecRaw (.pragmaForeignKeys enable) db = .ok db1) : db1 = db := by
  simp only [DB.ExecRaw, Except.ok.injEq] at h
  exact h.symm

theorem DB_exec_createTableAs (tempName tableName : String) (db db1 : DB)
    (h : DB.ExecRaw (.createTableAs tempName tableName) db = .ok db1) :
    db tempName = none ∧ ∃ old, db tableName = some old ∧
      db1 = Function.update db tempName
        (some ⟨old.columns.map (fun col => ⟨col.Name, col.Typ, false, false⟩), old.rows⟩) := by
  simp only [DB.ExecRaw] at h
  cases htmp : db tempName with
  | some tmp => simp [htmp] at h
  | none =>
    cases ht : db tableName with
    | none => simp [htmp, ht] at h
    | some old =>
      simp only [htmp, ht, Except.ok.injEq] at h
      exact ⟨rfl, old, rfl, h.symm⟩

theorem DB_exec_dropTable (tableName : String) (db db1 : DB)
    (h : DB.ExecRaw (.dropTable tableName) db = .ok db1) :
    (∃ old, db tableName = some old) ∧ db1 = Function.update db tableName none := by
  simp only [DB.ExecRaw] at h
  cases ht : db tableName with
  | none => simp [ht] at h
  | some old =>
    simp only [ht, Except.ok.injEq] at h
    exact ⟨⟨old, rfl⟩, h.symm⟩

theorem DB_exec_createTable (tableName : String) (columns : List ColumnDef) (pks : List String)
    (db db1 : DB) (h : DB.ExecRaw (.createTable tableName columns pks) db = .ok db1) :
    db tableName = none ∧ columns ≠ [] ∧ (columns.map ColumnDef.DBName).Nodup ∧
      db1 = Function.update db tableName
        (some ⟨columns.map (fun col =>
          ⟨col.DBName, col.sqliteType, col.notNull, decide (col.DBName ∈ pks)⟩), []⟩) := by
  simp only [DB.ExecRaw] at h
  cases ht : db tableName with
  | some old => simp [ht] at h
  | none =>
    simp only [ht] at h
    split at h
    · cases h
    · rename_i hbad
      simp only [Bool.or_eq_true, List.isEmpty_iff, Bool.not_eq_true', decide_eq_false_iff_not,
        not_or, not_not] at hbad
      simp only [Except.ok.injEq] at h
      exact ⟨rfl, hbad.1, hbad.2, h.symm⟩

theorem DB_exec_insertSelect (tableName : String) (columns : List String) (tempName : String)
    (db db1 : DB) (h : DB.ExecRaw (.insertSelect tableName columns tempName) db = .ok db1) :
    ∃ t tmp, db tableName = some t ∧ db tempName = some tmp ∧
      db1 = Function.update db tableName
        (some { t with rows := t.rows ++ tmp.rows.map (Row.project columns) }) := by
  simp only [DB.ExecRaw] at h
  cases ht : db tableName with
  | none => simp [ht] at h
  | some t =>
    cases htmp : db tempName with
    | none => simp [ht, htmp] at h
    | some tmp =>
      simp only [ht, htmp] at h
      split at h
      · cases h
      · simp only [Except.ok.injEq] at h
        exact ⟨t, tmp, rfl, rfl, h.symm⟩

/-- What a migration whose seven queries all succeed does to the reference
database: the temp table did not exist before and does not exist after, the
live table is replaced by the table `createTable` creates, holding the old rows
restricted to the common columns, and no other table is touched. -/
theorem DB_migration_effect (db db' : DB) (ms : ModelStruct) (pti : List PragmaTableInfoRow)
    (columns : List ColumnDef) (pks : List String)
    (hrun : DB.querier.runAll
      (migrationStatements pti ms (.createTable ms.TableName columns pks)) db = some db') :
    ∃ old, db ms.TableName = some old ∧ db (syncTable.tempName ms.TableName) = none ∧
      columns ≠ [] ∧ (columns.map ColumnDef.DBName).Nodup ∧
      db' ms.TableName = some ⟨columns.map (fun col =>
          ⟨col.DBName, col.sqliteType, col.notNull, decide (col.DBName ∈ pks)⟩),
        old.rows.map (Row.project (commonColumns (liveColumns pti) ms))⟩ ∧
      ∀ name, name ≠ ms.TableName → db' name = db name := by
  have hne := tempName_ne ms.TableName
  obtain ⟨db1, h1, hrun⟩ := runAll_cons _ _ _ _ _ hrun
  obtain ⟨db2, h2, hrun⟩ := runAll_cons _ _ _ _ _ hrun
  obtain ⟨db3, h3, hrun⟩ := runAll_cons _ _ _ _ _ hrun
  obtain ⟨db4, h4, hrun⟩ := runAll_cons _ _ _ _ _ hrun
  obtain ⟨db5, h5, hrun⟩ := runAll_cons _ _ _ _ _ hrun
  obtain ⟨db6, h6, hrun⟩ := runAll_cons _ _ _ _ _ hrun
  obtain ⟨db7, h7, hrun⟩ := runAll_cons _ _ _ _ _ hrun
  simp only [Querier.runAll, Option.some.injEq] at hrun
  subst hrun
  have e1 := DB_exec_pragma false db db1 h1
  subst e1
  obtain ⟨htmp, old, hold, e2⟩ :=
    DB_exec_createTableAs (syncTable.tempName ms.TableName) ms.TableName _ db2 h2
  subst e2
  obtain ⟨_, e3⟩ := DB_exec_dropTable ms.TableName _ db3 h3
  subst e3
  obtain ⟨_, hcols, hnodup, e4⟩ := DB_exec_createTable ms.TableName columns pks _ db4 h4
  subst e4
  obtain ⟨t, tmp, ht, htmp', e5⟩ :=
    DB_exec_insertSelect ms.TableName (commonColumns (liveColumns pti) ms)
      (syncTable.tempName ms.TableName) _ db5 h5
  subst e5
  obtain ⟨_, e6⟩ := DB_exec_dropTable (syncTable.tempName ms.TableName) _ db6 h6
  subst e6
  have e7 := DB_exec_pragma true _ db7 h7
  subst e7
  simp only [Function.update_same, Function.update_noteq hne, Function.update_noteq hne.symm,
    Option.some.injEq] at ht htmp'
  subst ht htmp'
  refine ⟨old, hold, htmp, hcols, hnodup, ?_, ?_⟩
  · simp [Function.update_noteq hne.symm]
  · intro name hname
    by_cases htn : name = syncTable.tempName ms.TableName
    · subst htn
      simp [htmp]
    · simp [Function.update_noteq htn, Function.update_noteq hname]

/-! ## The log only grows -/

theorem Session_exec_log_mono {σ : Type} (q : Querier σ) (s : Session σ) (stmt : Stmt) :
    ∀ e ∈ s.log, e ∈ (s.exec q stmt).1.log := by
  intro e he
  unfold Session.exec
  split <;> exact List.mem_append_left _ he

theorem createTable_log_mono {σ : Type} (q : Querier σ) (s : Session σ) (ms : ModelStruct) :
    ∀ e ∈ s.log, e ∈ (createTable q s ms).1.log := by
  intro e he
  unfold createTable
  split
  · exact he
  · exact Session_exec_log_mono q s _ e he

theorem syncTable_body_log_mono {σ : Type} (q : Querier σ) (s : Session σ) (ms : ModelStruct)
    (pti : List PragmaTableInfoRow) : ∀ e ∈ s.log, e ∈ (syncTable.body q s ms pti).1.log := by
  intro e he
  unfold syncTable.body
  have x1 := Session_exec_log_mono q s (.pragmaForeignKeys false) e he
  rcases h1 : s.exec q (.pragmaForeignKeys false) with ⟨s1, _ | err⟩
  · rw [h1] at x1
    dsimp only
    split
    · exact x1
    · have x2 := Session_exec_log_mono q
        { s1 with stats := { s1.stats with NumMigrated := s1.stats.NumMigrated + 1 } }
        (.createTableAs (syncTable.tempName ms.TableName) ms.TableName) e x1
      rcases h2 : Session.exec q
        { s1 with stats := { s1.stats with NumMigrated := s1.stats.NumMigrated + 1 } }
        (.createTableAs (syncTable.tempName ms.TableName) ms.TableName) with ⟨s2, _ | err⟩
      · rw [h2] at x2
        dsimp only
        have x3 := Session_exec_log_mono q s2 (.dropTable ms.TableName) e x2
        unfold dropTable
        rcases h3 : s2.exec q (.dropTable ms.TableName) with ⟨s3, _ | err⟩
        · rw [h3] at x3
          dsimp only
          have x4 := createTable_log_mono q s3 ms e x3
          rcases h4 : createTable q s3 ms with ⟨s4, _ | err⟩
          · rw [h4] at x4
            dsimp only
            have x5 := Session_exec_log_mono q s4
              (.insertSelect ms.TableName
                (syncTable.columnsFields (syncTable.oldColumns pti) ms.StructFields [])
                (syncTable.tempName ms.TableName)) e x4
            rcases h5 : s4.exec q
              (.insertSelect ms.TableName
                (syncTable.columnsFields (syncTable.oldColumns pti) ms.StructFields [])
                (syncTable.tempName ms.TableName)) with ⟨s5, _ | err⟩
            · rw [h5] at x5
              dsimp only
              have x6 := Session_exec_log_mono q s5
                (.dropTable (syncTable.tempName ms.TableName)) e x5
              rcases h6 : s5.exec q (.dropTable (syncTable.tempName ms.TableName))
                with ⟨s6, _ | err⟩
              · rw [h6] at x6
                dsimp only
                have x7 := Session_exec_log_mono q s6 (.pragmaForeignKeys true) e x6
                rcases h7 : s6.exec q (.pragmaForeignKeys true) with ⟨s7, _ | err⟩
                · rw [h7] at x7
                  exact x7
                · rw [h7] at x7
                  exact x7
              · rw [h6] at x6
                exact x6
            · rw [h5] at x5
              exact x5
          · rw [h4] at x4
            exact x4
        · rw [h3] at x3
          exact x3
      · rw [h2] at x2
        exact x2
  · rw [h1] at x1
    exact x1

theorem syncTable_log_mono {σ : Type} (q : Querier σ) (s : Session σ) (ms : ModelStruct) :
    ∀ e ∈ s.log, e ∈ (syncTable q s ms).1.log := by
  intro e he
  unfold syncTable
  dsimp only
  split
  · exact he
  · split
    · exact createTable_log_mono q _ ms e he
    · rw [(Save_log _ _).1]
      exact syncTable_body_log_mono q s ms _ e he

theorem AutoMigrateEx_loop_log_mono {σ : Type} (q : Querier σ) (models : List ModelStruct)
    (s : Session σ) : ∀ e ∈ s.log, e ∈ (AutoMigrateEx.loop q models s).1.log := by
  induction models generalizing s with
  | nil => exact fun e he => he
  | cons m rest ih =>
    intro e he
    have hstep := syncTable_log_mono q s m e he
    rw [AutoMigrateEx.loop]
    rcases h : syncTable q s m with ⟨s1, _ | err⟩
    · rw [h] at hstep
      exact ih s1 e hstep
    · rw [h] at hstep
      exact hstep

/-! ## The migration path -/

theorem not_matches_iff (pti : List PragmaTableInfoRow) (ms : ModelStruct) :
    ¬ Matches pti ms ↔
      ((∃ sf ∈ persistedFields ms.StructFields, sf.DBName ∉ liveColumns pti) ∨
        (liveColumns pti).dedup.length ≠ (persistedFields ms.StructFields).length) := by
  unfold Matches
  constructor
  · intro h
    by_cases hlen : (liveColumns pti).dedup.length = (persistedFields ms.StructFields).length
    · left
      by_contra hall
      refine h ⟨hlen, fun sf hsf => ?_⟩
      by_contra hno
      exact hall ⟨sf, hsf, hno⟩
    · exact Or.inr hlen
  · rintro (⟨sf, hsf, hno⟩ | hlen) ⟨h1, h2⟩
    · exact hno (h2 sf hsf)
    · exact hlen h1

/-- C8 (counterexample): the table `users (name)` diverges from the model
`User{ID, FirstName}`, whose column `id` is not a live column. `syncTable`
counts one migration and returns no error, and it hands five queries to
`ExecRaw`, not seven: the copy-back query has an empty column list and fails,
and neither the `DROP TABLE` of the temp table nor `PRAGMA foreign_keys = 1`
follows. -/
theorem syncTable_migration_ends_at_failed_statement :
    DB.querier.PragmaTableInfo "users" legacyDB = .ok [⟨"name", "TEXT", false, false⟩] ∧
    (∃ sf ∈ persistedFields userModel.StructFields,
      sf.DBName ∉ liveColumns [⟨"name", "TEXT", false, false⟩]) ∧
    (syncTable DB.querier ⟨legacyDB, zeroStats, []⟩ userModel).2 = none ∧
    (syncTable DB.querier ⟨legacyDB, zeroStats, []⟩ userModel).1.stats = ⟨0, 1, 0⟩ ∧
    (syncTable DB.querier ⟨legacyDB, zeroStats, []⟩ userModel).1.log.map Prod.fst =
      [Stmt.pragmaForeignKeys false,
       Stmt.createTableAs "__hades_migrate__users__" "users",
       Stmt.dropTable "users",
       Stmt.createTable "users" (modelColumns userModel) (primaryKeys userModel),
       Stmt.insertSelect "users" [] "__hades_migrate__users__"] ∧
    (syncTable DB.querier ⟨legacyDB, zeroStats, []⟩ userModel).1.log.map Prod.fst ≠
      [Stmt.pragmaForeignKeys false,
       Stmt.createTableAs "__hades_migrate__users__" "users",
       Stmt.dropTable "users",
       Stmt.createTable "users" (modelColumns userModel) (primaryKeys userModel),
       Stmt.insertSelect "users"
         (((persistedFields userModel.StructFields).filter
           (fun sf => decide (sf.DBName ∈ liveColumns [⟨"name", "TEXT", false, false⟩]))).map
           StructField.DBName)
         "__hades_migrate__users__",
       Stmt.dropTable "__hades_migrate__users__",
       Stmt.pragmaForeignKeys true] :=
  ⟨rfl, by decide, by decide, by decide, rfl,
    fun h => absurd (congrArg List.length h) (by decide)⟩

/-- C8 (amended): when the live table has columns and diverges from the model
(a persisted field's DB name is not a live column, or the column counts
differ), every persisted field has a supported type, the model has a primary
key and no query fails, `syncTable` increments
`NumMigrated` by one and hands these seven queries to `ExecRaw`, in this order:
`PRAGMA foreign_keys = 0`; `CREATE TABLE __hades_migrate__<table>__ AS SELECT *
FROM <table>`; `DROP TABLE <table>`; the query of `createTable`; `INSERT INTO
<table> (<cols>) SELECT <cols> FROM __hades_migrate__<table>__`, `<cols>` being
the persisted fields whose DB name is a live column, in model field order;
`DROP TABLE __hades_migrate__<table>__`; `PRAGMA foreign_keys = 1`. -/
theorem syncTable_migration_statements {σ : Type} (q : Querier σ) (db : σ)
    (stats : AutoMigrateStats) (ms : ModelStruct) (pti : List PragmaTableInfoRow)
    (esc : String → String)
    (hpti : q.PragmaTableInfo ms.TableName db = .ok pti) (hne : pti ≠ [])
    (hdiv : (∃ sf ∈ persistedFields ms.StructFields, sf.DBName ∉ liveColumns pti) ∨
      (liveColumns pti).dedup.length ≠ (persistedFields ms.StructFields).length)
    (htypes : ∀ sf ∈ persistedFields ms.StructFields, sqliteType sf.Typ ≠ none)
    (hpk : ∃ sf ∈ persistedFields ms.StructFields, sf.IsPrimaryKey = true)
    (hok : ∀ e ∈ (syncTable q ⟨db, stats, []⟩ ms).1.log, e.2 = true) :
    (syncTable q ⟨db, stats, []⟩ ms).1.stats =
      ⟨stats.NumCreated, stats.NumMigrated + 1, stats.NumCurrent⟩ ∧
    (syncTable q ⟨db, stats, []⟩ ms).1.log.map Prod.fst =
      [Stmt.pragmaForeignKeys false,
       Stmt.createTableAs ("__hades_migrate__" ++ ms.TableName ++ "__") ms.TableName,
       Stmt.dropTable ms.TableName,
       Stmt.createTable ms.TableName (modelColumns ms) (primaryKeys ms),
       Stmt.insertSelect ms.TableName
         (((persistedFields ms.StructFields).filter
           (fun sf => decide (sf.DBName ∈ liveColumns pti))).map StructField.DBName)
         ("__hades_migrate__" ++ ms.TableName ++ "__"),
       Stmt.dropTable ("__hades_migrate__" ++ ms.TableName ++ "__"),
       Stmt.pragmaForeignKeys true] ∧
    createTable.query ms = .ok (Stmt.createTable ms.TableName (modelColumns ms) (primaryKeys ms)) ∧
    (syncTable q ⟨db, stats, []⟩ ms).1.log.map (fun e => e.1.sql esc) =
      ["PRAGMA foreign_keys = 0",
       "CREATE TABLE " ++ ("__hades_migrate__" ++ ms.TableName ++ "__") ++
         " AS SELECT * FROM " ++ ms.TableName,
       "DROP TABLE " ++ esc ms.TableName,
       (Stmt.createTable ms.TableName (modelColumns ms) (primaryKeys ms)).sql esc,
       "INSERT INTO " ++ ms.TableName ++ " (" ++
         ",".intercalate ((((persistedFields ms.StructFields).filter
           (fun sf => decide (sf.DBName ∈ liveColumns pti))).map StructField.DBName).map esc) ++
         ") SELECT " ++
         ",".intercalate ((((persistedFields ms.StructFields).filter
           (fun sf => decide (sf.DBName ∈ liveColumns pti))).map StructField.DBName).map esc) ++
         " FROM " ++ ("__hades_migrate__" ++ ms.TableName ++ "__"),
       "DROP TABLE " ++ esc ("__hades_migrate__" ++ ms.TableName ++ "__"),
       "PRAGMA foreign_keys = 1"] := by
  have hq := createTable_query_ok ms htypes hpk
  obtain ⟨db', _, heq⟩ := syncTable_migrate q ⟨db, stats, []⟩ ms pti _ hpti hne
    ((not_matches_iff pti ms).mpr hdiv) hq hok
  rw [heq]
  exact ⟨rfl, rfl, hq, rfl⟩

/-- C8 on the table `users (id, first_name)` and the model
`User{ID, FirstName, LastName}`, identifiers escaped to themselves. -/
theorem syncTable_migration_statements_witness :
    (syncTable DB.querier ⟨usersDB, zeroStats, []⟩ userModelLastName).1.stats = ⟨0, 1, 0⟩ ∧
    (syncTable DB.querier ⟨usersDB, zeroStats, []⟩ userModelLastName).1.log.map
        (fun e => e.1.sql id) =
      ["PRAGMA foreign_keys = 0",
       "CREATE TABLE __hades_migrate__users__ AS SELECT * FROM users",
       "DROP TABLE users",
       "CREATE TABLE users (id INTEGER NOT NULL, first_name TEXT, last_name TEXT, PRIMARY KEY (id))",
       "INSERT INTO users (id,first_name) SELECT id,first_name FROM __hades_migrate__users__",
       "DROP TABLE __hades_migrate__users__",
       "PRAGMA foreign_keys = 1"] :=
  have h := syncTable_migration_statements DB.querier usersDB zeroStats userModelLastName
    [⟨"id", "INTEGER", true, true⟩, ⟨"first_name", "TEXT", false, false⟩] id rfl (by decide)
    (by decide) (by decide) (by decide) (by decide)
  ⟨h.1, h.2.2.2.trans (by decide)⟩

/-! ## Migration keeps the rows -/

theorem mem_commonColumns (live : List String) (ms : ModelStruct) (name : String) :
    name ∈ commonColumns live ms ↔ name ∈ modelColumnNames ms ∧ name ∈ live := by
  simp only [commonColumns, modelColumnNames, List.mem_map, List.mem_filter, decide_eq_true_eq]
  constructor
  · rintro ⟨sf, ⟨hsf, hlive⟩, rfl⟩
    exact ⟨⟨sf, hsf, rfl⟩, hlive⟩
  · rintro ⟨⟨sf, hsf, rfl⟩, hlive⟩
    exact ⟨sf, ⟨hsf, hlive⟩, rfl⟩

theorem created_table_matches (ms : ModelStruct) (pks : List String)
    (hne : modelColumns ms ≠ [])
    (hnodup : ((modelColumns ms).map ColumnDef.DBName).Nodup) :
    (modelColumns ms).map (fun col =>
        (⟨col.DBName, col.sqliteType, col.notNull, decide (col.DBName ∈ pks)⟩ :
          PragmaTableInfoRow)) ≠ [] ∧
      Matches ((modelColumns ms).map (fun col =>
        ⟨col.DBName, col.sqliteType, col.notNull, decide (col.DBName ∈ pks)⟩)) ms := by
  have hlive : liveColumns ((modelColumns ms).map (fun col =>
      ⟨col.DBName, col.sqliteType, col.notNull, decide (col.DBName ∈ pks)⟩)) =
      (persistedFields ms.StructFields).map StructField.DBName := by
    simp [liveColumns, modelColumns, columnDef, List.map_map, Function.comp_def]
  have hnodup' : ((persistedFields ms.StructFields).map StructField.DBName).Nodup := by
    simpa [modelColumns, columnDef, List.map_map, Function.comp_def] using hnodup
  refine ⟨by simpa using hne, ?_, ?_⟩
  · rw [hlive, hnodup'.dedup, List.length_map]
  · intro sf hsf
    rw [hlive]
    exact List.mem_map_of_mem _ hsf

/-- C7: over the reference database (tables of rows giving a value to each
column name), when the table of a model that can be created has columns and
diverges from the model, as it does when the model has gained a column, and
`syncTable` migrates it with every query succeeding, then `syncTable` returns
no error, the table has the model's columns, its rows are the old rows, one for
one and in the same order (none added, none lost), each with the same value in
every column common to the old table and the model and null in every model
column the old table did not have, and the temp table does not exist. -/
theorem syncTable_migration_preserves_rows (db : DB) (stats : AutoMigrateStats)
    (ms : ModelStruct) (old : Table)
    (hold : db ms.TableName = some old) (hcols : old.columns ≠ [])
    (hdiv : ¬ Matches old.columns ms)
    (htypes : ∀ sf ∈ persistedFields ms.StructFields, sqliteType sf.Typ ≠ none)
    (hpk : ∃ sf ∈ persistedFields ms.StructFields, sf.IsPrimaryKey = true)
    (hok : ∀ e ∈ (syncTable DB.querier ⟨db, stats, []⟩ ms).1.log, e.2 = true) :
    (syncTable DB.querier ⟨db, stats, []⟩ ms).2 = none ∧
    (syncTable DB.querier ⟨db, stats, []⟩ ms).1.db (syncTable.tempName ms.TableName) = none ∧
    ∃ new, (syncTable DB.querier ⟨db, stats, []⟩ ms).1.db ms.TableName = some new ∧
      new.columnNames = modelColumnNames ms ∧
      new.rows.length = old.rows.length ∧
      List.Forall₂ (fun r r' => ∀ name,
          (name ∈ old.columnNames → name ∈ modelColumnNames ms → r' name = r name) ∧
          (name ∈ modelColumnNames ms → name ∉ old.columnNames → r' name = Value.null))
        old.rows new.rows := by
  have hpti : DB.querier.PragmaTableInfo ms.TableName db = .ok old.columns := by
    simp [DB.querier, DB.PragmaTableInfo, hold]
  have hq := createTable_query_ok ms htypes hpk
  obtain ⟨db', hrun, heq⟩ :=
    syncTable_migrate DB.querier ⟨db, stats, []⟩ ms old.columns _ hpti hcols hdiv hq hok
  obtain ⟨old', hold', htmp, _, _, hnew, hframe⟩ := DB_migration_effect db db' ms _ _ _ hrun
  rw [hold] at hold'
  cases hold'
  rw [heq]
  refine ⟨rfl, ?_, _, hnew, ?_, ?_, ?_⟩
  · show db' (syncTable.tempName ms.TableName) = none
    rw [hframe _ (tempName_ne ms.TableName), htmp]
  · simp [Table.columnNames, modelColumnNames, modelColumns, columnDef, List.map_map,
      Function.comp_def]
  · simp
  · rw [List.forall₂_map_right_iff, List.forall₂_same]
    intro r _ name
    have hmem := mem_commonColumns (liveColumns old.columns) ms name
    constructor
    · intro h1 h2
      have : name ∈ commonColumns (liveColumns old.columns) ms := hmem.mpr ⟨h2, h1⟩
      simp [Row.project, this]
    · intro _ h2
      have : name ∉ commonColumns (liveColumns old.columns) ms := fun h => h2 (hmem.mp h).2
      simp [Row.project, this]

/-- C7 on the scenario of the spec: the table `users (id, first_name)` holds
the row of Ann, the model gains `LastName`, and after `syncTable` the table
holds the single row `{id: 1, first_name: "Ann", last_name: null}`. -/
theorem syncTable_migration_preserves_rows_witness :
    (syncTable DB.querier ⟨usersDB, zeroStats, []⟩ userModelLastName).2 = none ∧
    (syncTable DB.querier ⟨usersDB, zeroStats, []⟩ userModelLastName).1.db
      (syncTable.tempName userModelLastName.TableName) = none ∧
    ((syncTable DB.querier ⟨usersDB, zeroStats, []⟩ userModelLastName).1.db "users").map
        (fun t => (t.columnNames,
          t.rows.map (fun r => [r "id", r "first_name", r "last_name"]))) =
      some (["id", "first_name", "last_name"], [[.int 1, .text "Ann", .null]]) :=
  have h := syncTable_migration_preserves_rows usersDB zeroStats userModelLastName
    ⟨[⟨"id", "INTEGER", true, true⟩, ⟨"first_name", "TEXT", false, false⟩], [annRow]⟩
    rfl (by decide) (by decide) (by decide) (by decide) (by decide)
  ⟨h.1, h.2.1, by decide⟩

/-! ## Running the synchronizer twice -/

theorem UpToDate_congr (db₁ db₂ : DB) (ms : ModelStruct)
    (h : db₂ ms.TableName = db₁ ms.TableName) (hup : UpToDate db₁ ms) : UpToDate db₂ ms := by
  obtain ⟨t, ht, hne, hm⟩ := hup
  exact ⟨t, h.trans ht, hne, hm⟩

/-- One call of `syncTable` on the reference database for a model that can be
created: when no query fails it returns no error, leaves the model's table up
to date and touches no other table. -/
theorem syncTable_brings_up_to_date (s : Session DB) (ms : ModelStruct)
    (htypes : ∀ sf ∈ persistedFields ms.StructFields, sqliteType sf.Typ ≠ none)
    (hpk : ∃ sf ∈ persistedFields ms.StructFields, sf.IsPrimaryKey = true)
    (hok : ∀ e ∈ (syncTable DB.querier s ms).1.log, e.2 = true) :
    (syncTable DB.querier s ms).2 = none ∧ UpToDate (syncTable DB.querier s ms).1.db ms ∧
      ∀ name, name ≠ ms.TableName → (syncTable DB.querier s ms).1.db name = s.db name := by
  have hq := createTable_query_ok ms htypes hpk
  have hcreate : ∀ pti : List PragmaTableInfoRow,
      DB.querier.PragmaTableInfo ms.TableName s.db = .ok pti → pti = [] →
      (syncTable DB.querier s ms).2 = none ∧ UpToDate (syncTable DB.querier s ms).1.db ms ∧
        ∀ name, name ≠ ms.TableName → (syncTable DB.querier s ms).1.db name = s.db name := by
    intro pti hpti hnil
    subst hnil
    have heq := syncTable_absent DB.querier s ms hpti
    rw [heq] at hok ⊢
    simp only [createTable, hq, Session.exec] at hok ⊢
    cases hexec : DB.querier.ExecRaw
        (.createTable ms.TableName (modelColumns ms) (primaryKeys ms)) s.db with
    | error err =>
      simp only [hexec] at hok
      exact absurd (hok (.createTable ms.TableName (modelColumns ms) (primaryKeys ms), false)
        (by simp)) (by simp)
    | ok db1 =>
      obtain ⟨_, hne, hnodup, hdb1⟩ :=
        DB_exec_createTable ms.TableName (modelColumns ms) (primaryKeys ms) s.db db1 hexec
      subst hdb1
      obtain ⟨hne', hmatch⟩ := created_table_matches ms (primaryKeys ms) hne hnodup
      refine ⟨rfl, ⟨_, Function.update_same _ _ _, hne', hmatch⟩, fun name hname => ?_⟩
      exact Function.update_noteq hname _ _
  cases hold : s.db ms.TableName with
  | none =>
    exact hcreate [] (by simp [DB.querier, DB.PragmaTableInfo, hold]) rfl
  | some t =>
    have hpti : DB.querier.PragmaTableInfo ms.TableName s.db = .ok t.columns := by
      simp [DB.querier, DB.PragmaTableInfo, hold]
    by_cases hc : t.columns = []
    · exact hcreate t.columns hpti hc
    · by_cases hm : Matches t.columns ms
      · have heq := syncTable_current DB.querier s ms t.columns hpti hc hm
        have hexec : DB.querier.ExecRaw (.pragmaForeignKeys false) s.db = .ok s.db := rfl
        rw [hexec] at heq
        rw [heq]
        exact ⟨rfl, ⟨t, hold, hc, hm⟩, fun _ _ => rfl⟩
      · obtain ⟨db', hrun, heq⟩ :=
          syncTable_migrate DB.querier s ms t.columns _ hpti hc hm hq hok
        obtain ⟨_, _, _, hne, hnodup, hnew, hframe⟩ :=
          DB_migration_effect s.db db' ms _ _ _ hrun
        obtain ⟨hne', hmatch⟩ := created_table_matches ms (primaryKeys ms) hne hnodup
        rw [heq]
        exact ⟨rfl, ⟨_, hnew, hne', hmatch⟩, hframe⟩

theorem AutoMigrateEx_loop_first_run (models : List ModelStruct)
    (hnames : (models.map ModelStruct.TableName).Nodup)
    (htypes : ∀ ms ∈ models, ∀ sf ∈ persistedFields ms.StructFields, sqliteType sf.Typ ≠ none)
    (hpk : ∀ ms ∈ models, ∃ sf ∈ persistedFields ms.StructFields, sf.IsPrimaryKey = true)
    (s : Session DB)
    (hok : ∀ e ∈ (AutoMigrateEx.loop DB.querier models s).1.log, e.2 = true) :
    (AutoMigrateEx.loop DB.querier models s).2 = none ∧
      (∀ ms ∈ models, UpToDate (AutoMigrateEx.loop DB.querier models s).1.db ms) ∧
      ∀ name, (∀ ms ∈ models, name ≠ ms.TableName) →
        (AutoMigrateEx.loop DB.querier models s).1.db name = s.db name := by
  induction models generalizing s with
  | nil => exact ⟨rfl, fun _ h => absurd h (List.not_mem_nil _), fun _ _ => rfl⟩
  | cons m rest ih =>
    have hm_types := htypes m (List.mem_cons_self _ _)
    have hm_pk := hpk m (List.mem_cons_self _ _)
    rw [List.map_cons, List.nodup_cons] at hnames
    rw [AutoMigrateEx.loop] at hok ⊢
    rcases hstep : syncTable DB.querier s m with ⟨s1, _ | err⟩
    · simp only [hstep] at hok ⊢
      have hok1 : ∀ e ∈ (syncTable DB.querier s m).1.log, e.2 = true := by
        rw [hstep]
        exact fun e he => hok e (AutoMigrateEx_loop_log_mono DB.querier rest s1 e he)
      obtain ⟨_, hup, hframe⟩ := syncTable_brings_up_to_date s m hm_types hm_pk hok1
      rw [hstep] at hup hframe
      obtain ⟨herr, hall, hframe'⟩ := ih hnames.2
        (fun ms h => htypes ms (List.mem_cons_of_mem _ h))
        (fun ms h => hpk ms (List.mem_cons_of_mem _ h)) s1 hok
      refine ⟨herr, ?_, ?_⟩
      · intro ms hms
        rcases List.mem_cons.mp hms with rfl | hms
        · refine UpToDate_congr _ _ _ (hframe' _ ?_) hup
          intro ms' hms' heq
          exact hnames.1 (heq ▸ List.mem_map_of_mem _ hms')
        · exact hall ms hms
      · intro name hname
        rw [hframe' name (fun ms h => hname ms (List.mem_cons_of_mem _ h))]
        exact hframe name (hname m (List.mem_cons_self _ _))
    · simp only [hstep] at hok
      have hok1 : ∀ e ∈ (syncTable DB.querier s m).1.log, e.2 = true := by
        rw [hstep]
        exact hok
      have := (syncTable_brings_up_to_date s m hm_types hm_pk hok1).1
      rw [hstep] at this
      cases this

theorem AutoMigrateEx_loop_second_run (models : List ModelStruct) (db : DB)
    (hup : ∀ ms ∈ models, UpToDate db ms) (stats : AutoMigrateStats) (log : List (Stmt × Bool)) :
    AutoMigrateEx.loop DB.querier models ⟨db, stats, log⟩ =
      (⟨db, ⟨stats.NumCreated, stats.NumMigrated, stats.NumCurrent + models.length⟩,
        log ++ models.map (fun _ => (Stmt.pragmaForeignKeys false, true))⟩, none) := by
  induction models generalizing stats log with
  | nil => simp [AutoMigrateEx.loop]
  | cons m rest ih =>
    obtain ⟨t, ht, hne, hm⟩ := hup m (List.mem_cons_self _ _)
    have hpti : DB.querier.PragmaTableInfo m.TableName db = .ok t.columns := by
      simp [DB.querier, DB.PragmaTableInfo, ht]
    have heq := syncTable_current DB.querier ⟨db, stats, log⟩ m t.columns hpti hne hm
    have hexec : DB.querier.ExecRaw (.pragmaForeignKeys false) db = .ok db := rfl
    simp only [hexec] at heq
    rw [AutoMigrateEx.loop, heq]
    simp only
    rw [ih (fun ms h => hup ms (List.mem_cons_of_mem _ h))]
    simp only [List.length_cons, List.map_cons, List.append_assoc, List.singleton_append,
      Nat.cast_add, Nat.cast_one, Prod.mk.injEq, and_true]
    congr 2
    ring

/-- C6: for models registered under pairwise distinct table names, whose
persisted fields all have a supported type and each of which has a persisted
primary key, a run of `AutoMigrateEx` against the reference database in which
no query fails returns no error, and a second run on the database it leaves
returns no error either, with `NumCreated = 0`, `NumMigrated = 0` and
`NumCurrent` the number of models. (Distinct DB names within a model need not
be assumed: a `CREATE TABLE` repeating a column name does not succeed.) -/
theorem AutoMigrateEx_twice (c : Context) (db : DB) (stats : AutoMigrateStats)
    (hnames : (c.ScopeMap.byDBName.map ModelStruct.TableName).Nodup)
    (htypes : ∀ ms ∈ c.ScopeMap.byDBName, ∀ sf ∈ persistedFields ms.StructFields,
      sqliteType sf.Typ ≠ none)
    (hpk : ∀ ms ∈ c.ScopeMap.byDBName, ∃ sf ∈ persistedFields ms.StructFields,
      sf.IsPrimaryKey = true)
    (hok : ∀ e ∈ (AutoMigrateEx c DB.querier ⟨db, stats, []⟩).1.log, e.2 = true) :
    (AutoMigrateEx c DB.querier ⟨db, stats, []⟩).2 = none ∧
    (AutoMigrateEx c DB.querier
      ⟨(AutoMigrateEx c DB.querier ⟨db, stats, []⟩).1.db, ⟨0, 0, 0⟩, []⟩).2 = none ∧
    (AutoMigrateEx c DB.querier
      ⟨(AutoMigrateEx c DB.querier ⟨db, stats, []⟩).1.db, ⟨0, 0, 0⟩, []⟩).1.stats =
        ⟨0, 0, c.ScopeMap.byDBName.length⟩ := by
  obtain ⟨herr, hup, _⟩ :=
    AutoMigrateEx_loop_first_run c.ScopeMap.byDBName hnames htypes hpk ⟨db, stats, []⟩ hok
  have h2 := AutoMigrateEx_loop_second_run c.ScopeMap.byDBName _ hup ⟨0, 0, 0⟩ []
  refine ⟨herr, ?_, ?_⟩
  · simp only [AutoMigrateEx] at h2 ⊢
    rw [h2]
  · simp only [AutoMigrateEx] at h2 ⊢
    rw [h2]
    simp

/-- C6 on the context of `Test_AutoMigrate` and the empty database: the first
run creates `users`, the second run finds it current. -/
theorem AutoMigrateEx_twice_witness :
    (AutoMigrateEx userContext DB.querier ⟨emptyDB, zeroStats, []⟩).1.stats = ⟨1, 0, 0⟩ ∧
    (AutoMigrateEx userContext DB.querier
      ⟨(AutoMigrateEx userContext DB.querier ⟨emptyDB, zeroStats, []⟩).1.db, ⟨0, 0, 0⟩, []⟩).1.stats
        = ⟨0, 0, 1⟩ :=
  ⟨by decide,
    (AutoMigrateEx_twice userContext emptyDB zeroStats (by decide) (by decide) (by decide)
      (by decide)).2.2⟩

/-! ## Failures and the current path on the reference database -/

/-- C4 (evaluated on the code): the table `users (name)` holds one row and the
model is `User{ID, FirstName}`, so no model column is a live column and the
copy-back query `INSERT INTO users () SELECT  FROM __hades_migrate__users__`
fails; `syncTable` returns no error, and the table `users` is left recreated
and empty instead of in its pre-migration state. -/
theorem syncTable_swallows_failed_query :
    (syncTable DB.querier ⟨legacyDB, zeroStats, []⟩ userModel).2 = none ∧
    (syncTable DB.querier ⟨legacyDB, zeroStats, []⟩ userModel).1.log.map
        (fun e => (e.1.sql id, e.2)) =
      [("PRAGMA foreign_keys = 0", true),
       ("CREATE TABLE __hades_migrate__users__ AS SELECT * FROM users", true),
       ("DROP TABLE users", true),
       ("CREATE TABLE users (id INTEGER NOT NULL, first_name TEXT, PRIMARY KEY (id))", true),
       ("INSERT INTO users () SELECT  FROM __hades_migrate__users__", false)] ∧
    (legacyDB "users").map (fun t => (t.columnNames, t.rows.length)) = some (["name"], 1) ∧
    ((syncTable DB.querier ⟨legacyDB, zeroStats, []⟩ userModel).1.db "users").map
        (fun t => (t.columnNames, t.rows.length)) = some (["id", "first_name"], 0) := by
  decide

/-- C5 (evaluated on the code): the table `users (id, first_name)` matches the
model `User{ID, FirstName}`, and `syncTable` hands the query
`PRAGMA foreign_keys = 0` to `ExecRaw` before it counts the table as current;
no `PRAGMA foreign_keys = 1` follows. -/
theorem syncTable_current_table_runs_pragma :
    DB.querier.PragmaTableInfo "users" usersDB =
      .ok [⟨"id", "INTEGER", true, true⟩, ⟨"first_name", "TEXT", false, false⟩] ∧
    Matches [⟨"id", "INTEGER", true, true⟩, ⟨"first_name", "TEXT", false, false⟩] userModel ∧
    (syncTable DB.querier ⟨usersDB, zeroStats, []⟩ userModel).1.log.map
        (fun e => (e.1.sql id, e.2)) = [("PRAGMA foreign_keys = 0", true)] ∧
    (syncTable DB.querier ⟨usersDB, zeroStats, []⟩ userModel).1.stats = ⟨0, 0, 1⟩ ∧
    (syncTable DB.querier ⟨usersDB, zeroStats, []⟩ userModel).2 = none :=
  ⟨rfl, by decide, by decide, by decide, by decide⟩

/-! ## `WalkType` always returns -/

theorem WalkTypeAux_unregistered (c : Context) (fuel : Nat) (riMap : RecordInfoMap)
    (name : String) (atyp : GoType) (visited : VisitMap) (assocs : List String)
    (h : c.ScopeMap.ByType atyp = none) :
    ∃ err, WalkTypeAux c (fuel + 1) riMap name atyp visited assocs = some ⟨riMap, .error err⟩ := by
  rw [WalkTypeAux]
  split
  · exact ⟨_, rfl⟩
  · split
    · exact ⟨_, rfl⟩
    · simp only [h]
      exact ⟨_, rfl⟩

theorem visitField_returns (c : Context) (fuel : Nat) (ms : ModelStruct) (visited : VisitMap)
    (st : VisitState) (sf : StructField) (explicit : Bool) :
    ∃ r, visitField c (WalkTypeAux c (fuel + 1)) ms visited st sf explicit = some r := by
  unfold visitField
  cases sf.Relationship with
  | none =>
    cases explicit <;> exact ⟨_, rfl⟩
  | some rel =>
    dsimp only
    generalize (if sf.Typ.Kind = Kind.Slice then sf.Typ.Elem else sf.Typ) = fieldTyp
    by_cases hptr : fieldTyp.Kind ≠ Kind.Ptr
    · rw [if_pos hptr]
      exact ⟨_, rfl⟩
    · rw [if_neg hptr]
      cases hreg : c.ScopeMap.ByType fieldTyp with
      | some target =>
        cases explicit
        · exact ⟨(st, none), by simp⟩
        · exact ⟨(st, some (.notListedModel ms.ModelType.Name sf.Name fieldTyp)), by simp⟩
      | none =>
        obtain ⟨err, herr⟩ :=
          WalkTypeAux_unregistered c fuel st.riMap sf.Name fieldTyp visited [] hreg
        rw [herr]
        exact ⟨(⟨st.riMap, st.ri⟩, some (.wrap err "walking type of child")), by simp⟩

theorem visitAllFields_returns
    (visit : VisitState → StructField → Bool → Option (VisitState × Option Error))
    (hvisit : ∀ st sf explicit, ∃ r, visit st sf explicit = some r)
    (fields : List StructField) (st : VisitState) :
    ∃ r, visitAllFields visit fields st = some r := by
  induction fields generalizing st with
  | nil => exact ⟨_, rfl⟩
  | cons sf rest ih =>
    obtain ⟨⟨st1, err⟩, hr⟩ := hvisit st sf false
    rw [visitAllFields, hr]
    cases err with
    | none => exact ih st1
    | some err => exact ⟨_, rfl⟩

theorem visitSpecifiedFields_returns
    (visit : VisitState → StructField → Bool → Option (VisitState × Option Error))
    (hvisit : ∀ st sf explicit, ∃ r, visit st sf explicit = some r)
    (fields : List StructField) (atyp : GoType) (assocs : List String) (st : VisitState) :
    ∃ r, visitSpecifiedFields visit fields atyp assocs st = some r := by
  induction assocs generalizing st with
  | nil => exact ⟨_, rfl⟩
  | cons fieldName rest ih =>
    rw [visitSpecifiedFields]
    cases sfByName fields fieldName with
    | none => exact ⟨_, rfl⟩
    | some sf =>
      obtain ⟨⟨st1, err⟩, hr⟩ := hvisit st sf true
      simp only [hr]
      cases err with
      | none => exact ih st1
      | some err => exact ⟨_, rfl⟩

/-- `WalkType` returns on every input, for every registry: two levels of
recursion are never exceeded, because the recursive call is only made for a
field type that is not registered and such a call returns at once. -/
theorem WalkType_returns (c : Context) (riMap : RecordInfoMap) (name : String) (atyp : GoType)
    (visited : VisitMap) (assocs : List String) :
    ∃ r, WalkType c riMap name atyp visited assocs = some r := by
  unfold WalkType
  rw [WalkTypeAux]
  split
  · exact ⟨_, rfl⟩
  · split
    · exact ⟨_, rfl⟩
    · cases c.ScopeMap.ByType atyp with
      | none => exact ⟨_, rfl⟩
      | some ms =>
        dsimp only
        split
        · exact ⟨_, rfl⟩
        · have hvisit := visitField_returns c c.ScopeMap.scopes.length ms
            (visited.CopyAndMark ms)
          by_cases hlen : assocs.length > 0
          · rw [if_pos hlen]
            obtain ⟨⟨st1, err⟩, hr⟩ := visitSpecifiedFields_returns _ hvisit ms.StructFields atyp
              assocs ⟨riMap, RecordInfo.mk name atyp [] none none ms⟩
            rw [hr]
            cases err <;> exact ⟨_, rfl⟩
          · rw [if_neg hlen]
            obtain ⟨⟨st1, err⟩, hr⟩ := visitAllFields_returns _ hvisit ms.StructFields
              ⟨riMap, RecordInfo.mk name atyp [] none none ms⟩
            rw [hr]
            cases err <;> exact ⟨_, rfl⟩

/-! ## What `syncTable` leaves alone -/

theorem createTable_invariant {σ : Type} (q : Querier σ) (J : Session σ → Prop) (ms : ModelStruct)
    (hexec : ∀ s stmt, Stmt.within ms stmt → J s → J (s.exec q stmt).1)
    (s : Session σ) (hJ : J s) : J (createTable q s ms).1 := by
  unfold createTable
  cases hq : createTable.query ms with
  | error err => exact hJ
  | ok query =>
    have htarget : Stmt.within ms query := by
      rw [(createTable_query_inv ms query hq).1]
      exact Or.inr (Or.inl rfl)
    exact hexec s query htarget hJ

/-- Whatever holds of the session, is kept by every query on the model's table
or its temp table and does not depend on the statistics, holds after the part
of `syncTable` run under the savepoint. -/
theorem syncTable_body_invariant {σ : Type} (q : Querier σ) (J : Session σ → Prop)
    (ms : ModelStruct) (pti : List PragmaTableInfoRow)
    (hexec : ∀ s stmt, Stmt.within ms stmt → J s → J (s.exec q stmt).1)
    (hstats : ∀ (s : Session σ) stats, J s → J { s with stats := stats })
    (s : Session σ) (hJ : J s) : J (syncTable.body q s ms pti).1 := by
  have hpragma : ∀ b, Stmt.within ms (.pragmaForeignKeys b) := fun _ => Or.inl rfl
  have htable : ∀ stmt : Stmt, stmt.target = some ms.TableName → Stmt.within ms stmt :=
    fun _ h => Or.inr (Or.inl h)
  have htemp : ∀ stmt : Stmt, stmt.target = some (syncTable.tempName ms.TableName) →
      Stmt.within ms stmt := fun _ h => Or.inr (Or.inr h)
  unfold syncTable.body
  have x1 := hexec s (.pragmaForeignKeys false) (hpragma _) hJ
  rcases h1 : s.exec q (.pragmaForeignKeys false) with ⟨s1, _ | err⟩
  · rw [h1] at x1
    dsimp only
    split
    · exact hstats _ _ x1
    · have x2 := hexec
        { s1 with stats := { s1.stats with NumMigrated := s1.stats.NumMigrated + 1 } }
        (.createTableAs (syncTable.tempName ms.TableName) ms.TableName) (htemp _ rfl)
        (hstats _ _ x1)
      rcases h2 : Session.exec q
        { s1 with stats := { s1.stats with NumMigrated := s1.stats.NumMigrated + 1 } }
        (.createTableAs (syncTable.tempName ms.TableName) ms.TableName) with ⟨s2, _ | err⟩
      · rw [h2] at x2
        dsimp only
        have x3 := hexec s2 (.dropTable ms.TableName) (htable _ rfl) x2
        unfold dropTable
        rcases h3 : s2.exec q (.dropTable ms.TableName) with ⟨s3, _ | err⟩
        · rw [h3] at x3
          dsimp only
          have x4 := createTable_invariant q J ms hexec s3 x3
          rcases h4 : createTable q s3 ms with ⟨s4, _ | err⟩
          · rw [h4] at x4
            dsimp only
            have x5 := hexec s4
              (.insertSelect ms.TableName
                (syncTable.columnsFields (syncTable.oldColumns pti) ms.StructFields [])
                (syncTable.tempName ms.TableName)) (htable _ rfl) x4
            rcases h5 : s4.exec q
              (.insertSelect ms.TableName
                (syncTable.columnsFields (syncTable.oldColumns pti) ms.StructFields [])
                (syncTable.tempName ms.TableName)) with ⟨s5, _ | err⟩
            · rw [h5] at x5
              dsimp only
              have x6 := hexec s5 (.dropTable (syncTable.tempName ms.TableName)) (htemp _ rfl) x5
              rcases h6 : s5.exec q (.dropTable (syncTable.tempName ms.TableName))
                with ⟨s6, _ | err⟩
              · rw [h6] at x6
                dsimp only
                have x7 := hexec s6 (.pragmaForeignKeys true) (hpragma _) x6
                rcases h7 : s6.exec q (.pragmaForeignKeys true) with ⟨s7, _ | err⟩
                · rw [h7] at x7
                  exact x7
                · rw [h7] at x7
                  exact x7
              · rw [h6] at x6
                exact x6
            · rw [h5] at x5
              exact x5
          · rw [h4] at x4
            exact x4
        · rw [h3] at x3
          exact x3
      · rw [h2] at x2
        exact x2
  · rw [h1] at x1
    exact x1

theorem DB_exec_frame (stmt : Stmt) (db db' : DB) (h : DB.ExecRaw stmt db = .ok db')
    (name : String) (hname : stmt.target ≠ some name) : db' name = db name := by
  cases stmt with
  | pragmaForeignKeys enable => rw [DB_exec_pragma enable db db' h]
  | createTableAs tempName tableName =>
    obtain ⟨_, _, _, hdb⟩ := DB_exec_createTableAs tempName tableName db db' h
    rw [hdb]
    exact Function.update_noteq (fun heq => hname (by rw [heq]; rfl)) _ _
  | dropTable tableName =>
    obtain ⟨_, hdb⟩ := DB_exec_dropTable tableName db db' h
    rw [hdb]
    exact Function.update_noteq (fun heq => hname (by rw [heq]; rfl)) _ _
  | createTable tableName columns pks =>
    obtain ⟨_, _, _, hdb⟩ := DB_exec_createTable tableName columns pks db db' h
    rw [hdb]
    exact Function.update_noteq (fun heq => hname (by rw [heq]; rfl)) _ _
  | insertSelect tableName columns tempName =>
    obtain ⟨_, _, _, _, hdb⟩ := DB_exec_insertSelect tableName columns tempName db db' h
    rw [hdb]
    exact Function.update_noteq (fun heq => hname (by rw [heq]; rfl)) _ _

/-- On the reference database `syncTable` changes no table other than the
model's own and its temp table, whichever path it takes and whatever fails. -/
theorem syncTable_frame (s : Session DB) (ms : ModelStruct) (name : String)
    (hname : name ≠ ms.TableName) (htemp : name ≠ syncTable.tempName ms.TableName) :
    (syncTable DB.querier s ms).1.db name = s.db name := by
  have hexec : ∀ (s' : Session DB) stmt, Stmt.within ms stmt → s'.db name = s.db name →
      (s'.exec DB.querier stmt).1.db name = s.db name := by
    intro s' stmt hwithin hJ
    unfold Session.exec
    cases hres : DB.querier.ExecRaw stmt s'.db with
    | error err => exact hJ
    | ok db' =>
      have hne : stmt.target ≠ some name := by
        rcases hwithin with h | h | h <;> rw [h] <;> simp
        · exact fun heq => hname heq.symm
        · exact fun heq => htemp heq.symm
      exact (DB_exec_frame stmt s'.db db' hres name hne).trans hJ
  unfold syncTable
  dsimp only
  split
  · rfl
  · split
    · exact createTable_invariant DB.querier (fun s' => s'.db name = s.db name) ms hexec _ rfl
    · rename_i pti _ _
      have hbody := syncTable_body_invariant DB.querier (fun s' => s'.db name = s.db name) ms pti
        hexec (fun _ _ h => h) s rfl
      unfold Save
      split
      · rfl
      · exact hbody

theorem AutoMigrateEx_loop_frame (models : List ModelStruct) (s : Session DB) (name : String)
    (hname : ∀ m ∈ models, name ≠ m.TableName ∧ name ≠ syncTable.tempName m.TableName) :
    (AutoMigrateEx.loop DB.querier models s).1.db name = s.db name := by
  induction models generalizing s with
  | nil => rfl
  | cons m rest ih =>
    have hm := hname m (List.mem_cons_self _ _)
    have hstep := syncTable_frame s m name hm.1 hm.2
    rw [AutoMigrateEx.loop]
    rcases h : syncTable DB.querier s m with ⟨s1, _ | err⟩
    · rw [h] at hstep
      dsimp only
      rw [ih s1 (fun m' hm' => hname m' (List.mem_cons_of_mem _ hm')), hstep]
    · rw [h] at hstep
      exact hstep

/-! ## A model without a primary key -/

theorem createTable_query_no_primary_key (ms : ModelStruct)
    (hnopk : ∀ sf ∈ persistedFields ms.StructFields, sf.IsPrimaryKey = false) :
    (∃ err, createTable.query ms = .error err) ∧
      ((∀ sf ∈ persistedFields ms.StructFields, sqliteType sf.Typ ≠ none) →
        createTable.query ms = .error (.noPrimaryKeys ms.ModelType)) := by
  have hok : (∀ sf ∈ persistedFields ms.StructFields, sqliteType sf.Typ ≠ none) →
      createTable.query ms = .error (.noPrimaryKeys ms.ModelType) := by
    intro htypes
    have hfilter : (persistedFields ms.StructFields).filter StructField.IsPrimaryKey = [] := by
      rw [List.filter_eq_nil_iff]
      intro sf hsf
      simp [hnopk sf hsf]
    simp [createTable.query, createTable_processFields_eq, createFold_ok ms _ _ htypes, hfilter]
  refine ⟨?_, hok⟩
  by_cases htypes : ∀ sf ∈ persistedFields ms.StructFields, sqliteType sf.Typ ≠ none
  · exact ⟨_, hok htypes⟩
  · have hex : ∃ sf ∈ persistedFields ms.StructFields, sqliteType sf.Typ = none := by
      by_contra hno
      exact htypes (fun sf hsf hnone => hno ⟨sf, hsf, hnone⟩)
    obtain ⟨sf, _, _, heq⟩ := createTable_query_unsupported ms hex
    exact ⟨_, heq⟩

theorem AutoMigrateEx_loop_append {σ : Type} (q : Querier σ) (pre post : List ModelStruct)
    (s : Session σ) :
    AutoMigrateEx.loop q (pre ++ post) s =
      match AutoMigrateEx.loop q pre s with
      | (s, some err) => (s, some err)
      | (s, none) => AutoMigrateEx.loop q post s := by
  induction pre generalizing s with
  | nil => simp [AutoMigrateEx.loop]
  | cons m rest ih =>
    simp only [List.cons_append, AutoMigrateEx.loop]
    rcases syncTable q s m with ⟨s1, _ | err⟩
    · exact ih s1
    · rfl

/-- C11: for a model none of whose persisted fields is a primary key,
`createTable` returns an error (the no-primary-keys error when every persisted
field has a supported type) and hands no query to `ExecRaw`; `syncTable`
therefore fails on it when the table info reports no column, and
`AutoMigrateEx` fails whenever that model is registered and its table is absent
when its turn comes. On the reference database that is so whenever the table
is absent at the start and no registered model has a temp table of that
name. -/
theorem createTable_without_primary_key {σ : Type} (c : Context) (q : Querier σ)
    (s : Session σ) (ms : ModelStruct) (pre post : List ModelStruct)
    (hnopk : ∀ sf ∈ persistedFields ms.StructFields, sf.IsPrimaryKey = false) :
    (∃ err, createTable q s ms = (s, some err)) ∧
    ((∀ sf ∈ persistedFields ms.StructFields, sqliteType sf.Typ ≠ none) →
      createTable q s ms = (s, some (.noPrimaryKeys ms.ModelType))) ∧
    (q.PragmaTableInfo ms.TableName s.db = .ok [] →
      ∃ err, syncTable q s ms =
        (⟨s.db, ⟨s.stats.NumCreated + 1, s.stats.NumMigrated, s.stats.NumCurrent⟩, s.log⟩,
          some err)) ∧
    (c.ScopeMap.byDBName = pre ++ ms :: post →
      ((AutoMigrateEx.loop q pre s).2 = none →
        q.PragmaTableInfo ms.TableName (AutoMigrateEx.loop q pre s).1.db = .ok []) →
      (AutoMigrateEx c q s).2 ≠ none) ∧
    (∀ (db : DB) (stats : AutoMigrateStats), ms ∈ c.ScopeMap.byDBName →
      (c.ScopeMap.byDBName.map ModelStruct.TableName).Nodup →
      (∀ m ∈ c.ScopeMap.byDBName, syncTable.tempName m.TableName ≠ ms.TableName) →
      db ms.TableName = none →
      (AutoMigrateEx c DB.querier ⟨db, stats, []⟩).2 ≠ none) := by
  obtain ⟨⟨err, herr⟩, hnokeys⟩ := createTable_query_no_primary_key ms hnopk
  have hsync : ∀ (τ : Type) (q' : Querier τ) (s' : Session τ),
      q'.PragmaTableInfo ms.TableName s'.db = .ok [] →
      ∃ err, syncTable q' s' ms =
        (⟨s'.db, ⟨s'.stats.NumCreated + 1, s'.stats.NumMigrated, s'.stats.NumCurrent⟩, s'.log⟩,
          some err) := by
    intro τ q' s' hpti
    rw [syncTable_absent q' s' ms hpti]
    exact ⟨err, by simp [createTable, herr]⟩
  have hloop : ∀ (τ : Type) (q' : Querier τ) (s' : Session τ) (pre' post' : List ModelStruct),
      c.ScopeMap.byDBName = pre' ++ ms :: post' →
      ((AutoMigrateEx.loop q' pre' s').2 = none →
        q'.PragmaTableInfo ms.TableName (AutoMigrateEx.loop q' pre' s').1.db = .ok []) →
      (AutoMigrateEx c q' s').2 ≠ none := by
    intro τ q' s' pre' post' hmodels habsent
    rw [AutoMigrateEx, hmodels, AutoMigrateEx_loop_append]
    rcases hpre : AutoMigrateEx.loop q' pre' s' with ⟨s1, _ | err1⟩
    · rw [hpre] at habsent
      obtain ⟨err2, hms⟩ := hsync τ q' s1 (habsent rfl)
      simp [AutoMigrateEx.loop, hms]
    · simp
  refine ⟨⟨err, by simp [createTable, herr]⟩, ?_, hsync σ q s, hloop σ q s pre post, ?_⟩
  · intro htypes
    simp [createTable, hnokeys htypes]
  · intro db stats hmem hnodup htemp habsent
    obtain ⟨pre', post', hsplit⟩ := List.append_of_mem hmem
    refine hloop DB DB.querier ⟨db, stats, []⟩ pre' post' hsplit (fun _ => ?_)
    have hframe := AutoMigrateEx_loop_frame pre' ⟨db, stats, []⟩ ms.TableName (by
      intro m hm
      have hm' : m ∈ c.ScopeMap.byDBName := by
        rw [hsplit]
        exact List.mem_append_left _ hm
      refine ⟨?_, fun heq => htemp m hm' heq.symm⟩
      intro heq
      rw [hsplit, List.map_append, List.map_cons] at hnodup
      have hdisj := (List.nodup_append.mp hnodup).2.2
      exact hdisj (List.mem_map_of_mem _ hm) (by rw [← heq]; exact List.mem_cons_self _ _))
    show DB.PragmaTableInfo ms.TableName
      (AutoMigrateEx.loop DB.querier pre' ⟨db, stats, []⟩).1.db = .ok []
    unfold DB.PragmaTableInfo
    rw [hframe]
    simp [habsent]

/-- C11 on `Test_AutoMigrateNoPK`: `Humanoid{Name string}` is the only model and
the database is empty; `AutoMigrateEx` returns the no-primary-keys error and
runs no query. -/
theorem createTable_without_primary_key_witness :
    (∀ sf ∈ persistedFields humanoidModel.StructFields, sf.IsPrimaryKey = false) ∧
    (AutoMigrateEx humanoidContext DB.querier ⟨emptyDB, zeroStats, []⟩).2 ≠ none ∧
    (AutoMigrateEx humanoidContext DB.querier ⟨emptyDB, zeroStats, []⟩).2 =
      some (.noPrimaryKeys (.named "hades_test" "Humanoid" Kind.Struct)) ∧
    (AutoMigrateEx humanoidContext DB.querier ⟨emptyDB, zeroStats, []⟩).1.log = [] :=
  ⟨by decide,
    (createTable_without_primary_key humanoidContext DB.querier ⟨emptyDB, zeroStats, []⟩
      humanoidModel [] [] (by decide)).2.2.2.1 rfl (fun _ => rfl),
    by decide, by decide⟩

/-! ## `saveRows`: the number of primary keys -/

/-- C14: for a non-empty batch whose model has a number of primary-key fields
that is neither 1 nor 2, `saveRows` returns the error "Have n primary keys for
<model>, don't know what to do" and leaves the session as it was: nothing is
fetched, nothing is written, the statistics are unchanged. -/
theorem saveRows_rejects_primary_key_count {σ : Type} (c : Context) (env : SaveEnv σ)
    (s : SaveSession σ) (params : SaveParams) (ms : ModelStruct) (fresh : List Record)
    (hfresh : fresh ≠ [])
    (hone : (Scope.PrimaryFields ms).length ≠ 1) (htwo : (Scope.PrimaryFields ms).length ≠ 2) :
    saveRows c env s params (.slice ms fresh) =
      (s, some (.primaryKeyCount (Scope.PrimaryFields ms).length ms.ModelType.Name)) := by
  have hlen : fresh.length ≠ 0 := by simpa using hfresh
  simp only [saveRows, hlen, if_false]
  split
  · rename_i h
    rw [h] at hone
    simp at hone
  · rename_i h
    rw [h] at htwo
    simp at htwo
  · rfl

/-- C14 on `Humanoid{Name string}`, which has no primary-key field, and a batch
of one record. -/
theorem saveRows_rejects_primary_key_count_witness :
    saveRows humanoidContext exampleSaveEnv ⟨[], zeroSaveStats, []⟩ ⟨[], []⟩
        (.slice humanoidModel [[("Name", .text "Ann")]]) =
      (⟨[], zeroSaveStats, []⟩, some (.primaryKeyCount 0 "Humanoid")) :=
  saveRows_rejects_primary_key_count humanoidContext exampleSaveEnv ⟨[], zeroSaveStats, []⟩
    ⟨[], []⟩ humanoidModel [[("Name", .text "Ann")]] (by decide) (by decide) (by decide)

/-! ## `Preload`: the checks on its arguments -/

/-- C18: with an empty field list `Preload` returns the error "Preload expects a
non-empty list in Fields" for every record argument, and leaves the session as
it was: no record in memory is written, no type tree is built and nothing is
fetched. -/
theorem Preload_rejects_empty_fields (c : Context) (env : PreloadEnv) (s : PreloadSession)
    (rec : RValue) :
    Preload c env s ⟨rec, []⟩ = some (s, some .preloadNoFields) := by
  simp [Preload]

/-- C19: with a non-empty field list and a slice of length zero `Preload` returns
no error and leaves the session as it was, whatever the field names are: no
record in memory is written, no type tree is built and nothing is fetched. -/
theorem Preload_empty_slice_is_a_noop (c : Context) (env : PreloadEnv) (s : PreloadSession)
    (params : PreloadParams) (hfields : params.Fields ≠ [])
    (hslice : params.Record.Type.Kind = Kind.Slice) (hlen : params.Record.Len = 0) :
    Preload c env s params = some (s, none) := by
  have hne : params.Fields.length ≠ 0 := by simpa using hfields
  simp [Preload, hne, hslice, hlen]

/-- C19 on the empty slice `[]*Human` and the field `Nope`, which is not a field
of `Human`. -/
theorem Preload_empty_slice_is_a_noop_witness :
    Preload exampleContext examplePreloadEnv ⟨[[("ID", .int 3)]], []⟩
        ⟨.slice (.named "hades_test" "Human" Kind.Struct) [], [⟨"Nope", ""⟩]⟩ =
      some (⟨[[("ID", .int 3)]], []⟩, none) :=
  Preload_empty_slice_is_a_noop exampleContext examplePreloadEnv ⟨[[("ID", .int 3)]], []⟩
    ⟨.slice (.named "hades_test" "Human" Kind.Struct) [], [⟨"Nope", ""⟩]⟩ (by decide) rfl rfl

/-- C20 (counterexample): the record argument is an empty slice of `int64`,
which is neither a pointer nor a slice of pointers, the field list is not
empty, and `Preload` returns no error. -/
theorem Preload_accepts_empty_slice_of_non_pointers :
    (RValue.other (.slice int64Type) 0).Type.Kind ≠ Kind.Ptr ∧
    (RValue.other (.slice int64Type) 0).Type.Elem.Kind ≠ Kind.Ptr ∧
    Preload exampleContext examplePreloadEnv ⟨[], []⟩
        ⟨.other (.slice int64Type) 0, [⟨"Fate", ""⟩]⟩ = some (⟨[], []⟩, none) := by
  decide

/-- C20 (amended): with a non-empty field list `Preload` returns the error
"Preload expects a []*Model or *Model" and leaves the session as it was for
every record argument that is neither a slice nor a pointer, and for every
slice of non-zero length whose element type is not a pointer. -/
theorem Preload_rejects_non_pointer (c : Context) (env : PreloadEnv) (s : PreloadSession)
    (params : PreloadParams) (hfields : params.Fields ≠ [])
    (hrec : (params.Record.Type.Kind ≠ Kind.Slice ∧ params.Record.Type.Kind ≠ Kind.Ptr) ∨
      (params.Record.Type.Kind = Kind.Slice ∧ params.Record.Len ≠ 0 ∧
        params.Record.Type.Elem.Kind ≠ Kind.Ptr)) :
    Preload c env s params = some (s, some (.preloadExpects params.Record.Type)) := by
  have hne : params.Fields.length ≠ 0 := by simpa using hfields
  rcases hrec with ⟨hslice, hptr⟩ | ⟨hslice, hlen, hptr⟩
  · simp [Preload, hne, hslice, hptr]
  · simp [Preload, hne, hslice, hlen, hptr]

/-- C20 on the integer 42, a struct value and a slice of two `int64`. -/
theorem Preload_rejects_non_pointer_witness :
    Preload exampleContext examplePreloadEnv ⟨[], []⟩
        ⟨.other (.named "" "int" Kind.Int) 0, [⟨"Fate", ""⟩]⟩ =
      some (⟨[], []⟩, some (.preloadExpects (.named "" "int" Kind.Int))) ∧
    (Preload exampleContext examplePreloadEnv ⟨[], []⟩
        ⟨.other (.named "hades_test" "Human" Kind.Struct) 0, [⟨"Fate", ""⟩]⟩).map Prod.snd =
      some (some (.preloadExpects (.named "hades_test" "Human" Kind.Struct))) ∧
    (Preload exampleContext examplePreloadEnv ⟨[], []⟩
        ⟨.other (.slice int64Type) 2, [⟨"Fate", ""⟩]⟩).map Prod.snd =
      some (some (.preloadExpects (.slice int64Type))) :=
  ⟨Preload_rejects_non_pointer exampleContext examplePreloadEnv ⟨[], []⟩
      ⟨.other (.named "" "int" Kind.Int) 0, [⟨"Fate", ""⟩]⟩ (by decide) (by decide),
    by decide, by decide⟩

/-! ## Maps held as association lists -/

theorem mapSet_keys {κ ν : Type} [DecidableEq κ] (m : List (κ × ν)) (key : κ) (value : ν) :
    (mapSet m key value).map Prod.fst =
      if key ∈ m.map Prod.fst then m.map Prod.fst else m.map Prod.fst ++ [key] := by
  unfold mapSet
  by_cases h : key ∈ m.map Prod.fst
  · have hany : (m.any fun p => decide (p.1 = key)) = true := by
      rw [List.any_eq_true]
      obtain ⟨p, hp, rfl⟩ := List.mem_map.mp h
      exact ⟨p, hp, by simp⟩
    rw [if_pos hany, if_pos h, List.map_map]
    apply List.map_congr_left
    intro p _
    by_cases hp : p.1 = key <;> simp [hp]
  · have hany : ¬ (m.any fun p => decide (p.1 = key)) = true := by
      rw [List.any_eq_true]
      rintro ⟨p, hp, hkey⟩
      exact h (List.mem_map.mpr ⟨p, hp, by simpa using hkey⟩)
    rw [if_neg hany, if_neg h]
    simp

theorem mapGet_mapSet {κ ν : Type} [DecidableEq κ] (m : List (κ × ν)) (key : κ) (value : ν)
    (key' : κ) :
    mapGet (mapSet m key value) key' = if key' = key then some value else mapGet m key' := by
  unfold mapGet mapSet
  induction m with
  | nil =>
    by_cases h : key' = key
    · simp [h]
    · have h' : ¬ key = key' := fun e => h e.symm
      simp [h, h']
  | cons p rest ih =>
    by_cases hany : (rest.any fun p => decide (p.1 = key)) = true
    · simp only [hany, if_true] at ih
      have hany' : ((p :: rest).any fun p => decide (p.1 = key)) = true := by
        simp [hany]
      simp only [hany', if_true, List.map_cons, List.find?_cons]
      by_cases hp : p.1 = key
      · by_cases h : key' = key
        · simp [hp, h]
        · have h' : ¬ key = key' := fun e => h e.symm
          simp only [hp, if_true, h', decide_False, h, if_false]
          rw [ih]
          simp [h]
      · by_cases h' : p.1 = key'
        · have h : ¬ key' = key := fun e => hp (h'.trans e)
          simp [hp, h', h]
        · simp only [hp, if_false, h', decide_False]
          exact ih
    · simp only [hany, Bool.false_eq_true, if_false] at ih
      by_cases hp : p.1 = key
      · have hany' : ((p :: rest).any fun p => decide (p.1 = key)) = true := by
          simp [hp]
        have hrest : rest.map (fun p => if p.1 = key then (p.1, value) else p) = rest := by
          have hcongr : rest.map (fun p => if p.1 = key then (p.1, value) else p) =
              rest.map id := by
            apply List.map_congr_left
            intro q hq
            have hq' : ¬ q.1 = key := by
              intro e
              exact hany (List.any_eq_true.mpr ⟨q, hq, by simp [e]⟩)
            simp [hq']
          rw [hcongr, List.map_id]
        simp only [hany', if_true, List.map_cons, hp, hrest, List.find?_cons]
        by_cases h : key' = key
        · simp [h]
        · have h' : ¬ key = key' := fun e => h e.symm
          simp [h, h']
      · have hany' : ¬ ((p :: rest).any fun p => decide (p.1 = key)) = true := by
          simp only [List.any_cons, Bool.or_eq_true, decide_eq_true_eq, not_or]
          exact ⟨hp, hany⟩
        simp only [hany', Bool.false_eq_true, if_false, List.cons_append, List.find?_cons]
        by_cases h' : p.1 = key'
        · have h : ¬ key' = key := fun e => hp (h'.trans e)
          simp [h', h]
        · simp only [h', decide_False]
          exact ih

theorem mapGet_isSome_iff {κ ν : Type} [DecidableEq κ] (m : List (κ × ν)) (key : κ) :
    (mapGet m key).isSome = true ↔ key ∈ m.map Prod.fst := by
  unfold mapGet
  rw [Option.isSome_map', List.find?_isSome]
  constructor
  · rintro ⟨p, hp, hkey⟩
    exact List.mem_map.mpr ⟨p, hp, by simpa using hkey⟩
  · intro h
    obtain ⟨p, hp, rfl⟩ := List.mem_map.mp h
    exact ⟨p, hp, by simp⟩

theorem mapGet_eq_none_iff {κ ν : Type} [DecidableEq κ] (m : List (κ × ν)) (key : κ) :
    mapGet m key = none ↔ key ∉ m.map Prod.fst := by
  rw [← mapGet_isSome_iff]
  cases mapGet m key <;> simp

/-- In a map without a repeated key the entry of a key is what `m[key]` gives. -/
theorem mapGet_of_mem {κ ν : Type} [DecidableEq κ] (m : List (κ × ν))
    (hnodup : (m.map Prod.fst).Nodup) (key : κ) (value : ν) (hmem : (key, value) ∈ m) :
    mapGet m key = some value := by
  induction m with
  | nil => simp at hmem
  | cons p rest ih =>
    rw [List.map_cons, List.nodup_cons] at hnodup
    rcases List.mem_cons.mp hmem with heq | hrest
    · subst heq
      simp [mapGet]
    · have hne : ¬ p.1 = key := by
        intro e
        exact hnodup.1 (List.mem_map.mpr ⟨(key, value), hrest, e.symm⟩)
      have := ih hnodup.2 hrest
      simp only [mapGet, List.find?_cons, hne, decide_False] at this ⊢
      exact this

theorem mem_of_mapGet {κ ν : Type} [DecidableEq κ] (m : List (κ × ν)) (key : κ) (value : ν)
    (h : mapGet m key = some value) : (key, value) ∈ m := by
  unfold mapGet at h
  rw [Option.map_eq_some'] at h
  obtain ⟨p, hp, hv⟩ := h
  have hkey : p.1 = key := by simpa using List.find?_some hp
  have hmem := List.mem_of_find?_eq_some hp
  rw [← hkey, ← hv]
  exact hmem

/-- A `range` over a map without a repeated key yields the same map. -/
theorem mapGet_perm {κ ν : Type} [DecidableEq κ] (m m' : List (κ × ν)) (hperm : m'.Perm m)
    (hnodup : (m.map Prod.fst).Nodup) (key : κ) : mapGet m' key = mapGet m key := by
  have hnodup' : (m'.map Prod.fst).Nodup := (hperm.map Prod.fst).nodup_iff.mpr hnodup
  cases h : mapGet m key with
  | some value =>
    exact mapGet_of_mem m' hnodup' key value (hperm.mem_iff.mpr (mem_of_mapGet m key value h))
  | none =>
    rw [mapGet_eq_none_iff] at h ⊢
    intro hmem
    exact h ((hperm.map Prod.fst).mem_iff.mp hmem)

/-! ## `saveRows`: the batch grouped by a field -/

/-- The map built by grouping the batch by a field has no repeated key, its
keys are the values the field takes, and under each key it holds the records
with that value, in batch order. -/
theorem recordsByKey_spec (fresh : List Record) (fieldName : String) :
    ((saveRows.recordsByKey fresh fieldName).map Prod.fst).Nodup ∧
    (∀ key, key ∈ (saveRows.recordsByKey fresh fieldName).map Prod.fst ↔
      key ∈ fresh.map (fun rec => rec.get fieldName)) ∧
    (∀ key, (mapGet (saveRows.recordsByKey fresh fieldName) key).getD [] =
      fresh.filter (fun rec => decide (rec.get fieldName = key))) := by
  unfold saveRows.recordsByKey
  simp only [mapAppend]
  induction fresh using List.reverseRecOn with
  | nil => simp [mapGet]
  | append_singleton rest rec ih =>
    obtain ⟨hnodup, hkeys, hget⟩ := ih
    rw [List.foldl_append]
    simp only [List.foldl_cons, List.foldl_nil]
    refine ⟨?_, ?_, ?_⟩
    · rw [mapSet_keys]
      split
      · exact hnodup
      · rename_i hnot
        exact List.Nodup.append hnodup (List.nodup_singleton _) (by
          intro k hk hk'
          rw [List.mem_singleton] at hk'
          exact hnot (hk' ▸ hk))
    · intro key
      rw [mapSet_keys]
      split
      · rename_i hin
        rw [hkeys key]
        simp only [List.map_append, List.map_cons, List.map_nil, List.mem_append,
          List.mem_singleton]
        constructor
        · exact Or.inl
        · rintro (h | h)
          · exact h
          · rw [h]
            exact (hkeys _).mp hin
      · simp only [List.mem_append, List.mem_singleton, List.map_append, List.map_cons,
          List.map_nil]
        rw [hkeys key]
    · intro key
      rw [mapGet_mapSet]
      by_cases hk : key = rec.get fieldName
      · subst hk
        simp only [if_true, Option.getD_some, List.filter_append, hget]
        simp
      · have hk' : ¬ rec.get fieldName = key := fun e => hk e.symm
        simp only [hk, if_false, List.filter_append, hget]
        simp [hk']

theorem recordsByKey_length (fresh : List Record) (fieldName : String) :
    (saveRows.recordsByKey fresh fieldName).length = distinctValues fresh fieldName := by
  obtain ⟨hnodup, hkeys, _⟩ := recordsByKey_spec fresh fieldName
  have hset : ((saveRows.recordsByKey fresh fieldName).map Prod.fst).toFinset =
      (fresh.map (fun rec => rec.get fieldName)).toFinset := by
    ext key
    simp only [List.mem_toFinset]
    exact hkeys key
  have hcard := List.toFinset_card_of_nodup hnodup
  rw [List.length_map] at hcard
  rw [distinctValues, ← List.card_toFinset, ← hset]
  exact hcard.symm

theorem distinctValues_le (fresh : List Record) (fieldName : String) :
    distinctValues fresh fieldName ≤ fresh.length := by
  unfold distinctValues
  calc (fresh.map (fun rec => rec.get fieldName)).dedup.length
      ≤ (fresh.map (fun rec => rec.get fieldName)).length :=
        (List.dedup_sublist _).length_le
    _ = fresh.length := List.length_map _ _

/-! ## `saveRows`: the source and the destination of a join model -/

/-- The loop picking the source ends on an entry with the fewest groups. -/
theorem pickSource_spec (entries : List (FieldRef × RecordsByKey))
    (hlen : ∀ e ∈ entries, (e.2.length : Int) < MaxInt64) :
    (entries = [] ∧ saveRows.pickSource entries = ⟨none, MaxInt64, []⟩) ∨
    (∃ e ∈ entries, saveRows.pickSource entries = ⟨some e.1, (e.2.length : Int), e.2⟩ ∧
      ∀ e' ∈ entries, e.2.length ≤ e'.2.length) := by
  unfold saveRows.pickSource
  induction entries using List.reverseRecOn with
  | nil => exact Or.inl ⟨rfl, rfl⟩
  | append_singleton rest x ih =>
    right
    rw [List.foldl_append]
    simp only [List.foldl_cons, List.foldl_nil]
    have hx : (x.2.length : Int) < MaxInt64 := hlen x (by simp)
    rcases ih (fun e he => hlen e (List.mem_append_left _ he)) with ⟨hnil, hbest⟩ | ⟨e, he, hbest, hmin⟩
    · subst hnil
      rw [hbest]
      refine ⟨x, by simp, ?_, ?_⟩
      · simp only [hx, if_true]
      · intro e' he'
        simp only [List.nil_append, List.mem_singleton] at he'
        rw [he']
    · rw [hbest]
      by_cases hlt : (x.2.length : Int) < (e.2.length : Int)
      · refine ⟨x, by simp, ?_, ?_⟩
        · simp only [hlt, if_true]
        · intro e' he'
          rcases List.mem_append.mp he' with h | h
          · have := hmin e' h
            omega
          · rw [List.mem_singleton] at h
            rw [h]
      · refine ⟨e, List.mem_append_left _ he, ?_, ?_⟩
        · simp only [hlt, if_false]
        · intro e' he'
          rcases List.mem_append.mp he' with h | h
          · exact hmin e' h
          · rw [List.mem_singleton] at h
            rw [h]
            omega

/-- The two loops of `saveRows` over `recordsGroupedByPrimaryField`, for two
primary-key fields: the source is a field with the fewest groups and the
destination is the other field. -/
theorem pickSource_pickDestin (fresh : List Record) (first second : StructField)
    (rangeGrouped rangeGroupedAgain :
      List (FieldRef × RecordsByKey) → List (FieldRef × RecordsByKey))
    (hrange : (rangeGrouped (saveRows.groupByPrimaryFields fresh [first, second])).Perm
      (saveRows.groupByPrimaryFields fresh [first, second]))
    (hrangeAgain : (rangeGroupedAgain (saveRows.groupByPrimaryFields fresh [first, second])).Perm
      (saveRows.groupByPrimaryFields fresh [first, second]))
    (hlen : (fresh.length : Int) < MaxInt64) :
    ∃ source destin,
      (saveRows.pickSource
        (rangeGrouped (saveRows.groupByPrimaryFields fresh [first, second]))).bestSourcePrimaryField
          = some source ∧
      saveRows.pickDestin (rangeGroupedAgain (saveRows.groupByPrimaryFields fresh [first, second]))
          source = some destin ∧
      ((source = ⟨0, first⟩ ∧ destin = ⟨1, second⟩) ∨
        (source = ⟨1, second⟩ ∧ destin = ⟨0, first⟩)) ∧
      distinctValues fresh source.field.Name ≤ distinctValues fresh destin.field.Name ∧
      (saveRows.pickSource
        (rangeGrouped (saveRows.groupByPrimaryFields fresh [first, second]))).valueMap
          = saveRows.recordsByKey fresh source.field.Name := by
  have hgrouped : saveRows.groupByPrimaryFields fresh [first, second] =
      [(⟨0, first⟩, saveRows.recordsByKey fresh first.Name),
       (⟨1, second⟩, saveRows.recordsByKey fresh second.Name)] := rfl
  rw [hgrouped] at hrange hrangeAgain ⊢
  have hbound : ∀ name, ((saveRows.recordsByKey fresh name).length : Int) < MaxInt64 := by
    intro name
    have h1 := recordsByKey_length fresh name
    have h2 := distinctValues_le fresh name
    omega
  have hmem0 := hrange.mem_iff (a := (⟨0, first⟩, saveRows.recordsByKey fresh first.Name))
  have hmem1 := hrange.mem_iff (a := (⟨1, second⟩, saveRows.recordsByKey fresh second.Name))
  have hagain0 :=
    hrangeAgain.mem_iff (a := (⟨0, first⟩, saveRows.recordsByKey fresh first.Name))
  have hagain1 :=
    hrangeAgain.mem_iff (a := (⟨1, second⟩, saveRows.recordsByKey fresh second.Name))
  have hlens : ∀ e ∈ rangeGrouped [(⟨0, first⟩, saveRows.recordsByKey fresh first.Name),
      (⟨1, second⟩, saveRows.recordsByKey fresh second.Name)], (e.2.length : Int) < MaxInt64 := by
    intro e he
    have he' := hrange.mem_iff.mp he
    simp only [List.mem_cons, List.mem_singleton, List.not_mem_nil, or_false] at he'
    rcases he' with rfl | rfl
    · exact hbound _
    · exact hbound _
  rcases pickSource_spec _ hlens with ⟨hnil, _⟩ | ⟨e, he, hbest, hmin⟩
  · rw [hnil] at hmem0
    simp at hmem0
  · rw [hbest]
    have he' := hrange.mem_iff.mp he
    simp only [List.mem_cons, List.mem_singleton, List.not_mem_nil, or_false] at he'
    have hmin0 := hmin _ (hmem0.mpr (by simp))
    have hmin1 := hmin _ (hmem1.mpr (by simp))
    rcases he' with rfl | rfl
    · have hfound : ∃ d, List.find? (fun entry : FieldRef × RecordsByKey =>
            !decide (entry.1.index = 0))
          (rangeGroupedAgain [(⟨0, first⟩, saveRows.recordsByKey fresh first.Name),
            (⟨1, second⟩, saveRows.recordsByKey fresh second.Name)]) = some d := by
        rw [← Option.isSome_iff_exists, List.find?_isSome]
        exact ⟨_, hagain1.mpr (by simp), by simp⟩
      obtain ⟨d, hd⟩ := hfound
      have hdmem := hrangeAgain.mem_iff.mp (List.mem_of_find?_eq_some hd)
      have hdp := List.find?_some hd
      simp only [List.mem_cons, List.mem_singleton, List.not_mem_nil, or_false] at hdmem
      rcases hdmem with rfl | rfl
      · simp at hdp
      · refine ⟨_, _, rfl, ?_, Or.inl ⟨rfl, rfl⟩, ?_, rfl⟩
        · simp only [saveRows.pickDestin, hd, Option.map_some']
        · simp only [recordsByKey_length] at hmin1
          exact hmin1
    · have hfound : ∃ d, List.find? (fun entry : FieldRef × RecordsByKey =>
            !decide (entry.1.index = 1))
          (rangeGroupedAgain [(⟨0, first⟩, saveRows.recordsByKey fresh first.Name),
            (⟨1, second⟩, saveRows.recordsByKey fresh second.Name)]) = some d := by
        rw [← Option.isSome_iff_exists, List.find?_isSome]
        exact ⟨_, hagain0.mpr (by simp), by simp⟩
      obtain ⟨d, hd⟩ := hfound
      have hdmem := hrangeAgain.mem_iff.mp (List.mem_of_find?_eq_some hd)
      have hdp := List.find?_some hd
      simp only [List.mem_cons, List.mem_singleton, List.not_mem_nil, or_false] at hdmem
      rcases hdmem with rfl | rfl
      · refine ⟨_, _, rfl, ?_, Or.inr ⟨rfl, rfl⟩, ?_, rfl⟩
        · simp only [saveRows.pickDestin, hd, Option.map_some']
        · simp only [recordsByKey_length] at hmin0
          exact hmin0
      · simp at hdp

/-- C15: on the two-primary-key path of `saveRows`, whatever the order in which
the two `range` loops yield the entries of `recordsGroupedByPrimaryField`, a
source and a destination are found, they are the two primary-key fields (one
each, so the destination is never the source), the number of distinct values
the source field takes in the batch is no greater than that of the destination
field, and `valueMap` is the batch grouped by the source field. The batch is
shorter than `math.MaxInt64`, as every Go slice is. -/
theorem saveRows_source_has_fewest_values (fresh : List Record) (first second : StructField)
    (rangeGrouped rangeGroupedAgain :
      List (FieldRef × RecordsByKey) → List (FieldRef × RecordsByKey))
    (hrange : (rangeGrouped (saveRows.groupByPrimaryFields fresh [first, second])).Perm
      (saveRows.groupByPrimaryFields fresh [first, second]))
    (hrangeAgain : (rangeGroupedAgain (saveRows.groupByPrimaryFields fresh [first, second])).Perm
      (saveRows.groupByPrimaryFields fresh [first, second]))
    (hlen : (fresh.length : Int) < MaxInt64) :
    ∃ source destin,
      (saveRows.pickSource
        (rangeGrouped (saveRows.groupByPrimaryFields fresh [first, second]))).bestSourcePrimaryField
          = some source ∧
      saveRows.pickDestin (rangeGroupedAgain (saveRows.groupByPrimaryFields fresh [first, second]))
          source = some destin ∧
      ((source = ⟨0, first⟩ ∧ destin = ⟨1, second⟩) ∨
        (source = ⟨1, second⟩ ∧ destin = ⟨0, first⟩)) ∧
      distinctValues fresh source.field.Name ≤ distinctValues fresh destin.field.Name ∧
      (saveRows.pickSource
        (rangeGrouped (saveRows.groupByPrimaryFields fresh [first, second]))).valueMap
          = saveRows.recordsByKey fresh source.field.Name :=
  pickSource_pickDestin fresh first second rangeGrouped rangeGroupedAgain hrange hrangeAgain hlen

/-- The two primary-key fields of `ProfileGame` give the three join records of
profile 389 one source and one destination, with either `range` order. -/
theorem saveRows_source_has_fewest_values_witness :
    ∃ source destin,
      (saveRows.pickSource
        (List.reverse (saveRows.groupByPrimaryFields profileGames [profileIDField, gameIDField]))).bestSourcePrimaryField
          = some source ∧
      saveRows.pickDestin (id (saveRows.groupByPrimaryFields profileGames [profileIDField, gameIDField]))
          source = some destin ∧
      ((source = ⟨0, profileIDField⟩ ∧ destin = ⟨1, gameIDField⟩) ∨
        (source = ⟨1, gameIDField⟩ ∧ destin = ⟨0, profileIDField⟩)) ∧
      distinctValues profileGames source.field.Name ≤
        distinctValues profileGames destin.field.Name ∧
      (saveRows.pickSource
        (List.reverse (saveRows.groupByPrimaryFields profileGames [profileIDField, gameIDField]))).valueMap
          = saveRows.recordsByKey profileGames source.field.Name :=
  saveRows_source_has_fewest_values profileGames profileIDField gameIDField List.reverse id (List.reverse_perm _) (List.Perm.refl _) (by decide)

/-! ## `saveRows`: the records registered in the `ManyToMany` aggregate -/

theorem mapSet_nodup {κ ν : Type} [DecidableEq κ] (m : List (κ × ν)) (key : κ) (value : ν)
    (hnodup : (m.map Prod.fst).Nodup) : ((mapSet m key value).map Prod.fst).Nodup := by
  rw [mapSet_keys]
  split
  · exact hnodup
  · rename_i hnot
    exact List.Nodup.append hnodup (List.nodup_singleton _) (by
      intro k hk hk'
      rw [List.mem_singleton] at hk'
      exact hnot (hk' ▸ hk))

/-- The inner loop registering the records of one source key. -/
theorem addKeys_loop (destinName : String) (sourceKey : Value) (recs : List Record)
    (mtm : ManyToMany) :
    let out := recs.foldl (fun mtm rec => mtm.AddKeys sourceKey (rec.get destinName) rec) mtm
    ((out.Values.map Prod.fst).Nodup ↔ (mtm.Values.map Prod.fst).Nodup) ∧
    ∀ key, (mapGet out.Values key).getD [] =
      (mapGet mtm.Values key).getD [] ++
        (if key = sourceKey then
          recs.map (fun rec => (⟨rec.get destinName, some rec⟩ : JoinRec))
        else []) := by
  induction recs generalizing mtm with
  | nil => simp
  | cons rec rest ih =>
    simp only [List.foldl_cons]
    obtain ⟨hnodup, hget⟩ := ih (mtm.AddKeys sourceKey (rec.get destinName) rec)
    refine ⟨?_, ?_⟩
    · rw [hnodup]
      simp only [ManyToMany.AddKeys, mapAppend, mapSet_keys]
      split
      · exact Iff.rfl
      · rename_i hnot
        constructor
        · intro h
          exact (List.nodup_append.mp h).1
        · intro h
          exact List.Nodup.append h (List.nodup_singleton _) (by
            intro k hk hk'
            rw [List.mem_singleton] at hk'
            exact hnot (hk' ▸ hk))
    · intro key
      rw [hget key]
      simp only [ManyToMany.AddKeys, mapAppend, mapGet_mapSet]
      by_cases hk : key = sourceKey
      · subst hk
        simp
      · simp [hk]

theorem mapGet_cons {κ ν : Type} [DecidableEq κ] (p : κ × ν) (m : List (κ × ν)) (key : κ) :
    mapGet (p :: m) key = if p.1 = key then some p.2 else mapGet m key := by
  unfold mapGet
  by_cases h : p.1 = key <;> simp [List.find?_cons, h]

/-- The loops registering every record of `valueMap`, a map without a repeated
key. -/
theorem addAll_spec (destinName : String) (valueMap : RecordsByKey)
    (hkeys : (valueMap.map Prod.fst).Nodup) (mtm : ManyToMany) :
    (((saveRows.addAll destinName valueMap mtm).Values.map Prod.fst).Nodup ↔
      (mtm.Values.map Prod.fst).Nodup) ∧
    ∀ key, (mapGet (saveRows.addAll destinName valueMap mtm).Values key).getD [] =
      (mapGet mtm.Values key).getD [] ++
        ((mapGet valueMap key).getD []).map
          (fun rec => (⟨rec.get destinName, some rec⟩ : JoinRec)) := by
  unfold saveRows.addAll
  induction valueMap generalizing mtm with
  | nil => simp [mapGet]
  | cons entry rest ih =>
    rw [List.map_cons, List.nodup_cons] at hkeys
    simp only [List.foldl_cons]
    obtain ⟨hnodup, hget⟩ := ih hkeys.2
      (entry.2.foldl (fun mtm rec => mtm.AddKeys entry.1 (rec.get destinName) rec) mtm)
    obtain ⟨hnodup', hget'⟩ := addKeys_loop destinName entry.1 entry.2 mtm
    refine ⟨hnodup.trans hnodup', ?_⟩
    intro key
    rw [hget key, hget' key, mapGet_cons]
    by_cases hk : key = entry.1
    · subst hk
      have hnone : mapGet rest entry.1 = none := (mapGet_eq_none_iff rest entry.1).mpr hkeys.1
      simp [hnone]
    · have hk' : ¬ entry.1 = key := fun e => hk e.symm
      simp [hk, hk']

theorem NewManyToMany_values (c : Context) (JoinTable : String)
    (SourceForeignKeys DestinationForeignKeys : List JoinTableForeignKey) (mtm : ManyToMany)
    (h : NewManyToMany c JoinTable SourceForeignKeys DestinationForeignKeys = .ok mtm) :
    mtm.Values = [] := by
  unfold NewManyToMany at h
  split at h
  · cases h
  · split at h
    · split at h
      · cases h
        rfl
      · cases h
    · cases h

/-- C16: on the two-primary-key path, `saveRows` either returns an error with
nothing written, or hands `saveJoins` one `ManyToMany` aggregate built from the
batch. In that aggregate no source key is repeated, and under every key stand
exactly the records of the batch whose source field has that value, in batch
order, each with the value of its own destination field and the record itself;
so every record is registered once under its own source key, and nothing else
is registered. The source and the destination are the two primary-key fields.
Each `range` yields the entries of its map in some order. -/
theorem saveRows_registers_each_record_once {σ : Type} (c : Context) (env : SaveEnv σ)
    (s : SaveSession σ) (params : SaveParams) (ms : ModelStruct) (fresh : List Record)
    (first second : StructField)
    (hrange : ∀ m, (env.rangeGrouped m).Perm m)
    (hrangeAgain : ∀ m, (env.rangeGroupedAgain m).Perm m)
    (hrangeValueMap : ∀ m, (env.rangeValueMap m).Perm m)
    (hlen : (fresh.length : Int) < MaxInt64) :
    (∃ err, saveRows.joinRows c env s params ms fresh [first, second] = (s, some err)) ∨
    (∃ mtm source destin,
      (saveRows.joinRows c env s params ms fresh [first, second]).1.log =
        s.log ++ [.saveJoins mtm] ∧
      ((source = first ∧ destin = second) ∨ (source = second ∧ destin = first)) ∧
      (mtm.Values.map Prod.fst).Nodup ∧
      ∀ key, (mapGet mtm.Values key).getD [] =
        (fresh.filter (fun rec => decide (rec.get source.Name = key))).map
          (fun rec => (⟨rec.get destin.Name, some rec⟩ : JoinRec))) := by
  obtain ⟨source, destin, hsrc, hdst, hwhich, _, hvm⟩ :=
    pickSource_pickDestin fresh first second env.rangeGrouped env.rangeGroupedAgain
      (hrange _) (hrangeAgain _) hlen
  have hfields : (source.field = first ∧ destin.field = second) ∨
      (source.field = second ∧ destin.field = first) := by
    rcases hwhich with ⟨h1, h2⟩ | ⟨h1, h2⟩
    · exact Or.inl ⟨by rw [h1], by rw [h2]⟩
    · exact Or.inr ⟨by rw [h1], by rw [h2]⟩
  obtain ⟨hnodup, _, hgroup⟩ := recordsByKey_spec fresh source.field.Name
  unfold saveRows.joinRows
  simp only [hsrc, hdst, hvm]
  split
  · exact Or.inl ⟨_, rfl⟩
  split
  · exact Or.inl ⟨_, rfl⟩
  split
  · exact Or.inl ⟨_, rfl⟩
  split
  · exact Or.inl ⟨_, rfl⟩
  split
  · split
    · split
      · exact Or.inl ⟨_, rfl⟩
      · rename_i mtm0 hnew
        have hvalues := NewManyToMany_values _ _ _ _ _ hnew
        have hperm := hrangeValueMap (saveRows.recordsByKey fresh source.field.Name)
        have hnodup' := (hperm.map Prod.fst).nodup_iff.mpr hnodup
        obtain ⟨hkeys, hget⟩ := addAll_spec destin.field.Name _ hnodup' mtm0
        have hspec : (((saveRows.addAll destin.field.Name
              (env.rangeValueMap (saveRows.recordsByKey fresh source.field.Name))
              mtm0).Values.map Prod.fst).Nodup) ∧
            ∀ key, (mapGet (saveRows.addAll destin.field.Name
              (env.rangeValueMap (saveRows.recordsByKey fresh source.field.Name))
              mtm0).Values key).getD [] =
                (fresh.filter (fun rec => decide (rec.get source.field.Name = key))).map
                  (fun rec => (⟨rec.get destin.field.Name, some rec⟩ : JoinRec)) := by
          refine ⟨hkeys.mpr (by rw [hvalues]; exact List.nodup_nil), ?_⟩
          intro key
          rw [hget key, hvalues, mapGet_perm _ _ hperm hnodup key, hgroup key]
          simp [mapGet]
        right
        split
        · exact ⟨_, source.field, destin.field, rfl, hfields, hspec.1, hspec.2⟩
        · exact ⟨_, source.field, destin.field, rfl, hfields, hspec.1, hspec.2⟩
    · exact Or.inl ⟨_, rfl⟩
  · exact Or.inl ⟨_, rfl⟩

/-- The three join records of profile 389 are handed to `saveJoins` under the
source key 389, each with its own game, in batch order. -/
theorem saveRows_registers_each_record_once_witness :
    ((∃ err, saveRows.joinRows profileContext exampleSaveEnv freshSaveSession ⟨[], []⟩
        profileGameModel profileGames [profileIDField, gameIDField] =
          (freshSaveSession, some err)) ∨
      (∃ mtm source destin,
        (saveRows.joinRows profileContext exampleSaveEnv freshSaveSession ⟨[], []⟩
          profileGameModel profileGames [profileIDField, gameIDField]).1.log =
            freshSaveSession.log ++ [.saveJoins mtm] ∧
        ((source = profileIDField ∧ destin = gameIDField) ∨
          (source = gameIDField ∧ destin = profileIDField)) ∧
        (mtm.Values.map Prod.fst).Nodup ∧
        ∀ key, (mapGet mtm.Values key).getD [] =
          (profileGames.filter (fun rec => decide (rec.get source.Name = key))).map
            (fun rec => (⟨rec.get destin.Name, some rec⟩ : JoinRec)))) ∧
    ((saveRows profileContext exampleSaveEnv freshSaveSession ⟨[], []⟩
        (.slice profileGameModel profileGames)).1.log.map
      (fun event => match event with
        | .saveJoins mtm => mtm.Values.map (fun entry => (entry.1, entry.2.map JoinRec.DestinKey))
        | _ => [])) =
      [[(.int 389, [.int 58372, .int 235971, .int 10598])]] :=
  ⟨saveRows_registers_each_record_once profileContext exampleSaveEnv freshSaveSession ⟨[], []⟩
      profileGameModel profileGames profileIDField gameIDField
      (fun _ => List.Perm.refl _) (fun _ => List.Perm.refl _) (fun _ => List.Perm.refl _)
      (by decide),
    by decide⟩

/-- C17 (evaluated on the code): the join model `ProfileGame` is saved with
`Game` missing from the registry. The three records share one `ProfileID`, so
`ProfileID` is the source and `GameID` the destination; the association
`Profile` of the source resolves to a registered model, the association `Game`
of the destination does not. Nothing is written, and the returned error is
"Could not find scope for assoc for ProfileGame.ProfileID": it names the field
whose association did resolve. -/
theorem saveRows_unresolved_destination_names_source :
    (Scope.FieldByName profileGameModel (trimSuffixID "ProfileID")).map StructField.Typ =
        some (.ptr (.named "hades_test" "Profile" Kind.Struct)) ∧
    (profileContextWithoutGame.ScopeMap.ByType (.ptr (.named "hades_test" "Profile" Kind.Struct))).isSome
        = true ∧
    (Scope.FieldByName profileGameModel (trimSuffixID "GameID")).map StructField.Typ =
        some (.ptr (.named "hades_test" "Game" Kind.Struct)) ∧
    (profileContextWithoutGame.ScopeMap.ByType (.ptr (.named "hades_test" "Game" Kind.Struct))).isSome
        = false ∧
    saveRows profileContextWithoutGame exampleSaveEnv freshSaveSession ⟨[], []⟩
        (.slice profileGameModel profileGames) =
      (freshSaveSession, some (.noAssocScope "ProfileGame" "ProfileID")) :=
  ⟨by decide, by decide, by decide, by decide, rfl⟩

/-! ## `saveRows`: the queues of the single-primary-key path -/

theorem mapSet_of_not_mem {κ ν : Type} [DecidableEq κ] (m : List (κ × ν)) (key : κ) (value : ν)
    (h : key ∉ m.map Prod.fst) : mapSet m key value = m ++ [(key, value)] := by
  unfold mapSet
  have hany : ¬ (m.any fun p => decide (p.1 = key)) = true := by
    rw [List.any_eq_true]
    rintro ⟨p, hp, hkey⟩
    exact h (List.mem_map.mpr ⟨p, hp, by simpa using hkey⟩)
  rw [if_neg hany]

/-- The first occurrences are records of the batch with keys that are new and
pairwise distinct, they cover every new key of the batch, and each is the first
record of the batch with its key. -/
theorem firstByKey_spec (keyName : String) (fresh : List Record) (seen : List Value) :
    (firstByKey keyName fresh seen).Sublist fresh ∧
    (∀ rec ∈ firstByKey keyName fresh seen, rec.get keyName ∉ seen) ∧
    ((firstByKey keyName fresh seen).map (fun rec => rec.get keyName)).Nodup ∧
    (∀ rec ∈ fresh, rec.get keyName ∉ seen →
      rec.get keyName ∈ (firstByKey keyName fresh seen).map (fun rec => rec.get keyName)) ∧
    (∀ rec ∈ firstByKey keyName fresh seen,
      fresh.find? (fun other => decide (other.get keyName = rec.get keyName)) = some rec) := by
  induction fresh generalizing seen with
  | nil => simp [firstByKey]
  | cons x rest ih =>
    by_cases hx : x.get keyName ∈ seen
    · obtain ⟨hsub, hnew, hnodup, hcover, hfirst⟩ := ih seen
      simp only [firstByKey, hx, if_true]
      refine ⟨hsub.cons x, hnew, hnodup, ?_, ?_⟩
      · intro rec hrec hnot
        rcases List.mem_cons.mp hrec with rfl | hrest
        · exact absurd hx hnot
        · exact hcover rec hrest hnot
      · intro rec hrec
        have hne : ¬ x.get keyName = rec.get keyName := by
          intro e
          exact hnew rec hrec (e ▸ hx)
        simp only [List.find?_cons, hne, decide_False]
        exact hfirst rec hrec
    · obtain ⟨hsub, hnew, hnodup, hcover, hfirst⟩ := ih (x.get keyName :: seen)
      simp only [firstByKey, hx, if_false]
      refine ⟨hsub.cons₂ x, ?_, ?_, ?_, ?_⟩
      · intro rec hrec
        rcases List.mem_cons.mp hrec with rfl | hrest
        · exact hx
        · exact fun h => hnew rec hrest (List.mem_cons_of_mem _ h)
      · rw [List.map_cons, List.nodup_cons]
        refine ⟨?_, hnodup⟩
        intro hmem
        obtain ⟨rec, hrec, hkey⟩ := List.mem_map.mp hmem
        exact hnew rec hrec (by rw [hkey]; exact List.mem_cons_self _ _)
      · intro rec hrec hnot
        rw [List.map_cons]
        rcases List.mem_cons.mp hrec with rfl | hrest
        · exact List.mem_cons_self _ _
        · by_cases hkey : rec.get keyName = x.get keyName
          · rw [hkey]
            exact List.mem_cons_self _ _
          · exact List.mem_cons_of_mem _ (hcover rec hrest (by
              intro h
              rcases List.mem_cons.mp h with h | h
              · exact hkey h
              · exact hnot h))
      · intro rec hrec
        rcases List.mem_cons.mp hrec with rfl | hrest
        · simp [List.find?_cons]
        · have hne : ¬ x.get keyName = rec.get keyName := by
            intro e
            exact hnew rec hrest (by rw [e]; exact List.mem_cons_self _ _)
          simp only [List.find?_cons, hne, decide_False]
          exact hfirst rec hrest

/-- The comparing loop of `saveRows` from any state of its variables in which
the keys of `doneKeys` are `seen` and hold the keys of `updates`. -/
theorem compare_spec
    (DiffRecord : Record → Record → ModelStruct → Except Error (Option ChangedFields))
    (ms : ModelStruct) (keyName : String) (cache : List (Value × Record))
    (fresh : List Record) (st : CompareState) (seen : List Value)
    (hdone : ∀ key, (mapGet st.doneKeys key).isSome = true ↔ key ∈ seen)
    (hupdates : ∀ key ∈ st.updates.map Prod.fst, key ∈ seen) :
    (∀ st', saveRows.compare DiffRecord ms keyName cache fresh st = .ok st' →
      st'.inserts = st.inserts ++ (firstByKey keyName fresh seen).filter
        (fun rec => (mapGet cache (rec.get keyName)).isNone) ∧
      st'.updates = st.updates ++ (firstByKey keyName fresh seen).filterMap
        (updateEntry DiffRecord ms keyName cache)) ∧
    (∀ err, saveRows.compare DiffRecord ms keyName cache fresh st = .error err →
      ∃ rec ∈ firstByKey keyName fresh seen, ∃ crec inner,
        mapGet cache (rec.get keyName) = some crec ∧ DiffRecord rec crec ms = .error inner ∧
        err = .wrap inner "diffing db records") := by
  induction fresh generalizing st seen with
  | nil =>
    refine ⟨?_, ?_⟩
    · intro st' h
      simp only [saveRows.compare, Except.ok.injEq] at h
      subst h
      simp [firstByKey]
    · intro err h
      simp [saveRows.compare] at h
  | cons frec rest ih =>
    cases hd : mapGet st.doneKeys (frec.get keyName) with
    | some b =>
      have hseen : frec.get keyName ∈ seen := (hdone _).mp (by rw [hd]; rfl)
      have hstep : saveRows.compare DiffRecord ms keyName cache (frec :: rest) st =
          saveRows.compare DiffRecord ms keyName cache rest st := by
        simp only [saveRows.compare, hd]
      have hfirst : firstByKey keyName (frec :: rest) seen = firstByKey keyName rest seen := by
        simp only [firstByKey, hseen, if_true]
      rw [hstep, hfirst]
      exact ih st seen hdone hupdates
    | none =>
      have hseen : frec.get keyName ∉ seen := by
        intro h
        have := (hdone _).mpr h
        rw [hd] at this
        simp at this
      have hfirst : firstByKey keyName (frec :: rest) seen =
          frec :: firstByKey keyName rest (frec.get keyName :: seen) := by
        simp only [firstByKey, hseen, if_false]
      have hdone' : ∀ key, (mapGet (mapSet st.doneKeys (frec.get keyName) true) key).isSome = true ↔
          key ∈ frec.get keyName :: seen := by
        intro key
        rw [mapGet_mapSet, List.mem_cons]
        by_cases hk : key = frec.get keyName
        · simp [hk]
        · simp only [hk, if_false, false_or]
          exact hdone key
      have hnotupd : frec.get keyName ∉ st.updates.map Prod.fst :=
        fun h => hseen (hupdates _ h)
      rw [hfirst]
      cases hc : mapGet cache (frec.get keyName) with
      | none =>
        have hstep : saveRows.compare DiffRecord ms keyName cache (frec :: rest) st =
            saveRows.compare DiffRecord ms keyName cache rest
              { inserts := st.inserts ++ [frec], updates := st.updates,
                doneKeys := mapSet st.doneKeys (frec.get keyName) true } := by
          simp only [saveRows.compare, hd, hc]
        rw [hstep]
        obtain ⟨hok, herr⟩ := ih
          { inserts := st.inserts ++ [frec], updates := st.updates,
            doneKeys := mapSet st.doneKeys (frec.get keyName) true }
          (frec.get keyName :: seen) hdone'
          (fun key hkey => List.mem_cons_of_mem _ (hupdates key hkey))
        refine ⟨?_, ?_⟩
        · intro st' h
          obtain ⟨h1, h2⟩ := hok st' h
          refine ⟨?_, ?_⟩
          · rw [h1]
            simp [List.filter_cons, hc]
          · rw [h2]
            simp [List.filterMap_cons, updateEntry, hc]
        · intro err h
          obtain ⟨rec, hrec, hrest⟩ := herr err h
          exact ⟨rec, List.mem_cons_of_mem _ hrec, hrest⟩
      | some crec =>
        cases hdiff : DiffRecord frec crec ms with
        | error inner =>
          have hstep : saveRows.compare DiffRecord ms keyName cache (frec :: rest) st =
              .error (.wrap inner "diffing db records") := by
            simp only [saveRows.compare, hd, hc, hdiff]
          rw [hstep]
          refine ⟨?_, ?_⟩
          · intro st' h
            cases h
          · intro err h
            cases h
            exact ⟨frec, List.mem_cons_self _ _, crec, inner, hc, hdiff, rfl⟩
        | ok changed =>
          cases changed with
          | none =>
            have hstep : saveRows.compare DiffRecord ms keyName cache (frec :: rest) st =
                saveRows.compare DiffRecord ms keyName cache rest
                  { inserts := st.inserts, updates := st.updates,
                    doneKeys := mapSet st.doneKeys (frec.get keyName) true } := by
              simp only [saveRows.compare, hd, hc, hdiff]
            rw [hstep]
            obtain ⟨hok, herr⟩ := ih
              { inserts := st.inserts, updates := st.updates,
                doneKeys := mapSet st.doneKeys (frec.get keyName) true }
              (frec.get keyName :: seen) hdone'
              (fun key hkey => List.mem_cons_of_mem _ (hupdates key hkey))
            refine ⟨?_, ?_⟩
            · intro st' h
              obtain ⟨h1, h2⟩ := hok st' h
              refine ⟨?_, ?_⟩
              · rw [h1]
                simp [List.filter_cons, hc]
              · rw [h2]
                simp [List.filterMap_cons, updateEntry, hc, hdiff]
            · intro err h
              obtain ⟨rec, hrec, hrest⟩ := herr err h
              exact ⟨rec, List.mem_cons_of_mem _ hrec, hrest⟩
          | some cf =>
            have hstep : saveRows.compare DiffRecord ms keyName cache (frec :: rest) st =
                saveRows.compare DiffRecord ms keyName cache rest
                  { inserts := st.inserts, updates := st.updates ++ [(frec.get keyName, cf)],
                    doneKeys := mapSet st.doneKeys (frec.get keyName) true } := by
              simp only [saveRows.compare, hd, hc, hdiff]
              rw [mapSet_of_not_mem _ _ _ hnotupd]
            rw [hstep]
            obtain ⟨hok, herr⟩ := ih
              { inserts := st.inserts, updates := st.updates ++ [(frec.get keyName, cf)],
                doneKeys := mapSet st.doneKeys (frec.get keyName) true }
              (frec.get keyName :: seen) hdone'
              (by
                intro key hkey
                rw [List.map_append, List.mem_append] at hkey
                rcases hkey with hkey | hkey
                · exact List.mem_cons_of_mem _ (hupdates key hkey)
                · simp only [List.map_cons, List.map_nil, List.mem_singleton] at hkey
                  rw [hkey]
                  exact List.mem_cons_self _ _)
            refine ⟨?_, ?_⟩
            · intro st' h
              obtain ⟨h1, h2⟩ := hok st' h
              refine ⟨?_, ?_⟩
              · rw [h1]
                simp [List.filter_cons, hc]
              · rw [h2]
                simp [List.filterMap_cons, updateEntry, hc, hdiff]
            · intro err h
              obtain ⟨rec, hrec, hrest⟩ := herr err h
              exact ⟨rec, List.mem_cons_of_mem _ hrec, hrest⟩

theorem firstByKey_of_nodup (keyName : String) (fresh : List Record) (seen : List Value)
    (hnodup : (fresh.map (fun rec => rec.get keyName)).Nodup)
    (hnew : ∀ rec ∈ fresh, rec.get keyName ∉ seen) : firstByKey keyName fresh seen = fresh := by
  induction fresh generalizing seen with
  | nil => rfl
  | cons x rest ih =>
    rw [List.map_cons, List.nodup_cons] at hnodup
    have hx : x.get keyName ∉ seen := hnew x (List.mem_cons_self _ _)
    simp only [firstByKey, hx, if_false]
    rw [ih (x.get keyName :: seen) hnodup.2]
    intro rec hrec h
    rcases List.mem_cons.mp h with h | h
    · exact hnodup.1 (List.mem_map.mpr ⟨rec, hrec, h⟩)
    · exact hnew rec (List.mem_cons_of_mem _ hrec) h

/-- When the fetched rows have pairwise distinct keys, `cacheByPK` maps the key
of each row to that row. -/
theorem cacheByPK_of_nodup (keyName : String) (cache : List Record)
    (hnodup : (cache.map (fun row => row.get keyName)).Nodup) (row : Record)
    (hrow : row ∈ cache) :
    mapGet (saveRows.cacheByPK keyName cache) (row.get keyName) = some row := by
  unfold saveRows.cacheByPK
  induction cache using List.reverseRecOn with
  | nil => simp at hrow
  | append_singleton rest last ih =>
    rw [List.foldl_append]
    simp only [List.foldl_cons, List.foldl_nil, mapGet_mapSet]
    rw [List.map_append, List.nodup_append] at hnodup
    rcases List.mem_append.mp hrow with h | h
    · have hne : ¬ row.get keyName = last.get keyName := by
        intro e
        exact hnodup.2.2 (List.mem_map.mpr ⟨row, h, rfl⟩) (by rw [e]; simp)
      simp only [hne, if_false]
      exact ih hnodup.1 h
    · rw [List.mem_singleton] at h
      simp [h]

theorem DiffRecord_of_equal (x y : Record) (ms : ModelStruct)
    (h : ∀ sf ∈ persistedFields ms.StructFields, x.get sf.Name = y.get sf.Name) :
    DiffRecord x y ms = .ok none := by
  unfold DiffRecord
  have hnil : (persistedFields ms.StructFields).filterMap (fun sf =>
      if x.get sf.Name = y.get sf.Name then none else some (sf.Name, x.get sf.Name)) = [] := by
    rw [List.filterMap_eq_nil_iff]
    intro sf hsf
    simp [h sf hsf]
  simp only [hnil, if_true]

theorem DiffRecord_of_one_field (x y : Record) (ms : ModelStruct)
    (fieldsBefore fieldsAfter : List StructField) (sf : StructField)
    (hfields : persistedFields ms.StructFields = fieldsBefore ++ sf :: fieldsAfter)
    (hne : x.get sf.Name ≠ y.get sf.Name)
    (h : ∀ other ∈ fieldsBefore ++ fieldsAfter, x.get other.Name = y.get other.Name) :
    DiffRecord x y ms = .ok (some [(sf.Name, x.get sf.Name)]) := by
  unfold DiffRecord
  have hbefore : fieldsBefore.filterMap (fun sf =>
      if x.get sf.Name = y.get sf.Name then none else some (sf.Name, x.get sf.Name)) = [] := by
    rw [List.filterMap_eq_nil_iff]
    intro other hother
    simp [h other (List.mem_append_left _ hother)]
  have hafter : fieldsAfter.filterMap (fun sf =>
      if x.get sf.Name = y.get sf.Name then none else some (sf.Name, x.get sf.Name)) = [] := by
    rw [List.filterMap_eq_nil_iff]
    intro other hother
    simp [h other (List.mem_append_right _ hother)]
  rw [hfields, List.filterMap_append, List.filterMap_cons, hbefore, hafter]
  simp [hne]

/-- The single-primary-key path of `saveRows` once the rows are fetched and the
comparing loop has filled its queues. -/
theorem saveRows_of_compare {σ : Type} (c : Context) (env : SaveEnv σ) (s : SaveSession σ)
    (params : SaveParams) (ms : ModelStruct) (primaryField : StructField)
    (fresh cache : List Record) (st : CompareState)
    (hpk : Scope.PrimaryFields ms = [primaryField]) (hfresh : fresh ≠ [])
    (hfetch : env.pagedByKeys primaryField.DBName
      (fresh.map (fun rec => rec.get primaryField.Name)) (.slice (.ptr ms.ModelType)) s.db =
        .ok cache)
    (hcompare : saveRows.compare env.DiffRecord ms primaryField.Name
      (saveRows.cacheByPK primaryField.Name cache) fresh ⟨[], [], []⟩ = .ok st) :
    saveRows c env s params (.slice ms fresh) =
      match saveRows.insertAll env st.inserts
        { db := s.db
          stats :=
            { Inserts := s.stats.Inserts + st.inserts.length
              Updates := s.stats.Updates + st.updates.length
              Current := s.stats.Current +
                ((fresh.length : Int) - st.updates.length - st.inserts.length) }
          log := s.log ++
            [.fetch primaryField.DBName (fresh.map (fun rec => rec.get primaryField.Name))] } with
      | (s, some err) => (s, some err)
      | (s, none) => saveRows.updateAll env ms primaryField (env.rangeUpdates st.updates) s := by
  have hlen : fresh.length ≠ 0 := by simpa using hfresh
  simp only [saveRows, hlen, if_false, hpk, saveRows.rows, hfetch, hcompare]

/-- C13: a batch of records with pairwise distinct keys is saved through the
single-primary-key path, every key being the key of one fetched row, with
`DiffRecord` as the spec describes it. If every persisted field of every record
equals that of its row, `saveRows` makes no call after the fetch (no insert and
no update), returns no error and leaves `Stats.Inserts` and `Stats.Updates` as
they were. If exactly one persisted field `sf` of exactly one record `rec`
differs from its row, the calls after the fetch are exactly one update, on the
table of the model, setting only the column of `sf` to the value in `rec`, and
keyed by the primary key of `rec`; `Stats.Updates` grows by one. -/
theorem saveRows_diff_minimality {σ : Type} (c : Context) (env : SaveEnv σ)
    (s : SaveSession σ) (params : SaveParams) (ms : ModelStruct) (primaryField : StructField)
    (fresh cache : List Record)
    (hpk : Scope.PrimaryFields ms = [primaryField])
    (hdiff : env.DiffRecord = DiffRecord)
    (hrangeUpdates : ∀ m, (env.rangeUpdates m).Perm m)
    (hrangeChanged : ∀ m, (env.rangeChanged m).Perm m)
    (hfresh : fresh ≠ [])
    (hdistinct : (fresh.map (fun rec => rec.get primaryField.Name)).Nodup)
    (hfetch : env.pagedByKeys primaryField.DBName
      (fresh.map (fun rec => rec.get primaryField.Name)) (.slice (.ptr ms.ModelType)) s.db =
        .ok cache)
    (hrows : (cache.map (fun row => row.get primaryField.Name)).Nodup)
    (hexist : ∀ rec ∈ fresh, ∃ row ∈ cache,
      row.get primaryField.Name = rec.get primaryField.Name) :
    ((∀ rec ∈ fresh, ∀ row ∈ cache, row.get primaryField.Name = rec.get primaryField.Name →
        ∀ sf ∈ persistedFields ms.StructFields, rec.get sf.Name = row.get sf.Name) →
      saveRows c env s params (.slice ms fresh) =
        (⟨s.db, ⟨s.stats.Inserts, s.stats.Updates, s.stats.Current + fresh.length⟩,
          s.log ++
            [.fetch primaryField.DBName (fresh.map (fun rec => rec.get primaryField.Name))]⟩,
          none)) ∧
    (∀ before rec after row fieldsBefore sf fieldsAfter,
      fresh = before ++ rec :: after →
      row ∈ cache → row.get primaryField.Name = rec.get primaryField.Name →
      persistedFields ms.StructFields = fieldsBefore ++ sf :: fieldsAfter →
      rec.get sf.Name ≠ row.get sf.Name →
      (∀ other ∈ fieldsBefore ++ fieldsAfter, rec.get other.Name = row.get other.Name) →
      (∀ rec' ∈ before ++ after, ∀ row' ∈ cache,
        row'.get primaryField.Name = rec'.get primaryField.Name →
        ∀ other ∈ persistedFields ms.StructFields, rec'.get other.Name = row'.get other.Name) →
      (saveRows c env s params (.slice ms fresh)).1.log =
        s.log ++
          [.fetch primaryField.DBName (fresh.map (fun rec => rec.get primaryField.Name)),
           .update ⟨ms.TableName, [(env.ToDBName sf.Name, rec.get sf.Name)],
             primaryField.DBName, rec.get primaryField.Name⟩] ∧
      (saveRows c env s params (.slice ms fresh)).1.stats =
        ⟨s.stats.Inserts, s.stats.Updates + 1, s.stats.Current + ((fresh.length : Int) - 1)⟩) := by
  -- the comparing loop cannot fail and fills the queues from the whole batch
  obtain ⟨hok, herr⟩ := compare_spec env.DiffRecord ms primaryField.Name
    (saveRows.cacheByPK primaryField.Name cache) fresh ⟨[], [], []⟩ []
    (by intro key; simp [mapGet]) (by intro key hkey; simp at hkey)
  rw [firstByKey_of_nodup _ _ _ hdistinct (fun _ _ => List.not_mem_nil _)] at hok herr
  have hentry : ∀ rec ∈ fresh, ∀ row ∈ cache,
      row.get primaryField.Name = rec.get primaryField.Name →
      updateEntry env.DiffRecord ms primaryField.Name
        (saveRows.cacheByPK primaryField.Name cache) rec =
        match DiffRecord rec row ms with
        | .ok (some cf) => some (rec.get primaryField.Name, cf)
        | _ => none := by
    intro rec _ row hrow hkey
    have hget := cacheByPK_of_nodup primaryField.Name cache hrows row hrow
    rw [hkey] at hget
    simp only [updateEntry, hget, hdiff]
  have hinserts : fresh.filter (fun rec =>
      (mapGet (saveRows.cacheByPK primaryField.Name cache)
        (rec.get primaryField.Name)).isNone) = [] := by
    rw [List.filter_eq_nil_iff]
    intro rec hrec
    obtain ⟨row, hrow, hkey⟩ := hexist rec hrec
    have hget := cacheByPK_of_nodup primaryField.Name cache hrows row hrow
    rw [hkey] at hget
    simp [hget]
  cases hcompare : saveRows.compare env.DiffRecord ms primaryField.Name
      (saveRows.cacheByPK primaryField.Name cache) fresh ⟨[], [], []⟩ with
  | error err =>
    obtain ⟨rec, _, crec, inner, _, hfail, _⟩ := herr err hcompare
    rw [hdiff] at hfail
    simp [DiffRecord] at hfail
  | ok st =>
    obtain ⟨hins, hupd⟩ := hok st hcompare
    simp only [List.nil_append, hinserts] at hins hupd
    have hsave := saveRows_of_compare c env s params ms primaryField fresh cache st hpk hfresh
      hfetch hcompare
    rw [hins] at hsave
    simp only [saveRows.insertAll, List.length_nil, Nat.cast_zero, Int.add_zero, Int.sub_zero]
      at hsave
    refine ⟨?_, ?_⟩
    · intro hsame
      have hnone : st.updates = [] := by
        rw [hupd, List.filterMap_eq_nil_iff]
        intro rec hrec
        obtain ⟨row, hrow, hkey⟩ := hexist rec hrec
        rw [hentry rec hrec row hrow hkey,
          DiffRecord_of_equal rec row ms (hsame rec hrec row hrow hkey)]
      rw [hsave, hnone, (hrangeUpdates []).eq_nil]
      simp [saveRows.updateAll]
    · intro before rec after row fieldsBefore sf fieldsAfter hsplit hrow hkey hfields hne hother
        hothers
      have hone : st.updates =
          [(rec.get primaryField.Name, [(sf.Name, rec.get sf.Name)])] := by
        have hbefore : before.filterMap (updateEntry env.DiffRecord ms primaryField.Name
            (saveRows.cacheByPK primaryField.Name cache)) = [] := by
          rw [List.filterMap_eq_nil_iff]
          intro rec' hrec'
          have hmem : rec' ∈ fresh := by rw [hsplit]; exact List.mem_append_left _ hrec'
          obtain ⟨row', hrow', hkey'⟩ := hexist rec' hmem
          rw [hentry rec' hmem row' hrow' hkey',
            DiffRecord_of_equal rec' row' ms
              (hothers rec' (List.mem_append_left _ hrec') row' hrow' hkey')]
        have hafter : after.filterMap (updateEntry env.DiffRecord ms primaryField.Name
            (saveRows.cacheByPK primaryField.Name cache)) = [] := by
          rw [List.filterMap_eq_nil_iff]
          intro rec' hrec'
          have hmem : rec' ∈ fresh := by
            rw [hsplit]
            exact List.mem_append_right _ (List.mem_cons_of_mem _ hrec')
          obtain ⟨row', hrow', hkey'⟩ := hexist rec' hmem
          rw [hentry rec' hmem row' hrow' hkey',
            DiffRecord_of_equal rec' row' ms
              (hothers rec' (List.mem_append_right _ hrec') row' hrow' hkey')]
        have hmem : rec ∈ fresh := by rw [hsplit]; simp
        have hthis := hentry rec hmem row hrow hkey
        rw [DiffRecord_of_one_field rec row ms fieldsBefore fieldsAfter sf hfields hne hother]
          at hthis
        rw [hupd]
        nth_rewrite 1 [hsplit]
        rw [List.filterMap_append, List.filterMap_cons, hbefore, hafter, hthis]
        rfl
      rw [hsave, hone, List.perm_singleton.mp (hrangeUpdates _)]
      simp only [saveRows.updateAll, saveRows.updateStmt,
        List.perm_singleton.mp (hrangeChanged _), List.foldl_cons, List.foldl_nil,
        List.length_singleton, Nat.cast_one]
      cases env.Exec _ s.db <;> simp [mapSet]

/-- The second and the third save of the qualities of programmer 3 in
`Test_HasMany`: saved again unchanged they cause the fetch alone, and with the
label of quality 11 changed they cause one update of `label` keyed by 11. -/
theorem saveRows_diff_minimality_witness :
    saveRows qualityContext exampleSaveEnv qualitiesSession ⟨[], []⟩
        (.slice qualityModel qualities) =
      (⟨qualities, ⟨0, 0, 3⟩, [.fetch "id" [.int 9, .int 10, .int 11]]⟩, none) ∧
    (saveRows qualityContext exampleSaveEnv qualitiesSession ⟨[], []⟩
        (.slice qualityModel qualitiesAgain)).1.log =
      [.fetch "id" [.int 9, .int 10, .int 11],
       .update ⟨"qualities", [("label", .text "Inspiration again")], "id", .int 11⟩] ∧
    (saveRows qualityContext exampleSaveEnv qualitiesSession ⟨[], []⟩
        (.slice qualityModel qualitiesAgain)).1.stats = ⟨0, 1, 2⟩ :=
  ⟨(saveRows_diff_minimality qualityContext exampleSaveEnv qualitiesSession ⟨[], []⟩
      qualityModel qualityIDField qualities qualities rfl rfl
      (fun _ => List.Perm.refl _) (fun _ => List.Perm.refl _)
      (by decide) (by decide) rfl (by decide) (by decide)).1 (by decide),
    (saveRows_diff_minimality qualityContext exampleSaveEnv qualitiesSession ⟨[], []⟩
      qualityModel qualityIDField qualitiesAgain qualities rfl rfl
      (fun _ => List.Perm.refl _) (fun _ => List.Perm.refl _)
      (by decide) (by decide) rfl (by decide) (by decide)).2
      [quality 9 "Inspiration", quality 10 "Creativity"] (quality 11 "Inspiration again") []
      (quality 11 "Ability to not repeat oneself")
      [qualityIDField, qualityProgrammerIDField] qualityLabelField []
      rfl (by decide) (by decide) rfl (by decide) (by decide) (by decide)⟩

/-- The batch `[9 relabelled, 9 again, 12, 12 again]` saved over the table of
`qualities`: after the fetch, the first record of key 12 is inserted and the
label of the first record of key 9 is updated; the later records of either key
cause no call. -/
theorem saveRows_first_occurrence_example :
    (saveRows qualityContext exampleSaveEnv qualitiesSession ⟨[], []⟩
        (.slice qualityModel
          [quality 9 "Insight", quality 9 "Ignored", quality 12 "Peace",
           quality 12 "Serenity"])).1.log =
      [.fetch "id" [.int 9, .int 9, .int 12, .int 12],
       .insert (quality 12 "Peace"),
       .update ⟨"qualities", [("label", .text "Insight")], "id", .int 9⟩] :=
  rfl

/-! ## Orderings: `Node.cb` and `SearchParams.Apply` -/

theorem OrderBy_foldl_orders (orders : List String) (s : SearchParams) :
    (orders.foldl SearchParams.OrderBy s).orders = s.orders ++ orders ∧
    (orders.foldl SearchParams.OrderBy s).offset = s.offset ∧
    (orders.foldl SearchParams.OrderBy s).limit = s.limit := by
  induction orders generalizing s with
  | nil => simp
  | cons o rest ih =>
    obtain ⟨h1, h2, h3⟩ := ih (s.OrderBy o)
    simp only [List.foldl_cons]
    refine ⟨?_, ?_, ?_⟩
    · rw [h1]
      simp [SearchParams.OrderBy]
    · rw [h2]
      rfl
    · rw [h3]
      rfl

/-- C27: a node whose field has an empty `OrderBy` hands the query back as it
is, and a node with an ordering adds that one ordering; in `Preload` the query
of a fetch is the `cb` of the requested node applied to the plain query.
`SearchParams.Apply` returns the SQL string as it is for the nil receiver and
for the parameters `Search()` returns; after the calls `OrderBy(o1)`, ...,
`OrderBy(on)` on them, with at least one call, it returns the string followed
by ` ORDER BY o1, ..., on`, the orderings in the order of the calls. -/
theorem cb_and_Apply_orderings :
    (∀ (n : Node) (db : GormDB), n.Field.OrderBy = "" → n.cb db = db) ∧
    (∀ (n : Node) (db : GormDB), n.Field.OrderBy ≠ "" →
      n.cb db = ⟨db.orders ++ [n.Field.OrderBy]⟩) ∧
    (∀ (env : PreloadEnv) (s : PreloadSession) (column : String) (keys : List Value)
        (typ : GoType) (cvt : Node),
      (Preload.fetch env s column keys typ cvt).1.log =
        s.log ++ [.fetch column keys typ (cvt.cb ⟨[]⟩)]) ∧
    (∀ sql, SearchParams.Apply none sql = sql) ∧
    (∀ sql, SearchParams.Apply (some Search) sql = sql) ∧
    (∀ sql, SearchParams.Apply (some ⟨[], none, none⟩) sql = sql) ∧
    (∀ sql first rest,
      SearchParams.Apply (some ((first :: rest).foldl SearchParams.OrderBy Search)) sql =
        sql ++ " ORDER BY " ++ ", ".intercalate (first :: rest)) := by
  refine ⟨?_, ?_, ?_, ?_, ?_, ?_, ?_⟩
  · intro n db h
    simp [Node.cb, h]
  · intro n db h
    simp [Node.cb, h, GormDB.Order]
  · intro env s column keys typ cvt
    simp only [Preload.fetch]
    split <;> rfl
  · intro sql
    rfl
  · intro sql
    rfl
  · intro sql
    rfl
  · intro sql first rest
    obtain ⟨h1, h2, h3⟩ := OrderBy_foldl_orders (first :: rest) Search
    simp only [SearchParams.Apply, h1, h2, h3]
    simp [Search, stringsJoin]

/-- The ordering of `Test_HasMany` and two orderings with an offset and a
limit, evaluated. -/
theorem Apply_example :
    SearchParams.Apply (some (Search.OrderBy "id asc")) "SELECT * FROM qualities" =
      "SELECT * FROM qualities ORDER BY id asc" ∧
    SearchParams.Apply
        (some ((((Search.OrderBy "a").Limit 10).OrderBy "b desc").Offset 20)) "q" =
      "q ORDER BY a, b desc OFFSET 20 LIMIT 10" := by
  decide

/-! ## `NewManyToMany` -/

/-- The contract of `NewManyToMany`: it returns the error "Could not find model struct" when no
model is registered under the join table's name; with one registered, it
returns the error on the source foreign keys when their number is not one, and
otherwise the error on the destination foreign keys when their number is not
one; with one of each it returns a value holding the registered scope, the
join table's name, the DB names of the two pairs as they were passed, their
field names obtained by `FromDBName`, and an empty `Values` map. -/
theorem NewManyToMany_contract (c : Context) (JoinTable : String)
    (SourceForeignKeys DestinationForeignKeys : List JoinTableForeignKey) :
    (c.ScopeMap.ByDBName JoinTable = none →
      NewManyToMany c JoinTable SourceForeignKeys DestinationForeignKeys =
        .error (.noModelStruct JoinTable)) ∧
    (∀ scope, c.ScopeMap.ByDBName JoinTable = some scope →
      (SourceForeignKeys.length ≠ 1 →
        NewManyToMany c JoinTable SourceForeignKeys DestinationForeignKeys =
          .error (.sourceForeignKeys JoinTable SourceForeignKeys.length)) ∧
      (SourceForeignKeys.length = 1 → DestinationForeignKeys.length ≠ 1 →
        NewManyToMany c JoinTable SourceForeignKeys DestinationForeignKeys =
          .error (.destinationForeignKeys JoinTable DestinationForeignKeys.length)) ∧
      (∀ sfk dfk, SourceForeignKeys = [sfk] → DestinationForeignKeys = [dfk] →
        NewManyToMany c JoinTable SourceForeignKeys DestinationForeignKeys =
          .ok { Scope := scope
                JoinTable := JoinTable
                SourceName := c.FromDBName sfk.DBName
                SourceAssocName := c.FromDBName sfk.AssociationDBName
                SourceDBName := sfk.DBName
                SourceAssocDBName := sfk.AssociationDBName
                DestinName := c.FromDBName dfk.DBName
                DestinAssocName := c.FromDBName dfk.AssociationDBName
                DestinDBName := dfk.DBName
                DestinAssocDBName := dfk.AssociationDBName
                Values := [] })) := by
  refine ⟨?_, ?_⟩
  · intro h
    simp [NewManyToMany, h]
  · intro scope h
    refine ⟨?_, ?_, ?_⟩
    · intro hlen
      unfold NewManyToMany
      simp only [h]
      split
      · simp at hlen
      · rfl
    · intro hsrc hlen
      obtain ⟨sfk, rfl⟩ := List.length_eq_one.mp hsrc
      unfold NewManyToMany
      simp only [h]
      split
      · simp at hlen
      · rfl
    · intro sfk dfk hs hd
      subst hs hd
      simp [NewManyToMany, h]

/-- The join table `profile_games` of `Test_ManyToManyRevenge` with one pair on
each side, with no pair on the source side, and a join table that is not
registered. -/
theorem NewManyToMany_example :
    (NewManyToMany profileContext "profile_games" [⟨"profile_id", "id"⟩]
        [⟨"game_id", "id"⟩]).toOption.map
      (fun mtm => (mtm.JoinTable, mtm.SourceDBName, mtm.SourceAssocDBName, mtm.DestinDBName,
        mtm.DestinAssocDBName, mtm.Values.length)) =
      some ("profile_games", "profile_id", "id", "game_id", "id", 0) ∧
    (NewManyToMany profileContext "profile_games" [] [⟨"game_id", "id"⟩]).toOption.isNone ∧
    (NewManyToMany profileContext "language_words" [⟨"language_id", "id"⟩]
        [⟨"word_id", "id"⟩]).toOption.isNone := by
  decide

/-- C28 (evaluated on the code): the field `Words` of `Language` is a
many-to-many relationship through the join table `language_words`, and no model
is registered under that name, so `NewManyToMany` returns the error "Could not
find model struct for language_words". `WalkType` does not call it: the walk of
`*Language` returns the node of `*Language` with no error and no child, and
with `Words` listed it returns the error "Language.Words is not an explicitly
listed model". With the join model registered the walk returns no child for
`Words` either. -/
theorem WalkType_skips_NewManyToMany :
    (languageModel.StructFields.filterMap (fun sf =>
        sf.Relationship.map (fun rel => (sf.Name, rel.Kind)))) = [("Words", "many_to_many")] ∧
    (NewManyToMany languageContextWithoutJoinModel "language_words" [⟨"language_id", "id"⟩]
        [⟨"word_id", "id"⟩]).toOption.isNone ∧
    (∃ r ri, WalkType languageContextWithoutJoinModel [] "*hades_test.Language"
        (.ptr (.named "hades_test" "Language" Kind.Struct)) [] [] = some r ∧
      r.ret = .ok (some ri) ∧ ri.Children = []) ∧
    (∃ r, WalkType languageContextWithoutJoinModel [] "*hades_test.Language"
        (.ptr (.named "hades_test" "Language" Kind.Struct)) [] ["Words"] = some r ∧
      r.ret = .error (.wrap
        (.notListedModel "Language" "Words" (.ptr (.named "hades_test" "Word" Kind.Struct)))
        "visiting field Words")) ∧
    (∃ r ri, WalkType languageContext [] "*hades_test.Language" (.ptr (.named "hades_test" "Language" Kind.Struct))
        [] [] = some r ∧ r.ret = .ok (some ri) ∧ ri.Children = []) :=
  ⟨by decide, by decide, ⟨_, _, rfl, rfl, rfl⟩, ⟨_, rfl, rfl⟩, ⟨_, _, rfl, rfl, rfl⟩⟩

/-! ## `walk`: relationship kinds it does not handle -/

/-- The default case of the `switch` of `walk`: when the loop reaches a requested
node whose name is the name of a child of the type-tree node, on a parent value that is a pointer or a
slice of pointers, and the relationship of that child is of a kind other than
`has_many`, `has_one` and `belongs_to`, it returns the error "Preload doesn't
know how to handle ... relationships" naming the kind, without fetching
anything and with the records as they were. -/
theorem walk_rejects_other_kinds (env : PreloadEnv) (pri cri : RecordInfo) (p : RValue)
    (key : String) (cvt : Node) (rest : List (String × Node)) (s : PreloadSession)
    (rel : Relationship)
    (hfound : pri.Children.find? (fun c => decide (c.Name = cvt.Name)) = some cri)
    (hp : (if p.Type.Kind = Kind.Slice then p.Type.Elem else p.Type).Kind = Kind.Ptr)
    (hrel : cri.Relationship = some rel)
    (hmany : rel.Kind ≠ "has_many") (hone : rel.Kind ≠ "has_one")
    (hbelongs : rel.Kind ≠ "belongs_to") :
    Preload.walkChildren env pri p ((key, cvt) :: rest) s =
      some (s, some (.unknownRelationship rel.Kind)) := by
  simp [Preload.walkChildren, Preload.switchKind, hfound, hp, hrel, hmany, hone, hbelongs]

/-- The default case on a type tree of `*Language` that has the many-to-many
child `Words`, for the two languages of `Test_ManyToMany` and the field
`Words`. -/
theorem walk_rejects_other_kinds_example :
    Preload.walkChildren examplePreloadEnv languageTree
        (.slice (.named "hades_test" "Language" Kind.Struct) [0, 1])
        [("Words", .mk "Words" ⟨"Words", ""⟩ [])] languagesSession =
      some (languagesSession, some (.unknownRelationship "many_to_many")) :=
  walk_rejects_other_kinds examplePreloadEnv languageTree
    (.mk "Words" (.ptr (.named "hades_test" "Word" Kind.Struct)) [] (some wordsRelationship) none wordModel)
    (.slice (.named "hades_test" "Language" Kind.Struct) [0, 1]) "Words" (.mk "Words" ⟨"Words", ""⟩ []) []
    languagesSession wordsRelationship rfl rfl rfl (by decide) (by decide) (by decide)

/-! ## `WalkType` and the cache `RecordInfoMap` -/

theorem insertAll_ok {σ : Type} (env : SaveEnv σ) (recs : List Record) (s s' : SaveSession σ)
    (h : saveRows.insertAll env recs s = (s', none)) :
    s'.log = s.log ++ recs.map SaveEvent.insert ∧ s'.stats = s.stats := by
  induction recs generalizing s with
  | nil =>
    simp only [saveRows.insertAll, Prod.mk.injEq, and_true] at h
    subst h
    simp
  | cons rec rest ih =>
    rw [saveRows.insertAll] at h
    split at h
    · simp at h
    · obtain ⟨hlog, hstats⟩ := ih _ h
      rw [hlog, hstats]
      simp

theorem updateAll_ok {σ : Type} (env : SaveEnv σ) (ms : ModelStruct)
    (primaryField : StructField) (entries : List (Value × ChangedFields))
    (s s' : SaveSession σ)
    (h : saveRows.updateAll env ms primaryField entries s = (s', none)) :
    s'.log = s.log ++ entries.map (fun entry =>
      SaveEvent.update (saveRows.updateStmt env ms primaryField entry.1 entry.2)) ∧
    s'.stats = s.stats := by
  induction entries generalizing s with
  | nil =>
    simp only [saveRows.updateAll, Prod.mk.injEq, and_true] at h
    subst h
    simp
  | cons entry rest ih =>
    rw [saveRows.updateAll] at h
    split at h
    · simp at h
    · obtain ⟨hlog, hstats⟩ := ih _ h
      rw [hlog, hstats]
      simp

/-- When the comparing loop ends without error, `DiffRecord` has failed on no
first occurrence. -/
theorem compare_ok_no_error
    (DiffRecord : Record → Record → ModelStruct → Except Error (Option ChangedFields))
    (ms : ModelStruct) (keyName : String) (cache : List (Value × Record))
    (fresh : List Record) (st st' : CompareState) (seen : List Value)
    (hdone : ∀ key, (mapGet st.doneKeys key).isSome = true ↔ key ∈ seen)
    (h : saveRows.compare DiffRecord ms keyName cache fresh st = .ok st') :
    ∀ rec ∈ firstByKey keyName fresh seen, ∀ crec inner,
      mapGet cache (rec.get keyName) = some crec → DiffRecord rec crec ms ≠ .error inner := by
  induction fresh generalizing st seen with
  | nil => simp [firstByKey]
  | cons frec rest ih =>
    cases hd : mapGet st.doneKeys (frec.get keyName) with
    | some b =>
      have hseen : frec.get keyName ∈ seen := (hdone _).mp (by rw [hd]; rfl)
      simp only [saveRows.compare, hd] at h
      simp only [firstByKey, hseen, if_true]
      exact ih st seen hdone h
    | none =>
      have hseen : frec.get keyName ∉ seen := by
        intro hmem
        have := (hdone _).mpr hmem
        rw [hd] at this
        simp at this
      have hdone' : ∀ key, (mapGet (mapSet st.doneKeys (frec.get keyName) true) key).isSome = true ↔
          key ∈ frec.get keyName :: seen := by
        intro key
        rw [mapGet_mapSet, List.mem_cons]
        by_cases hk : key = frec.get keyName
        · simp [hk]
        · simp only [hk, if_false, false_or]
          exact hdone key
      simp only [firstByKey, hseen, if_false]
      intro rec hrec crec inner hc
      rcases List.mem_cons.mp hrec with rfl | hrest
      · intro hfail
        simp only [saveRows.compare, hd, hc, hfail] at h
        cases h
      · cases hc' : mapGet cache (frec.get keyName) with
        | none =>
          simp only [saveRows.compare, hd, hc'] at h
          exact ih _ _ hdone' h rec hrest crec inner hc
        | some crec' =>
          cases hdiff : DiffRecord frec crec' ms with
          | error inner' =>
            simp only [saveRows.compare, hd, hc', hdiff] at h
            cases h
          | ok changed =>
            cases changed with
            | none =>
              simp only [saveRows.compare, hd, hc', hdiff] at h
              exact ih _ _ hdone' h rec hrest crec inner hc
            | some cf =>
              simp only [saveRows.compare, hd, hc', hdiff] at h
              exact ih _ _ hdone' h rec hrest crec inner hc

/-- Every record on which `DiffRecord` does not fail is queued for insert, or
stands for an entry of `updates`, or is found unchanged, and only one of them. -/
theorem queues_partition
    (DiffRecord : Record → Record → ModelStruct → Except Error (Option ChangedFields))
    (ms : ModelStruct) (keyName : String) (cache : List (Value × Record))
    (recs : List Record)
    (hgood : ∀ rec ∈ recs, ∀ crec inner,
      mapGet cache (rec.get keyName) = some crec → DiffRecord rec crec ms ≠ .error inner) :
    (recs.filter (fun rec => (mapGet cache (rec.get keyName)).isNone)).length +
      (recs.filterMap (updateEntry DiffRecord ms keyName cache)).length +
      (recs.filter (foundUnchanged DiffRecord ms keyName cache)).length = recs.length := by
  induction recs with
  | nil => rfl
  | cons rec rest ih =>
    have ih' := ih (fun r hr => hgood r (List.mem_cons_of_mem _ hr))
    have hrec := hgood rec (List.mem_cons_self _ _)
    cases hc : mapGet cache (rec.get keyName) with
    | none =>
      simp only [List.filter_cons, List.filterMap_cons, updateEntry, foundUnchanged, hc,
        Option.isNone_none, if_true, List.length_cons, Bool.false_eq_true, if_false]
      omega
    | some crec =>
      cases hdiff : DiffRecord rec crec ms with
      | error inner => exact absurd hdiff (hrec crec inner hc)
      | ok changed =>
        cases changed with
        | none =>
          simp only [List.filter_cons, List.filterMap_cons, updateEntry, foundUnchanged, hc,
            hdiff, Option.isNone_some, if_true, List.length_cons, Bool.false_eq_true, if_false]
          omega
        | some cf =>
          simp only [List.filter_cons, List.filterMap_cons, updateEntry, foundUnchanged, hc,
            hdiff, Option.isNone_some, if_true, List.length_cons, Bool.false_eq_true, if_false]
          omega

/-- C30 (counterexample): the batch holds two records with the key 12, which no
row of the table has. The save succeeds with one insert; no record of the batch
is found unchanged, and yet `Stats.Current` has grown by one. -/
theorem saveRows_counts_repeated_key_as_current :
    saveRows qualityContext exampleSaveEnv qualitiesSession ⟨[], []⟩
        (.slice qualityModel [quality 12 "Peace", quality 12 "Serenity"]) =
      (⟨qualities ++ [quality 12 "Peace"], ⟨1, 0, 1⟩,
        [.fetch "id" [.int 12, .int 12], .insert (quality 12 "Peace")]⟩, none) ∧
    [quality 12 "Peace", quality 12 "Serenity"].filter
        (foundUnchanged DiffRecord qualityModel "ID" (saveRows.cacheByPK "ID" qualities)) = [] ∧
    qualitiesSession.stats.Current = 0 :=
  ⟨rfl, by decide, rfl⟩

/-- C30 (amended): after a single-primary-key `saveRows` that returns no error,
`Stats.Inserts` has grown by the number of first occurrences that no fetched
row has the key of, each of which was inserted; `Stats.Updates` by the number
of first occurrences with a non-nil diff, for each of which one update was
run; and `Stats.Current` by the number of first occurrences found unchanged
plus the number of later records carrying a key already seen. The three
increases add up to the length of the batch. -/
theorem saveRows_stats_count {σ : Type} (c : Context) (env : SaveEnv σ)
    (s s' : SaveSession σ) (params : SaveParams) (ms : ModelStruct)
    (primaryField : StructField) (fresh cache : List Record)
    (hpk : Scope.PrimaryFields ms = [primaryField]) (hfresh : fresh ≠ [])
    (hrangeUpdates : ∀ m, (env.rangeUpdates m).Perm m)
    (hfetch : env.pagedByKeys primaryField.DBName
      (fresh.map (fun rec => rec.get primaryField.Name)) (.slice (.ptr ms.ModelType)) s.db =
        .ok cache)
    (hsaved : saveRows c env s params (.slice ms fresh) = (s', none)) :
    s'.stats.Inserts = s.stats.Inserts +
      ((firstByKey primaryField.Name fresh []).filter (fun rec =>
        (mapGet (saveRows.cacheByPK primaryField.Name cache)
          (rec.get primaryField.Name)).isNone)).length ∧
    s'.stats.Updates = s.stats.Updates +
      ((firstByKey primaryField.Name fresh []).filterMap
        (updateEntry env.DiffRecord ms primaryField.Name
          (saveRows.cacheByPK primaryField.Name cache))).length ∧
    s'.stats.Current = s.stats.Current +
      (((firstByKey primaryField.Name fresh []).filter
        (foundUnchanged env.DiffRecord ms primaryField.Name
          (saveRows.cacheByPK primaryField.Name cache))).length +
        (fresh.length - (firstByKey primaryField.Name fresh []).length) : Nat) ∧
    (s'.stats.Inserts - s.stats.Inserts) + (s'.stats.Updates - s.stats.Updates) +
      (s'.stats.Current - s.stats.Current) = fresh.length ∧
    ∃ stmts : List UpdateStmt,
      stmts.length = ((firstByKey primaryField.Name fresh []).filterMap
        (updateEntry env.DiffRecord ms primaryField.Name
          (saveRows.cacheByPK primaryField.Name cache))).length ∧
      s'.log = s.log ++
        .fetch primaryField.DBName (fresh.map (fun rec => rec.get primaryField.Name)) ::
          (((firstByKey primaryField.Name fresh []).filter (fun rec =>
              (mapGet (saveRows.cacheByPK primaryField.Name cache)
                (rec.get primaryField.Name)).isNone)).map SaveEvent.insert ++
            stmts.map SaveEvent.update) := by
  obtain ⟨hok, herr⟩ := compare_spec env.DiffRecord ms primaryField.Name
    (saveRows.cacheByPK primaryField.Name cache) fresh ⟨[], [], []⟩ []
    (by intro key; simp [mapGet]) (by intro key hkey; simp at hkey)
  cases hcompare : saveRows.compare env.DiffRecord ms primaryField.Name
      (saveRows.cacheByPK primaryField.Name cache) fresh ⟨[], [], []⟩ with
  | error err =>
    have hlen : fresh.length ≠ 0 := by simpa using hfresh
    simp [saveRows, hlen, hpk, saveRows.rows, hfetch, hcompare] at hsaved
  | ok st =>
    obtain ⟨hins, hupd⟩ := hok st hcompare
    simp only [List.nil_append] at hins hupd
    have hgood := compare_ok_no_error env.DiffRecord ms primaryField.Name
      (saveRows.cacheByPK primaryField.Name cache) fresh ⟨[], [], []⟩ st []
      (by intro key; simp [mapGet]) hcompare
    have hpart := queues_partition env.DiffRecord ms primaryField.Name
      (saveRows.cacheByPK primaryField.Name cache) (firstByKey primaryField.Name fresh [])
      hgood
    have hsub := (firstByKey_spec primaryField.Name fresh []).1.length_le
    have hsave := saveRows_of_compare c env s params ms primaryField fresh cache st hpk hfresh
      hfetch hcompare
    rw [hsaved] at hsave
    rw [← hins, ← hupd] at hpart ⊢
    cases hinsert : saveRows.insertAll env st.inserts
        { db := s.db
          stats :=
            { Inserts := s.stats.Inserts + st.inserts.length
              Updates := s.stats.Updates + st.updates.length
              Current := s.stats.Current +
                ((fresh.length : Int) - st.updates.length - st.inserts.length) }
          log := s.log ++
            [.fetch primaryField.DBName (fresh.map (fun rec => rec.get primaryField.Name))] } with
    | mk s₁ err₁ =>
      rw [hinsert] at hsave
      cases err₁ with
      | some err => simp at hsave
      | none =>
        simp only at hsave
        obtain ⟨hlog₁, hstats₁⟩ := insertAll_ok env _ _ _ hinsert
        obtain ⟨hlog₂, hstats₂⟩ := updateAll_ok env ms primaryField _ _ _ hsave.symm
        rw [hstats₁] at hstats₂
        simp only at hstats₂
        have hlen := (hrangeUpdates st.updates).length_eq
        refine ⟨by rw [hstats₂], by rw [hstats₂], ?_, ?_, ?_⟩
        · rw [hstats₂]
          simp only
          push_cast
          omega
        · rw [hstats₂]
          simp only
          omega
        · refine ⟨(env.rangeUpdates st.updates).map (fun entry =>
            saveRows.updateStmt env ms primaryField entry.1 entry.2), ?_, ?_⟩
          · rw [List.length_map, hlen]
          · rw [hlog₂, hlog₁]
            simp [List.map_map, Function.comp_def]

/-- C30 on the batch `qualitiesMixed` over the table of `qualities`: one
insert (key 12), one update (key 9) and three records counted as current, the
unchanged key 10 and the two later records of the keys 9 and 12. -/
theorem saveRows_stats_count_witness :
    saveRows qualityContext exampleSaveEnv qualitiesSession ⟨[], []⟩
        (.slice qualityModel qualitiesMixed) = (qualitiesMixedSaved, none) ∧
    qualitiesMixedSaved.stats = ⟨1, 1, 3⟩ ∧
    qualitiesMixedSaved.stats.Inserts = qualitiesSession.stats.Inserts +
      ((firstByKey "ID" qualitiesMixed []).filter (fun rec =>
        (mapGet (saveRows.cacheByPK "ID" [quality 9 "Inspiration", quality 10 "Creativity"])
          (rec.get "ID")).isNone)).length ∧
    (firstByKey "ID" qualitiesMixed []).filter
        (foundUnchanged DiffRecord qualityModel "ID"
          (saveRows.cacheByPK "ID" [quality 9 "Inspiration", quality 10 "Creativity"])) =
      [quality 10 "Creativity"] ∧
    qualitiesMixed.length - (firstByKey "ID" qualitiesMixed []).length = 2 :=
  ⟨rfl, rfl,
    (saveRows_stats_count qualityContext exampleSaveEnv qualitiesSession qualitiesMixedSaved
      ⟨[], []⟩ qualityModel qualityIDField qualitiesMixed
      [quality 9 "Inspiration", quality 10 "Creativity"]
      rfl (by decide) (fun _ => List.Perm.refl _) rfl rfl).1,
    by decide, by decide⟩

/-! ## `Node.Add`: the tree of requested paths -/

theorem splitOnDot_ne_nil (l : List Char) : splitOnDot l ≠ [] := by
  cases l with
  | nil => simp [splitOnDot]
  | cons ch rest =>
    rw [splitOnDot]
    split
    · simp
    · split <;> simp

theorem splitOnDot_no_dot (l : List Char) : ∀ token ∈ splitOnDot l, '.' ∉ token := by
  induction l with
  | nil => simp [splitOnDot]
  | cons ch rest ih =>
    rw [splitOnDot]
    by_cases hch : ch = '.'
    · rw [if_pos hch]
      intro token htoken
      rcases List.mem_cons.mp htoken with rfl | h
      · simp
      · exact ih token h
    · rw [if_neg hch]
      cases hrest : splitOnDot rest with
      | nil => exact absurd hrest (splitOnDot_ne_nil rest)
      | cons first others =>
        rw [hrest] at ih
        intro token htoken
        rcases List.mem_cons.mp htoken with rfl | h
        · intro hmem
          rcases List.mem_cons.mp hmem with h | h
          · exact hch h.symm
          · exact ih first (List.mem_cons_self _ _) h
        · exact ih token (List.mem_cons_of_mem _ h)

theorem splitOnDot_of_no_dot (token : List Char) (h : '.' ∉ token) :
    splitOnDot token = [token] := by
  induction token with
  | nil => rfl
  | cons ch rest ih =>
    have hch : ¬ ch = '.' := fun e => h (by rw [e]; exact List.mem_cons_self _ _)
    have hrest : '.' ∉ rest := fun hmem => h (List.mem_cons_of_mem _ hmem)
    rw [splitOnDot, if_neg hch, ih hrest]

theorem splitOnDot_append_dot (token rest : List Char) (h : '.' ∉ token) :
    splitOnDot (token ++ '.' :: rest) = token :: splitOnDot rest := by
  induction token with
  | nil => simp [splitOnDot]
  | cons ch tail ih =>
    have hch : ¬ ch = '.' := fun e => h (by rw [e]; exact List.mem_cons_self _ _)
    have htail : '.' ∉ tail := fun hmem => h (List.mem_cons_of_mem _ hmem)
    rw [List.cons_append, splitOnDot, if_neg hch, ih htail]

theorem joinWithDot_cons_cons (token second : List Char) (rest : List (List Char)) :
    joinWithDot (token :: second :: rest) = token ++ '.' :: joinWithDot (second :: rest) := by
  simp [joinWithDot]

theorem splitOnDot_joinWithDot (tokens : List (List Char)) (hne : tokens ≠ [])
    (h : ∀ token ∈ tokens, '.' ∉ token) : splitOnDot (joinWithDot tokens) = tokens := by
  induction tokens with
  | nil => exact absurd rfl hne
  | cons token rest ih =>
    cases rest with
    | nil => exact splitOnDot_of_no_dot token (h token (List.mem_cons_self _ _))
    | cons second others =>
      rw [joinWithDot_cons_cons, splitOnDot_append_dot _ _ (h token (List.mem_cons_self _ _)),
        ih (by simp) (fun t ht => h t (List.mem_cons_of_mem _ ht))]

theorem joinWithDot_splitOnDot (l : List Char) : joinWithDot (splitOnDot l) = l := by
  induction l with
  | nil => rfl
  | cons ch rest ih =>
    rw [splitOnDot]
    by_cases hch : ch = '.'
    · rw [if_pos hch]
      cases hrest : splitOnDot rest with
      | nil => exact absurd hrest (splitOnDot_ne_nil rest)
      | cons first others =>
        rw [hrest] at ih
        rw [joinWithDot_cons_cons, ih, hch]
        rfl
    · rw [if_neg hch]
      cases hrest : splitOnDot rest with
      | nil => exact absurd hrest (splitOnDot_ne_nil rest)
      | cons first others =>
        rw [hrest] at ih
        cases others with
        | nil =>
          simp only [joinWithDot] at ih ⊢
          rw [ih]
        | cons second more =>
          simp only [joinWithDot] at ih ⊢
          rw [List.cons_append, ih]

theorem splitOnDot_length (l : List Char) : (splitOnDot l).length ≤ l.length + 1 := by
  induction l with
  | nil => simp [splitOnDot]
  | cons ch rest ih =>
    rw [splitOnDot]
    split
    · simp only [List.length_cons]
      omega
    · cases hrest : splitOnDot rest with
      | nil => simp
      | cons first others =>
        rw [hrest] at ih
        simp only [List.length_cons] at ih ⊢
        omega

theorem intercalate_go (acc : List Char) (tokens : List (List Char)) :
    String.intercalate.go (String.mk acc) "." (tokens.map String.mk) =
      String.mk (acc ++ (tokens.map (fun token => '.' :: token)).flatten) := by
  induction tokens generalizing acc with
  | nil => simp [String.intercalate.go]
  | cons token rest ih =>
    simp only [List.map_cons, String.intercalate.go]
    have happend : String.mk acc ++ "." ++ String.mk token = String.mk (acc ++ '.' :: token) := by
      apply String.ext
      simp [String.data_append]
    rw [happend, ih]
    simp

theorem joinWithDot_eq (token : List Char) (rest : List (List Char)) :
    joinWithDot (token :: rest) = token ++ (rest.map (fun t => '.' :: t)).flatten := by
  induction rest generalizing token with
  | nil => simp [joinWithDot]
  | cons second more ih =>
    rw [joinWithDot_cons_cons, ih]
    simp

theorem intercalate_segments (name : String) : ".".intercalate (segments name) = name := by
  unfold segments
  cases hsplit : splitOnDot name.data with
  | nil => exact absurd hsplit (splitOnDot_ne_nil _)
  | cons token rest =>
    have hjoin := joinWithDot_splitOnDot name.data
    rw [hsplit, joinWithDot_eq] at hjoin
    simp only [List.map_cons, String.intercalate]
    rw [intercalate_go, hjoin]

/-- With a bound no smaller than the number of segments, `Node.AddAux` builds
the chain of the segments. -/
theorem AddAux_eq_addChain (fuel : Nat) (n : Node) (pf : PreloadField)
    (hfuel : (splitOnDot pf.Name.data).length ≤ fuel) :
    Node.AddAux fuel n pf = Node.addChain (segments pf.Name) pf.OrderBy n := by
  induction fuel generalizing n pf with
  | zero =>
    have := splitOnDot_ne_nil pf.Name.data
    cases hsplit : splitOnDot pf.Name.data with
    | nil => exact absurd hsplit this
    | cons token rest => rw [hsplit] at hfuel; simp at hfuel
  | succ fuel ih =>
    have hdots := splitOnDot_no_dot pf.Name.data
    have hjoin := joinWithDot_splitOnDot pf.Name.data
    unfold segments
    rw [Node.AddAux]
    cases hsplit : splitOnDot pf.Name.data with
    | nil => exact absurd hsplit (splitOnDot_ne_nil _)
    | cons token rest =>
      rw [hsplit] at hfuel hdots hjoin
      cases rest with
      | nil =>
        simp only [joinWithDot] at hjoin
        have hname : String.mk token = pf.Name := by rw [hjoin]
        have hpf : pf = ⟨String.mk token, pf.OrderBy⟩ := by rw [hname]
        simp only [List.length_nil, Nat.zero_add, gt_iff_lt, Nat.lt_irrefl, if_false,
          List.map_cons, List.map_nil, Node.addChain]
        rw [← hpf]
      | cons second more =>
        have hrec : splitOnDot
            ({ pf with Name := String.mk (joinWithDot (second :: more)) } : PreloadField).Name.data
            = second :: more :=
          splitOnDot_joinWithDot (second :: more) (by simp)
            (fun t ht => hdots t (List.mem_cons_of_mem _ ht))
        have hih := ih ((mapGet n.Children (String.mk token)).getD (NewNode (String.mk token)))
          { pf with Name := String.mk (joinWithDot (second :: more)) }
          (by rw [hrec]; simp only [List.length_cons] at hfuel ⊢; omega)
        unfold segments at hih
        rw [hrec] at hih
        simp only [List.length_cons, gt_iff_lt, Nat.lt_add_left_iff_pos, Nat.zero_lt_succ,
          if_true, List.map_cons, Node.addChain]
        rw [hih]
        rfl

/-- C26: `Node.Add` with the field of dotted name `s1.s2...sk` builds the chain
of the segments: the segments are what is between the dots of the name, at
least one and none holding a dot; the child keyed by `s1` is reused, or created
by `NewNode` when there is none, the rest of the chain goes under it in the
same way, and the node of `sk` receives the field with its name reduced to `sk`
and its ordering kept. A node keeps its name and its field when a child is set
under it, a map keeps the entry of every other key, in place, when one key is
assigned, and a node keeps its name and children when it receives the field. -/
theorem Node_Add_builds_chain (n : Node) (pf : PreloadField) :
    segments pf.Name ≠ [] ∧
    (∀ seg ∈ segments pf.Name, '.' ∉ seg.data) ∧
    ".".intercalate (segments pf.Name) = pf.Name ∧
    n.Add pf = Node.addChain (segments pf.Name) pf.OrderBy n ∧
    (∀ (node child : Node) (key : String),
      (node.setChild key child).Name = node.Name ∧
      (node.setChild key child).Field = node.Field ∧
      mapGet (node.setChild key child).Children key = some child ∧
      (∀ other, other ≠ key →
        mapGet (node.setChild key child).Children other = mapGet node.Children other) ∧
      (node.setChild key child).Children.map Prod.fst =
        if key ∈ node.Children.map Prod.fst then node.Children.map Prod.fst
        else node.Children.map Prod.fst ++ [key]) ∧
    (∀ (node : Node) (field : PreloadField),
      (node.setField field).Name = node.Name ∧ (node.setField field).Field = field ∧
      (node.setField field).Children = node.Children) ∧
    (∀ name, (NewNode name).Name = name ∧ (NewNode name).Children = []) := by
  refine ⟨?_, ?_, intercalate_segments pf.Name, ?_, ?_, ?_, ?_⟩
  · unfold segments
    intro h
    exact splitOnDot_ne_nil _ (List.map_eq_nil_iff.mp h)
  · unfold segments
    intro seg hseg
    obtain ⟨token, htoken, rfl⟩ := List.mem_map.mp hseg
    exact splitOnDot_no_dot _ token htoken
  · unfold Node.Add
    exact AddAux_eq_addChain _ n pf (splitOnDot_length _)
  · intro node child key
    cases node with
    | mk name field children =>
      refine ⟨rfl, rfl, ?_, ?_, ?_⟩
      · simp [Node.setChild, Node.Children, mapGet_mapSet]
      · intro other hother
        simp [Node.setChild, Node.Children, mapGet_mapSet, hother]
      · simp only [Node.setChild, Node.Children]
        exact mapSet_keys _ _ _
  · intro node field
    cases node with
    | mk name old children => exact ⟨rfl, rfl, rfl⟩
  · intro name
    exact ⟨rfl, rfl⟩

/-- Two fields, `Fate` and then `Fate.Punishment` with an ordering, added to a
fresh node: the second reuses the child `Fate`, which
keeps its field, and creates `Punishment` under it. -/
theorem Node_Add_example :
    ((NewNode "*hades_test.Human").Add ⟨"Fate", ""⟩).Add ⟨"Fate.Punishment", "id asc"⟩ =
      .mk "*hades_test.Human" ⟨"", ""⟩
        [("Fate", .mk "Fate" ⟨"Fate", ""⟩
          [("Punishment", .mk "Punishment" ⟨"Punishment", "id asc"⟩ [])])] := by
  rfl

/-! ## `Preload`: requested segments that the type tree does not have -/

theorem preloadableAll_find (children : List RecordInfo) (q : RecordInfo → Bool)
    (cri : RecordInfo) (hall : RecordInfo.preloadableAll children = true)
    (hfind : children.find? q = some cri) :
    (∃ rel, cri.Relationship = some rel ∧ rel.preloadable = true) ∧ cri.preloadable = true := by
  induction children with
  | nil => simp at hfind
  | cons first rest ih =>
    rw [RecordInfo.preloadableAll] at hall
    simp only [Bool.and_eq_true] at hall
    obtain ⟨⟨hrel, hfirst⟩, hrest⟩ := hall
    rw [List.find?_cons] at hfind
    cases hq : q first with
    | true =>
      rw [hq] at hfind
      simp only [Option.some.injEq] at hfind
      subst hfind
      refine ⟨?_, hfirst⟩
      cases hr : first.Relationship with
      | none => rw [hr] at hrel; simp at hrel
      | some rel => rw [hr] at hrel; exact ⟨rel, rfl, hrel⟩
    | false =>
      rw [hq] at hfind
      exact ih hrest hfind

theorem preloadable_find (pri cri : RecordInfo) (q : RecordInfo → Bool)
    (hpri : pri.preloadable = true) (hfind : pri.Children.find? q = some cri) :
    (∃ rel, cri.Relationship = some rel ∧ rel.preloadable = true) ∧ cri.preloadable = true := by
  cases pri with
  | mk name typ children rel mtm ms =>
    rw [RecordInfo.preloadable] at hpri
    exact preloadableAll_find children q cri hpri hfind

/-- With a descriptor it can handle, parents it can reach and a fetch that does
not fail, every case of the `switch` of `walk` ends with a fetched slice. -/
theorem switchKind_ok (env : PreloadEnv)
    (hfetch : ∀ column keys typ query, ∃ recs, env.pagedByKeys column keys typ query = .ok recs)
    (cri : RecordInfo) (rel : Relationship) (p : RValue) (cvt : Node) (s : PreloadSession)
    (hrel : rel.preloadable = true) (hp : p.records.isSome = true) :
    ∃ s' fresh, Preload.switchKind env cri rel p cvt s = some (s', some fresh, none) := by
  simp only [Relationship.preloadable, ne_eq, decide_eq_true_eq] at hrel
  obtain ⟨hkind, h1, h2, h3, h4⟩ := hrel
  obtain ⟨ps, hps⟩ := Option.isSome_iff_exists.mp hp
  obtain ⟨f1, r1, hf1⟩ := List.exists_cons_of_ne_nil h1
  obtain ⟨f2, r2, hf2⟩ := List.exists_cons_of_ne_nil h2
  obtain ⟨f3, r3, hf3⟩ := List.exists_cons_of_ne_nil h3
  obtain ⟨f4, r4, hf4⟩ := List.exists_cons_of_ne_nil h4
  unfold Preload.switchKind
  by_cases hmany : rel.Kind = "has_many"
  · obtain ⟨recs, hrecs⟩ := hfetch f2 (ps.map (fun rec => (s.heap.get rec).get f3))
      (.slice cri.Typ) (cvt.cb ⟨[]⟩)
    simp only [hmany, if_true, hps, hf1, hf2, hf3, List.head?_cons, Preload.fetch, hrecs]
    exact ⟨_, _, rfl⟩
  · by_cases hone : rel.Kind = "has_one"
    · obtain ⟨recs, hrecs⟩ := hfetch f2 (ps.map (fun rec => (s.heap.get rec).get f3))
        (.slice cri.Typ) (cvt.cb ⟨[]⟩)
      simp only [hone, if_true, hps, hf1, hf2, hf3, List.head?_cons, Preload.fetch, hrecs]
      exact ⟨_, _, rfl⟩
    · have hbelongs : rel.Kind = "belongs_to" := by
        rcases hkind with h | h | h
        · exact absurd h hmany
        · exact absurd h hone
        · exact h
      obtain ⟨recs, hrecs⟩ := hfetch f4 (ps.map (fun rec => (s.heap.get rec).get f1))
        (.slice cri.Typ) (cvt.cb ⟨[]⟩)
      simp only [hbelongs, if_true, hps, hf1, hf3, hf4, List.head?_cons, Preload.fetch, hrecs]
      exact ⟨_, _, rfl⟩

theorem records_type (p : RValue) (hp : p.records.isSome = true) :
    (if p.Type.Kind = Kind.Slice then p.Type.Elem else p.Type).Kind = Kind.Ptr := by
  cases p with
  | ptr elem addr => rfl
  | slice elem addrs => rfl
  | other typ len => simp [RValue.records] at hp

mutual
/-- On a type tree whose descriptors `walk` can handle, with fetches that do not
fail, `walk` returns, with the error naming the first missing segment when
there is one and with no error otherwise. -/
theorem walk_firstMissing (env : PreloadEnv)
    (hfetch : ∀ column keys typ query, ∃ recs, env.pagedByKeys column keys typ query = .ok recs) :
    ∀ (pvt : Node) (pri : RecordInfo) (p : RValue) (s : PreloadSession),
      pri.preloadable = true → p.records.isSome = true →
      ∃ s', Preload.walk env pri p pvt s =
        some (s', (pvt.firstMissing pri).map (fun pair => .relationNotFound pair.1 pair.2))
  | .mk _ _ children, pri, p, s, hpri, hp => by
    rw [Preload.walk, Node.firstMissing]
    exact walkChildren_firstMissing env hfetch children pri p s hpri hp
theorem walkChildren_firstMissing (env : PreloadEnv)
    (hfetch : ∀ column keys typ query, ∃ recs, env.pagedByKeys column keys typ query = .ok recs) :
    ∀ (children : List (String × Node)) (pri : RecordInfo) (p : RValue) (s : PreloadSession),
      pri.preloadable = true → p.records.isSome = true →
      ∃ s', Preload.walkChildren env pri p children s =
        some (s', (Node.firstMissingAmong pri children).map
          (fun pair => .relationNotFound pair.1 pair.2))
  | [], pri, p, s, _, _ => ⟨s, rfl⟩
  | (key, cvt) :: rest, pri, p, s, hpri, hp => by
    rw [Preload.walkChildren, Node.firstMissingAmong]
    cases hfind : pri.Children.find? (fun c => decide (c.Name = cvt.Name)) with
    | none => exact ⟨s, rfl⟩
    | some cri =>
      obtain ⟨⟨rel, hrel, hgood⟩, hcri⟩ := preloadable_find pri cri _ hpri hfind
      obtain ⟨s₁, fresh, hswitch⟩ := switchKind_ok env hfetch cri rel p cvt s hgood hp
      obtain ⟨s₂, hwalk⟩ := walk_firstMissing env hfetch cvt cri (.slice cri.Typ.Elem fresh) s₁
        hcri rfl
      have hptyp := records_type p hp
      simp only [hptyp, ne_eq, not_true_eq_false, if_false, hrel, hswitch, hwalk]
      cases hmissing : cvt.firstMissing cri with
      | some pair => exact ⟨s₂, rfl⟩
      | none =>
        simp only [Option.map_none']
        exact walkChildren_firstMissing env hfetch rest pri p s₂ hpri hp
end

mutual
theorem firstMissing_sound :
    ∀ (pvt : Node) (pri : RecordInfo) (parent name : String),
      pvt.firstMissing pri = some (parent, name) → Node.Missing pri pvt parent name
  | .mk nodeName field children, pri, parent, name, h => by
    rw [Node.firstMissing] at h
    obtain ⟨key, cvt, hmem, hcase⟩ := firstMissingAmong_sound children pri parent name h
    rcases hcase with ⟨hnone, rfl, rfl⟩ | ⟨cri, hsome, hbelow⟩
    · exact Node.Missing.here pri _ key cvt hmem hnone
    · exact Node.Missing.under pri cri _ key cvt parent name hmem hsome hbelow
theorem firstMissingAmong_sound :
    ∀ (children : List (String × Node)) (pri : RecordInfo) (parent name : String),
      Node.firstMissingAmong pri children = some (parent, name) →
      ∃ key cvt, (key, cvt) ∈ children ∧
        ((pri.Children.find? (fun c => decide (c.Name = cvt.Name)) = none ∧
            parent = pri.Name ∧ name = cvt.Name) ∨
          ∃ cri, pri.Children.find? (fun c => decide (c.Name = cvt.Name)) = some cri ∧
            Node.Missing cri cvt parent name)
  | [], pri, parent, name, h => by simp [Node.firstMissingAmong] at h
  | (key, cvt) :: rest, pri, parent, name, h => by
    rw [Node.firstMissingAmong] at h
    cases hfind : pri.Children.find? (fun c => decide (c.Name = cvt.Name)) with
    | none =>
      rw [hfind] at h
      simp only [Option.some.injEq, Prod.mk.injEq] at h
      exact ⟨key, cvt, List.mem_cons_self _ _, Or.inl ⟨hfind, h.1.symm, h.2.symm⟩⟩
    | some cri =>
      rw [hfind] at h
      simp only at h
      cases hbelow : cvt.firstMissing cri with
      | some pair =>
        rw [hbelow] at h
        simp only [Option.some.injEq] at h
        subst h
        exact ⟨key, cvt, List.mem_cons_self _ _,
          Or.inr ⟨cri, hfind, firstMissing_sound cvt cri parent name hbelow⟩⟩
      | none =>
        rw [hbelow] at h
        obtain ⟨key', cvt', hmem, hcase⟩ := firstMissingAmong_sound rest pri parent name h
        exact ⟨key', cvt', List.mem_cons_of_mem _ hmem, hcase⟩
end

mutual
theorem firstMissing_complete :
    ∀ (pvt : Node) (pri : RecordInfo), pvt.firstMissing pri = none →
      ∀ parent name, ¬ Node.Missing pri pvt parent name
  | .mk nodeName field children, pri, h, parent, name, hmissing => by
    rw [Node.firstMissing] at h
    have hall := firstMissingAmong_complete children pri h
    cases hmissing with
    | here _ _ key cvt hmem hnone =>
      obtain ⟨cri, hsome, _⟩ := hall key cvt hmem
      rw [hnone] at hsome
      cases hsome
    | under _ cri _ key cvt _ _ hmem hsome hbelow =>
      obtain ⟨cri', hsome', hnot⟩ := hall key cvt hmem
      rw [hsome] at hsome'
      cases hsome'
      exact hnot parent name hbelow
theorem firstMissingAmong_complete :
    ∀ (children : List (String × Node)) (pri : RecordInfo),
      Node.firstMissingAmong pri children = none →
      ∀ key cvt, (key, cvt) ∈ children →
        ∃ cri, pri.Children.find? (fun c => decide (c.Name = cvt.Name)) = some cri ∧
          ∀ parent name, ¬ Node.Missing cri cvt parent name
  | [], _, _, key, cvt, hmem => by simp at hmem
  | (key', cvt') :: rest, pri, h, key, cvt, hmem => by
    rw [Node.firstMissingAmong] at h
    cases hfind : pri.Children.find? (fun c => decide (c.Name = cvt'.Name)) with
    | none => rw [hfind] at h; simp at h
    | some cri =>
      rw [hfind] at h
      simp only at h
      cases hbelow : cvt'.firstMissing cri with
      | some pair => rw [hbelow] at h; simp at h
      | none =>
        rw [hbelow] at h
        rcases List.mem_cons.mp hmem with heq | hrest
        · simp only [Prod.mk.injEq] at heq
          obtain ⟨rfl, rfl⟩ := heq
          exact ⟨cri, hfind, firstMissing_complete cvt cri hbelow⟩
        · exact firstMissingAmong_complete rest pri h key cvt hrest
end

/-- C25: past its checks, `Preload` is `walk` on the type tree that `WalkType`
returns and the tree of the requested fields. When the loop of `walk` reaches a
requested node whose name is not the name of a child of the type-tree node, it
returns the error "Relation not found" naming that node and the segment, with
the session as it was: nothing is fetched for the segment. On a type tree whose
descriptors `walk` can handle, with parents it can reach and fetches that do
not fail, `walk` returns such an error, naming a missing segment, whenever a
requested segment at any depth is missing, and returns no error otherwise. -/
theorem walk_missing_segment (env : PreloadEnv) (pri : RecordInfo) (p : RValue) (pvt : Node)
    (s : PreloadSession)
    (hfetch : ∀ column keys typ query, ∃ recs, env.pagedByKeys column keys typ query = .ok recs)
    (hpri : pri.preloadable = true) (hp : p.records.isSome = true) :
    (∀ (c : Context) (params : PreloadParams) (walked : WalkResult) (typeTree : RecordInfo),
      params.Fields ≠ [] → params.Record.records.isSome = true →
      (params.Record.Type.Kind = Kind.Slice → params.Record.Len ≠ 0) →
      WalkType c []
        (if params.Record.Type.Kind = Kind.Slice then params.Record.Type.Elem
          else params.Record.Type).String
        (if params.Record.Type.Kind = Kind.Slice then params.Record.Type.Elem
          else params.Record.Type) [] [] = some walked →
      walked.ret = .ok (some typeTree) →
      Preload c env s params =
        Preload.walk env typeTree params.Record
          ((params.Fields.foldl Node.Add
            (NewNode (if params.Record.Type.Kind = Kind.Slice then params.Record.Type.Elem
              else params.Record.Type).String)).ranged env.rangeChildren)
          ⟨s.heap, s.log ++
            [.walkType (if params.Record.Type.Kind = Kind.Slice then params.Record.Type.Elem
              else params.Record.Type)]⟩) ∧
    (∀ (pri' : RecordInfo) (p' : RValue) (key : String) (cvt : Node)
        (rest : List (String × Node)) (s' : PreloadSession),
      pri'.Children.find? (fun c => decide (c.Name = cvt.Name)) = none →
      Preload.walkChildren env pri' p' ((key, cvt) :: rest) s' =
        some (s', some (.relationNotFound pri'.Name cvt.Name))) ∧
    (∀ parent name, Node.Missing pri pvt parent name →
      ∃ s' parent' name', Node.Missing pri pvt parent' name' ∧
        Preload.walk env pri p pvt s = some (s', some (.relationNotFound parent' name'))) ∧
    ((∀ parent name, ¬ Node.Missing pri pvt parent name) →
      ∃ s', Preload.walk env pri p pvt s = some (s', none)) := by
  obtain ⟨s', hwalk⟩ := walk_firstMissing env hfetch pvt pri p s hpri hp
  refine ⟨?_, ?_, ?_, ?_⟩
  · intro c params walked typeTree hfields hrecords hlen hwalked hret
    have hne : params.Fields.length ≠ 0 := by simpa using hfields
    have hptyp := records_type params.Record hrecords
    have hslice : ¬ (params.Record.Type.Kind = Kind.Slice ∧ params.Record.Len = 0) :=
      fun h => hlen h.1 h.2
    simp only [Preload, hne, if_false, hslice, hptyp, ne_eq, not_true_eq_false, hwalked, hret]
  · intro pri' p' key cvt rest s' hnone
    simp only [Preload.walkChildren, hnone]
  · intro parent name hmissing
    cases hfirst : pvt.firstMissing pri with
    | none => exact absurd hmissing (firstMissing_complete pvt pri hfirst parent name)
    | some pair =>
      rw [hfirst] at hwalk
      exact ⟨s', pair.1, pair.2, firstMissing_sound pvt pri pair.1 pair.2 hfirst, hwalk⟩
  · intro hnone
    cases hfirst : pvt.firstMissing pri with
    | none =>
      rw [hfirst] at hwalk
      exact ⟨s', hwalk⟩
    | some pair =>
      exact absurd (firstMissing_sound pvt pri pair.1 pair.2 hfirst) (hnone pair.1 pair.2)

/-- C25 on the type tree of `*Programmer` with its one child `Qualities`, for
the fields `Qualities` and `Qualities.Tags`: the qualities are fetched, and
then the segment `Tags` is not found among the children of `Qualities`. -/
theorem walk_missing_segment_witness :
    (∃ s' parent' name', Node.Missing programmerTree qualitiesTagsRequest parent' name' ∧
      Preload.walk qualitiesPreloadEnv programmerTree
        (.slice (.named "hades_test" "Programmer" Kind.Struct) [0, 1]) qualitiesTagsRequest
        programmersSession = some (s', some (.relationNotFound parent' name'))) ∧
    (Preload.walk qualitiesPreloadEnv programmerTree
        (.slice (.named "hades_test" "Programmer" Kind.Struct) [0, 1]) qualitiesTagsRequest
        programmersSession).map (fun r => (r.1.log, r.2)) =
      some ([.fetch "programmer_id" [.int 3, .int 8]
          (.slice (.ptr (.named "hades_test" "Quality" Kind.Struct))) ⟨[]⟩],
        some (.relationNotFound "Qualities" "Tags")) :=
  ⟨(walk_missing_segment qualitiesPreloadEnv programmerTree
      (.slice (.named "hades_test" "Programmer" Kind.Struct) [0, 1]) qualitiesTagsRequest programmersSession
      (fun _ _ _ _ => ⟨_, rfl⟩) (by decide) rfl).2.2.1 "Qualities" "Tags"
      (Node.Missing.under programmerTree
        (.mk "Qualities" (.ptr (.named "hades_test" "Quality" Kind.Struct)) [] (some qualitiesRelationship)
          none qualityModel)
        qualitiesTagsRequest "Qualities"
        (.mk "Qualities" ⟨"Qualities", ""⟩ [("Tags", .mk "Tags" ⟨"Tags", ""⟩ [])])
        "Qualities" "Tags" (List.mem_cons_self _ _) rfl
        (Node.Missing.here _ _ "Tags" (.mk "Tags" ⟨"Tags", ""⟩ []) (List.mem_cons_self _ _)
          rfl)),
    by decide⟩

/-! ## Records in memory -/

theorem Heap_length_setField (heap : Heap) (addr : Nat) (name : String) (value : Value) :
    (Heap.setField heap addr name value).length = heap.length := by
  simp [Heap.setField]

theorem Heap_get_setField_ne (heap : Heap) (addr other : Nat) (name : String) (value : Value)
    (h : other ≠ addr) : Heap.get (Heap.setField heap addr name value) other = Heap.get heap other := by
  have h' : addr ≠ other := fun e => h e.symm
  simp [Heap.get, Heap.setField, List.getElem?_modify_ne _ _ h']

theorem Heap_get_setField_eq (heap : Heap) (addr : Nat) (name : String) (value : Value)
    (h : addr < heap.length) :
    Heap.get (Heap.setField heap addr name value) addr = mapSet (Heap.get heap addr) name value := by
  simp [Heap.get, Heap.setField, List.getElem?_eq_getElem h]

theorem Record_get_mapSet (rec : Record) (name : String) (value : Value) (other : String) :
    Record.get (mapSet rec name value) other = if other = name then value else rec.get other := by
  unfold Record.get
  rw [mapGet_mapSet]
  split <;> rfl

theorem Heap_get_append_left (heap recs : Heap) (addr : Nat) (h : addr < heap.length) :
    Heap.get (heap ++ recs) addr = Heap.get heap addr := by
  simp [Heap.get, List.getElem?_append_left h]

theorem Heap_get_append_right (heap recs : Heap) (i : Nat) :
    Heap.get (heap ++ recs) (heap.length + i) = recs.getD i [] := by
  simp [Heap.get, List.getElem?_append_right]

theorem Value_addrs_zero (value : Value) : value.zero.addrs = [] := by
  cases value <;> rfl

theorem Value_addrs_ptrs (addrs : List Nat) : (Value.ptrs addrs).addrs = addrs := rfl

/-! ## `Preload`: the loops of the `has_many` case -/

/-- The loop of the `has_many` case over the parents: it fills `pByFK` and
resets the slice of every parent, and touches nothing else. -/
theorem resetLoop_spec (name assocName : String) (hname : name ≠ assocName) (heap : Heap)
    (ps : List Nat) (hvalid : ∀ p ∈ ps, p < heap.length) :
    (ps.foldl
      (fun (acc : List (Value × Nat) × Heap) rec =>
        (mapSet acc.1 ((acc.2.get rec).get assocName) rec,
          acc.2.setField rec name ((acc.2.get rec).get name).zero))
      ([], heap)).2.length = heap.length ∧
    (∀ a, a ∉ ps →
      Heap.get (ps.foldl
        (fun (acc : List (Value × Nat) × Heap) rec =>
          (mapSet acc.1 ((acc.2.get rec).get assocName) rec,
            acc.2.setField rec name ((acc.2.get rec).get name).zero))
        ([], heap)).2 a = heap.get a) ∧
    (∀ a f, f ≠ name →
      (Heap.get (ps.foldl
        (fun (acc : List (Value × Nat) × Heap) rec =>
          (mapSet acc.1 ((acc.2.get rec).get assocName) rec,
            acc.2.setField rec name ((acc.2.get rec).get name).zero))
        ([], heap)).2 a).get f = (heap.get a).get f) ∧
    (∀ p ∈ ps,
      ((Heap.get (ps.foldl
        (fun (acc : List (Value × Nat) × Heap) rec =>
          (mapSet acc.1 ((acc.2.get rec).get assocName) rec,
            acc.2.setField rec name ((acc.2.get rec).get name).zero))
        ([], heap)).2 p).get name).addrs = []) ∧
    (∀ k,
      mapGet (ps.foldl
        (fun (acc : List (Value × Nat) × Heap) rec =>
          (mapSet acc.1 ((acc.2.get rec).get assocName) rec,
            acc.2.setField rec name ((acc.2.get rec).get name).zero))
        ([], heap)).1 k = holderOf heap assocName ps k) := by
  induction ps using List.reverseRecOn with
  | nil => simp [holderOf, mapGet]
  | append_singleton rest x ih =>
    obtain ⟨hlen, hout, hother, hreset, hmap⟩ :=
      ih (fun p hp => hvalid p (List.mem_append_left _ hp))
    have hx : x < heap.length := hvalid x (by simp)
    rw [List.foldl_append]
    simp only [List.foldl_cons, List.foldl_nil]
    generalize (rest.foldl
        (fun (acc : List (Value × Nat) × Heap) rec =>
          (mapSet acc.1 ((acc.2.get rec).get assocName) rec,
            acc.2.setField rec name ((acc.2.get rec).get name).zero))
        ([], heap)) = acc at hlen hout hother hreset hmap ⊢
    have hassoc : assocName ≠ name := fun e => hname e.symm
    refine ⟨?_, ?_, ?_, ?_, ?_⟩
    · rw [Heap_length_setField, hlen]
    · intro a ha
      simp only [List.mem_append, List.mem_singleton, not_or] at ha
      rw [Heap_get_setField_ne _ _ _ _ _ ha.2]
      exact hout a ha.1
    · intro a f hf
      by_cases hax : a = x
      · subst hax
        rw [Heap_get_setField_eq _ _ _ _ (by rw [hlen]; exact hx), Record_get_mapSet, if_neg hf]
        exact hother a f hf
      · rw [Heap_get_setField_ne _ _ _ _ _ hax]
        exact hother a f hf
    · intro p hp
      by_cases hpx : p = x
      · subst hpx
        rw [Heap_get_setField_eq _ _ _ _ (by rw [hlen]; exact hx), Record_get_mapSet, if_pos rfl]
        exact Value_addrs_zero _
      · rw [Heap_get_setField_ne _ _ _ _ _ hpx]
        rcases List.mem_append.mp hp with h | h
        · exact hreset p h
        · exact absurd (List.mem_singleton.mp h) hpx
    · intro k
      rw [mapGet_mapSet, hother x assocName hassoc, hmap k]
      simp only [holderOf, List.reverse_append, List.reverse_cons, List.reverse_nil,
        List.nil_append, List.singleton_append, List.find?_cons]
      by_cases hk : k = (heap.get x).get assocName
      · subst hk
        simp
      · have hk' : ¬ (heap.get x).get assocName = k := fun e => hk e.symm
        simp [hk, hk']

/-- The loop of the `has_many` case over the fetched records: each is appended
to the slice of the parent that `pByFK` holds for its foreign key, and nothing
else is touched. -/
theorem appendLoop_spec (name foreignName : String) (pByFK : List (Value × Nat)) (heap : Heap)
    (fresh : List Nat) (hvalid : ∀ k p, mapGet pByFK k = some p → p < heap.length)
    (hdisj : ∀ c ∈ fresh, ∀ k, mapGet pByFK k ≠ some c) :
    (fresh.foldl
      (fun (heap : Heap) child =>
        match mapGet pByFK ((heap.get child).get foreignName) with
        | some p => heap.setField p name (.ptrs (((heap.get p).get name).addrs ++ [child]))
        | none => heap)
      heap).length = heap.length ∧
    (∀ a, (∀ k, mapGet pByFK k ≠ some a) →
      Heap.get (fresh.foldl
        (fun (heap : Heap) child =>
          match mapGet pByFK ((heap.get child).get foreignName) with
          | some p => heap.setField p name (.ptrs (((heap.get p).get name).addrs ++ [child]))
          | none => heap)
        heap) a = heap.get a) ∧
    (∀ a f, f ≠ name →
      (Heap.get (fresh.foldl
        (fun (heap : Heap) child =>
          match mapGet pByFK ((heap.get child).get foreignName) with
          | some p => heap.setField p name (.ptrs (((heap.get p).get name).addrs ++ [child]))
          | none => heap)
        heap) a).get f = (heap.get a).get f) ∧
    (∀ a,
      ((Heap.get (fresh.foldl
        (fun (heap : Heap) child =>
          match mapGet pByFK ((heap.get child).get foreignName) with
          | some p => heap.setField p name (.ptrs (((heap.get p).get name).addrs ++ [child]))
          | none => heap)
        heap) a).get name).addrs =
        ((heap.get a).get name).addrs ++ fresh.filter (fun c =>
          decide (mapGet pByFK ((heap.get c).get foreignName) = some a))) := by
  induction fresh using List.reverseRecOn with
  | nil => simp
  | append_singleton rest c ih =>
    obtain ⟨hlen, hout, hother, hcoll⟩ :=
      ih (fun c' hc' => hdisj c' (List.mem_append_left _ hc'))
    have hc : ∀ k, mapGet pByFK k ≠ some c := hdisj c (by simp)
    rw [List.foldl_append]
    simp only [List.foldl_cons, List.foldl_nil]
    generalize (rest.foldl
        (fun (heap : Heap) child =>
          match mapGet pByFK ((heap.get child).get foreignName) with
          | some p => heap.setField p name (.ptrs (((heap.get p).get name).addrs ++ [child]))
          | none => heap)
        heap) = out at hlen hout hother hcoll ⊢
    rw [hout c hc]
    cases hfk : mapGet pByFK ((heap.get c).get foreignName) with
    | none =>
      refine ⟨hlen, hout, hother, ?_⟩
      intro a
      rw [hcoll a, List.filter_append]
      simp [hfk]
    | some p =>
      have hp : p < out.length := by rw [hlen]; exact hvalid _ _ hfk
      refine ⟨?_, ?_, ?_, ?_⟩
      · simp only [Heap_length_setField, hlen]
      · intro a ha
        have hap : a ≠ p := by
          intro e
          exact ha _ (e ▸ hfk)
        simp only [Heap_get_setField_ne _ _ _ _ _ hap]
        exact hout a ha
      · intro a f hf
        by_cases hap : a = p
        · subst hap
          simp only [Heap_get_setField_eq _ _ _ _ hp, Record_get_mapSet, if_neg hf]
          exact hother a f hf
        · simp only [Heap_get_setField_ne _ _ _ _ _ hap]
          exact hother a f hf
      · intro a
        by_cases hap : a = p
        · subst hap
          simp only [Heap_get_setField_eq _ _ _ _ hp, Record_get_mapSet, if_true,
            Value_addrs_ptrs]
          rw [hcoll a, List.filter_append]
          simp [hfk]
        · simp only [Heap_get_setField_ne _ _ _ _ _ hap]
          rw [hcoll a, List.filter_append]
          have hne : ¬ p = a := fun e => hap e.symm
          simp [hfk, hne]

theorem holderOf_mem (heap : Heap) (assocName : String) (ps : List Nat) (key : Value) (p : Nat)
    (h : holderOf heap assocName ps key = some p) :
    p ∈ ps ∧ (heap.get p).get assocName = key := by
  unfold holderOf at h
  refine ⟨List.mem_reverse.mp (List.mem_of_find?_eq_some h), ?_⟩
  simpa using List.find?_some h

/-- The `has_many` case after the fetch, for parents that are records in memory
and fetched records that are not among them: the slice of every parent holds
the fetched records for whose foreign key `pByFK` holds that parent, in fetch
order; no other field of a parent and no other record is touched. -/
theorem assignMany_spec (name assocName foreignName : String) (hname : name ≠ assocName)
    (heap : Heap) (ps fresh : List Nat) (hvalid : ∀ p ∈ ps, p < heap.length)
    (hdisj : ∀ c ∈ fresh, c ∉ ps) :
    (Preload.assignMany name ps fresh assocName foreignName heap).length = heap.length ∧
    (∀ a, a ∉ ps →
      Heap.get (Preload.assignMany name ps fresh assocName foreignName heap) a = heap.get a) ∧
    (∀ a f, f ≠ name →
      (Heap.get (Preload.assignMany name ps fresh assocName foreignName heap) a).get f =
        (heap.get a).get f) ∧
    (∀ p ∈ ps,
      ((Heap.get (Preload.assignMany name ps fresh assocName foreignName heap) p).get name).addrs =
        fresh.filter (fun c =>
          decide (holderOf heap assocName ps ((heap.get c).get foreignName) = some p))) := by
  obtain ⟨hlen, hout, hother, hreset, hmap⟩ := resetLoop_spec name assocName hname heap ps hvalid
  unfold Preload.assignMany
  dsimp only
  generalize (ps.foldl
      (fun (acc : List (Value × Nat) × Heap) rec =>
        (mapSet acc.1 ((acc.2.get rec).get assocName) rec,
          acc.2.setField rec name ((acc.2.get rec).get name).zero))
      ([], heap)) = acc at hlen hout hother hreset hmap ⊢
  have hholder : ∀ k p, mapGet acc.1 k = some p → p ∈ ps := by
    intro k p h
    rw [hmap] at h
    exact (holderOf_mem heap assocName ps k p h).1
  obtain ⟨hlen', hout', hother', hcoll'⟩ := appendLoop_spec name foreignName acc.1 acc.2 fresh
    (fun k p h => by rw [hlen]; exact hvalid p (hholder k p h))
    (fun c hc k h => hdisj c hc (hholder k c h))
  have hfilter : ∀ p, fresh.filter (fun c =>
      decide (mapGet acc.1 ((acc.2.get c).get foreignName) = some p)) =
      fresh.filter (fun c =>
        decide (holderOf heap assocName ps ((heap.get c).get foreignName) = some p)) := by
    intro p
    apply List.filter_congr
    intro c hc
    rw [hout c (hdisj c hc), hmap]
  refine ⟨by rw [hlen', hlen], ?_, ?_, ?_⟩
  · intro a ha
    rw [hout' a (fun k h => ha (hholder k a h))]
    exact hout a ha
  · intro a f hf
    rw [hother' a f hf]
    exact hother a f hf
  · intro p hp
    rw [hcoll' p, hreset p hp, hfilter p]
    rfl

/-! ## `Preload`: a `has_many` segment -/

theorem holderOf_congr (heap heap' : Heap) (assocName : String) (ps : List Nat)
    (h : ∀ p ∈ ps, (heap'.get p).get assocName = (heap.get p).get assocName) (key : Value) :
    holderOf heap' assocName ps key = holderOf heap assocName ps key := by
  unfold holderOf
  have hrev : ∀ p ∈ ps.reverse, (heap'.get p).get assocName = (heap.get p).get assocName :=
    fun p hp => h p (List.mem_reverse.mp hp)
  generalize ps.reverse = l at hrev
  induction l with
  | nil => rfl
  | cons x rest ih =>
    simp only [List.find?_cons, hrev x (List.mem_cons_self _ _)]
    rw [ih (fun p hp => hrev p (List.mem_cons_of_mem _ hp))]

/-- With pairwise distinct keys, `pByFK` holds every parent for its own key. -/
theorem holderOf_of_nodup (heap : Heap) (assocName : String) (ps : List Nat)
    (hnodup : (ps.map (fun p => (heap.get p).get assocName)).Nodup) (p : Nat) (hp : p ∈ ps)
    (key : Value) :
    holderOf heap assocName ps key = some p ↔ (heap.get p).get assocName = key := by
  constructor
  · intro h
    exact (holderOf_mem heap assocName ps key p h).2
  · intro hkey
    have hsome : (holderOf heap assocName ps key).isSome = true := by
      unfold holderOf
      rw [List.find?_isSome]
      exact ⟨p, List.mem_reverse.mpr hp, by simp [hkey]⟩
    obtain ⟨q, hq⟩ := Option.isSome_iff_exists.mp hsome
    obtain ⟨hqmem, hqkey⟩ := holderOf_mem heap assocName ps key q hq
    have heq : q = p :=
      List.inj_on_of_nodup_map hnodup hqmem hp (by rw [hqkey, hkey])
    rw [hq, heq]

theorem freshAddrs_map_get (heap recs : Heap) :
    (freshAddrs heap recs).map (Heap.get (heap ++ recs)) = recs := by
  unfold freshAddrs
  rw [List.map_map]
  apply List.ext_getElem
  · simp
  · intro i h₁ h₂
    simp only [List.getElem_map, List.getElem_range, Function.comp_apply,
      Heap_get_append_right]
    simp [List.getD_eq_getElem?_getD, List.getElem?_eq_getElem h₂]

theorem freshAddrs_ge (heap recs : Heap) (c : Nat) (hc : c ∈ freshAddrs heap recs) :
    heap.length ≤ c := by
  unfold freshAddrs at hc
  obtain ⟨i, _, rfl⟩ := List.mem_map.mp hc
  omega

/-- The `has_many` case on records just fetched: what the slices of the parents
hold afterwards, and what is left as it was. -/
theorem assignMany_fetched (name assocName foreignName : String) (hname : name ≠ assocName)
    (heap recs : Heap) (ps : List Nat) (hvalid : ∀ p ∈ ps, p < heap.length) :
    (Preload.assignMany name ps (freshAddrs heap recs) assocName foreignName
      (heap ++ recs)).length = heap.length + recs.length ∧
    (freshAddrs heap recs).map
      (Heap.get (Preload.assignMany name ps (freshAddrs heap recs) assocName foreignName
        (heap ++ recs))) = recs ∧
    (∀ a, a ∉ ps → a < heap.length →
      Heap.get (Preload.assignMany name ps (freshAddrs heap recs) assocName foreignName
        (heap ++ recs)) a = heap.get a) ∧
    (∀ a f, f ≠ name → a < heap.length →
      (Heap.get (Preload.assignMany name ps (freshAddrs heap recs) assocName foreignName
        (heap ++ recs)) a).get f = (heap.get a).get f) ∧
    (∀ p ∈ ps,
      ((Heap.get (Preload.assignMany name ps (freshAddrs heap recs) assocName foreignName
        (heap ++ recs)) p).get name).addrs =
        (freshAddrs heap recs).filter (fun c =>
          decide (holderOf heap assocName ps
            ((Heap.get (Preload.assignMany name ps (freshAddrs heap recs) assocName foreignName
              (heap ++ recs)) c).get foreignName) = some p))) ∧
    (∀ p ∈ ps,
      collection (Preload.assignMany name ps (freshAddrs heap recs) assocName foreignName
        (heap ++ recs)) p name =
        recs.filter (fun r =>
          decide (holderOf heap assocName ps (r.get foreignName) = some p))) := by
  have hvalid' : ∀ p ∈ ps, p < (heap ++ recs).length := by
    intro p hp
    rw [List.length_append]
    exact Nat.lt_add_right _ (hvalid p hp)
  have hdisj : ∀ c ∈ freshAddrs heap recs, c ∉ ps := by
    intro c hc hmem
    have := freshAddrs_ge heap recs c hc
    have := hvalid c hmem
    omega
  obtain ⟨hlen, hout, hother, hcoll⟩ := assignMany_spec name assocName foreignName hname
    (heap ++ recs) ps (freshAddrs heap recs) hvalid' hdisj
  have hholder : ∀ key, holderOf (heap ++ recs) assocName ps key =
      holderOf heap assocName ps key :=
    holderOf_congr heap (heap ++ recs) assocName ps
      (fun p hp => by rw [Heap_get_append_left _ _ _ (hvalid p hp)])
  have hchildren : ∀ c ∈ freshAddrs heap recs,
      Heap.get (Preload.assignMany name ps (freshAddrs heap recs) assocName foreignName
        (heap ++ recs)) c = Heap.get (heap ++ recs) c :=
    fun c hc => hout c (hdisj c hc)
  have hmap : (freshAddrs heap recs).map
      (Heap.get (Preload.assignMany name ps (freshAddrs heap recs) assocName foreignName
        (heap ++ recs))) = recs := by
    rw [List.map_congr_left hchildren]
    exact freshAddrs_map_get heap recs
  have haddrs : ∀ p ∈ ps,
      ((Heap.get (Preload.assignMany name ps (freshAddrs heap recs) assocName foreignName
        (heap ++ recs)) p).get name).addrs =
        (freshAddrs heap recs).filter (fun c =>
          decide (holderOf heap assocName ps
            ((Heap.get (Preload.assignMany name ps (freshAddrs heap recs) assocName foreignName
              (heap ++ recs)) c).get foreignName) = some p)) := by
    intro p hp
    rw [hcoll p hp]
    apply List.filter_congr
    intro c hc
    rw [hholder, hchildren c hc]
  refine ⟨by rw [hlen, List.length_append], hmap, ?_, ?_, haddrs, ?_⟩
  · intro a ha hlt
    rw [hout a ha, Heap_get_append_left _ _ _ hlt]
  · intro a f hf hlt
    rw [hother a f hf, Heap_get_append_left _ _ _ hlt]
  · intro p hp
    unfold collection
    rw [haddrs p hp]
    have hfilter : List.filter
        (fun r : Record => decide (holderOf heap assocName ps (r.get foreignName) = some p))
        ((freshAddrs heap recs).map
          (Heap.get (Preload.assignMany name ps (freshAddrs heap recs) assocName foreignName
            (heap ++ recs)))) =
        ((freshAddrs heap recs).filter
          ((fun r : Record =>
              decide (holderOf heap assocName ps (r.get foreignName) = some p)) ∘
            (Heap.get (Preload.assignMany name ps (freshAddrs heap recs) assocName
              foreignName (heap ++ recs))))).map
          (Heap.get (Preload.assignMany name ps (freshAddrs heap recs) assocName foreignName
            (heap ++ recs))) :=
      List.filter_map _ _
    rw [hmap] at hfilter
    rw [hfilter]
    rfl

/-- The closure `walk` on a requested tree with the one segment `name`, whose
relationship in the type tree is `has_many`, when the fetch succeeds. -/
theorem walk_has_many (env : PreloadEnv) (pri cri : RecordInfo) (rel : Relationship)
    (p : RValue) (ps : List Nat) (rootName key name : String) (rootField field : PreloadField)
    (s : PreloadSession) (assocName foreignDB foreignName : String) (recs : List Record)
    (hfound : pri.Children.find? (fun c => decide (c.Name = name)) = some cri)
    (hrel : cri.Relationship = some rel) (hkind : rel.Kind = "has_many")
    (hassoc : rel.AssociationForeignFieldNames.head? = some assocName)
    (hdb : rel.ForeignDBNames.head? = some foreignDB)
    (hforeign : rel.ForeignFieldNames.head? = some foreignName)
    (hps : p.records = some ps)
    (hfetch : env.pagedByKeys foreignDB (ps.map (fun rec => (s.heap.get rec).get assocName))
      (.slice cri.Typ) ((Node.mk name field []).cb ⟨[]⟩) = .ok recs) :
    Preload.walk env pri p (.mk rootName rootField [(key, .mk name field [])]) s =
      some (⟨Preload.assignMany name ps (freshAddrs s.heap recs) assocName foreignName
          (s.heap ++ recs),
        s.log ++ [.fetch foreignDB (ps.map (fun rec => (s.heap.get rec).get assocName))
          (.slice cri.Typ) ((Node.mk name field []).cb ⟨[]⟩)]⟩, none) := by
  have hptyp := records_type p (by rw [hps]; rfl)
  simp only [Preload.walk, Preload.walkChildren, Node.Name, hfound, hptyp, ne_eq,
    not_true_eq_false, if_false, hrel, Preload.switchKind, hkind, if_true, hps, hassoc, hdb,
    hforeign, Preload.fetch, hfetch, freshAddrs]

theorem walk_single_missing (env : PreloadEnv) (pri : RecordInfo) (p : RValue)
    (rootName key name : String) (rootField field : PreloadField) (s : PreloadSession)
    (hfound : pri.Children.find? (fun c => decide (c.Name = name)) = none) :
    Preload.walk env pri p (.mk rootName rootField [(key, .mk name field [])]) s =
      some (s, some (.relationNotFound pri.Name name)) := by
  simp only [Preload.walk, Preload.walkChildren, Node.Name, hfound]

/-- On a type tree that has the child `Qualities`, two records of programmer 3
are preloaded through that has-many relationship. Three qualities are fetched, all with the
foreign key 3, which is the key of both parents; the parent at address 1
receives the three, and the collection of the parent at address 0 is empty. -/
theorem walk_has_many_skips_parent_with_repeated_key :
    ∃ s', Preload.walk qualitiesPreloadEnv programmerTree programmersValue qualitiesRequest
        twinProgrammersSession = some (s', none) ∧
      (s'.heap.get 0).get "ID" = .int 3 ∧
      (freshAddrs twinProgrammersSession.heap
          [qualityOf 9 3 "Inspiration", qualityOf 10 3 "Creativity",
            qualityOf 11 3 "Inspiration again"]).filter
        (fun c => decide ((s'.heap.get c).get "ProgrammerID" = (s'.heap.get 0).get "ID")) =
          [2, 3, 4] ∧
      ((s'.heap.get 0).get "Qualities").addrs = [] ∧
      ((s'.heap.get 1).get "Qualities").addrs = [2, 3, 4] :=
  ⟨_, rfl, by decide, by decide, by decide, by decide⟩

/-- On a type tree that has the child, a slice of parent records in memory is
preloaded through one has-many segment whose fetch succeeds. The fetched records are put in memory in
fetch order, and the collection of every parent holds, in fetch order, exactly
the fetched records for whose foreign key the map `pByFK` holds that parent,
which is the last parent of the slice carrying the key; every record in a
collection is a fetched record whose foreign key is the key of the parent. When
the keys of the parents are pairwise distinct, the collection of every parent
is exactly the fetched records whose foreign key equals its key, in fetch
order. The keys of the parents are left as they were. -/
theorem walk_has_many_groups_by_key (env : PreloadEnv) (pri cri : RecordInfo)
    (rel : Relationship) (p : RValue) (ps : List Nat) (rootName key name : String)
    (rootField field : PreloadField) (s : PreloadSession)
    (assocName foreignDB foreignName : String) (recs : List Record)
    (hfound : pri.Children.find? (fun c => decide (c.Name = name)) = some cri)
    (hrel : cri.Relationship = some rel) (hkind : rel.Kind = "has_many")
    (hassoc : rel.AssociationForeignFieldNames.head? = some assocName)
    (hdb : rel.ForeignDBNames.head? = some foreignDB)
    (hforeign : rel.ForeignFieldNames.head? = some foreignName)
    (hps : p.records = some ps)
    (hfetch : env.pagedByKeys foreignDB (ps.map (fun rec => (s.heap.get rec).get assocName))
      (.slice cri.Typ) ((Node.mk name field []).cb ⟨[]⟩) = .ok recs)
    (hvalid : ∀ q ∈ ps, q < s.heap.length) (hname : name ≠ assocName) :
    ∃ s', Preload.walk env pri p (.mk rootName rootField [(key, .mk name field [])]) s =
        some (s', none) ∧
      (freshAddrs s.heap recs).map s'.heap.get = recs ∧
      (∀ q ∈ ps, (s'.heap.get q).get assocName = (s.heap.get q).get assocName) ∧
      (∀ q ∈ ps, ((s'.heap.get q).get name).addrs =
        (freshAddrs s.heap recs).filter (fun c =>
          decide (holderOf s.heap assocName ps ((s'.heap.get c).get foreignName) = some q))) ∧
      (∀ q ∈ ps, ∀ c ∈ ((s'.heap.get q).get name).addrs,
        c ∈ freshAddrs s.heap recs ∧
          (s'.heap.get c).get foreignName = (s'.heap.get q).get assocName) ∧
      ((ps.map (fun q => (s.heap.get q).get assocName)).Nodup →
        ∀ q ∈ ps, ((s'.heap.get q).get name).addrs =
          (freshAddrs s.heap recs).filter (fun c =>
            decide ((s'.heap.get c).get foreignName = (s'.heap.get q).get assocName))) := by
  have hwalk := walk_has_many env pri cri rel p ps rootName key name rootField field s
    assocName foreignDB foreignName recs hfound hrel hkind hassoc hdb hforeign hps hfetch
  obtain ⟨_, hmap, _, hother, haddrs, _⟩ :=
    assignMany_fetched name assocName foreignName hname s.heap recs ps hvalid
  have hassocName : assocName ≠ name := fun e => hname e.symm
  refine ⟨_, hwalk, hmap, ?_, haddrs, ?_, ?_⟩
  · intro q hq
    exact hother q assocName hassocName (hvalid q hq)
  · intro q hq c hc
    rw [haddrs q hq, List.mem_filter] at hc
    obtain ⟨hmem, hholder⟩ := hc
    refine ⟨hmem, ?_⟩
    have := (holderOf_mem s.heap assocName ps _ q (by simpa using hholder)).2
    simp only
    rw [hother q assocName hassocName (hvalid q hq), this]
  · intro hnodup q hq
    rw [haddrs q hq]
    apply List.filter_congr
    intro c _
    simp only
    rw [hother q assocName hassocName (hvalid q hq)]
    rw [decide_eq_decide, holderOf_of_nodup s.heap assocName ps hnodup q hq]
    exact eq_comm

/-- On the type tree `programmerTree`, the programmers 3 and 8 are preloaded
through `Qualities`; programmer 3 receives the three fetched qualities with the foreign
key 3, and programmer 8 the two with the foreign key 8. -/
theorem walk_has_many_groups_by_key_witness :
    (∃ s', Preload.walk qualitiesPreloadEnv programmerTree programmersValue qualitiesRequest
          programmersSession = some (s', none) ∧
        (freshAddrs programmersSession.heap qualitiesTable).map s'.heap.get = qualitiesTable ∧
        (∀ q ∈ [0, 1], (s'.heap.get q).get "ID" = (programmersSession.heap.get q).get "ID") ∧
        (∀ q ∈ [0, 1], ((s'.heap.get q).get "Qualities").addrs =
          (freshAddrs programmersSession.heap qualitiesTable).filter (fun c =>
            decide (holderOf programmersSession.heap "ID" [0, 1]
              ((s'.heap.get c).get "ProgrammerID") = some q))) ∧
        (∀ q ∈ [0, 1], ∀ c ∈ ((s'.heap.get q).get "Qualities").addrs,
          c ∈ freshAddrs programmersSession.heap qualitiesTable ∧
            (s'.heap.get c).get "ProgrammerID" = (s'.heap.get q).get "ID") ∧
        ((([0, 1] : List Nat).map (fun q => (programmersSession.heap.get q).get "ID")).Nodup →
          ∀ q ∈ [0, 1], ((s'.heap.get q).get "Qualities").addrs =
            (freshAddrs programmersSession.heap qualitiesTable).filter (fun c =>
              decide ((s'.heap.get c).get "ProgrammerID" = (s'.heap.get q).get "ID")))) ∧
    (Preload.walk qualitiesPreloadEnv programmerTree programmersValue qualitiesRequest
        programmersSession).map (fun r => r.1.heap) =
      some ([programmer 3 [2, 3, 4], programmer 8 [5, 6]] ++ qualitiesTable) :=
  ⟨walk_has_many_groups_by_key qualitiesPreloadEnv programmerTree qualitiesInfo
      qualitiesRelationship programmersValue [0, 1] "*hades_test.Programmer" "Qualities" "Qualities"
      ⟨"", ""⟩ ⟨"Qualities", ""⟩ programmersSession "ID" "programmer_id" "ProgrammerID"
      qualitiesTable rfl rfl rfl rfl rfl rfl rfl rfl (by decide) (by decide),
    by decide⟩

/-! ## `Preload`: the same `has_many` segment twice -/

/-- C21: a slice of parent records in memory is preloaded twice in a row through
one requested segment, over a database whose answer to a fetch does not
change; when the type tree has a child of that name, it is a has-many
relationship and its fetch succeeds. Both calls return, with the same result,
and after the second the collection of every parent holds records equal to
those it held after the first, in the same order: when the segment is fetched,
the second call resets the slice of every parent before it appends the records
it fetched, and when the segment is not found no record is touched. -/
theorem walk_has_many_twice (env : PreloadEnv) (pri : RecordInfo) (p : RValue)
    (ps : List Nat) (rootName key name : String) (rootField field : PreloadField)
    (s : PreloadSession) (assocName foreignDB foreignName : String)
    (hps : p.records = some ps) (hvalid : ∀ q ∈ ps, q < s.heap.length)
    (hname : name ≠ assocName)
    (hchild : ∀ cri, pri.Children.find? (fun c => decide (c.Name = name)) = some cri →
      ∃ rel recs, cri.Relationship = some rel ∧ rel.Kind = "has_many" ∧
        rel.AssociationForeignFieldNames.head? = some assocName ∧
        rel.ForeignDBNames.head? = some foreignDB ∧
        rel.ForeignFieldNames.head? = some foreignName ∧
        env.pagedByKeys foreignDB (ps.map (fun rec => (s.heap.get rec).get assocName))
          (.slice cri.Typ) ((Node.mk name field []).cb ⟨[]⟩) = .ok recs) :
    ∃ s₁ r₁ s₂ r₂,
      Preload.walk env pri p (.mk rootName rootField [(key, .mk name field [])]) s =
        some (s₁, r₁) ∧
      Preload.walk env pri p (.mk rootName rootField [(key, .mk name field [])]) s₁ =
        some (s₂, r₂) ∧
      r₂ = r₁ ∧
      ∀ q ∈ ps, collection s₂.heap q name = collection s₁.heap q name := by
  cases hfound : pri.Children.find? (fun c => decide (c.Name = name)) with
  | none =>
    have hwalk := fun s' => walk_single_missing env pri p rootName key name rootField field s'
      hfound
    exact ⟨s, _, s, _, hwalk s, hwalk s, rfl, fun _ _ => rfl⟩
  | some cri =>
    obtain ⟨rel, recs, hrel, hkind, hassoc, hdb, hforeign, hfetch⟩ := hchild cri hfound
    have hwalk₁ := walk_has_many env pri cri rel p ps rootName key name rootField field s
      assocName foreignDB foreignName recs hfound hrel hkind hassoc hdb hforeign hps hfetch
    obtain ⟨hlen₁, _, _, hother₁, _, hcoll₁⟩ :=
      assignMany_fetched name assocName foreignName hname s.heap recs ps hvalid
    have hassocName : assocName ≠ name := fun e => hname e.symm
    have hkeys : ∀ q ∈ ps,
        ((Preload.assignMany name ps (freshAddrs s.heap recs) assocName foreignName
          (s.heap ++ recs)).get q).get assocName = (s.heap.get q).get assocName :=
      fun q hq => hother₁ q assocName hassocName (hvalid q hq)
    have hvalid₂ : ∀ q ∈ ps,
        q < (Preload.assignMany name ps (freshAddrs s.heap recs) assocName foreignName
          (s.heap ++ recs)).length := by
      intro q hq
      rw [hlen₁]
      exact Nat.lt_add_right _ (hvalid q hq)
    have hfetch₂ : env.pagedByKeys foreignDB
        (ps.map (fun rec =>
          ((Preload.assignMany name ps (freshAddrs s.heap recs) assocName foreignName
            (s.heap ++ recs)).get rec).get assocName))
        (.slice cri.Typ) ((Node.mk name field []).cb ⟨[]⟩) = .ok recs := by
      rw [List.map_congr_left hkeys]
      exact hfetch
    have hwalk₂ := walk_has_many env pri cri rel p ps rootName key name rootField field
      ⟨Preload.assignMany name ps (freshAddrs s.heap recs) assocName foreignName
          (s.heap ++ recs),
        s.log ++ [.fetch foreignDB (ps.map (fun rec => (s.heap.get rec).get assocName))
          (.slice cri.Typ) ((Node.mk name field []).cb ⟨[]⟩)]⟩
      assocName foreignDB foreignName recs hfound hrel hkind hassoc hdb hforeign hps hfetch₂
    obtain ⟨_, _, _, _, _, hcoll₂⟩ :=
      assignMany_fetched name assocName foreignName hname
        (Preload.assignMany name ps (freshAddrs s.heap recs) assocName foreignName
          (s.heap ++ recs)) recs ps hvalid₂
    refine ⟨_, _, _, _, hwalk₁, hwalk₂, rfl, ?_⟩
    intro q hq
    simp only
    rw [hcoll₂ q hq, hcoll₁ q hq]
    apply List.filter_congr
    intro r _
    rw [holderOf_congr s.heap _ assocName ps hkeys]

/-- C21 on `Test_HasMany`: the programmers 3 and 8 are preloaded twice through
`Qualities`; after either call programmer 3 holds the three qualities of the
table with the foreign key 3, in table order. -/
theorem walk_has_many_twice_witness :
    (∃ s₁ r₁ s₂ r₂,
      Preload.walk qualitiesPreloadEnv programmerTree programmersValue qualitiesRequest
        programmersSession = some (s₁, r₁) ∧
      Preload.walk qualitiesPreloadEnv programmerTree programmersValue qualitiesRequest s₁ =
        some (s₂, r₂) ∧
      r₂ = r₁ ∧
      ∀ q ∈ [0, 1], collection s₂.heap q "Qualities" = collection s₁.heap q "Qualities") ∧
    ((Preload.walk qualitiesPreloadEnv programmerTree programmersValue qualitiesRequest
        programmersSession).bind (fun r =>
      Preload.walk qualitiesPreloadEnv programmerTree programmersValue qualitiesRequest
        r.1)).map (fun r => (collection r.1.heap 0 "Qualities", r.2)) =
      some ([qualityOf 9 3 "Inspiration", qualityOf 10 3 "Creativity",
        qualityOf 11 3 "Inspiration again"], none) :=
  ⟨walk_has_many_twice qualitiesPreloadEnv programmerTree programmersValue [0, 1]
      "*hades_test.Programmer" "Qualities" "Qualities" ⟨"", ""⟩ ⟨"Qualities", ""⟩ programmersSession
      "ID" "programmer_id" "ProgrammerID" rfl (by decide) (by decide)
      (fun cri h =>
        ⟨qualitiesRelationship, qualitiesTable,
          by
            obtain rfl := Option.some.inj (h.symm.trans rfl)
            exact ⟨rfl, rfl, rfl, rfl, rfl, rfl⟩⟩),
    by decide⟩

/-! ## `Preload` on the type tree that `WalkType` returns -/

/-- C24 (evaluated on the code): the two languages of `Test_ManyToMany` are
preloaded with the field `Words`, a many-to-many relationship of `Language`
whose target `*Word` is registered. `WalkType` returns the node of `*Language`
without a child for `Words`, so `Preload` returns the error "Relation not
found: *hades_test.Language.Words", which does not name the kind, where the default case
of its `switch` would return "Preload doesn't know how to handle many_to_many
relationships". Nothing is fetched. -/
theorem Preload_many_to_many_is_not_found :
    (languageModel.StructFields.filterMap (fun sf =>
        sf.Relationship.map (fun rel => (sf.Name, rel.Kind)))) = [("Words", "many_to_many")] ∧
    (∃ r ri, WalkType languageContext [] "*hades_test.Language" (.ptr (.named "hades_test" "Language" Kind.Struct))
        [] [] = some r ∧ r.ret = .ok (some ri) ∧ ri.Children = []) ∧
    Preload languageContext examplePreloadEnv languagesSession
        ⟨.slice (.named "hades_test" "Language" Kind.Struct) [0, 1], [⟨"Words", ""⟩]⟩ =
      some (⟨languagesSession.heap, [.walkType (.ptr (.named "hades_test" "Language" Kind.Struct))]⟩,
        some (.relationNotFound "*hades_test.Language" "Words")) ∧
    Preload.walk examplePreloadEnv languageTree (.slice (.named "hades_test" "Language" Kind.Struct) [0, 1])
        (.mk "*hades_test.Language" ⟨"", ""⟩ [("Words", .mk "Words" ⟨"Words", ""⟩ [])]) languagesSession =
      some (languagesSession, some (.unknownRelationship "many_to_many")) :=
  ⟨by decide, ⟨_, _, rfl, rfl, rfl⟩, by decide, by decide⟩

/-- C23 (evaluated on the code): the record `&Foo{ID: 1, BarID: 999}` of
`Test_PreloadEdgeCases` is preloaded with the field `Bar`, a belongs-to
relationship of `Foo` whose target `*Bar` is registered, over a database with
no `Bar`. `WalkType` returns the node of `*Foo` without a child for `Bar`, so
`Preload` does not succeed: it returns the error "Relation not found:
*hades_test.Foo.Bar". On a type tree that has the child `Bar`, `walk` fetches by the key
999, finds no record, and returns no error with the record as it was. -/
theorem Preload_belongs_to_is_not_found :
    (fooModel.StructFields.filterMap (fun sf =>
        sf.Relationship.map (fun rel => (sf.Name, rel.Kind)))) = [("Bar", "belongs_to")] ∧
    (∃ r ri, WalkType fooContext [] "*hades_test.Foo" (.ptr (.named "hades_test" "Foo" Kind.Struct)) [] [] = some r ∧
      r.ret = .ok (some ri) ∧ ri.Children = []) ∧
    Preload fooContext examplePreloadEnv fooSession
        ⟨.ptr (.named "hades_test" "Foo" Kind.Struct) 0, [⟨"Bar", ""⟩]⟩ =
      some (⟨fooSession.heap, [.walkType (.ptr (.named "hades_test" "Foo" Kind.Struct))]⟩,
        some (.relationNotFound "*hades_test.Foo" "Bar")) ∧
    Preload.walk examplePreloadEnv fooTree (.ptr (.named "hades_test" "Foo" Kind.Struct) 0)
        (.mk "*hades_test.Foo" ⟨"", ""⟩ [("Bar", .mk "Bar" ⟨"Bar", ""⟩ [])]) fooSession =
      some (⟨fooSession.heap,
        [.fetch "id" [.int 999] (.slice (.ptr (.named "hades_test" "Bar" Kind.Struct))) ⟨[]⟩]⟩, none) :=
  ⟨by decide, ⟨_, _, rfl, rfl, rfl⟩, by decide, by decide⟩

/-- C22 (evaluated on the code): the programmers 3 and 8 of `Test_HasMany` are
preloaded with the field `Qualities`, a has-many relationship of `Programmer`
whose target `*Quality` is registered, over the five saved qualities.
`WalkType` returns the node of `*Programmer` without a child for `Qualities`,
so `Preload` returns the error "Relation not found: *hades_test.Programmer.Qualities" for
the slice of the two and for the programmer 3 alone: nothing is fetched and
every collection stays empty, where programmer 3 has three qualities in the
table and programmer 8 two. -/
theorem Preload_has_many_is_not_found :
    (programmerModel.StructFields.filterMap (fun sf =>
        sf.Relationship.map (fun rel => (sf.Name, rel.Kind)))) = [("Qualities", "has_many")] ∧
    (∃ r ri, WalkType programmerContext [] "*hades_test.Programmer"
        (.ptr (.named "hades_test" "Programmer" Kind.Struct)) [] [] = some r ∧
      r.ret = .ok (some ri) ∧ ri.Children = []) ∧
    Preload programmerContext qualitiesPreloadEnv programmersSession
        ⟨programmersValue, [⟨"Qualities", ""⟩]⟩ =
      some (⟨programmersSession.heap, [.walkType (.ptr (.named "hades_test" "Programmer" Kind.Struct))]⟩,
        some (.relationNotFound "*hades_test.Programmer" "Qualities")) ∧
    Preload programmerContext qualitiesPreloadEnv programmersSession
        ⟨.ptr (.named "hades_test" "Programmer" Kind.Struct) 0, [⟨"Qualities", ""⟩]⟩ =
      some (⟨programmersSession.heap, [.walkType (.ptr (.named "hades_test" "Programmer" Kind.Struct))]⟩,
        some (.relationNotFound "*hades_test.Programmer" "Qualities")) ∧
    (programmersSession.heap.map (fun rec => (rec.get "ID", (rec.get "Qualities").addrs))) =
      [(.int 3, []), (.int 8, [])] ∧
    (qualitiesTable.filter (fun r => decide (r.get "ProgrammerID" = .int 3))).length = 3 ∧
    (qualitiesTable.filter (fun r => decide (r.get "ProgrammerID" = .int 8))).length = 2 :=
  ⟨by decide, ⟨_, _, rfl, rfl, rfl⟩, by decide, by decide, by decide, by decide, by decide⟩

/-! ## `walk`: a `has_one` or `belongs_to` segment -/

theorem childOf_mem (heap : Heap) (childKey : String) (fresh : List Nat) (key : Value) (c : Nat)
    (h : childOf heap childKey fresh key = some c) :
    c ∈ fresh ∧ (heap.get c).get childKey = key := by
  unfold childOf at h
  refine ⟨List.mem_reverse.mp (List.mem_of_find?_eq_some h), ?_⟩
  simpa using List.find?_some h

theorem childOf_eq_none (heap : Heap) (childKey : String) (fresh : List Nat) (key : Value) :
    childOf heap childKey fresh key = none ↔ ∀ c ∈ fresh, (heap.get c).get childKey ≠ key := by
  unfold childOf
  rw [List.find?_eq_none]
  constructor
  · intro h c hc
    simpa using h c (List.mem_reverse.mpr hc)
  · intro h c hc
    simpa using h c (List.mem_reverse.mp hc)

/-- The map `freshByFK` holds, for a key, the last fetched record carrying it. -/
theorem freshByFK_spec (heap : Heap) (childKey : String) (fresh : List Nat) (key : Value) :
    mapGet (fresh.foldl
      (fun (m : List (Value × Nat)) rec => mapSet m ((heap.get rec).get childKey) rec) []) key =
      childOf heap childKey fresh key := by
  induction fresh using List.reverseRecOn with
  | nil => simp [childOf, mapGet]
  | append_singleton rest x ih =>
    rw [List.foldl_append]
    simp only [List.foldl_cons, List.foldl_nil]
    rw [mapGet_mapSet, ih]
    simp only [childOf, List.reverse_append, List.reverse_cons, List.reverse_nil,
      List.nil_append, List.singleton_append, List.find?_cons]
    by_cases hk : key = (heap.get x).get childKey
    · subst hk
      simp
    · have hk' : ¬ (heap.get x).get childKey = key := fun e => hk e.symm
      simp [hk, hk']

/-- The `has_one` and `belongs_to` cases after the fetch, for parents that are
records in memory: a parent for whose key `freshByFK` holds a record has its
field set to that record, every other record is left as it was, and no other
field of a parent is touched. -/
theorem assignOne_spec (name parentKey childKey : String) (hname : name ≠ parentKey)
    (heap : Heap) (ps fresh : List Nat) (hvalid : ∀ p ∈ ps, p < heap.length) :
    (Preload.assignOne name ps fresh parentKey childKey heap).length = heap.length ∧
    (∀ a, (a ∉ ps ∨ childOf heap childKey fresh ((heap.get a).get parentKey) = none) →
      Heap.get (Preload.assignOne name ps fresh parentKey childKey heap) a = heap.get a) ∧
    (∀ a f, f ≠ name →
      (Heap.get (Preload.assignOne name ps fresh parentKey childKey heap) a).get f =
        (heap.get a).get f) ∧
    (∀ p ∈ ps, ∀ c, childOf heap childKey fresh ((heap.get p).get parentKey) = some c →
      (Heap.get (Preload.assignOne name ps fresh parentKey childKey heap) p).get name =
        .ptr (some c)) := by
  unfold Preload.assignOne
  dsimp only
  have hmap := freshByFK_spec heap childKey fresh
  generalize (fresh.foldl
      (fun (m : List (Value × Nat)) rec => mapSet m ((heap.get rec).get childKey) rec) []) =
    freshByFK at hmap
  have hparent : parentKey ≠ name := fun e => hname e.symm
  induction ps using List.reverseRecOn with
  | nil => simp
  | append_singleton rest x ih =>
    obtain ⟨hlen, hout, hother, hset⟩ := ih (fun p hp => hvalid p (List.mem_append_left _ hp))
    have hx : x < heap.length := hvalid x (by simp)
    rw [List.foldl_append]
    simp only [List.foldl_cons, List.foldl_nil]
    generalize (rest.foldl
        (fun (heap : Heap) prec =>
          match mapGet freshByFK ((heap.get prec).get parentKey) with
          | some crec => heap.setField prec name (.ptr (some crec))
          | none => heap)
        heap) = out at hlen hout hother hset ⊢
    rw [hother x parentKey hparent, hmap]
    cases hchild : childOf heap childKey fresh ((heap.get x).get parentKey) with
    | none =>
      refine ⟨hlen, ?_, hother, ?_⟩
      · intro a ha
        rcases ha with ha | ha
        · simp only [List.mem_append, List.mem_singleton, not_or] at ha
          exact hout a (Or.inl ha.1)
        · exact hout a (Or.inr ha)
      · intro p hp c hc
        rcases List.mem_append.mp hp with h | h
        · exact hset p h c hc
        · rw [List.mem_singleton] at h
          subst h
          rw [hchild] at hc
          cases hc
    | some crec =>
      have hxout : x < out.length := by rw [hlen]; exact hx
      refine ⟨?_, ?_, ?_, ?_⟩
      · simp only [Heap_length_setField, hlen]
      · intro a ha
        have hax : a ≠ x := by
          rintro rfl
          rcases ha with ha | ha
          · exact ha (by simp)
          · rw [hchild] at ha
            cases ha
        simp only [Heap_get_setField_ne _ _ _ _ _ hax]
        rcases ha with ha | ha
        · simp only [List.mem_append, List.mem_singleton, not_or] at ha
          exact hout a (Or.inl ha.1)
        · exact hout a (Or.inr ha)
      · intro a f hf
        by_cases hax : a = x
        · subst hax
          simp only [Heap_get_setField_eq _ _ _ _ hxout, Record_get_mapSet, if_neg hf]
          exact hother a f hf
        · simp only [Heap_get_setField_ne _ _ _ _ _ hax]
          exact hother a f hf
      · intro p hp c hc
        by_cases hpx : p = x
        · subst hpx
          rw [hchild] at hc
          cases hc
          simp only [Heap_get_setField_eq _ _ _ _ hxout, Record_get_mapSet, if_true]
        · simp only [Heap_get_setField_ne _ _ _ _ _ hpx]
          rcases List.mem_append.mp hp with h | h
          · exact hset p h c hc
          · exact absurd (List.mem_singleton.mp h) hpx

/-- The closure `walk` on a requested tree with the one segment `name`, whose
relationship in the type tree is `has_one` or `belongs_to`, when the fetch
succeeds: `parentKey` is the field of the parents the keys are read from,
`column` the column fetched by, and `childKey` the field of the fetched records
they are indexed by. -/
theorem walk_has_one_or_belongs_to (env : PreloadEnv) (pri cri : RecordInfo)
    (rel : Relationship) (p : RValue) (ps : List Nat) (rootName key name : String)
    (rootField field : PreloadField) (s : PreloadSession)
    (parentKey column childKey : String) (recs : List Record)
    (hfound : pri.Children.find? (fun c => decide (c.Name = name)) = some cri)
    (hrel : cri.Relationship = some rel)
    (hkind : (rel.Kind = "has_one" ∧
        rel.AssociationForeignFieldNames.head? = some parentKey ∧
        rel.ForeignDBNames.head? = some column ∧
        rel.ForeignFieldNames.head? = some childKey) ∨
      (rel.Kind = "belongs_to" ∧
        rel.ForeignFieldNames.head? = some parentKey ∧
        rel.AssociationForeignDBNames.head? = some column ∧
        rel.AssociationForeignFieldNames.head? = some childKey))
    (hps : p.records = some ps)
    (hfetch : env.pagedByKeys column (ps.map (fun rec => (s.heap.get rec).get parentKey))
      (.slice cri.Typ) ((Node.mk name field []).cb ⟨[]⟩) = .ok recs) :
    Preload.walk env pri p (.mk rootName rootField [(key, .mk name field [])]) s =
      some (⟨Preload.assignOne name ps (freshAddrs s.heap recs) parentKey childKey
          (s.heap ++ recs),
        s.log ++ [.fetch column (ps.map (fun rec => (s.heap.get rec).get parentKey))
          (.slice cri.Typ) ((Node.mk name field []).cb ⟨[]⟩)]⟩, none) := by
  have hptyp := records_type p (by rw [hps]; rfl)
  have hswitch : Preload.switchKind env cri rel p (.mk name field []) s =
      some (⟨Preload.assignOne name ps (freshAddrs s.heap recs) parentKey childKey
          (s.heap ++ recs),
        s.log ++ [.fetch column (ps.map (fun rec => (s.heap.get rec).get parentKey))
          (.slice cri.Typ) ((Node.mk name field []).cb ⟨[]⟩)]⟩,
        some (freshAddrs s.heap recs), none) := by
    unfold Preload.switchKind
    rcases hkind with ⟨hkind, h1, h2, h3⟩ | ⟨hkind, h1, h2, h3⟩
    · have hmany : ¬ rel.Kind = "has_many" := by rw [hkind]; decide
      rw [if_neg hmany, if_pos hkind]
      simp only [hps, h1, h2, h3, Preload.fetch, hfetch, freshAddrs, Node.Name]
    · have hmany : ¬ rel.Kind = "has_many" := by rw [hkind]; decide
      have hone : ¬ rel.Kind = "has_one" := by rw [hkind]; decide
      rw [if_neg hmany, if_neg hone, if_pos hkind]
      simp only [hps, h1, h2, h3, Preload.fetch, hfetch, freshAddrs, Node.Name]
  simp only [Preload.walk, Preload.walkChildren, Node.Name, hfound, hptyp, ne_eq,
    not_true_eq_false, if_false, hrel, hswitch]

/-- On a type tree that has the child, `walk` handles a `has_one` or
`belongs_to` segment whose fetch succeeds as follows: it returns no error; a
parent whose key no fetched record carries is left exactly as it was; a parent
whose key a fetched record carries has its field set to a fetched record
carrying that key; no other field of a parent is touched. -/
theorem walk_association_of_one (env : PreloadEnv) (pri cri : RecordInfo)
    (rel : Relationship) (p : RValue) (ps : List Nat) (rootName key name : String)
    (rootField field : PreloadField) (s : PreloadSession)
    (parentKey column childKey : String) (recs : List Record)
    (hfound : pri.Children.find? (fun c => decide (c.Name = name)) = some cri)
    (hrel : cri.Relationship = some rel)
    (hkind : (rel.Kind = "has_one" ∧
        rel.AssociationForeignFieldNames.head? = some parentKey ∧
        rel.ForeignDBNames.head? = some column ∧
        rel.ForeignFieldNames.head? = some childKey) ∨
      (rel.Kind = "belongs_to" ∧
        rel.ForeignFieldNames.head? = some parentKey ∧
        rel.AssociationForeignDBNames.head? = some column ∧
        rel.AssociationForeignFieldNames.head? = some childKey))
    (hps : p.records = some ps)
    (hfetch : env.pagedByKeys column (ps.map (fun rec => (s.heap.get rec).get parentKey))
      (.slice cri.Typ) ((Node.mk name field []).cb ⟨[]⟩) = .ok recs)
    (hvalid : ∀ q ∈ ps, q < s.heap.length) (hname : name ≠ parentKey) :
    ∃ s', Preload.walk env pri p (.mk rootName rootField [(key, .mk name field [])]) s =
        some (s', none) ∧
      (freshAddrs s.heap recs).map s'.heap.get = recs ∧
      (∀ q ∈ ps, (∀ r ∈ recs, r.get childKey ≠ (s.heap.get q).get parentKey) →
        s'.heap.get q = s.heap.get q) ∧
      (∀ q ∈ ps, (∃ r ∈ recs, r.get childKey = (s.heap.get q).get parentKey) →
        ∃ c ∈ freshAddrs s.heap recs, (s'.heap.get q).get name = .ptr (some c) ∧
          (s'.heap.get c).get childKey = (s.heap.get q).get parentKey) ∧
      (∀ q ∈ ps, ∀ f, f ≠ name → (s'.heap.get q).get f = (s.heap.get q).get f) := by
  have hwalk := walk_has_one_or_belongs_to env pri cri rel p ps rootName key name rootField
    field s parentKey column childKey recs hfound hrel hkind hps hfetch
  have hvalid' : ∀ q ∈ ps, q < (s.heap ++ recs).length := by
    intro q hq
    rw [List.length_append]
    exact Nat.lt_add_right _ (hvalid q hq)
  obtain ⟨_, hout, hother, hset⟩ := assignOne_spec name parentKey childKey hname
    (s.heap ++ recs) ps (freshAddrs s.heap recs) hvalid'
  have hdisj : ∀ c ∈ freshAddrs s.heap recs, c ∉ ps := by
    intro c hc hmem
    have := freshAddrs_ge s.heap recs c hc
    have := hvalid c hmem
    omega
  have hchildren : ∀ c ∈ freshAddrs s.heap recs,
      Heap.get (Preload.assignOne name ps (freshAddrs s.heap recs) parentKey childKey
        (s.heap ++ recs)) c = Heap.get (s.heap ++ recs) c :=
    fun c hc => hout c (Or.inl (hdisj c hc))
  have hmap : (freshAddrs s.heap recs).map
      (Heap.get (Preload.assignOne name ps (freshAddrs s.heap recs) parentKey childKey
        (s.heap ++ recs))) = recs := by
    rw [List.map_congr_left hchildren]
    exact freshAddrs_map_get s.heap recs
  have hrecs : ∀ r, r ∈ recs ↔ ∃ c ∈ freshAddrs s.heap recs, Heap.get (s.heap ++ recs) c = r := by
    intro r
    have := freshAddrs_map_get s.heap recs
    constructor
    · intro hr
      have hr' : r ∈ (freshAddrs s.heap recs).map (Heap.get (s.heap ++ recs)) := by
        rw [this]
        exact hr
      obtain ⟨c, hc, hcr⟩ := List.mem_map.mp hr'
      exact ⟨c, hc, hcr⟩
    · rintro ⟨c, hc, hcr⟩
      have hm : r ∈ (freshAddrs s.heap recs).map (Heap.get (s.heap ++ recs)) :=
        List.mem_map.mpr ⟨c, hc, hcr⟩
      rwa [this] at hm
  refine ⟨_, hwalk, hmap, ?_, ?_, ?_⟩
  · intro q hq hnone
    simp only
    rw [hout q (Or.inr ?_), Heap_get_append_left _ _ _ (hvalid q hq)]
    rw [childOf_eq_none, Heap_get_append_left _ _ _ (hvalid q hq)]
    intro c hc
    exact hnone _ ((hrecs _).mpr ⟨c, hc, rfl⟩)
  · rintro q hq ⟨r, hr, hkey⟩
    obtain ⟨c₀, hc₀, rfl⟩ := (hrecs r).mp hr
    cases hchild : childOf (s.heap ++ recs) childKey (freshAddrs s.heap recs)
        ((Heap.get (s.heap ++ recs) q).get parentKey) with
    | none =>
      rw [childOf_eq_none, Heap_get_append_left _ _ _ (hvalid q hq)] at hchild
      exact absurd hkey (hchild c₀ hc₀)
    | some c =>
      obtain ⟨hc, hckey⟩ := childOf_mem _ _ _ _ _ hchild
      refine ⟨c, hc, hset q hq c hchild, ?_⟩
      simp only
      rw [hchildren c hc, hckey, Heap_get_append_left _ _ _ (hvalid q hq)]
  · intro q hq f hf
    simp only
    rw [hother q f hf, Heap_get_append_left _ _ _ (hvalid q hq)]

/-! ## `Preload` on the type tree that `WalkType` returns, for every registry -/

theorem visitField_keeps_node (c : Context) (fuel : Nat) (ms : ModelStruct) (visited : VisitMap)
    (st st' : VisitState) (sf : StructField) (explicit : Bool) (err : Option Error)
    (h : visitField c (WalkTypeAux c fuel) ms visited st sf explicit = some (st', err)) :
    st'.ri = st.ri := by
  unfold visitField at h
  cases hrel : sf.Relationship with
  | none =>
    rw [hrel] at h
    cases explicit <;> simp at h <;> rw [← h.1]
  | some rel =>
    rw [hrel] at h
    dsimp only at h
    generalize (if sf.Typ.Kind = Kind.Slice then sf.Typ.Elem else sf.Typ) = fieldTyp at h
    by_cases hptr : fieldTyp.Kind ≠ Kind.Ptr
    · rw [if_pos hptr] at h
      simp at h
      rw [← h.1]
    · rw [if_neg hptr] at h
      cases hreg : c.ScopeMap.ByType fieldTyp with
      | some target =>
        rw [hreg] at h
        cases explicit <;> simp at h <;> rw [← h.1]
      | none =>
        rw [hreg] at h
        simp only [Option.isSome_none, Bool.false_eq_true, if_false] at h
        cases fuel with
        | zero => simp [WalkTypeAux] at h
        | succ fuel =>
          obtain ⟨werr, hwalk⟩ :=
            WalkTypeAux_unregistered c fuel st.riMap sf.Name fieldTyp visited [] hreg
          rw [hwalk] at h
          simp at h
          rw [← h.1]

theorem visitAllFields_keeps_node (c : Context) (fuel : Nat) (ms : ModelStruct)
    (visited : VisitMap) (fields : List StructField) (st st' : VisitState) (err : Option Error)
    (h : visitAllFields (visitField c (WalkTypeAux c fuel) ms visited) fields st =
      some (st', err)) : st'.ri = st.ri := by
  induction fields generalizing st with
  | nil =>
    simp [visitAllFields] at h
    rw [← h.1]
  | cons sf rest ih =>
    rw [visitAllFields] at h
    cases hvisit : visitField c (WalkTypeAux c fuel) ms visited st sf false with
    | none => rw [hvisit] at h; simp at h
    | some r =>
      obtain ⟨st₁, err₁⟩ := r
      have hkeep := visitField_keeps_node c fuel ms visited st st₁ sf false err₁ hvisit
      rw [hvisit] at h
      cases err₁ with
      | some e =>
        simp at h
        rw [← h.1, hkeep]
      | none =>
        simp only at h
        rw [ih st₁ h, hkeep]

theorem visitSpecifiedFields_keeps_node (c : Context) (fuel : Nat) (ms : ModelStruct)
    (visited : VisitMap) (fields : List StructField) (atyp : GoType) (assocs : List String)
    (st st' : VisitState) (err : Option Error)
    (h : visitSpecifiedFields (visitField c (WalkTypeAux c fuel) ms visited) fields atyp assocs
      st = some (st', err)) : st'.ri = st.ri := by
  induction assocs generalizing st with
  | nil =>
    simp [visitSpecifiedFields] at h
    rw [← h.1]
  | cons fieldName rest ih =>
    rw [visitSpecifiedFields] at h
    cases hsf : sfByName fields fieldName with
    | none =>
      rw [hsf] at h
      simp at h
      rw [← h.1]
    | some sf =>
      rw [hsf] at h
      dsimp only at h
      cases hvisit : visitField c (WalkTypeAux c fuel) ms visited st sf true with
      | none => rw [hvisit] at h; simp at h
      | some r =>
        obtain ⟨st₁, err₁⟩ := r
        have hkeep := visitField_keeps_node c fuel ms visited st st₁ sf true err₁ hvisit
        rw [hvisit] at h
        cases err₁ with
        | some e =>
          simp at h
          rw [← h.1, hkeep]
        | none =>
          simp only at h
          rw [ih st₁ h, hkeep]

/-- The node `WalkType` returns never has a child, whatever the registry: a
relationship whose target is registered is skipped or refused, and the walk of
one whose target is not registered fails. -/
theorem WalkType_returns_no_children (c : Context) (riMap : RecordInfoMap) (name : String)
    (atyp : GoType) (visited : VisitMap) (assocs : List String) (r : WalkResult)
    (ri : RecordInfo) (h : WalkType c riMap name atyp visited assocs = some r)
    (hret : r.ret = .ok (some ri)) : ri.Children = [] ∧ ri.Name = name := by
  unfold WalkType at h
  rw [WalkTypeAux] at h
  split at h
  · cases h; simp at hret
  · split at h
    · cases h; simp at hret
    · split at h
      · cases h; simp at hret
      · rename_i ms _
        dsimp only at h
        split at h
        · cases h; simp at hret
        · have hkeep : ∀ st' err,
              (if assocs.length > 0 then
                visitSpecifiedFields (visitField c (WalkTypeAux c (c.ScopeMap.scopes.length + 1))
                  ms (visited.CopyAndMark ms)) ms.StructFields atyp assocs
                  ⟨riMap, RecordInfo.mk name atyp [] none none ms⟩
              else
                visitAllFields (visitField c (WalkTypeAux c (c.ScopeMap.scopes.length + 1)) ms
                  (visited.CopyAndMark ms)) ms.StructFields
                  ⟨riMap, RecordInfo.mk name atyp [] none none ms⟩) = some (st', err) →
              st'.ri = RecordInfo.mk name atyp [] none none ms := by
            intro st' err hloop
            by_cases hlen : assocs.length > 0
            · rw [if_pos hlen] at hloop
              exact visitSpecifiedFields_keeps_node c _ ms _ _ atyp assocs _ st' err hloop
            · rw [if_neg hlen] at hloop
              exact visitAllFields_keeps_node c _ ms _ _ _ st' err hloop
          split at h
          · cases h
          · cases h; simp at hret
          · rename_i st hloop
            cases h
            simp only [Except.ok.injEq, Option.some.injEq] at hret
            subst hret
            rw [hkeep st none hloop]
            exact ⟨rfl, rfl⟩

/-- With no model visited yet, `WalkType` does not return the pair `(nil, nil)`. -/
theorem WalkType_not_nil (c : Context) (riMap : RecordInfoMap) (name : String) (atyp : GoType)
    (assocs : List String) (r : WalkResult)
    (h : WalkType c riMap name atyp [] assocs = some r) : r.ret ≠ .ok none := by
  unfold WalkType at h
  rw [WalkTypeAux] at h
  split at h
  · cases h; simp
  · split at h
    · cases h; simp
    · split at h
      · cases h; simp
      · dsimp only at h
        split at h
        · rename_i hvisited
          simp [VisitMap.get] at hvisited
        · split at h
          · cases h
          · cases h; simp
          · cases h; simp

theorem addChain_children_ne_nil (segs : List String) (orderBy : String) (n : Node)
    (hsegs : segs ≠ []) : (Node.addChain segs orderBy n).Children ≠ [] := by
  have hset : ∀ (node child : Node) (key : String), (node.setChild key child).Children ≠ [] := by
    intro node child key
    cases node with
    | mk name field children =>
      simp only [Node.setChild, Node.Children, mapSet]
      split
      · rename_i hany
        intro hnil
        have := List.map_eq_nil_iff.mp hnil
        rw [this] at hany
        simp at hany
      · simp
  cases segs with
  | nil => exact absurd rfl hsegs
  | cons seg rest =>
    cases rest with
    | nil => exact hset _ _ _
    | cons second more => exact hset _ _ _

theorem Add_children_ne_nil (n : Node) (pf : PreloadField) : (n.Add pf).Children ≠ [] := by
  have hadd : n.Add pf = Node.addChain (segments pf.Name) pf.OrderBy n :=
    AddAux_eq_addChain _ n pf (splitOnDot_length _)
  rw [hadd]
  apply addChain_children_ne_nil
  unfold segments
  intro h
  exact splitOnDot_ne_nil _ (List.map_eq_nil_iff.mp h)

theorem foldl_Add_children_ne_nil (fields : List PreloadField) (n : Node)
    (h : fields ≠ [] ∨ n.Children ≠ []) : (fields.foldl Node.Add n).Children ≠ [] := by
  induction fields generalizing n with
  | nil =>
    rcases h with h | h
    · exact absurd rfl h
    · exact h
  | cons pf rest ih =>
    exact ih (n.Add pf) (Or.inr (Add_children_ne_nil n pf))

theorem ranged_children_ne_nil (range : List (String × Node) → List (String × Node))
    (hrange : ∀ m, (range m).Perm m) (n : Node) (h : n.Children ≠ []) :
    (n.ranged range).Children ≠ [] := by
  cases n with
  | mk name field children =>
    simp only [Node.Children] at h
    rw [Node.ranged]
    simp only [Node.Children]
    intro hnil
    have hperm := hrange (Node.rangedChildren range children)
    rw [hnil] at hperm
    have := hperm.symm.eq_nil
    cases children with
    | nil => exact h rfl
    | cons entry rest => simp [Node.rangedChildren] at this

/-- For every registry, every record argument that is a pointer or a slice
holding a record, and every non-empty field list, `Preload` returns an error:
the error of `WalkType`, or "Relation not found" for a first segment of the
request, since the type tree has no child. Nothing is fetched and no record is
touched. -/
theorem Preload_always_fails (c : Context) (env : PreloadEnv) (s : PreloadSession)
    (params : PreloadParams) (hrange : ∀ m, (env.rangeChildren m).Perm m)
    (hfields : params.Fields ≠ []) (hrecords : params.Record.records.isSome = true)
    (hlen : params.Record.Type.Kind = Kind.Slice → params.Record.Len ≠ 0) :
    ∃ err, Preload c env s params =
        some (⟨s.heap, s.log ++
          [.walkType (if params.Record.Type.Kind = Kind.Slice then params.Record.Type.Elem
            else params.Record.Type)]⟩, some err) ∧
      ((∃ inner, err = .wrap inner "waking type tree") ∨
        ∃ name, err = .relationNotFound
          (if params.Record.Type.Kind = Kind.Slice then params.Record.Type.Elem
            else params.Record.Type).String name) := by
  have hne : params.Fields.length ≠ 0 := by simpa using hfields
  have hptyp := records_type params.Record hrecords
  have hslice : ¬ (params.Record.Type.Kind = Kind.Slice ∧ params.Record.Len = 0) :=
    fun h => hlen h.1 h.2
  obtain ⟨walked, hwalked⟩ := WalkType_returns c []
    (if params.Record.Type.Kind = Kind.Slice then params.Record.Type.Elem
      else params.Record.Type).String
    (if params.Record.Type.Kind = Kind.Slice then params.Record.Type.Elem
      else params.Record.Type) [] []
  simp only [Preload, hne, if_false, hslice, hptyp, ne_eq, not_true_eq_false, hwalked]
  cases hret : walked.ret with
  | error inner => exact ⟨_, rfl, Or.inl ⟨inner, rfl⟩⟩
  | ok node =>
    cases node with
    | none =>
      exact absurd hret (WalkType_not_nil c [] _ _ [] walked hwalked)
    | some typeTree =>
      obtain ⟨hchildren, hname⟩ := WalkType_returns_no_children c [] _ _ [] [] walked typeTree
        hwalked hret
      simp only
      have hreq := ranged_children_ne_nil env.rangeChildren hrange _
        (foldl_Add_children_ne_nil params.Fields
          (NewNode (if params.Record.Type.Kind = Kind.Slice then params.Record.Type.Elem
            else params.Record.Type).String) (Or.inl hfields))
      generalize ((params.Fields.foldl Node.Add
          (NewNode (if params.Record.Type.Kind = Kind.Slice then params.Record.Type.Elem
            else params.Record.Type).String)).ranged env.rangeChildren) = valTree at hreq ⊢
      cases valTree with
      | mk nodeName field children =>
        simp only [Node.Children] at hreq
        cases children with
        | nil => exact absurd rfl hreq
        | cons entry rest =>
          obtain ⟨key, cvt⟩ := entry
          refine ⟨.relationNotFound typeTree.Name cvt.Name, ?_, Or.inr ⟨cvt.Name, ?_⟩⟩
          · simp [Preload.walk, Preload.walkChildren, hchildren]
          · rw [hname]

/-! ## `VisitMap.CopyAndMark` and the visited set of the recursive calls -/

theorem VisitMap_get_eq (vm : VisitMap) (ms : ModelStruct) :
    vm.get ms = (mapGet vm ms.ModelType).getD false := by
  unfold VisitMap.get mapGet
  cases vm.find? (fun p => decide (p.1 = ms.ModelType)) <;> rfl

theorem VisitMap_get_set (vm : VisitMap) (key : GoType) (value : Bool) (ms : ModelStruct) :
    (vm.set key value).get ms = if ms.ModelType = key then value else vm.get ms := by
  unfold VisitMap.set VisitMap.get
  by_cases h : ms.ModelType = key
  · simp [h]
  · have hkey : ¬ key = ms.ModelType := fun e => h e.symm
    rw [if_neg h, List.find?_cons_of_neg _ (by simpa using hkey)]
    have hfind : (vm.filter (fun p => !decide (p.1 = key))).find?
        (fun p => decide (p.1 = ms.ModelType)) =
        vm.find? (fun p => decide (p.1 = ms.ModelType)) := by
      induction vm with
      | nil => rfl
      | cons p rest ih =>
        by_cases hp : p.1 = key
        · have hpm : ¬ p.1 = ms.ModelType := fun e => h (e.symm.trans hp)
          have hdrop : (!decide (p.1 = key)) = false := by simp [hp]
          rw [List.filter_cons, hdrop, if_neg (by simp), ih,
            List.find?_cons_of_neg _ (by simpa using hpm)]
        · have hkeep : (!decide (p.1 = key)) = true := by simp [hp]
          rw [List.filter_cons, hkeep, if_pos rfl]
          by_cases hpm : p.1 = ms.ModelType
          · rw [List.find?_cons_of_pos _ (by simpa using hpm),
              List.find?_cons_of_pos _ (by simpa using hpm)]
          · rw [List.find?_cons_of_neg _ (by simpa using hpm),
              List.find?_cons_of_neg _ (by simpa using hpm), ih]
    rw [hfind]

/-- Lookups in the map `VisitMap.CopyAndMark` returns. -/
theorem VisitMap_get_CopyAndMark (vm : VisitMap) (ms ms' : ModelStruct) :
    (vm.CopyAndMark ms).get ms' = (decide (ms'.ModelType = ms.ModelType) || vm.get ms') := by
  have h := VisitMap_get_set vm ms.ModelType true ms'
  unfold VisitMap.set at h
  unfold VisitMap.CopyAndMark
  rw [h]
  by_cases hkey : ms'.ModelType = ms.ModelType <;> simp [hkey]

/-- The copying loop of `VisitMap.CopyAndMark` leaves the receiver as it was,
and the copy holds the entries met, over what it held. -/
theorem copyLoop_spec (entries : VisitMap) (s : CopyAndMarkVars)
    (hkeys : (entries.map Prod.fst).Nodup) :
    (entries.foldl (fun s p => { s with vv := s.vv.set p.1 p.2 }) s).vm = s.vm ∧
    ∀ ms : ModelStruct,
      (entries.foldl (fun (s : CopyAndMarkVars) p => { s with vv := s.vv.set p.1 p.2 }) s).vv.get ms =
        if ms.ModelType ∈ entries.map Prod.fst then VisitMap.get entries ms else s.vv.get ms := by
  induction entries generalizing s with
  | nil => exact ⟨rfl, fun ms => by simp⟩
  | cons p rest ih =>
    rw [List.map_cons, List.nodup_cons] at hkeys
    have hrest := ih { s with vv := s.vv.set p.1 p.2 } hkeys.2
    refine ⟨hrest.1, ?_⟩
    intro ms
    rw [List.foldl_cons, hrest.2 ms, VisitMap_get_set]
    by_cases hp : ms.ModelType = p.1
    · have hnot : ms.ModelType ∉ rest.map Prod.fst := by rw [hp]; exact hkeys.1
      rw [if_neg hnot, if_pos hp]
      simp [VisitMap.get, hp]
    · have hp' : ¬ p.1 = ms.ModelType := fun e => hp e.symm
      rw [if_neg hp]
      by_cases hmem : ms.ModelType ∈ rest.map Prod.fst
      · rw [if_pos hmem, if_pos (by rw [List.map_cons]; exact List.mem_cons_of_mem _ hmem)]
        simp [VisitMap.get, hp']
      · rw [if_neg hmem, if_neg (by
          rw [List.map_cons, List.mem_cons]
          rintro (h | h)
          · exact hp h
          · exact hmem h)]

/-- The body of `VisitMap.CopyAndMark`, whatever the order of its loop: the
receiver is left as it was, and the returned map marks the model and what the
receiver marks. -/
theorem CopyAndMarkBody_spec (range : VisitMap → VisitMap) (vm : VisitMap) (ms : ModelStruct)
    (hrange : (range vm).Perm vm) (hkeys : (vm.map Prod.fst).Nodup) :
    (VisitMap.CopyAndMarkBody range vm ms).vm = vm ∧
    ∀ ms' : ModelStruct, (VisitMap.CopyAndMarkBody range vm ms).vv.get ms' =
      (decide (ms'.ModelType = ms.ModelType) || vm.get ms') := by
  have hkeys' : ((range vm).map Prod.fst).Nodup := (hrange.map Prod.fst).nodup_iff.mpr hkeys
  have hloop := copyLoop_spec (range vm) ⟨vm, []⟩ hkeys'
  refine ⟨hloop.1, ?_⟩
  intro ms'
  unfold VisitMap.CopyAndMarkBody
  simp only
  rw [VisitMap_get_set, hloop.2 ms']
  have hget : VisitMap.get (range vm) ms' = vm.get ms' := by
    rw [VisitMap_get_eq, VisitMap_get_eq, mapGet_perm vm (range vm) hrange hkeys]
  have hmem : ms'.ModelType ∈ (range vm).map Prod.fst ↔ ms'.ModelType ∈ vm.map Prod.fst :=
    (hrange.map Prod.fst).mem_iff
  by_cases hkey : ms'.ModelType = ms.ModelType
  · simp [hkey]
  · rw [if_neg hkey, hget]
    by_cases hin : ms'.ModelType ∈ vm.map Prod.fst
    · rw [if_pos (hmem.mpr hin)]
      simp [hkey]
    · rw [if_neg (fun h => hin (hmem.mp h))]
      have hnone : mapGet vm ms'.ModelType = none := (mapGet_eq_none_iff vm _).mpr hin
      rw [VisitMap_get_eq vm ms', hnone]
      simp [hkey, VisitMap.get]

/-- The closure `visitField` calls `walk` with the visited set it closes over
and with no association list, and nowhere else: two functions `walk` that agree
on these arguments give the same visit. -/
theorem visitField_walk_congr (c : Context)
    (walk walk' : RecordInfoMap → String → GoType → VisitMap → List String → Option WalkResult)
    (ms : ModelStruct) (visited : VisitMap)
    (hagree : ∀ riMap name typ, walk' riMap name typ visited [] = walk riMap name typ visited [])
    (st : VisitState) (sf : StructField) (explicit : Bool) :
    visitField c walk' ms visited st sf explicit = visitField c walk ms visited st sf explicit := by
  unfold visitField
  simp only [hagree]

theorem visitAllFields_walk_congr (c : Context)
    (walk walk' : RecordInfoMap → String → GoType → VisitMap → List String → Option WalkResult)
    (ms : ModelStruct) (visited : VisitMap)
    (hagree : ∀ riMap name typ, walk' riMap name typ visited [] = walk riMap name typ visited [])
    (fields : List StructField) (st : VisitState) :
    visitAllFields (visitField c walk' ms visited) fields st =
      visitAllFields (visitField c walk ms visited) fields st := by
  have hvisit : visitField c walk' ms visited = visitField c walk ms visited := by
    funext st sf explicit
    exact visitField_walk_congr c walk walk' ms visited hagree st sf explicit
  rw [hvisit]

theorem visitSpecifiedFields_walk_congr (c : Context)
    (walk walk' : RecordInfoMap → String → GoType → VisitMap → List String → Option WalkResult)
    (ms : ModelStruct) (visited : VisitMap)
    (hagree : ∀ riMap name typ, walk' riMap name typ visited [] = walk riMap name typ visited [])
    (fields : List StructField) (atyp : GoType) (assocs : List String) (st : VisitState) :
    visitSpecifiedFields (visitField c walk' ms visited) fields atyp assocs st =
      visitSpecifiedFields (visitField c walk ms visited) fields atyp assocs st := by
  have hvisit : visitField c walk' ms visited = visitField c walk ms visited := by
    funext st sf explicit
    exact visitField_walk_congr c walk walk' ms visited hagree st sf explicit
  rw [hvisit]

/-- C31: the body of `VisitMap.CopyAndMark` leaves the receiver as it was and
returns a map in which a model is marked exactly when it is the marked model or
the receiver marks it, whatever the order of the copying loop; the map the
walker uses for it has the same lookups, and holds the entry of the marked
model and every entry of the receiver for another model, and nothing else. The
loops of `WalkType` over the fields call the recursive walk with that one map,
the visited set handed to `WalkType` and the model being walked, for every
field: two recursive walks that agree on this visited set (and no association
list) give the same result for the whole loop, so what the walk of a field
marks never reaches the walk of a sibling field. -/
theorem CopyAndMark_frame (range : VisitMap → VisitMap) (vm : VisitMap) (ms : ModelStruct)
    (hrange : (range vm).Perm vm) (hkeys : (vm.map Prod.fst).Nodup) :
    (VisitMap.CopyAndMarkBody range vm ms).vm = vm ∧
    (∀ ms' : ModelStruct, (VisitMap.CopyAndMarkBody range vm ms).vv.get ms' =
      (decide (ms'.ModelType = ms.ModelType) || vm.get ms')) ∧
    (∀ ms' : ModelStruct, (vm.CopyAndMark ms).get ms' =
      (VisitMap.CopyAndMarkBody range vm ms).vv.get ms') ∧
    (∀ entry, entry ∈ vm.CopyAndMark ms ↔
      entry = (ms.ModelType, true) ∨ (entry ∈ vm ∧ entry.1 ≠ ms.ModelType)) ∧
    (∀ (c : Context)
      (walk walk' : RecordInfoMap → String → GoType → VisitMap → List String → Option WalkResult),
      (∀ riMap name typ, walk' riMap name typ (vm.CopyAndMark ms) [] =
        walk riMap name typ (vm.CopyAndMark ms) []) →
      ∀ (fields : List StructField) (atyp : GoType) (assocs : List String) (st : VisitState),
        visitAllFields (visitField c walk' ms (vm.CopyAndMark ms)) fields st =
          visitAllFields (visitField c walk ms (vm.CopyAndMark ms)) fields st ∧
        visitSpecifiedFields (visitField c walk' ms (vm.CopyAndMark ms)) fields atyp assocs st =
          visitSpecifiedFields (visitField c walk ms (vm.CopyAndMark ms)) fields atyp assocs
            st) := by
  have hbody := CopyAndMarkBody_spec range vm ms hrange hkeys
  refine ⟨hbody.1, hbody.2, ?_, ?_, ?_⟩
  · intro ms'
    rw [hbody.2 ms', VisitMap_get_CopyAndMark]
  · intro entry
    unfold VisitMap.CopyAndMark
    simp only [List.mem_cons, List.mem_filter, Bool.not_eq_true', decide_eq_false_iff_not, ne_eq]
  · intro c walk walk' hagree fields atyp assocs st
    exact ⟨visitAllFields_walk_congr c walk walk' ms _ hagree fields st,
      visitSpecifiedFields_walk_congr c walk walk' ms _ hagree fields atyp assocs st⟩

/-- C31 on the visited set that marks `Human`, the model `Fate` being marked:
the receiver still marks `Human` alone, and the returned map marks `Fate` and
`Human` and not `Person`. -/
theorem CopyAndMark_frame_witness :
    (VisitMap.CopyAndMarkBody id humanVisited fateModel).vm = humanVisited ∧
    (VisitMap.CopyAndMarkBody id humanVisited fateModel).vv.get fateModel = true ∧
    (VisitMap.CopyAndMarkBody id humanVisited fateModel).vv.get humanModel = true ∧
    (VisitMap.CopyAndMarkBody id humanVisited fateModel).vv.get personModel = false ∧
    humanVisited.get fateModel = false :=
  have h := CopyAndMark_frame id humanVisited fateModel (List.Perm.refl _) (by decide)
  ⟨h.1, (h.2.1 fateModel).trans (by decide), (h.2.1 humanModel).trans (by decide),
    (h.2.1 personModel).trans (by decide), by decide⟩

/-! ## `WalkType` with an association list, on the models of `Test_HasOne` -/

/-- C32 (evaluated on the code): walking `*Country` of the registry {Country,
Specialty, Drawback} with the association list `["Specialty"]` fails with the
error "Country.Specialty is not an explicitly listed model", so there is no
`Specialty` child and no `Drawback` child under it; without a list the walk
returns the node of `*Country` with no children, and so does the walk of
`*Specialty`, although its field `Drawback` carries a relationship descriptor
whose target is registered and not on the descent path. -/
theorem WalkType_Country_listing_Specialty :
    (∃ r, WalkType countryContext [] "*hades_test.Country" (.ptr (.named "hades_test" "Country" Kind.Struct)) []
        ["Specialty"] = some r ∧
      r.ret = .error (.wrap
        (.notListedModel "Country" "Specialty" (.ptr (.named "hades_test" "Specialty" Kind.Struct)))
        "visiting field Specialty")) ∧
    (∃ r ri, WalkType countryContext [] "*hades_test.Country" (.ptr (.named "hades_test" "Country" Kind.Struct)) [] []
        = some r ∧ r.ret = .ok (some ri) ∧ ri.Children = []) ∧
    (∃ r ri, WalkType countryContext [] "Specialty" (.ptr (.named "hades_test" "Specialty" Kind.Struct))
        (VisitMap.CopyAndMark [] countryModel) [] = some r ∧
      r.ret = .ok (some ri) ∧ ri.Children = []) ∧
    (specialtyModel.StructFields.filter (fun sf => sf.Relationship.isSome)).map StructField.Name
      = ["Drawback"] :=
  ⟨⟨_, rfl, rfl⟩, ⟨_, _, rfl, rfl, rfl⟩, ⟨_, _, rfl, rfl, rfl⟩, by decide⟩
/-! ## `Node.Add`: the order of the requested fields -/

theorem view_setChild (n c : Node) (key : String) (path : List String) :
    (n.setChild key c).view path =
      match path with
      | [] => n.view []
      | s :: rest => if s = key then c.view rest else n.view (s :: rest) := by
  cases n with
  | mk name field children =>
    cases path with
    | nil => rfl
    | cons s rest =>
      simp only [Node.view, Node.descend, Node.setChild, Node.Children, mapGet_mapSet]
      by_cases hs : s = key
      · simp [hs]
      · simp [hs]

theorem view_setField (c : Node) (pf : PreloadField) (path : List String) :
    (c.setField pf).view path = if path = [] then some (c.Name, pf) else c.view path := by
  cases c with
  | mk name field children =>
    cases path with
    | nil => rfl
    | cons s rest => rfl

theorem view_getD_NewNode (n : Node) (seg : String) (path : List String) :
    ((mapGet n.Children seg).getD (NewNode seg)).view path =
      if path = [] then some ((n.view [seg]).getD (seg, ⟨"", ""⟩)) else n.view (seg :: path) := by
  cases hget : mapGet n.Children seg with
  | none =>
    cases path with
    | nil => simp [Node.view, Node.descend, hget, NewNode, Node.Name, Node.Field]
    | cons s rest =>
      have hnew : (NewNode seg).view (s :: rest) = none := rfl
      have hold : n.view (seg :: s :: rest) = none := by
        simp only [Node.view, Node.descend, hget, Option.map_none']
      simp only [Option.getD_none, hnew, hold]
      simp
  | some child =>
    cases path with
    | nil => simp [Node.view, Node.descend, hget]
    | cons s rest => simp [Node.view, Node.descend, hget]

/-- What the chain of a dotted name changes in a tree, path by path. -/
theorem view_addChain (segs : List String) (orderBy : String) (n : Node) (path : List String) :
    (Node.addChain segs orderBy n).view path = viewAdd segs orderBy (n.view path) path := by
  induction segs generalizing n path with
  | nil =>
    cases path with
    | nil => simp [Node.addChain, viewAdd]
    | cons s rest => simp [Node.addChain, viewAdd]
  | cons seg more ih =>
    cases more with
    | nil =>
      rw [Node.addChain, view_setChild]
      cases path with
      | nil => simp [viewAdd]
      | cons s rest =>
        by_cases hs : s = seg
        · subst hs
          simp only [if_true, view_setField]
          have hbase := view_getD_NewNode n s []
          cases rest with
          | nil =>
            simp only [if_true] at hbase
            have hname : ((mapGet n.Children s).getD (NewNode s)).Name =
                ((n.view [s]).getD (s, ⟨"", ""⟩)).1 := by
              have := congrArg (Option.map Prod.fst) hbase
              simpa [Node.view, Node.descend] using this
            rw [hname]
            cases hview : n.view [s] <;> simp [viewAdd]
          | cons t rest =>
            rw [if_neg (by simp), view_getD_NewNode, if_neg (by simp)]
            simp [viewAdd]
        · simp [viewAdd, hs]
    | cons second others =>
      rw [Node.addChain, view_setChild]
      · cases path with
        | nil => simp [viewAdd]
        | cons s rest =>
          by_cases hs : s = seg
          · subst hs
            simp only [if_true]
            rw [ih, view_getD_NewNode]
            cases rest with
            | nil => simp [viewAdd]
            | cons t rest =>
              rw [if_neg (by simp)]
              simp [viewAdd]
          · simp [viewAdd, hs]
      · simp

theorem viewAdd_comm (segs segs' : List String) (orderBy orderBy' : String)
    (held : Option (String × PreloadField)) (path : List String) (hne : segs ≠ segs') :
    viewAdd segs' orderBy' (viewAdd segs orderBy held path) path =
      viewAdd segs orderBy (viewAdd segs' orderBy' held path) path := by
  unfold viewAdd
  by_cases hnil : path = []
  · simp [hnil]
  · by_cases h1 : path = segs
    · have h2 : ¬ path = segs' := fun h => hne (h1.symm.trans h)
      by_cases hp : path.isPrefixOf segs' = true
      · cases held <;> simp [hnil, h1.symm, h2, hp]
      · simp [hnil, h1.symm, h2, hp]
    · by_cases h2 : path = segs'
      · by_cases hp : path.isPrefixOf segs = true
        · cases held <;> simp [hnil, h1, h2.symm, hp]
        · simp [hnil, h1, h2.symm, hp]
      · by_cases hp : path.isPrefixOf segs = true
        · by_cases hp' : path.isPrefixOf segs' = true
          · cases held <;> simp [hnil, h1, h2, hp, hp']
          · simp [hnil, h1, h2, hp, hp']
        · by_cases hp' : path.isPrefixOf segs' = true
          · simp [hnil, h1, h2, hp, hp']
          · simp [hnil, h1, h2, hp, hp']

theorem viewAdd_idem (segs : List String) (orderBy : String)
    (held : Option (String × PreloadField)) (path : List String) :
    viewAdd segs orderBy (viewAdd segs orderBy held path) path = viewAdd segs orderBy held path := by
  unfold viewAdd
  by_cases hnil : path = []
  · simp [hnil]
  · by_cases h1 : path = segs
    · cases held <;> simp [hnil, h1.symm]
    · by_cases hp : path.isPrefixOf segs = true
      · cases held <;> simp [hnil, h1, hp]
      · simp [hnil, h1, hp]

theorem Add_eq_addChain (n : Node) (pf : PreloadField) :
    n.Add pf = Node.addChain (segments pf.Name) pf.OrderBy n :=
  AddAux_eq_addChain _ n pf (splitOnDot_length _)

/-- What `Node.Add` changes in a tree, path by path. -/
theorem view_Add (n : Node) (pf : PreloadField) (path : List String) :
    (n.Add pf).view path = viewAdd (segments pf.Name) pf.OrderBy (n.view path) path := by
  rw [Add_eq_addChain, view_addChain]

theorem view_foldl_Add (fields : List PreloadField) (n : Node) (path : List String) :
    (fields.foldl Node.Add n).view path =
      fields.foldl (fun held pf => viewAdd (segments pf.Name) pf.OrderBy held path)
        (n.view path) := by
  induction fields generalizing n with
  | nil => rfl
  | cons pf rest ih => rw [List.foldl_cons, ih, view_Add, List.foldl_cons]

theorem segments_injective (name name' : String) (h : segments name = segments name') :
    name = name' := by
  rw [← intercalate_segments name, ← intercalate_segments name', h]

theorem viewAdd_right_comm (fields : List PreloadField) (path : List String)
    (hnames : ∀ pf ∈ fields, ∀ pf' ∈ fields, pf.Name = pf'.Name → pf = pf') :
    ∀ pf ∈ fields, ∀ pf' ∈ fields, ∀ held,
      viewAdd (segments pf'.Name) pf'.OrderBy
          (viewAdd (segments pf.Name) pf.OrderBy held path) path =
        viewAdd (segments pf.Name) pf.OrderBy
          (viewAdd (segments pf'.Name) pf'.OrderBy held path) path := by
  intro pf hpf pf' hpf' held
  by_cases heq : pf = pf'
  · rw [heq]
  · exact viewAdd_comm _ _ _ _ _ _
      (fun h => heq (hnames pf hpf pf' hpf' (segments_injective _ _ h)))

/-- The fields of a list in which two fields of one name are one field can be
added in any order. -/
theorem foldl_Add_perm (fields fields' : List PreloadField) (n : Node)
    (hperm : fields.Perm fields')
    (hnames : ∀ pf ∈ fields, ∀ pf' ∈ fields, pf.Name = pf'.Name → pf = pf') :
    (fields.foldl Node.Add n).sameTree (fields'.foldl Node.Add n) := by
  intro path
  rw [view_foldl_Add, view_foldl_Add]
  exact List.Perm.foldl_eq' hperm (viewAdd_right_comm fields path hnames) _

/-- Adding once more a field that is among the fields added changes nothing. -/
theorem foldl_Add_again (fields : List PreloadField) (n : Node) (pf : PreloadField)
    (hmem : pf ∈ fields)
    (hnames : ∀ pf ∈ fields, ∀ pf' ∈ fields, pf.Name = pf'.Name → pf = pf') :
    ((fields.foldl Node.Add n).Add pf).sameTree (fields.foldl Node.Add n) := by
  intro path
  rw [view_Add, view_foldl_Add]
  have hperm : fields.Perm (fields.erase pf ++ [pf]) :=
    (List.perm_cons_erase hmem).trans (List.perm_append_singleton pf (fields.erase pf)).symm
  have hfold : fields.foldl
        (fun held pf => viewAdd (segments pf.Name) pf.OrderBy held path) (n.view path) =
      (fields.erase pf ++ [pf]).foldl
        (fun held pf => viewAdd (segments pf.Name) pf.OrderBy held path) (n.view path) :=
    List.Perm.foldl_eq' hperm (viewAdd_right_comm fields path hnames) _
  rw [hfold, List.foldl_append]
  simp only [List.foldl_cons, List.foldl_nil]
  exact viewAdd_idem _ _ _ _

theorem mapSet_mapSet {κ ν : Type} [DecidableEq κ] (m : List (κ × ν)) (key : κ)
    (value value' : ν) : mapSet (mapSet m key value) key value' = mapSet m key value' := by
  have hkeys := mapSet_keys m key value
  have hany : ((mapSet m key value).any fun p => decide (p.1 = key)) = true := by
    rw [List.any_eq_true]
    have hmem : key ∈ (mapSet m key value).map Prod.fst := by
      rw [hkeys]
      split
      · assumption
      · simp
    obtain ⟨p, hp, hkey⟩ := List.mem_map.mp hmem
    exact ⟨p, hp, by simpa using hkey⟩
  rw [mapSet, if_pos hany]
  unfold mapSet
  by_cases hm : (m.any fun p => decide (p.1 = key)) = true
  · rw [if_pos hm, if_pos hm, List.map_map]
    apply List.map_congr_left
    intro p _
    by_cases hp : p.1 = key
    · simp [hp]
    · simp [hp]
  · rw [if_neg hm, if_neg hm]
    have hnone : ∀ p ∈ m, ¬ p.1 = key := by
      intro p hp hkey
      exact hm (List.any_eq_true.mpr ⟨p, hp, by simpa using hkey⟩)
    rw [List.map_append]
    congr 1
    · calc m.map (fun p => if p.1 = key then (p.1, value') else p) = m.map id := by
            apply List.map_congr_left
            intro p hp
            simp [hnone p hp]
        _ = m := List.map_id m
    · simp

theorem addChain_idem (segs : List String) (orderBy : String) (n : Node) :
    Node.addChain segs orderBy (Node.addChain segs orderBy n) = Node.addChain segs orderBy n := by
  induction segs generalizing n with
  | nil => rfl
  | cons seg more ih =>
    cases n with
    | mk name field children =>
      cases more with
      | nil =>
        simp only [Node.addChain, Node.setChild, Node.Children, mapGet_mapSet, if_true,
          Option.getD_some, mapSet_mapSet]
        cases (mapGet children seg).getD (NewNode seg) with
        | mk cname cfield cchildren => rfl
      | cons second others =>
        simp only [Node.addChain, Node.setChild, Node.Children, mapGet_mapSet, if_true,
          Option.getD_some, mapSet_mapSet, ih]

/-- Adding a field again right after it was added changes nothing, entry by entry. -/
theorem Add_Add_self (n : Node) (pf : PreloadField) : (n.Add pf).Add pf = n.Add pf := by
  rw [Add_eq_addChain (n.Add pf), Add_eq_addChain n, addChain_idem]

theorem sameTree_children (n m : Node) :
    n.sameTree m ↔
      n.Name = m.Name ∧ n.Field = m.Field ∧
      ∀ key, match mapGet n.Children key, mapGet m.Children key with
        | none, none => True
        | some child, some child' => child.sameTree child'
        | _, _ => False := by
  constructor
  · intro h
    have hroot := h []
    simp only [Node.view, Node.descend, Option.map_some', Option.some.injEq, Prod.mk.injEq]
      at hroot
    refine ⟨hroot.1, hroot.2, ?_⟩
    intro key
    cases hn : mapGet n.Children key with
    | none =>
      cases hm : mapGet m.Children key with
      | none => trivial
      | some child' =>
        have := h [key]
        simp [Node.view, Node.descend, hn, hm] at this
    | some child =>
      cases hm : mapGet m.Children key with
      | none =>
        have := h [key]
        simp [Node.view, Node.descend, hn, hm] at this
      | some child' =>
        intro path
        have := h (key :: path)
        simpa [Node.view, Node.descend, hn, hm] using this
  · rintro ⟨hname, hfield, hchildren⟩ path
    cases path with
    | nil => simp [Node.view, Node.descend, hname, hfield]
    | cons key rest =>
      have := hchildren key
      cases hn : mapGet n.Children key with
      | none =>
        cases hm : mapGet m.Children key with
        | none => simp [Node.view, Node.descend, hn, hm]
        | some child' => rw [hn, hm] at this; exact this.elim
      | some child =>
        cases hm : mapGet m.Children key with
        | none => rw [hn, hm] at this; exact this.elim
        | some child' =>
          rw [hn, hm] at this
          have := this rest
          simpa [Node.view, Node.descend, hn, hm] using this

/-- C33: the fields of a list with pairwise distinct dotted names, added to a
fresh node in the order of the list or in the order of any permutation of it,
build the same tree: a path of segments leads to a node in one exactly when it
does in the other, and the two nodes have the same name and the same field.
That is the same root name and field and, key by key, the same children in the
maps, as trees again. Adding once more a field of the list leaves the tree the
same, and adding a field right after it was added leaves every node and every
map entry as it was. -/
theorem Node_Add_order_independent (root : String) (fields fields' : List PreloadField)
    (hnames : (fields.map PreloadField.Name).Nodup) (hperm : fields.Perm fields') :
    (fields.foldl Node.Add (NewNode root)).sameTree (fields'.foldl Node.Add (NewNode root)) ∧
    (∀ pf ∈ fields, ((fields.foldl Node.Add (NewNode root)).Add pf).sameTree
      (fields.foldl Node.Add (NewNode root))) ∧
    (∀ (n : Node) (pf : PreloadField), (n.Add pf).Add pf = n.Add pf) ∧
    (∀ n m : Node, n.sameTree m ↔
      n.Name = m.Name ∧ n.Field = m.Field ∧
      ∀ key, match mapGet n.Children key, mapGet m.Children key with
        | none, none => True
        | some child, some child' => child.sameTree child'
        | _, _ => False) := by
  have hone : ∀ pf ∈ fields, ∀ pf' ∈ fields, pf.Name = pf'.Name → pf = pf' :=
    fun pf hpf pf' hpf' h => List.inj_on_of_nodup_map hnames hpf hpf' h
  exact ⟨foldl_Add_perm fields fields' (NewNode root) hperm hone,
    fun pf hpf => foldl_Add_again fields (NewNode root) pf hpf hone,
    Add_Add_self, sameTree_children⟩

/-- C33 on the fields of `Test_HasOne` and a third one: `Specialty`, then
`Specialty.Drawback`, then `Neighbours` with an ordering, and the same fields
from the last to the first. The maps list their entries in different orders,
and the trees are the same. -/
theorem Node_Add_order_independent_witness :
    [⟨"Specialty", ""⟩, ⟨"Specialty.Drawback", ""⟩, ⟨"Neighbours", "id asc"⟩].foldl Node.Add
        (NewNode "*hades_test.Country") =
      .mk "*hades_test.Country" ⟨"", ""⟩
        [("Specialty", .mk "Specialty" ⟨"Specialty", ""⟩
          [("Drawback", .mk "Drawback" ⟨"Drawback", ""⟩ [])]),
         ("Neighbours", .mk "Neighbours" ⟨"Neighbours", "id asc"⟩ [])] ∧
    [⟨"Neighbours", "id asc"⟩, ⟨"Specialty.Drawback", ""⟩, ⟨"Specialty", ""⟩].foldl Node.Add
        (NewNode "*hades_test.Country") =
      .mk "*hades_test.Country" ⟨"", ""⟩
        [("Neighbours", .mk "Neighbours" ⟨"Neighbours", "id asc"⟩ []),
         ("Specialty", .mk "Specialty" ⟨"Specialty", ""⟩
          [("Drawback", .mk "Drawback" ⟨"Drawback", ""⟩ [])])] ∧
    ([⟨"Specialty", ""⟩, ⟨"Specialty.Drawback", ""⟩, ⟨"Neighbours", "id asc"⟩].foldl Node.Add
        (NewNode "*hades_test.Country")).sameTree
      ([⟨"Neighbours", "id asc"⟩, ⟨"Specialty.Drawback", ""⟩, ⟨"Specialty", ""⟩].foldl Node.Add
        (NewNode "*hades_test.Country")) :=
  ⟨rfl, rfl,
    (Node_Add_order_independent "*hades_test.Country"
      [⟨"Specialty", ""⟩, ⟨"Specialty.Drawback", ""⟩, ⟨"Neighbours", "id asc"⟩]
      [⟨"Neighbours", "id asc"⟩, ⟨"Specialty.Drawback", ""⟩, ⟨"Specialty", ""⟩]
      (by decide) (by decide)).1⟩

end Hades
